import Mathlib

/-!
# 6d6-compat: header codec, frame decoder and MiniSEED writer

A shallow embedding of `src/6d6/6d6.c` (the 512-byte header codec),
`src/6d6mseed.c` (the frame decoder of `main`) and `src/wmseed.h` (the
per-channel record writer), with the properties of the specification proved
or refuted on the embedding.

Conventions.
* Memory behind a `uint8_t *` is a function `Nat → Nat` from the offset to the
  byte stored there; offsets at and beyond 512 exist, so that a read past the
  end of a block is visible in the model.
* C integers are `Nat`/`Int`; conversions that truncate are written with an
  explicit `%`.
* Declarations of headers that are not part of the sources at hand (`6d6.h`,
  `bcd.h`, `tai.h`, `miniseed.h`, `samplebuffer.h`, `number.h`) are either
  parameters (sizes, tables) or small definitions marked as modelled.
-/

namespace SixD6

/-! ## Bytes and memory -/

/-- Memory seen through a byte pointer: offset to byte. -/
abbrev Mem := Nat → Nat

/-- Store one byte: `x[k] = v`. -/
def poke (x : Mem) (k v : Nat) : Mem := fun i => if i = k then v else x i

/-- Store a list of bytes at `p`, `p + 1`, ... (`memcpy(x + p, l, |l|)`). -/
def pokes (x : Mem) (p : Nat) (l : List Nat) : Mem :=
  fun i => if p ≤ i ∧ i < p + l.length then l.getD (i - p) 0 else x i

/-- Fill: `memset(x + p, v, n)`. -/
def memset (x : Mem) (p v n : Nat) : Mem :=
  fun i => if p ≤ i ∧ i < p + n then v else x i

/-- The `n` bytes at `x + o` (`memcpy(dst, x + o, n)` seen from `dst`). -/
def peek (x : Mem) (o n : Nat) : List Nat := (List.range n).map fun k => x (o + k)

/-- Comparison `memcmp(x + o, s, n)`: `0` when the `n` bytes agree, `1` otherwise (the sign
of a non-zero result is not modelled, the callers only test against zero). -/
def memcmp (x : Mem) (o : Nat) (s : List Nat) (n : Nat) : Int :=
  if peek x o n = (List.range n).map (fun k => s.getD k 0) then 0 else 1

/-- Scan of `strlen`: number of non-zero bytes from `o` on, at most `fuel`. -/
def strlen_go (x : Mem) : Nat → Nat → Nat
  | _, 0 => 0
  | o, fuel + 1 => if x o = 0 then 0 else strlen_go x (o + 1) fuel + 1

/-- Model of `strlen((const char *) x + o)`. The decoder only calls it with `o < 512` on a block
whose byte 511 is zero, so a scan of 512 bytes always meets the terminator (`strlen_spec`). -/
def strlen (x : Mem) (o : Nat) : Nat := strlen_go x o 512

/-- Length of the C string held in a byte array: bytes before the first zero. -/
def cstrlen (s : List Nat) : Nat := (s.takeWhile fun b => b ≠ 0).length

/-- The C string held in a byte array: the bytes before the first zero. -/
def cstr (s : List Nat) : List Nat := s.takeWhile fun b => b ≠ 0

/-! ### Big-endian loads and stores (`number.h`) -/

/-- Modelled from the spec: the big-endian store of `number.h` (absent from the sources), the
`n` bytes of `v`, most significant first. -/
def be_bytes : Nat → Nat → List Nat
  | 0, _ => []
  | n + 1, v => (v / 256 ^ n) % 256 :: be_bytes n v

/-- Modelled from the spec: the big-endian load of `number.h`, the unsigned value of the `n`
bytes at `x + o`. -/
def ld_be (x : Mem) (o : Nat) : Nat → Nat
  | 0 => 0
  | n + 1 => x o * 256 ^ n + ld_be x (o + 1) n

/-- Load `ld_u8_be`. -/
def ld_u8_be (x : Mem) (o : Nat) : Nat := ld_be x o 1
/-- Load `ld_u16_be`. -/
def ld_u16_be (x : Mem) (o : Nat) : Nat := ld_be x o 2
/-- Load `ld_u32_be`. -/
def ld_u32_be (x : Mem) (o : Nat) : Nat := ld_be x o 4
/-- Load `ld_u64_be`. -/
def ld_u64_be (x : Mem) (o : Nat) : Nat := ld_be x o 8
/-- Load `ld_i32_be`: the 32-bit word read as two's complement. -/
def ld_i32_be (x : Mem) (o : Nat) : Int :=
  let u := ld_be x o 4
  if u < 2 ^ 31 then (u : Int) else (u : Int) - 2 ^ 32

/-- Bytes written by `st_i32_be(p, v)` for an `int64_t` argument `v`: the conversion to
`int32_t` keeps the low 32 bits. -/
def st_i32_bytes (v : Int) : List Nat := be_bytes 4 (v % 2 ^ 32).toNat

/-! ## The header (`6d6.h`) -/

/-- The enumeration `KUM_6D6_NONE`, `KUM_6D6_SYNC`, `KUM_6D6_SKEW`. -/
inductive SyncType where
  | NONE
  | SYNC
  | SKEW
  deriving DecidableEq, Repr

/-- The struct `kum_6d6_header`. Arrays are lists whose lengths are fixed by `Decls`. -/
structure kum_6d6_header where
  version : Int
  start_time : List Nat
  sync_type : SyncType
  sync_time : List Nat
  skew : Int
  address : Nat
  sample_rate : Nat
  written_samples : Nat
  lost_samples : Nat
  channel_count : Nat
  gain : List Nat
  bit_depth : Nat
  recorder_id : List Nat
  rtc_id : List Nat
  latitude : List Nat
  longitude : List Nat
  channel_names : List (List Nat)
  comment : List Nat
  deriving DecidableEq, Repr

/-- What `6d6.c` takes from `6d6.h` and `bcd.h`, which are not among the sources: the channel
bound, the sizes of the string fields of the header, and the BCD validity test. -/
structure Decls where
  KUM_6D6_MAX_CHANNEL_COUNT : Nat
  sizeof_recorder_id : Nat
  sizeof_rtc_id : Nat
  sizeof_latitude : Nat
  sizeof_longitude : Nat
  sizeof_channel_name : Nat
  sizeof_comment : Nat
  bcd_valid : List Nat → Bool

/-! ### Tags -/

/-- Marker `"6D6\002"`. -/
def tag_6D6 : List Nat := [0x36, 0x44, 0x36, 0x02]
/-- Tag `"time"`. -/
def tag_time : List Nat := [0x74, 0x69, 0x6d, 0x65]
/-- Tag `"sync"`. -/
def tag_sync : List Nat := [0x73, 0x79, 0x6e, 0x63]
/-- Tag `"skew"`. -/
def tag_skew : List Nat := [0x73, 0x6b, 0x65, 0x77]
/-- Tag `"addr"`. -/
def tag_addr : List Nat := [0x61, 0x64, 0x64, 0x72]
/-- Tag `"rate"`. -/
def tag_rate : List Nat := [0x72, 0x61, 0x74, 0x65]
/-- Tag `"writ"`. -/
def tag_writ : List Nat := [0x77, 0x72, 0x69, 0x74]
/-- Tag `"lost"`. -/
def tag_lost : List Nat := [0x6c, 0x6f, 0x73, 0x74]
/-- Tag `"chan"`. -/
def tag_chan : List Nat := [0x63, 0x68, 0x61, 0x6e]
/-- Tag `"gain"`. -/
def tag_gain : List Nat := [0x67, 0x61, 0x69, 0x6e]
/-- Tag `"bitd"`. -/
def tag_bitd : List Nat := [0x62, 0x69, 0x74, 0x64]
/-- Tag `"rcid"`. -/
def tag_rcid : List Nat := [0x72, 0x63, 0x69, 0x64]
/-- Tag `"rtci"`. -/
def tag_rtci : List Nat := [0x72, 0x74, 0x63, 0x69]
/-- Tag `"lati"`. -/
def tag_lati : List Nat := [0x6c, 0x61, 0x74, 0x69]
/-- Tag `"logi"`. -/
def tag_logi : List Nat := [0x6c, 0x6f, 0x67, 0x69]
/-- Tag `"alia"`. -/
def tag_alia : List Nat := [0x61, 0x6c, 0x69, 0x61]
/-- Tag `"cmnt"`. -/
def tag_cmnt : List Nat := [0x63, 0x6d, 0x6e, 0x74]

/-! ## `kum_6d6_header_read` (6d6.c, lines 15-142) -/

/-- Decoder state between two statements: the header as assigned so far and the offset `o`. -/
abbrev RdState := kum_6d6_header × Nat

/-- Result of a decoding step: `error h` is `return -1` with the header left as `h`. -/
abbrev Rd := Except kum_6d6_header RdState

/-- The macro `ADV_O(a)`: `o += (a); if (o >= 512) return -1`. -/
def ADV_O (a : Nat) (s : RdState) : Rd :=
  if s.2 + a ≥ 512 then .error s.1 else .ok (s.1, s.2 + a)

/-- Loop of `SKIP0()`: `while (!X[o]) { ADV_O(1); }`. Each turn advances `o` and leaves with
`-1` at 512, so 512 turns are never used up; the fuel only makes the recursion structural. -/
def SKIP0_go (x : Mem) (h : kum_6d6_header) : Nat → Nat → Rd
  | _, 0 => .error h
  | o, fuel + 1 =>
    if x o ≠ 0 then .ok (h, o)
    else if o + 1 ≥ 512 then .error h
    else SKIP0_go x h (o + 1) fuel

/-- The macro `SKIP0()`. -/
def SKIP0 (x : Mem) (s : RdState) : Rd := SKIP0_go x s.1 s.2 512

/-- Statement pair `if (memcmp(X + o, tag, 4)) return -1; ADV_O(4);`. -/
def rd_tag (x : Mem) (tag : List Nat) (s : RdState) : Rd :=
  if memcmp x s.2 tag 4 ≠ 0 then .error s.1 else ADV_O 4 s

/-- The five statements that decode one string field of size `size`:
`n = strlen(SX + o); if (n >= sizeof(f)) return -1; if (n) memcpy(f, X + o, n);`
`memset(f + n, 0, sizeof(f) - n);` and, where `adv` is set, `ADV_O(n + 1)`. The field is
handed to `put`, which assigns it in the header. -/
def rd_string (x : Mem) (size : Nat) (put : kum_6d6_header → List Nat → kum_6d6_header)
    (adv : Bool) (s : RdState) : Rd :=
  let n := strlen x s.2
  if n ≥ size then .error s.1
  else
    let h := put s.1 (peek x s.2 n ++ List.replicate (size - n) 0)
    if adv then ADV_O (n + 1) (h, s.2) else .ok (h, s.2)

/-- Lines 21-27, the version marker. -/
def rd_version (x : Mem) (s : RdState) : Rd :=
  if memcmp x s.2 tag_6D6 4 = 0 then ADV_O 4 ({ s.1 with version := 2 }, s.2)
  else .ok ({ s.1 with version := 1 }, s.2)

/-- Lines 28-32, the start time. -/
def rd_time (x : Mem) (s : RdState) : Rd := do
  let s ← rd_tag x tag_time s
  ADV_O 6 ({ s.1 with start_time := peek x s.2 6 }, s.2)

/-- Lines 33-47, the 14-byte sync/skew slot. -/
def rd_sync (d : Decls) (x : Mem) (s : RdState) : Rd :=
  let o := s.2
  let h :=
    if memcmp x o tag_sync 4 = 0 ∧ d.bcd_valid (peek x (o + 4) 6) = true then
      { s.1 with sync_type := .SYNC, sync_time := peek x (o + 4) 6, skew := ld_i32_be x (o + 10) }
    else if memcmp x o tag_skew 4 = 0 ∧ d.bcd_valid (peek x (o + 4) 6) = true then
      { s.1 with sync_type := .SKEW, sync_time := peek x (o + 4) 6, skew := ld_i32_be x (o + 10) }
    else
      { s.1 with sync_type := .NONE, sync_time := List.replicate 6 0, skew := 0 }
  ADV_O 14 (h, o)

/-- Lines 48-52, the address. -/
def rd_addr (x : Mem) (s : RdState) : Rd := do
  let s ← rd_tag x tag_addr s
  ADV_O 4 ({ s.1 with address := ld_u32_be x s.2 }, s.2)

/-- Lines 53-57, the sample rate. -/
def rd_rate (x : Mem) (s : RdState) : Rd := do
  let s ← rd_tag x tag_rate s
  ADV_O 2 ({ s.1 with sample_rate := ld_u16_be x s.2 }, s.2)

/-- Lines 58-62, the written samples. -/
def rd_writ (x : Mem) (s : RdState) : Rd := do
  let s ← rd_tag x tag_writ s
  ADV_O 8 ({ s.1 with written_samples := ld_u64_be x s.2 }, s.2)

/-- Lines 63-67, the lost samples. -/
def rd_lost (x : Mem) (s : RdState) : Rd := do
  let s ← rd_tag x tag_lost s
  ADV_O 4 ({ s.1 with lost_samples := ld_u32_be x s.2 }, s.2)

/-- Lines 68-73, the channel count. -/
def rd_chan (d : Decls) (x : Mem) (s : RdState) : Rd := do
  let s ← rd_tag x tag_chan s
  let nc := ld_u8_be x s.2
  let h := { s.1 with channel_count := nc }
  if nc < 1 ∨ nc > d.KUM_6D6_MAX_CHANNEL_COUNT then .error h
  else ADV_O 1 (h, s.2)

/-- Lines 74-81, the gains: `nc` bytes copied, the rest of the array zeroed. -/
def rd_gain (d : Decls) (x : Mem) (s : RdState) : Rd := do
  let s ← rd_tag x tag_gain s
  let nc := s.1.channel_count
  let g := peek x s.2 nc ++ List.replicate (d.KUM_6D6_MAX_CHANNEL_COUNT - nc) 0
  ADV_O nc ({ s.1 with gain := g }, s.2)

/-- Lines 82-86, the bit depth. -/
def rd_bitd (x : Mem) (s : RdState) : Rd := do
  let s ← rd_tag x tag_bitd s
  ADV_O 1 ({ s.1 with bit_depth := ld_u8_be x s.2 }, s.2)

/-- Lines 87-95, the recorder id. -/
def rd_rcid (d : Decls) (x : Mem) (s : RdState) : Rd := do
  let s ← rd_tag x tag_rcid s
  let s ← rd_string x d.sizeof_recorder_id (fun h f => { h with recorder_id := f }) true s
  SKIP0 x s

/-- Lines 96-104, the RTC id. -/
def rd_rtci (d : Decls) (x : Mem) (s : RdState) : Rd := do
  let s ← rd_tag x tag_rtci s
  let s ← rd_string x d.sizeof_rtc_id (fun h f => { h with rtc_id := f }) true s
  SKIP0 x s

/-- Lines 105-113, the latitude. -/
def rd_lati (d : Decls) (x : Mem) (s : RdState) : Rd := do
  let s ← rd_tag x tag_lati s
  let s ← rd_string x d.sizeof_latitude (fun h f => { h with latitude := f }) true s
  SKIP0 x s

/-- Lines 114-122, the longitude. -/
def rd_logi (d : Decls) (x : Mem) (s : RdState) : Rd := do
  let s ← rd_tag x tag_logi s
  let s ← rd_string x d.sizeof_longitude (fun h f => { h with longitude := f }) true s
  SKIP0 x s

/-- Lines 126-132, the loop over the channel names, from index `i` for `k` more turns. -/
def rd_names (d : Decls) (x : Mem) : Nat → Nat → RdState → Rd
  | _, 0, s => .ok s
  | i, k + 1, s => do
    let s ← rd_string x d.sizeof_channel_name
      (fun h f => { h with channel_names := h.channel_names.set i f }) true s
    rd_names d x (i + 1) k s

/-- Lines 123-133, the channel names. -/
def rd_alia (d : Decls) (x : Mem) (s : RdState) : Rd := do
  let s ← rd_tag x tag_alia s
  let s ← rd_names d x 0 s.1.channel_count s
  SKIP0 x s

/-- Lines 134-140, the comment. -/
def rd_cmnt (d : Decls) (x : Mem) (s : RdState) : Rd := do
  let s ← rd_tag x tag_cmnt s
  rd_string x d.sizeof_comment (fun h f => { h with comment := f }) false s

/-- The statements of `kum_6d6_header_read` after the test of byte 511, in source order. -/
def rd_all (d : Decls) (x : Mem) (s : RdState) : Rd := do
  let s ← rd_version x s
  let s ← rd_time x s
  let s ← rd_sync d x s
  let s ← rd_addr x s
  let s ← rd_rate x s
  let s ← rd_writ x s
  let s ← rd_lost x s
  let s ← rd_chan d x s
  let s ← rd_gain d x s
  let s ← rd_bitd x s
  let s ← rd_rcid d x s
  let s ← rd_rtci d x s
  let s ← rd_lati d x s
  let s ← rd_logi d x s
  let s ← rd_alia d x s
  rd_cmnt d x s

/-- The function `kum_6d6_header_read(header, x)` for non-null arguments: the return value and
the header as the call leaves it (on `-1`, assigned up to the failing statement). -/
def kum_6d6_header_read (d : Decls) (header : kum_6d6_header) (x : Mem) :
    Int × kum_6d6_header :=
  if x 511 ≠ 0 then (-1, header)
  else
    match rd_all d x (header, 0) with
    | .ok s => (0, s.1)
    | .error h => (-1, h)

/-! ## `kum_6d6_header_write` (6d6.c, lines 144-233) -/

/-- Loop of `copy_string(x + p, s, n)`, at index `i` with `fuel = n - i` turns left; leaving
the loop unfinished stores the terminator at `n - 1` and yields `n - 1`. -/
def copy_string_go (p : Nat) (s : Nat → Nat) (n : Nat) : Nat → Nat → Mem → Mem × Nat
  | _, 0, x => (poke x (p + (n - 1)) 0, n - 1)
  | i, fuel + 1, x =>
    let x := poke x (p + i) (s i)
    if s i = 0 then (x, i) else copy_string_go p s n (i + 1) fuel x

/-- The source of a string copy, `s[i]`: the byte array, read as zero beyond its end (the
encoder is only used on arrays that hold their terminator). -/
def src (s : List Nat) : Nat → Nat := fun i => s.getD i 0

/-- The function `copy_string(x + p, s, n)`: the memory after the call and the value
returned. -/
def copy_string (x : Mem) (p : Nat) (s : List Nat) (n : Nat) : Mem × Nat :=
  if n = 0 then (x, 0) else copy_string_go p (src s) n 0 n x

/-- Loop of `copy_string_0(x + p, s, n)`; it differs from `copy_string_go` in the values
returned: `i + 1` at the terminator and `n` when the loop is left unfinished. -/
def copy_string_0_go (p : Nat) (s : Nat → Nat) (n : Nat) : Nat → Nat → Mem → Mem × Nat
  | _, 0, x => (poke x (p + (n - 1)) 0, n)
  | i, fuel + 1, x =>
    let x := poke x (p + i) (s i)
    if s i = 0 then (x, i + 1) else copy_string_0_go p s n (i + 1) fuel x

/-- The function `copy_string_0(x + p, s, n)`. -/
def copy_string_0 (x : Mem) (p : Nat) (s : List Nat) (n : Nat) : Mem × Nat :=
  if n = 0 then (x, 0) else copy_string_0_go p (src s) n 0 n x

/-- The function `copy_bytes(x + p, b, blen, n)`; `n - 1` is computed in `size_t`. -/
def copy_bytes (x : Mem) (p : Nat) (b : List Nat) (blen n : Nat) : Mem × Nat :=
  let m := (n + 2 ^ 64 - 1) % 2 ^ 64
  let blen := if blen > m then m else blen
  (pokes x p ((List.range blen).map fun i => b.getD i 0), blen)

/-- Encoder state between two statements: the buffer and `pos`. -/
abbrev WrState := Mem × Nat

/-- Statement `pos += copy_string(buffer + pos, tag, 512 - pos)`. C computes `512 - pos` in
`size_t`; `pos` never exceeds 512 (`wr_fields_pos_le`), so the difference does not wrap. -/
def wr_tag (tag : List Nat) (w : WrState) : WrState :=
  let r := copy_string w.1 w.2 tag (512 - w.2)
  (r.1, w.2 + r.2)

/-- Statement `pos += copy_string_0(buffer + pos, s, 512 - pos)`. -/
def wr_string (s : List Nat) (w : WrState) : WrState :=
  let r := copy_string_0 w.1 w.2 s (512 - w.2)
  (r.1, w.2 + r.2)

/-- Statement `pos += copy_bytes(buffer + pos, b, blen, 512 - pos)`. -/
def wr_bytes (b : List Nat) (blen : Nat) (w : WrState) : WrState :=
  let r := copy_bytes w.1 w.2 b blen (512 - w.2)
  (r.1, w.2 + r.2)

/-- A store of fixed width followed by `pos += width`, as in
`st_u32_be(buffer + pos, v); pos += 4;`. -/
def wr_store (l : List Nat) (w : WrState) : WrState := (pokes w.1 w.2 l, w.2 + l.length)

/-- Lines 187-198, the 14-byte sync/skew slot. -/
def wr_sync (header : kum_6d6_header) (w : WrState) : WrState :=
  let pos := w.2
  match header.sync_type with
  | .SYNC =>
    (pokes (pokes (pokes w.1 pos tag_sync) (pos + 4) ((List.range 6).map fun i =>
      header.sync_time.getD i 0)) (pos + 10) (st_i32_bytes header.skew), pos + 14)
  | .SKEW =>
    (pokes (pokes (pokes w.1 pos tag_skew) (pos + 4) ((List.range 6).map fun i =>
      header.sync_time.getD i 0)) (pos + 10) (st_i32_bytes header.skew), pos + 14)
  | .NONE => (memset w.1 pos 0 14, pos + 14)

/-- Lines 222-224, the loop over the channel names, from index `i` for `k` more turns. -/
def wr_names (header : kum_6d6_header) : Nat → Nat → WrState → WrState
  | _, 0, w => w
  | i, k + 1, w => wr_names header (i + 1) k (wr_string (header.channel_names.getD i []) w)

/-- Lines 185-225: everything `kum_6d6_header_write` stores before the comment. -/
def wr_fields (header : kum_6d6_header) (w : WrState) : WrState :=
  let w := wr_tag tag_time w
  let w := wr_bytes header.start_time 6 w
  let w := wr_sync header w
  let w := wr_tag tag_addr w
  let w := wr_store (be_bytes 4 header.address) w
  let w := wr_tag tag_rate w
  let w := wr_store (be_bytes 2 header.sample_rate) w
  let w := wr_tag tag_writ w
  let w := wr_store (be_bytes 8 header.written_samples) w
  let w := wr_tag tag_lost w
  let w := wr_store (be_bytes 4 header.lost_samples) w
  let w := wr_tag tag_chan w
  let w := wr_store (be_bytes 1 header.channel_count) w
  let w := wr_tag tag_gain w
  let w := wr_bytes header.gain header.channel_count w
  let w := wr_tag tag_bitd w
  let w := wr_store (be_bytes 1 header.bit_depth) w
  let w := wr_tag tag_rcid w
  let w := wr_string header.recorder_id w
  let w := wr_tag tag_rtci w
  let w := wr_string header.rtc_id w
  let w := wr_tag tag_lati w
  let w := wr_string header.latitude w
  let w := wr_tag tag_logi w
  let w := wr_string header.longitude w
  let w := wr_tag tag_alia w
  let w := wr_names header 0 header.channel_count w
  wr_tag tag_cmnt w

/-- Lines 226-232: the comment, the test against truncation, and the zero fill. -/
def wr_comment (header : kum_6d6_header) (w : WrState) : Int × Mem :=
  let r := copy_string_0 w.1 w.2 header.comment (512 - w.2)
  if r.2 < cstrlen header.comment + 1 then (-1, r.1)
  else
    let pos := w.2 + r.2
    (0, if pos < 512 then memset r.1 pos 0 (512 - pos) else r.1)

/-- The function `kum_6d6_header_write(header, x)` for non-null arguments: the return value and
the buffer as the call leaves it. -/
def kum_6d6_header_write (header : kum_6d6_header) (x : Mem) : Int × Mem :=
  wr_comment header (wr_fields header (x, 0))

/-! ### Headers within their declared bounds -/

/-- A byte array of `size` bytes holding a zero-terminated string. -/
def IsCString (size : Nat) (s : List Nat) : Prop :=
  s.length = size ∧ (∀ b ∈ s, b < 256) ∧ cstrlen s < size

instance (size : Nat) (s : List Nat) : Decidable (IsCString size s) := by
  unfold IsCString; infer_instance

/-- The header is within the bounds its declaration gives it: every field has the range of
its C type, `version` is 1 or 2, `channel_count` lies between 1 and the maximum, gains and
channel names beyond `channel_count` are zero, and every string is zero-terminated inside its
field. -/
def InBounds (d : Decls) (h : kum_6d6_header) : Prop :=
  (h.version = 1 ∨ h.version = 2) ∧
  (h.start_time.length = 6 ∧ ∀ b ∈ h.start_time, b < 256) ∧
  (h.sync_time.length = 6 ∧ ∀ b ∈ h.sync_time, b < 256) ∧
  (-(2 : Int) ^ 63 ≤ h.skew ∧ h.skew < 2 ^ 63) ∧
  h.address < 2 ^ 32 ∧ h.sample_rate < 2 ^ 16 ∧ h.written_samples < 2 ^ 64 ∧
  h.lost_samples < 2 ^ 32 ∧
  (1 ≤ h.channel_count ∧ h.channel_count ≤ d.KUM_6D6_MAX_CHANNEL_COUNT ∧
    h.channel_count < 256) ∧
  (h.gain.length = d.KUM_6D6_MAX_CHANNEL_COUNT ∧ (∀ b ∈ h.gain, b < 256) ∧
    ∀ b ∈ h.gain.drop h.channel_count, b = 0) ∧
  h.bit_depth < 256 ∧
  IsCString d.sizeof_recorder_id h.recorder_id ∧
  IsCString d.sizeof_rtc_id h.rtc_id ∧
  IsCString d.sizeof_latitude h.latitude ∧
  IsCString d.sizeof_longitude h.longitude ∧
  (h.channel_names.length = d.KUM_6D6_MAX_CHANNEL_COUNT ∧
    (∀ s ∈ h.channel_names, IsCString d.sizeof_channel_name s) ∧
    ∀ s ∈ h.channel_names.drop h.channel_count, ∀ b ∈ s, b = 0) ∧
  IsCString d.sizeof_comment h.comment

instance (d : Decls) (h : kum_6d6_header) : Decidable (InBounds d h) := by
  unfold InBounds; infer_instance

/-! ### The wire grammar, stated on the block

The positions below are those of the format, written without reference to the decoder: the
decoder is proved to succeed exactly on the blocks of `Grammar`, with the header `decoded`. -/

/-- A four-byte tag stands at offset `o`. -/
def TagAt (x : Mem) (o : Nat) (t : List Nat) : Prop :=
  x o = t.getD 0 0 ∧ x (o + 1) = t.getD 1 0 ∧ x (o + 2) = t.getD 2 0 ∧ x (o + 3) = t.getD 3 0

instance (x : Mem) (o : Nat) (t : List Nat) : Decidable (TagAt x o t) := by
  unfold TagAt; infer_instance

/-- Number of zero bytes from `o` on, at most `fuel`. -/
def zrun_go (x : Mem) : Nat → Nat → Nat
  | _, 0 => 0
  | o, fuel + 1 => if x o ≠ 0 then 0 else zrun_go x (o + 1) fuel + 1

/-- Offset of the first non-zero byte at or after `p` (looking at most 512 bytes ahead). -/
def first_nonzero (x : Mem) (p : Nat) : Nat := p + zrun_go x p 512

/-- Offset of the first field: 4 when the block starts with the version-2 marker, else 0. -/
def off_v (x : Mem) : Nat := if TagAt x 0 tag_6D6 then 4 else 0

/-- The channel-count byte, which follows the `chan` tag. -/
def cnt (x : Mem) : Nat := x (off_v x + 62)

/-- Where the tag after a string field stands, when the tag of that field stands at `o`: the
first non-zero byte after the terminator of the string that starts at `o + 4`. -/
def next_tag (x : Mem) (o : Nat) : Nat := first_nonzero x (o + 4 + strlen x (o + 4) + 1)

/-- Start of the `i`-th of the strings that follow each other from `base` on. -/
def name_at (x : Mem) (base : Nat) : Nat → Nat
  | 0 => base
  | i + 1 => name_at x base i + strlen x (name_at x base i) + 1

/-- Offset of the `rcid` tag. -/
def at_rcid (x : Mem) : Nat := off_v x + 72 + cnt x
/-- Offset of the `rtci` tag. -/
def at_rtci (x : Mem) : Nat := next_tag x (at_rcid x)
/-- Offset of the `lati` tag. -/
def at_lati (x : Mem) : Nat := next_tag x (at_rtci x)
/-- Offset of the `logi` tag. -/
def at_logi (x : Mem) : Nat := next_tag x (at_lati x)
/-- Offset of the `alia` tag. -/
def at_alia (x : Mem) : Nat := next_tag x (at_logi x)
/-- Offset of the `cmnt` tag: the first non-zero byte after the last channel name. -/
def at_cmnt (x : Mem) : Nat := first_nonzero x (name_at x (at_alia x + 4) (cnt x))

/-- A string field of `size` bytes as decoded from offset `o`: the bytes before the terminator,
then zeros. -/
def str_field (x : Mem) (o size : Nat) : List Nat :=
  peek x o (strlen x o) ++ List.replicate (size - strlen x o) 0

/-- The blocks the format admits. -/
def Grammar (d : Decls) (x : Mem) : Prop :=
  x 511 = 0 ∧
  TagAt x (off_v x) tag_time ∧
  TagAt x (off_v x + 24) tag_addr ∧
  TagAt x (off_v x + 32) tag_rate ∧
  TagAt x (off_v x + 38) tag_writ ∧
  TagAt x (off_v x + 50) tag_lost ∧
  TagAt x (off_v x + 58) tag_chan ∧
  (1 ≤ cnt x ∧ cnt x ≤ d.KUM_6D6_MAX_CHANNEL_COUNT) ∧
  TagAt x (off_v x + 63) tag_gain ∧
  TagAt x (off_v x + 67 + cnt x) tag_bitd ∧
  (TagAt x (at_rcid x) tag_rcid ∧ strlen x (at_rcid x + 4) < d.sizeof_recorder_id) ∧
  (TagAt x (at_rtci x) tag_rtci ∧ strlen x (at_rtci x + 4) < d.sizeof_rtc_id) ∧
  (TagAt x (at_lati x) tag_lati ∧ strlen x (at_lati x + 4) < d.sizeof_latitude) ∧
  (TagAt x (at_logi x) tag_logi ∧ strlen x (at_logi x + 4) < d.sizeof_longitude) ∧
  (TagAt x (at_alia x) tag_alia ∧
    ∀ i < cnt x, strlen x (name_at x (at_alia x + 4) i) < d.sizeof_channel_name) ∧
  (TagAt x (at_cmnt x) tag_cmnt ∧ strlen x (at_cmnt x + 4) < d.sizeof_comment) ∧
  at_cmnt x + 4 < 512

/-- Channel names after the loop of lines 126-132 has run `k` turns from index `i`, the
strings standing one after the other from `base` on. -/
def names_set (d : Decls) (x : Mem) (base : Nat) : Nat → Nat → List (List Nat) → List (List Nat)
  | _, 0, l => l
  | i, k + 1, l =>
    names_set d x (base + strlen x base + 1) (i + 1) k
      (l.set i (str_field x base d.sizeof_channel_name))

/-- The header a block of the grammar stands for. Channel names from `channel_count` on are
not part of the block: they are those of the header the decoder was given. -/
def decoded (d : Decls) (h0 : kum_6d6_header) (x : Mem) : kum_6d6_header :=
  let v := off_v x
  let sy := TagAt x (v + 10) tag_sync ∧ d.bcd_valid (peek x (v + 14) 6) = true
  let sk := TagAt x (v + 10) tag_skew ∧ d.bcd_valid (peek x (v + 14) 6) = true
  { version := if TagAt x 0 tag_6D6 then 2 else 1
    start_time := peek x (v + 4) 6
    sync_type := if sy then .SYNC else if sk then .SKEW else .NONE
    sync_time := if sy ∨ sk then peek x (v + 14) 6 else List.replicate 6 0
    skew := if sy ∨ sk then ld_i32_be x (v + 20) else 0
    address := ld_u32_be x (v + 28)
    sample_rate := ld_u16_be x (v + 36)
    written_samples := ld_u64_be x (v + 42)
    lost_samples := ld_u32_be x (v + 54)
    channel_count := cnt x
    gain := peek x (v + 67) (cnt x) ++
      List.replicate (d.KUM_6D6_MAX_CHANNEL_COUNT - cnt x) 0
    bit_depth := ld_u8_be x (v + 71 + cnt x)
    recorder_id := str_field x (at_rcid x + 4) d.sizeof_recorder_id
    rtc_id := str_field x (at_rtci x + 4) d.sizeof_rtc_id
    latitude := str_field x (at_lati x + 4) d.sizeof_latitude
    longitude := str_field x (at_logi x + 4) d.sizeof_longitude
    channel_names := names_set d x (at_alia x + 4) 0 (cnt x) h0.channel_names
    comment := str_field x (at_cmnt x + 4) d.sizeof_comment }

/-! ### The encoding of a header, stated on the header -/

/-- The bytes of `l` stand in `x` from offset `o` on. -/
def Holds (x : Mem) (o : Nat) (l : List Nat) : Prop := ∀ k < l.length, x (o + k) = l.getD k 0

/-- The 14 bytes of the sync/skew slot. -/
def sync_slot (h : kum_6d6_header) : List Nat :=
  match h.sync_type with
  | .SYNC => tag_sync ++ h.sync_time ++ st_i32_bytes h.skew
  | .SKEW => tag_skew ++ h.sync_time ++ st_i32_bytes h.skew
  | .NONE => List.replicate 14 0

/-- Zero-terminated strings one after the other. -/
def names_bytes : List (List Nat) → List Nat
  | [] => []
  | s :: r => cstr s ++ [0] ++ names_bytes r

/-- The bytes that precede the comment: every field with its tag, and the `cmnt` tag. -/
def enc_head (h : kum_6d6_header) : List Nat :=
  tag_time ++ h.start_time ++ sync_slot h ++
  tag_addr ++ be_bytes 4 h.address ++
  tag_rate ++ be_bytes 2 h.sample_rate ++
  tag_writ ++ be_bytes 8 h.written_samples ++
  tag_lost ++ be_bytes 4 h.lost_samples ++
  tag_chan ++ [h.channel_count] ++
  tag_gain ++ h.gain.take h.channel_count ++
  tag_bitd ++ [h.bit_depth] ++
  tag_rcid ++ (cstr h.recorder_id ++ [0]) ++
  tag_rtci ++ (cstr h.rtc_id ++ [0]) ++
  tag_lati ++ (cstr h.latitude ++ [0]) ++
  tag_logi ++ (cstr h.longitude ++ [0]) ++
  tag_alia ++ names_bytes (h.channel_names.take h.channel_count) ++
  tag_cmnt

/-- The encoding of a header: the fields, then the comment with its terminator. -/
def encoding (h : kum_6d6_header) : List Nat := enc_head h ++ (cstr h.comment ++ [0])

/-- The step from `w` to `w'` appends `l` at the cursor: the cursor advances by the length of
`l`, the bytes of `l` stand where the cursor was, and nothing before the cursor or outside the
block changes. -/
def Wr (l : List Nat) (w w' : WrState) : Prop :=
  w'.2 = w.2 + l.length ∧ Holds w'.1 w.2 l ∧ (∀ i, i < w.2 → w'.1 i = w.1 i) ∧
    ∀ i, 512 ≤ i → w'.1 i = w.1 i

/-- A tag: four non-zero bytes. -/
def IsTag (t : List Nat) : Prop := t.length = 4 ∧ cstrlen t = 4

instance (t : List Nat) : Decidable (IsTag t) := by unfold IsTag; infer_instance

/-- The typing of the arrays and bytes the encoder reads before the comment. -/
def WrTyped (h : kum_6d6_header) : Prop :=
  h.start_time.length = 6 ∧ h.sync_time.length = 6 ∧ h.channel_count ≤ h.gain.length ∧
  h.channel_count ≤ h.channel_names.length ∧ h.channel_count < 256 ∧ h.bit_depth < 256

/-- Zero-filled field of `size` bytes holding the C string of `s`. -/
def zpad (size : Nat) (s : List Nat) : List Nat :=
  cstr s ++ List.replicate (size - cstrlen s) 0

/-- An `int64_t` after its passage through `st_i32_be` and `ld_i32_be`: the low 32 bits, read
as two's complement. -/
def wrap32 (v : Int) : Int :=
  if (v % 2 ^ 32).toNat < 2 ^ 31 then ((v % 2 ^ 32).toNat : Int)
  else ((v % 2 ^ 32).toNat : Int) - 2 ^ 32

/-- The header the decoder makes of the encoding of `h`, when it is handed the header `h0` to
fill in. -/
def reread (d : Decls) (h0 h : kum_6d6_header) : kum_6d6_header :=
  let v := (h.sync_type = .SYNC ∨ h.sync_type = .SKEW) ∧ d.bcd_valid h.sync_time = true
  { version := 1
    start_time := h.start_time
    sync_type := if v then h.sync_type else .NONE
    sync_time := if v then h.sync_time else List.replicate 6 0
    skew := if v then wrap32 h.skew else 0
    address := h.address % 256 ^ 4
    sample_rate := h.sample_rate % 256 ^ 2
    written_samples := h.written_samples % 256 ^ 8
    lost_samples := h.lost_samples % 256 ^ 4
    channel_count := h.channel_count
    gain := h.gain.take h.channel_count ++
      List.replicate (d.KUM_6D6_MAX_CHANNEL_COUNT - h.channel_count) 0
    bit_depth := h.bit_depth
    recorder_id := zpad d.sizeof_recorder_id h.recorder_id
    rtc_id := zpad d.sizeof_rtc_id h.rtc_id
    latitude := zpad d.sizeof_latitude h.latitude
    longitude := zpad d.sizeof_longitude h.longitude
    channel_names := (h.channel_names.take h.channel_count).map (zpad d.sizeof_channel_name) ++
      h0.channel_names.drop h.channel_count
    comment := zpad d.sizeof_comment h.comment }

/-- Offset of the `rtci` tag in the encoding of `h`. -/
def pos_rtci (h : kum_6d6_header) : Nat := 72 + h.channel_count + 4 + (cstrlen h.recorder_id + 1)
/-- Offset of the `lati` tag in the encoding of `h`. -/
def pos_lati (h : kum_6d6_header) : Nat := pos_rtci h + 4 + (cstrlen h.rtc_id + 1)
/-- Offset of the `logi` tag in the encoding of `h`. -/
def pos_logi (h : kum_6d6_header) : Nat := pos_lati h + 4 + (cstrlen h.latitude + 1)
/-- Offset of the `alia` tag in the encoding of `h`. -/
def pos_alia (h : kum_6d6_header) : Nat := pos_logi h + 4 + (cstrlen h.longitude + 1)
/-- Offset of the `cmnt` tag in the encoding of `h`. -/
def pos_cmnt (h : kum_6d6_header) : Nat :=
  pos_alia h + 4 + (names_bytes (h.channel_names.take h.channel_count)).length

/-- The sync fields of a header say what the 14-byte slot can carry: without a sync type, a
zero sync time and a zero skew; with one, a sync time that passes `bcd_valid` and a skew of 32
bits. -/
def SyncCanonical (d : Decls) (h : kum_6d6_header) : Prop :=
  (h.sync_type = .NONE → h.sync_time = List.replicate 6 0 ∧ h.skew = 0) ∧
  (h.sync_type ≠ .NONE →
    d.bcd_valid h.sync_time = true ∧ -(2 : Int) ^ 31 ≤ h.skew ∧ h.skew < 2 ^ 31)

instance (d : Decls) (h : kum_6d6_header) : Decidable (SyncCanonical d h) := by
  unfold SyncCanonical; infer_instance

/-- Every string field is zero from its terminator to the end of the field. -/
def ZeroPadded (h : kum_6d6_header) : Prop :=
  h.recorder_id = zpad h.recorder_id.length h.recorder_id ∧
  h.rtc_id = zpad h.rtc_id.length h.rtc_id ∧
  h.latitude = zpad h.latitude.length h.latitude ∧
  h.longitude = zpad h.longitude.length h.longitude ∧
  (∀ s ∈ h.channel_names, s = zpad s.length s) ∧
  h.comment = zpad h.comment.length h.comment

instance (h : kum_6d6_header) : Decidable (ZeroPadded h) := by
  unfold ZeroPadded; infer_instance

/-- The byte at `q` is the first non-zero byte at or after `p`. -/
def FirstNonzeroFrom (x : Mem) (p q : Nat) : Prop :=
  p ≤ q ∧ x q ≠ 0 ∧ ∀ j, p ≤ j → j < q → x j = 0

/-- The fourteen tags stand where the format puts them: nine at fixed offsets behind the
optional version marker (the last two shifted by the channel count), five at the first
non-zero byte after the string field before them. -/
def TagsInOrder (x : Mem) : Prop :=
  TagAt x (off_v x) tag_time ∧
  TagAt x (off_v x + 24) tag_addr ∧
  TagAt x (off_v x + 32) tag_rate ∧
  TagAt x (off_v x + 38) tag_writ ∧
  TagAt x (off_v x + 50) tag_lost ∧
  TagAt x (off_v x + 58) tag_chan ∧
  TagAt x (off_v x + 63) tag_gain ∧
  TagAt x (off_v x + 67 + cnt x) tag_bitd ∧
  TagAt x (off_v x + 72 + cnt x) tag_rcid ∧
  TagAt x (at_rtci x) tag_rtci ∧
  TagAt x (at_lati x) tag_lati ∧
  TagAt x (at_logi x) tag_logi ∧
  TagAt x (at_alia x) tag_alia ∧
  TagAt x (at_cmnt x) tag_cmnt

/-! ### Example values -/

/-- Modelled from the spec: `bcd_valid` of `bcd.h` (absent from the sources), "fails if any
byte is not a valid two-digit binary-coded-decimal value"; used for the example values only,
the theorems hold for every `bcd_valid`. -/
def bcd_valid_digits (l : List Nat) : Bool := l.all fun b => b % 16 ≤ 9 && b / 16 ≤ 9

/-- An instance of the declarations of `6d6.h` for the examples. -/
def ex_decls : Decls :=
  { KUM_6D6_MAX_CHANNEL_COUNT := 4
    sizeof_recorder_id := 8
    sizeof_rtc_id := 8
    sizeof_latitude := 8
    sizeof_longitude := 8
    sizeof_channel_name := 8
    sizeof_comment := 16
    bcd_valid := bcd_valid_digits }

/-- A version-1 header with two channels, synchronised, with a skew of -5. -/
def ex_header : kum_6d6_header :=
  { version := 1
    start_time := [0x17, 0x01, 0x02, 0x03, 0x04, 0x05]
    sync_type := .SYNC
    sync_time := [0x17, 0x01, 0x02, 0x03, 0x04, 0x06]
    skew := -5
    address := 77
    sample_rate := 100
    written_samples := 123456789012
    lost_samples := 3
    channel_count := 2
    gain := [10, 20, 0, 0]
    bit_depth := 32
    recorder_id := [0x41, 0x42, 0, 0, 0, 0, 0, 0]
    rtc_id := [0x43, 0, 0, 0, 0, 0, 0, 0]
    latitude := [0, 0, 0, 0, 0, 0, 0, 0]
    longitude := [0x31, 0x32, 0x33, 0, 0, 0, 0, 0]
    channel_names := [[0x48, 0, 0, 0, 0, 0, 0, 0], [0x58, 0x59, 0, 0, 0, 0, 0, 0],
      [0, 0, 0, 0, 0, 0, 0, 0], [0, 0, 0, 0, 0, 0, 0, 0]]
    comment := [0x63, 0x64, 0, 0, 0, 0, 0, 0, 0, 0, 0, 0, 0, 0, 0, 0] }

/-- A buffer filled with `0xAA` before the call. -/
def ex_mem : Mem := fun _ => 0xAA

/-- The example header, declared as version 2. -/
def ex_header_v2 : kum_6d6_header := { ex_header with version := 2 }

/-- The example header without sync type but with a skew. -/
def ex_header_none : kum_6d6_header := { ex_header with sync_type := .NONE, skew := 5 }

/-- The example header with a skew that needs more than 32 bits. -/
def ex_header_wide : kum_6d6_header := { ex_header with skew := 2 ^ 31 }

/-- The example header with a sync time that is not BCD. -/
def ex_header_bcd : kum_6d6_header :=
  { ex_header with sync_time := [0xff, 0x01, 0x02, 0x03, 0x04, 0x06] }

/-- The example header with a byte behind the terminator of the recorder id. -/
def ex_header_tail : kum_6d6_header :=
  { ex_header with recorder_id := [0x41, 0x42, 0, 0x43, 0, 0, 0, 0] }

/-- A header whose unused channel names are not zero, as an uninitialised `kum_6d6_header`
may be before it is handed to the decoder. -/
def ex_header_stale : kum_6d6_header :=
  { ex_header with
    channel_names := [[0x48, 0, 0, 0, 0, 0, 0, 0], [0x58, 0x59, 0, 0, 0, 0, 0, 0],
      [0x5a, 0, 0, 0, 0, 0, 0, 0], [0, 0, 0, 0, 0, 0, 0, 0]] }

/-- Declarations whose recorder id is so large that the fields before the comment can fill
the block. -/
def ex_decls_large : Decls := { ex_decls with sizeof_recorder_id := 408 }

/-- A header within the bounds of `ex_decls_large` whose fields before the comment take
exactly 512 bytes: a recorder id of 401 characters, and an empty comment. -/
def ex_header_large : kum_6d6_header :=
  { ex_header with
    recorder_id := List.replicate 401 0x41 ++ List.replicate 7 0
    comment := List.replicate 16 0 }

/-! ## Collaborators of `6d6mseed.c` and `wmseed.h`

`tai.h`, `bcd.h`, `miniseed.h` and `samplebuffer.h` are not among the sources. Their tables
and the arithmetic of `double` are the fields of `Env`; the record and the queue are modelled
from the interface the specification gives them. -/

/-- The struct `Date` of `tai.h`. -/
structure Date where
  year : Int
  month : Int
  day : Int
  hour : Int
  min : Int
  sec : Int
  usec : Int
  deriving DecidableEq, Repr

/-- What the converter takes from outside the sources.

* `D` with `ofInt`, `toInt`, `add`, `mul`, `div`, `round`, `ceil` is the type `double` with the
  conversions from and to `int64_t`, its arithmetic and the functions of `math.h`. `iround` and
  `iceil` name the integers `round` and `ceil` yield. The four laws are those of finite IEEE
  doubles: `round` and `ceil` yield integers, and integers up to `2 ^ 53` in magnitude are
  converted and added exactly. Infinities and NaN are outside the model.
* `tai_utc_diff`, `tai_date` (with the day of the year), `tai_time` are the functions of
  `tai.h`; `bcd_int` and the indices `BCD_YEAR` ... `BCD_SECOND` are those of `bcd.h`.
* `accepts l v` says whether a record of `miniseed.h` that holds the samples `l` takes the
  sample `v` (`miniseed_record_push_sample` returns 0) or is full (-1); a record without
  samples takes any sample. -/
structure Env where
  D : Type
  ofInt : Int → D
  toInt : D → Int
  add : D → D → D
  mul : D → D → D
  div : D → D → D
  round : D → D
  ceil : D → D
  iround : D → Int
  iceil : D → Int
  round_eq : ∀ r, round r = ofInt (iround r)
  ceil_eq : ∀ r, ceil r = ofInt (iceil r)
  toInt_ofInt : ∀ n : Int, -(2 : Int) ^ 53 ≤ n → n ≤ 2 ^ 53 → toInt (ofInt n) = n
  add_ofInt : ∀ a b : Int, -(2 : Int) ^ 53 ≤ a → a ≤ 2 ^ 53 → -(2 : Int) ^ 53 ≤ b → b ≤ 2 ^ 53 →
    -(2 : Int) ^ 53 ≤ a + b → a + b ≤ 2 ^ 53 → add (ofInt a) (ofInt b) = ofInt (a + b)
  tai_utc_diff : Int → Int
  tai_date : Int → Date × Int
  tai_time : Date → Int
  bcd_int : Nat → Int
  BCD_YEAR : Nat
  BCD_MONTH : Nat
  BCD_DAY : Nat
  BCD_HOUR : Nat
  BCD_MINUTE : Nat
  BCD_SECOND : Nat
  accepts : List Int → Int → Bool
  accepts_nil : ∀ v, accepts [] v = true

/-- Modelled from the spec: the record of `miniseed.h` (absent from the sources), as far as
its interface shows it: the sequence number of `miniseed_record_init`, the identity of
`miniseed_record_set_info`, the sample rate, the start time of
`miniseed_record_set_start_time` (calendar fields and the sub-second field), the leap-second
flag and the samples pushed. -/
structure MiniSeedRecord (E : Env) where
  seq : Int
  station : String
  location : String
  channel : String
  network : String
  sample_rate : Option E.D
  start : Date
  leapsec : Bool
  samples : List Int

/-- Modelled from the spec: `miniseed_record_init(record, seq)`, an empty record. -/
def miniseed_record_init (E : Env) (seq : Int) : MiniSeedRecord E :=
  { seq := seq, station := "", location := "", channel := "", network := "",
    sample_rate := none, start := ⟨0, 0, 0, 0, 0, 0, 0⟩, leapsec := false, samples := [] }

/-- Modelled from the spec: `miniseed_record_push_sample(record, sample)`; `none` is the
return value -1 of a full record. -/
def miniseed_record_push_sample (E : Env) (r : MiniSeedRecord E) (v : Int) :
    Option (MiniSeedRecord E) :=
  if E.accepts r.samples v then some { r with samples := r.samples ++ [v] } else none

/-- Modelled from the spec: the queue of `samplebuffer.h` (absent from the sources), a FIFO
of samples with the sequence number of its head; `len` is the length of `items`. -/
structure Samplebuffer where
  items : List Int
  sample_number : Int
  deriving DecidableEq, Repr

/-- Modelled from the spec: `samplebuffer_new()`. -/
def samplebuffer_new : Samplebuffer := { items := [], sample_number := 0 }

/-- Modelled from the spec: `samplebuffer_push(sb, sample)`. -/
def samplebuffer_push (sb : Samplebuffer) (v : Int) : Samplebuffer :=
  { sb with items := sb.items ++ [v] }

/-- Modelled from the spec: `samplebuffer_pop(sb)` on a queue that is not empty: the head and
the queue without it, whose head has the next sequence number. -/
def samplebuffer_pop (sb : Samplebuffer) : Int × Samplebuffer :=
  (sb.items.headD 0, { items := sb.items.tail, sample_number := sb.sample_number + 1 })

/-- A file the converter has opened: the name given to `fopen`, the records written to it
with `fwrite`, in order, and whether `fclose` was called on it. A template that yields no name
(a null pointer in C, which the converter then dereferences) is recorded as `none`. -/
structure OutFile (E : Env) where
  name : Option String
  records : List (MiniSeedRecord E)
  closed : Bool

/-- The files opened so far, in the order of the calls of `fopen`; a `FILE *` is the index of
its file. The functions below that take and return `Files` give the state a call leaves when
it returns; the calls that do not return (`exit(1)` after a failed `fopen` or `fwrite`, an
access through a null pointer) and the directories `wmseed__mkdir_p` creates are in the
functions whose names end in `_run`. -/
abbrev Files (E : Env) := List (OutFile E)

/-- Call `fwrite(record->data, sizeof(record->data), 1, f)`. -/
def fwrite (E : Env) (fs : Files E) (f : Nat) (r : MiniSeedRecord E) : Files E :=
  fs.modify (fun o => { o with records := o.records ++ [r] }) f

/-- Call `fclose(f)`. -/
def fclose (E : Env) (fs : Files E) (f : Nat) : Files E :=
  fs.modify (fun o => { o with closed := true }) f

/-- Call `fopen(filename, "wb")`: the files with the new one, and its handle. -/
def fopen (E : Env) (fs : Files E) (name : Option String) : Files E × Nat :=
  (fs ++ [{ name := name, records := [], closed := false }], fs.length)

/-! ## The record writer (`wmseed.h`) -/

/-- The struct `WMSeed`. -/
structure WMSeed (E : Env) where
  cut : Int
  template : String
  station : String
  location : String
  channel : String
  network : String
  sample_rate : E.D
  sb : Samplebuffer
  record_number : Int
  record_time : Int
  record : MiniSeedRecord E
  data_pending : Bool
  output : Option Nat
  last_t : Int
  last_sn : Int

/-- The function `wmseed_new` (lines 207-226). The record is not initialised by it: `mem` is
what the allocated memory holds. -/
def wmseed_new (E : Env) (mem : MiniSeedRecord E) (template station location channel
    network : String) (sample_rate : E.D) (cut : Int) : WMSeed E :=
  { cut := cut * 1000000
    template := template
    station := station
    location := location
    channel := channel
    network := network
    sample_rate := sample_rate
    sb := samplebuffer_new
    record_number := 0
    record_time := 0
    record := mem
    data_pending := false
    output := none
    last_t := 0
    last_sn := -1 }

/-- The function `wmseed_destroy` (lines 228-244) for a writer that is not null: it closes the
file and frees the writer; the step "Write remaining data" is a `TODO` in the source. -/
def wmseed_destroy (E : Env) (w : WMSeed E) (fs : Files E) : Int × Files E :=
  (0, match w.output with
      | some f => fclose E fs f
      | none => fs)

/-- The function `wmseed_sample` (lines 246-251). -/
def wmseed_sample (E : Env) (w : WMSeed E) (sample : Int) : Int × WMSeed E :=
  if w.last_sn < 0 then (-1, w)
  else (0, { w with sb := samplebuffer_push w.sb sample })

/-- The function `wmseed__flush` (lines 253-263). -/
def wmseed__flush (E : Env) (w : WMSeed E) (fs : Files E) : WMSeed E × Files E :=
  if w.data_pending then
    ({ w with data_pending := false },
      match w.output with
      | some f => fwrite E fs f w.record
      | none => fs)
  else (w, fs)

/-- The function `wmseed__new_record` (lines 265-282). -/
def wmseed__new_record (E : Env) (w : WMSeed E) (fs : Files E) (t : Int) :
    WMSeed E × Files E :=
  let p :=
    if w.data_pending then
      let w1 :=
        if E.tai_utc_diff w.record_time ≠ E.tai_utc_diff t then
          { w with record := { w.record with leapsec := true } }
        else w
      wmseed__flush E w1 fs
    else (w, fs)
  let w := p.1
  let n := w.record_number + 1
  let d := (E.tai_date t).1
  ({ w with
      record_number := n
      record_time := t
      data_pending := false
      record :=
        { miniseed_record_init E n with
          station := w.station
          location := w.location
          channel := w.channel
          network := w.network
          sample_rate := some w.sample_rate
          start := { d with usec := Int.tdiv d.usec 100 } } }, p.2)

/-- Output of `printf("%0<width>d", n)`. -/
def fmt_d (width : Nat) (n : Int) : String :=
  let digits := toString n.natAbs
  let sign := if n < 0 then "-" else ""
  sign ++ String.mk (List.replicate (width - sign.length - digits.length) '0') ++ digits

/-- Loop of `wmseed__filename` over the template; `s` is the string built so far, `none` the
null pointer. -/
def wmseed__filename_go (E : Env) (w : WMSeed E) (d : Date) (yday : Int) :
    List Char → Option String → Option String
  | [], s => s
  | '%' :: c :: rest, s =>
    let app := fun (x : String) =>
      wmseed__filename_go E w d yday rest (some (s.getD "" ++ x))
    if c = '%' then app "%"
    else if c = 'y' then app (fmt_d 4 d.year)
    else if c = 'm' then app (fmt_d 2 d.month)
    else if c = 'd' then app (fmt_d 2 d.day)
    else if c = 'h' then app (fmt_d 2 d.hour)
    else if c = 'i' then app (fmt_d 2 d.min)
    else if c = 's' then app (fmt_d 2 d.sec)
    else if c = 'j' then app (fmt_d 3 yday)
    else if c = 'S' then app w.station
    else if c = 'L' then app w.location
    else if c = 'C' then app w.channel
    else if c = 'N' then app w.network
    else none
  | ['%'], _ => none
  | c :: rest, s => wmseed__filename_go E w d yday rest (some (s.getD "" ++ String.mk [c]))

/-- The function `wmseed__filename` (lines 90-146). -/
def wmseed__filename (E : Env) (w : WMSeed E) (t : Int) : Option String :=
  wmseed__filename_go E w (E.tai_date t).1 (E.tai_date t).2 w.template.toList none

/-- The function `wmseed__create_file` (lines 284-306) when it returns: the writer and the
files it leaves. Whether it returns depends on `wmseed__dirname`, `wmseed__mkdir_p` and
`fopen` (lines 292-300): `wmseed__create_file_run` has these calls and the two ways the
function ends the program, and yields this state whenever it returns. -/
def wmseed__create_file (E : Env) (w : WMSeed E) (fs : Files E) (t : Int) :
    WMSeed E × Files E :=
  let p := wmseed__new_record E { w with record_number := 0 } fs t
  let w := p.1
  let fs :=
    match w.output with
    | some f => fclose E p.2 f
    | none => p.2
  let q := fopen E fs (wmseed__filename E w t)
  ({ w with output := some q.2 }, q.1)

/-- The macro `wmseed__div(a, b)`: `(a) / (b) - ((a) % (b) < 0)` with the truncating division
and remainder of C. -/
def wmseed__div (a b : Int) : Int := Int.tdiv a b - (if Int.tmod a b < 0 then 1 else 0)

/-- Loop of lines 353-356: push the sample, and while the record is full start a new record
at the interpolated time `tt` of the sample. A new record takes any sample (`accepts_nil`), so
the loop has at most one turn and the fuel 2 is never used up. -/
def wmseed__push (E : Env) (tt : Int) : Nat → WMSeed E → Files E → Int → WMSeed E × Files E
  | 0, w, fs, _ => (w, fs)
  | fuel + 1, w, fs, sample =>
    match miniseed_record_push_sample E w.record sample with
    | some r => ({ w with record := r }, fs)
    | none =>
      let p := wmseed__new_record E w fs tt
      wmseed__push E tt fuel p.1 p.2 sample

/-- Interpolated time of the sample with sequence number `k`:
`last_t + (int64_t) round((k - last_sn) * a)`. -/
def wmseed__interp (E : Env) (last_t last_sn : Int) (a : E.D) (k : Int) : Int :=
  last_t + E.toInt (E.round (E.mul (E.ofInt (k - last_sn)) a))

/-- Loop of lines 347-358, for at most `fuel` samples (the queue gets shorter with every
turn, the fuel is its length). -/
def wmseed__drain (E : Env) (last_t last_sn : Int) (a : E.D) (split sample_number : Int) :
    Nat → WMSeed E → Files E → WMSeed E × Files E
  | 0, w, fs => (w, fs)
  | fuel + 1, w, fs =>
    if w.sb.items.length ≠ 0 ∧ w.sb.sample_number ≤ sample_number then
      let p :=
        if w.sb.sample_number = split then
          wmseed__create_file E w fs (wmseed__interp E last_t last_sn a w.sb.sample_number)
        else (w, fs)
      let w := p.1
      let r := samplebuffer_pop w.sb
      let w := { w with sb := r.2 }
      let q := wmseed__push E (wmseed__interp E last_t last_sn a (w.sb.sample_number - 1)) 2
        w p.2 r.1
      wmseed__drain E last_t last_sn a split sample_number fuel
        { q.1 with data_pending := true } q.2
    else (w, fs)

/-- The function `wmseed_time` (lines 311-365) for a writer that is not null. -/
def wmseed_time (E : Env) (w : WMSeed E) (fs : Files E) (t sample_number : Int) :
    Int × WMSeed E × Files E :=
  if w.last_sn = -1 then
    if sample_number ≠ 0 then (-1, w, fs)
    else
      let p := wmseed__create_file E { w with last_t := t, last_sn := sample_number } fs t
      (0, p.1, p.2)
  else if sample_number ≤ w.last_sn ∨ t ≤ w.last_t then (-1, w, fs)
  else if sample_number - w.last_sn < 1008 * 20 then (0, w, fs)
  else
    let a := E.div (E.ofInt (t - w.last_t)) (E.ofInt (sample_number - w.last_sn))
    let off := 1000000 * E.tai_utc_diff t
    let split :=
      if w.cut ≠ 0 ∧ wmseed__div (w.last_t - off) w.cut ≠ wmseed__div (t - off) w.cut then
        let split_time := wmseed__div (t - off) w.cut * w.cut + off
        w.last_sn + E.toInt (E.ceil (E.div (E.ofInt (split_time - w.last_t)) a))
      else -1
    let p := wmseed__drain E w.last_t w.last_sn a split sample_number w.sb.items.length w fs
    (0, { p.1 with last_t := t, last_sn := sample_number }, p.2)

/-! ## The frame decoder (`6d6mseed.c`) -/

/-- The function `bcd_time` (lines 94-106). -/
def bcd_time (E : Env) (bcd : List Nat) : Int :=
  E.tai_time
    { year := E.bcd_int (bcd.getD E.BCD_YEAR 0) + 2000
      month := E.bcd_int (bcd.getD E.BCD_MONTH 0)
      day := E.bcd_int (bcd.getD E.BCD_DAY 0)
      hour := E.bcd_int (bcd.getD E.BCD_HOUR 0)
      min := E.bcd_int (bcd.getD E.BCD_MINUTE 0)
      sec := E.bcd_int (bcd.getD E.BCD_SECOND 0)
      usec := 0 }

/-- The variables `main` sets in lines 179-190 and reads in the block parser, with the skew of
the start header. -/
structure Clock (E : Env) where
  sync_time : Int
  start_time : Int
  have_skew : Bool
  skew : E.D
  skew_start : Int

/-- Lines 179-190 of `main`, "Calculate times": the clock, and `h_end.skew` as the lines leave
it. -/
def main_clock (E : Env) (d : Decls) (h_start h_end : kum_6d6_header) : Clock E × Int :=
  let sync_time := bcd_time E h_start.sync_time
  let start_time := bcd_time E h_start.start_time
  let start_time :=
    start_time + 1000000 * (E.tai_utc_diff start_time - E.tai_utc_diff sync_time)
  if h_end.sync_type = .SKEW ∧ d.bcd_valid h_end.sync_time = true then
    let skew_time := bcd_time E h_end.sync_time
    let end_skew :=
      h_end.skew + 1000000 * (E.tai_utc_diff skew_time - E.tai_utc_diff sync_time)
    ({ sync_time := sync_time
       start_time := start_time
       have_skew := true
       skew := E.div (E.ofInt (end_skew - h_start.skew)) (E.ofInt (skew_time - sync_time))
       skew_start := h_start.skew }, end_skew)
  else
    ({ sync_time := sync_time
       start_time := start_time
       have_skew := false
       skew := E.ofInt 1
       skew_start := h_start.skew }, h_end.skew)

/-- The variables of the block parser of `main`, the writers, the files, and whether
`goto done` was taken. -/
structure Decoder (E : Env) where
  pos : Nat
  remaining : Int
  have_time : Bool
  frame : Nat → Int
  sample_number : Int
  channels : List (WMSeed E)
  fs : Files E
  done : Bool

/-- Assignment `frame[k] = v`. -/
def frame_set (frame : Nat → Int) (k : Nat) (v : Int) : Nat → Int :=
  fun i => if i = k then v else frame i

/-- Loop of lines 226-232 over the writers `channels[c]`: `wmseed_time(channels[c], t,
sample_number)`, the return value dropped. -/
def time_all (E : Env) (t sample_number : Int) :
    List (WMSeed E) → Files E → List (WMSeed E) × Files E
  | [], fs => ([], fs)
  | w :: ws, fs =>
    let r := wmseed_time E w fs t sample_number
    let p := time_all E t sample_number ws r.2.2
    (r.2.1 :: p.1, p.2)

/-- Loop of lines 252-254 over the writers from `channels[c]` on:
`wmseed_sample(channels[c], frame[c])`, the return value dropped. -/
def sample_all (E : Env) (frame : Nat → Int) : Nat → List (WMSeed E) → List (WMSeed E)
  | _, [] => []
  | c, w :: ws => (wmseed_sample E w (frame c)).2 :: sample_all E frame (c + 1) ws

/-- The time a Time group anchors, lines 227-230: `start_time + frame[1] * 1000000`, and with a
skew `t += h_start.skew + round((t - sync_time) * skew)`, which C computes in `double`. -/
def anchor_time (E : Env) (ck : Clock E) (e : Int) : Int :=
  let t := ck.start_time + e * 1000000
  if ck.have_skew then
    E.toInt (E.add (E.ofInt t)
      (E.add (E.ofInt ck.skew_start) (E.round (E.mul (E.ofInt (t - ck.sync_time)) ck.skew))))
  else t

/-- Lines 221-257: what `main` does with a complete group. -/
def frame_done (E : Env) (ck : Clock E) (st : Decoder E) : Decoder E :=
  if st.frame 0 % 2 = 1 then
    if st.frame 0 = 1 then
      let p := time_all E (anchor_time E ck (st.frame 1)) st.sample_number st.channels st.fs
      { st with have_time := true, channels := p.1, fs := p.2 }
    else if st.frame 0 = 13 then { st with done := true }
    else st
  else if st.have_time then
    { st with
      channels := sample_all E st.frame 0 st.channels
      sample_number := st.sample_number + 1 }
  else st

/-- Lines 212-258: the body of the loop over the words of a block, for the word `v` that
`ld_i32_be(block + j)` yields. After `goto done` no word is looked at. -/
def frame_word (E : Env) (ck : Clock E) (channel_count : Nat) (st : Decoder E) (v : Int) :
    Decoder E :=
  if st.done then st
  else
    let st :=
      if st.remaining = 0 then
        { st with
          frame := frame_set st.frame 0 v
          remaining := if v % 2 = 1 then 3 else (channel_count : Int) - 1
          pos := 1 }
      else
        { st with
          frame := frame_set st.frame st.pos v
          pos := st.pos + 1
          remaining := st.remaining - 1 }
    if st.remaining = 0 then frame_done E ck st else st

/-- The words of a block: `ld_i32_be(block + j)` for `j = 0, 4, ..., 508`. -/
def block_words (block : Mem) : List Int := (List.range 128).map fun k => ld_i32_be block (4 * k)

/-- Lines 211-259: the loop over the words of one block. -/
def frame_block (E : Env) (ck : Clock E) (channel_count : Nat) (st : Decoder E) (block : Mem) :
    Decoder E :=
  (block_words block).foldl (frame_word E ck channel_count) st

/-- Lines 207-264: the loop over the data blocks. -/
def frame_blocks (E : Env) (ck : Clock E) (channel_count : Nat) (st : Decoder E)
    (blocks : List Mem) : Decoder E :=
  blocks.foldl (frame_block E ck channel_count) st

/-- Lines 192-198: the writers of the channels `c, c + 1, ...` whose names are `names`. -/
def main_channels (E : Env) (mem : MiniSeedRecord E) (template station location
    network : String) (sample_rate : Nat) (cut : Int) : List String → List (WMSeed E)
  | [] => []
  | name :: rest =>
    wmseed_new E mem template station location name network (E.ofInt sample_rate) cut ::
      main_channels E mem template station location network sample_rate cut rest

/-- The parser before the first block: `remaining = 0`, `have_time = 0`, `sample_number = 0`;
`pos` and `frame` are not initialised in the source and are written before they are read. -/
def decoder_init (E : Env) (channels : List (WMSeed E)) : Decoder E :=
  { pos := 0
    remaining := 0
    have_time := false
    frame := fun _ => 0
    sample_number := 0
    channels := channels
    fs := []
    done := false }

/-- Lines 266-268: `wmseed_destroy` on every writer. -/
def destroy_all (E : Env) : List (WMSeed E) → Files E → Files E
  | [], fs => fs
  | w :: ws, fs => destroy_all E ws (wmseed_destroy E w fs).2

/-- Lines 192-268 of `main`: the writers are made, the data blocks are decoded, the writers
are destroyed; the result is the files with what was written to them. -/
def main_convert (E : Env) (ck : Clock E) (mem : MiniSeedRecord E) (template station
    location network : String) (sample_rate : Nat) (cut : Int) (names : List String)
    (blocks : List Mem) : Files E :=
  let st := frame_blocks E ck names.length
    (decoder_init E
      (main_channels E mem template station location network sample_rate cut names)) blocks
  destroy_all E st.channels st.fs

/-! ### The word stream and its groups, as the specification words them -/

/-- The concatenation of the words of all blocks. -/
def stream_words (blocks : List Mem) : List Int := (blocks.map block_words).flatten

/-- Number of words of the group a word opens: a word with its low bit set opens a control
group of 4 words, any other word a sample group of `channel_count` words. -/
def group_size (channel_count : Nat) (v : Int) : Nat := if v % 2 = 1 then 4 else channel_count

/-- The complete groups of a word stream, in order: the first word says how long the group is,
the group is cut off, and the rest is parsed in the same way; words that do not fill a group
are left over. The fuel is the length of the stream. -/
def groups_go (channel_count : Nat) : Nat → List Int → List (List Int)
  | 0, _ => []
  | _, [] => []
  | fuel + 1, v :: rest =>
    let n := group_size channel_count v
    if n ≤ (v :: rest).length then
      (v :: rest).take n :: groups_go channel_count fuel ((v :: rest).drop n)
    else []

/-- The complete groups of a word stream. -/
def groups (channel_count : Nat) (ws : List Int) : List (List Int) :=
  groups_go channel_count ws.length ws

/-- The event a complete group triggers, stated on the group: a Time group (code 1) anchors
every writer at the current sample counter; an End group (code 13) ends the decoding; any
other control group does nothing; a sample group, once a Time group was seen, hands word `c`
to writer `c` and advances the sample counter by one. After the end nothing happens. -/
def group_event (E : Env) (ck : Clock E) (st : Decoder E) (g : List Int) : Decoder E :=
  if st.done then st
  else if g.headD 0 % 2 = 1 then
    if g.headD 0 = 1 then
      let p := time_all E (anchor_time E ck (g.getD 1 0)) st.sample_number st.channels st.fs
      { st with have_time := true, channels := p.1, fs := p.2 }
    else if g.headD 0 = 13 then { st with done := true }
    else st
  else if st.have_time then
    { st with
      channels := sample_all E (fun c => g.getD c 0) 0 st.channels
      sample_number := st.sample_number + 1 }
  else st

/-- Two parser states show the same events: the same Time flag, sample counter, writers, files
and end of decoding. The cursor inside the current group is left out. -/
def SameEvents (E : Env) (a b : Decoder E) : Prop :=
  a.have_time = b.have_time ∧ a.sample_number = b.sample_number ∧ a.channels = b.channels ∧
    a.fs = b.fs ∧ a.done = b.done

/-- The array `frame` after the words `us` were stored from index `p` on. -/
def frame_fill (frame : Nat → Int) (p : Nat) (us : List Int) : Nat → Int :=
  fun i => if p ≤ i ∧ i < p + us.length then us.getD (i - p) 0 else frame i

/-! ### Example values for the decoder -/

/-- A fraction of integers; exact arithmetic on fractions stands for `double` in the
examples. -/
structure Frac where
  num : Int
  den : Int
  deriving DecidableEq, Repr

/-- The integer nearest to a fraction, halves away from zero. -/
def Frac.iround (r : Frac) : Int :=
  let n := if r.den < 0 then -r.num else r.num
  let d := if r.den < 0 then -r.den else r.den
  if 0 ≤ n then (2 * n + d) / (2 * d) else -((2 * (-n) + d) / (2 * d))

/-- The least integer not below a fraction. -/
def Frac.iceil (r : Frac) : Int :=
  let n := if r.den < 0 then -r.num else r.num
  let d := if r.den < 0 then -r.den else r.den
  Int.neg ((-n) / d)

/-- An instance of the collaborators for the examples: exact fractions for `double`, a
calendar of twelve months of 31 days without leap seconds for `tai.h`, the BCD bytes in the
order year, month, day, hour, minute, second, and records of four samples. -/
def ex_env : Env :=
  { D := Frac
    ofInt := fun n => ⟨n, 1⟩
    toInt := fun r => Int.tdiv r.num r.den
    add := fun a b => ⟨a.num * b.den + b.num * a.den, a.den * b.den⟩
    mul := fun a b => ⟨a.num * b.num, a.den * b.den⟩
    div := fun a b => ⟨a.num * b.den, a.den * b.num⟩
    round := fun r => ⟨r.iround, 1⟩
    ceil := fun r => ⟨r.iceil, 1⟩
    iround := Frac.iround
    iceil := Frac.iceil
    round_eq := fun _ => rfl
    ceil_eq := fun _ => rfl
    toInt_ofInt := fun n _ _ => Int.tdiv_one n
    add_ofInt := fun a b _ _ _ _ _ _ => by simp
    tai_utc_diff := fun _ => 0
    tai_date := fun t =>
      let s := t / 1000000
      let day := s / 86400
      ({ year := 1970 + day / 372
         month := 1 + day % 372 / 31
         day := 1 + day % 31
         hour := s % 86400 / 3600
         min := s % 3600 / 60
         sec := s % 60
         usec := t % 1000000 }, 1 + day % 372)
    tai_time := fun d =>
      (((((d.year - 1970) * 372 + (d.month - 1) * 31 + (d.day - 1)) * 24 + d.hour) * 60 +
        d.min) * 60 + d.sec) * 1000000 + d.usec
    bcd_int := fun b => (b / 16 : Nat) * 10 + (b % 16 : Nat)
    BCD_YEAR := 0
    BCD_MONTH := 1
    BCD_DAY := 2
    BCD_HOUR := 3
    BCD_MINUTE := 4
    BCD_SECOND := 5
    accepts := fun l _ => decide (l.length < 4)
    accepts_nil := fun _ => rfl }

/-- A block that holds the given words, big-endian, and zeros behind them. -/
def block_of_words (ws : List Int) : Mem :=
  fun i => (be_bytes 4 ((ws.getD (i / 4) 0) % 2 ^ 32).toNat).getD (i % 4) 0

/-- The words of the end-to-end scenario for two channels: a Time group with `elapsed = 0`,
ten sample groups with the values 2, 4, ..., 20 for channel 0 and 3, 5, ..., 21 for channel 1,
and an End group. -/
def scenario_words : List Int :=
  [1, 0, 0, 0, 2, 3, 4, 5, 6, 7, 8, 9, 10, 11, 12, 13, 14, 15, 16, 17, 18, 19, 20, 21,
   13, 0, 0, 0]

/-- The one data block of the end-to-end scenario. -/
def scenario_block : Mem := block_of_words scenario_words

/-- A clock without skew for the examples. -/
def ex_clock : Clock ex_env :=
  { sync_time := 0, start_time := 1000000, have_skew := false, skew := ⟨1, 1⟩, skew_start := 0 }

/-- Writers of two channels for the examples, as `main` makes them. -/
def ex_channels : List (WMSeed ex_env) :=
  main_channels ex_env (miniseed_record_init ex_env 0) "out/%S/%y-%m-%d-%C.mseed" "ST007" ""
    "" 100 86400 ["H", "X"]

/-- A parser state between two groups, after a Time group was seen. -/
def ex_decoder_timed : Decoder ex_env :=
  { decoder_init ex_env
      ((time_all ex_env 1000000 0 ex_channels []).1) with
    have_time := true
    fs := (time_all ex_env 1000000 0 ex_channels []).2 }

/-- An integer that `double` holds exactly: at most `2 ^ 53` in magnitude. -/
def Exact53 (n : Int) : Prop := -(2 : Int) ^ 53 ≤ n ∧ n ≤ 2 ^ 53

instance (n : Int) : Decidable (Exact53 n) := by unfold Exact53; infer_instance

/-- An end header for the examples: the example header with a skew measured a day later. -/
def ex_header_end : kum_6d6_header :=
  { ex_header with
    sync_type := .SKEW
    sync_time := [0x17, 0x01, 0x03, 0x03, 0x04, 0x06]
    skew := 1000
    address := 3 }

/-! ### The writer: the cut, and what the specification says of it -/

/-- The test of line 340 of `wmseed.h`: whether `wmseed_time` finds a cut between the baseline
`last_t` and `t`. The offset `off` is `1000000 * tai_utc_diff(t)` for both instants. -/
def cut_detected (E : Env) (w : WMSeed E) (t : Int) : Prop :=
  w.cut ≠ 0 ∧
    wmseed__div (w.last_t - 1000000 * E.tai_utc_diff t) w.cut ≠
      wmseed__div (t - 1000000 * E.tai_utc_diff t) w.cut

instance (E : Env) (w : WMSeed E) (t : Int) : Decidable (cut_detected E w t) := by
  unfold cut_detected; infer_instance

/-- The instant `split_time` of line 341: the bucket of `t` times the cut period, plus the
offset. -/
def wmseed__split_time (E : Env) (w : WMSeed E) (t : Int) : Int :=
  wmseed__div (t - 1000000 * E.tai_utc_diff t) w.cut * w.cut + 1000000 * E.tai_utc_diff t

/-- The slope `a` of line 335: `(double) (t - last_t) / (sample_number - last_sn)`. -/
def wmseed__slope (E : Env) (w : WMSeed E) (t sample_number : Int) : E.D :=
  E.div (E.ofInt (t - w.last_t)) (E.ofInt (sample_number - w.last_sn))

/-- The variable `split` after lines 313 and 337-345: -1, or with a cut
`last_sn + (int64_t) ceil((split_time - last_t) / a)`. -/
def wmseed__split (E : Env) (w : WMSeed E) (t sample_number : Int) : Int :=
  if cut_detected E w t then
    w.last_sn + E.toInt (E.ceil (E.div (E.ofInt (wmseed__split_time E w t - w.last_t))
      (wmseed__slope E w t sample_number)))
  else -1

/-- The bucket of an instant as the specification words it: the floor of the instant, less its
own leap offset in microseconds, over the cut period. -/
def spec_bucket (E : Env) (cut x : Int) : Int :=
  Int.fdiv (x - 1000000 * E.tai_utc_diff x) cut

/-- The rate as the specification words it: the leap-corrected skew of the end header less the
skew of the start header, over the leap-corrected skew epoch less the sync epoch. -/
def spec_rate (E : Env) (h_start h_end : kum_6d6_header) : E.D :=
  let S := bcd_time E h_start.sync_time
  let T := bcd_time E h_end.sync_time
  let d := E.tai_utc_diff T - E.tai_utc_diff S
  E.div (E.ofInt (h_end.skew + 1000000 * d - h_start.skew)) (E.ofInt (T + 1000000 * d - S))

/-- The example collaborators with one leap second: the offset is 0 before the instant
`leap` and 1 from it on. -/
def ex_env_leap (leap : Int) : Env :=
  { ex_env with tai_utc_diff := fun t => if t < leap then 0 else 1 }

/-- A writer of the examples, as `wmseed_new` makes it, with a cut period of `cut` seconds. -/
def ex_writer (E : Env) (cut : Int) : WMSeed E :=
  wmseed_new E (miniseed_record_init E 0) "out/%S/%y-%m-%d-%C.mseed" "ST007" "" "H" ""
    (E.ofInt 100) cut

/-- A call of the interface of `wmseed.h` on a writer. -/
inductive Call where
  | sample (v : Int)
  | time (t n : Int)
  deriving DecidableEq, Repr

/-- One call on a writer and the files, the return value dropped, as `main` does. -/
def wmseed_call (E : Env) (s : WMSeed E × Files E) : Call → WMSeed E × Files E
  | .sample v => ((wmseed_sample E s.1 v).2, s.2)
  | .time t n => (wmseed_time E s.1 s.2 t n).2

/-- A sequence of calls on a writer, in order. -/
def wmseed_calls (E : Env) (s : WMSeed E × Files E) (cs : List Call) : WMSeed E × Files E :=
  cs.foldl (wmseed_call E) s

/-- The example writer with a cut period of one day after its first anchor at the instant
1000000, and the files. -/
def ex_anchored : WMSeed ex_env × Files ex_env :=
  (wmseed_time ex_env (ex_writer ex_env 86400) [] 1000000 0).2


/-! ### The drain loop of `wmseed_time` and the record stream -/

/-- The body of the loop of lines 347-358, for a queue that is not empty: a new file when the
head has the split index, then the head is popped and pushed into the record, with a new
record when the current one is full. -/
def wmseed__drain_step (E : Env) (last_t last_sn : Int) (a : E.D) (split : Int)
    (w : WMSeed E) (fs : Files E) : WMSeed E × Files E :=
  let p :=
    if w.sb.sample_number = split then
      wmseed__create_file E w fs (wmseed__interp E last_t last_sn a w.sb.sample_number)
    else (w, fs)
  let w := p.1
  let r := samplebuffer_pop w.sb
  let w := { w with sb := r.2 }
  let q := wmseed__push E (wmseed__interp E last_t last_sn a (w.sb.sample_number - 1)) 2
    w p.2 r.1
  ({ q.1 with data_pending := true }, q.2)

/-- The samples of the records written to the file `f`, in the order they were written. -/
def file_samples (E : Env) (fs : Files E) (f : Nat) : List Int :=
  match fs[f]? with
  | some o => (o.records.map fun r => r.samples).flatten
  | none => []

/-- The samples of the record in progress, when it is pending. -/
def pending_samples (E : Env) (w : WMSeed E) : List Int :=
  if w.data_pending then w.record.samples else []

/-- The samples of the current file of the writer. -/
def current_samples (E : Env) (w : WMSeed E) (fs : Files E) : List Int :=
  match w.output with
  | some f => file_samples E fs f
  | none => []

/-- The record stream of a writer: the samples of the files it opened and left (`past`, in
the order it opened them), of its current file, and of its pending record. -/
def record_stream (E : Env) (past : List Nat) (w : WMSeed E) (fs : Files E) : List Int :=
  (past.map (file_samples E fs)).flatten ++ current_samples E w fs ++ pending_samples E w

/-- The file `f` of `fs2` is the file `f` of `fs1` with records appended that hold the samples
`xs`; every other file is as it was, and no file was opened. -/
def Appended (E : Env) (fs1 fs2 : Files E) (f : Nat) (xs : List Int) : Prop :=
  fs2.length = fs1.length ∧ (∀ g, g ≠ f → fs2[g]? = fs1[g]?) ∧
    file_samples E fs2 f = file_samples E fs1 f ++ xs

/-- A writer in use: it is anchored, its current file `f` is one of the files and was opened
after the files of `past`, and a record that is not pending holds no sample. -/
def InUse (E : Env) (past : List Nat) (w : WMSeed E) (fs : Files E) (f : Nat) : Prop :=
  0 ≤ w.last_sn ∧ w.output = some f ∧ f < fs.length ∧ (∀ g ∈ past, g < f) ∧
    (w.data_pending = false → w.record.samples = [])

/-- Two writer states with the same configuration and baseline. -/
def SameBase (E : Env) (w1 w2 : WMSeed E) : Prop :=
  w2.cut = w1.cut ∧ w2.template = w1.template ∧ w2.station = w1.station ∧
    w2.location = w1.location ∧ w2.channel = w1.channel ∧ w2.network = w1.network ∧
    w2.sample_rate = w1.sample_rate ∧ w2.last_t = w1.last_t ∧ w2.last_sn = w1.last_sn

/-- Number of samples an anchor with sample number `n` drains from a queue: those with a
sequence number of at most `n`. -/
def drain_count (sb : Samplebuffer) (n : Int) : Nat :=
  min sb.items.length (n + 1 - sb.sample_number).toNat

/-- What the drain loop of an anchor with sample number `n` and split index `split` makes of
a writer in use with the current file `f`: the result `r` has the drained samples (`m` of
them) off the queue; files other than `f` are as they were; when the split index is among the
drained ones, the file `f` got the pending record and the samples before the split index, one
new file was opened, and it and the pending record hold the samples from the split index on;
otherwise no file was opened and the file `f` and the pending record got the samples. -/
def DrainedTo (E : Env) (split n : Int) (past : List Nat) (w : WMSeed E) (fs : Files E)
    (f : Nat) (r : WMSeed E × Files E) : Prop :=
  r.1.sb = { items := w.sb.items.drop (drain_count w.sb n),
             sample_number := w.sb.sample_number + drain_count w.sb n } ∧
  SameBase E w r.1 ∧
  (drain_count w.sb n = 0 → r = (w, fs)) ∧
  (0 < drain_count w.sb n → r.1.data_pending = true) ∧
  (∀ g, g < fs.length → g ≠ f → r.2[g]? = fs[g]?) ∧
  ((w.sb.sample_number ≤ split ∧ split < w.sb.sample_number + drain_count w.sb n) →
    r.2.length = fs.length + 1 ∧ InUse E (past ++ [f]) r.1 r.2 fs.length ∧
    file_samples E r.2 f = file_samples E fs f ++ pending_samples E w ++
      w.sb.items.take (split - w.sb.sample_number).toNat ∧
    file_samples E r.2 fs.length ++ pending_samples E r.1 =
      (w.sb.items.take (drain_count w.sb n)).drop (split - w.sb.sample_number).toNat) ∧
  (¬ (w.sb.sample_number ≤ split ∧ split < w.sb.sample_number + drain_count w.sb n) →
    r.2.length = fs.length ∧ InUse E past r.1 r.2 f ∧
    file_samples E r.2 f ++ pending_samples E r.1 =
      file_samples E fs f ++ pending_samples E w ++ w.sb.items.take (drain_count w.sb n))

instance (E : Env) (past : List Nat) (w : WMSeed E) (fs : Files E) (f : Nat) :
    Decidable (InUse E past w fs f) := by
  unfold InUse; infer_instance

/-- The samples handed to `wmseed_sample` by a sequence of calls, in order. -/
def sampled : List Call → List Int
  | [] => []
  | .sample v :: cs => v :: sampled cs
  | .time _ _ :: cs => sampled cs

/-- The example writer after its first anchor and three samples. -/
def ex_queued : WMSeed ex_env × Files ex_env :=
  wmseed_calls ex_env ex_anchored [.sample 5, .sample 6, .sample 7]

/-- The calls of `main` on one channel for a recording at 100 samples per second across a
midnight: the first anchor 202 seconds before midnight, 20200 samples, an anchor at midnight
sharp, 20200 samples, and an anchor 202 seconds after midnight. -/
def ex_midnight_calls : List Call :=
  [.time 86198000000 0] ++ (List.replicate 20200 7).map Call.sample ++
    [.time 86400000000 20200] ++ (List.replicate 20200 9).map Call.sample ++
    [.time 86602000000 40400]

/-- Loop of lines 226-232 over the writers: the return values of the calls
`wmseed_time(channels[c], t, sample_number)`, which `main` drops, in the order of the calls;
each call runs on the files the calls before it left, as in `time_all`. -/
def time_all_rets (E : Env) (t sample_number : Int) :
    List (WMSeed E) → Files E → List Int
  | [], _ => []
  | w :: ws, fs =>
    let r := wmseed_time E w fs t sample_number
    r.1 :: time_all_rets E t sample_number ws r.2.2

/-- Loop of lines 252-254 over the writers from `channels[c]` on: the return values of the
calls `wmseed_sample(channels[c], frame[c])`, which `main` drops, in the order of the calls. -/
def sample_all_rets (E : Env) (frame : Nat → Int) : Nat → List (WMSeed E) → List Int
  | _, [] => []
  | c, w :: ws => (wmseed_sample E w (frame c)).1 :: sample_all_rets E frame (c + 1) ws

/-- Lines 221-257, the calls `main` makes on the writers for a complete group, seen by their
return values: those of `wmseed_time` and those of `wmseed_sample`. -/
def frame_done_rets (E : Env) (ck : Clock E) (st : Decoder E) : List Int × List Int :=
  if st.frame 0 % 2 = 1 then
    if st.frame 0 = 1 then
      (time_all_rets E (anchor_time E ck (st.frame 1)) st.sample_number st.channels st.fs, [])
    else ([], [])
  else if st.have_time then ([], sample_all_rets E st.frame 0 st.channels)
  else ([], [])

/-- Lines 212-258, the calls `main` makes on the writers while it handles the word `v`, seen
by their return values; the word is stored as in `frame_word`. -/
def frame_word_rets (E : Env) (ck : Clock E) (channel_count : Nat) (st : Decoder E)
    (v : Int) : List Int × List Int :=
  if st.done then ([], [])
  else
    let st :=
      if st.remaining = 0 then
        { st with
          frame := frame_set st.frame 0 v
          remaining := if v % 2 = 1 then 3 else (channel_count : Int) - 1
          pos := 1 }
      else
        { st with
          frame := frame_set st.frame st.pos v
          pos := st.pos + 1
          remaining := st.remaining - 1 }
    if st.remaining = 0 then frame_done_rets E ck st else ([], [])

/-! ### The directory of a file name (`wmseed__dirname`) -/

/-- The bytes of a string, as the `char` array of C holds them before the terminating zero:
the UTF-8 encoding of the string. -/
def c_bytes (s : String) : List Nat :=
  (s.toList.flatMap String.utf8EncodeChar).map UInt8.toNat

/-- Loop of lines 152-155 of `wmseed.h`: `while (path[l]) { if (path[l] == '/') x = l; ++l; }`
over the bytes of the path that are still ahead (47 is `'/'`); the result is `x` after the
loop. -/
def wmseed__dirname_scan : List Nat → Nat → Nat → Nat
  | [], _, x => x
  | c :: rest, l, x => wmseed__dirname_scan rest (l + 1) (if c = 47 then l else x)

/-- The function `wmseed__dirname` (lines 148-166) on the bytes of the path before its
terminating zero. `SIZE_MAX` is the value of `(size_t) -1`, with which `x` starts. In the
branch `x > 1` the size `x + 1` is computed in `size_t`; when it is 0,
`wmseed__allocate(0, 0)` returns a null pointer, through which `memcpy(s, path, x)` and
`s[x] = 0` then write: the behaviour is undefined, and the result is `none`. In the other
branch the result is `.` (46) or `/` (47). -/
def wmseed__dirname (SIZE_MAX : Nat) (path : List Nat) : Option (List Nat) :=
  let x := wmseed__dirname_scan path 0 SIZE_MAX
  if x > 1 then
    if (x + 1) % (SIZE_MAX + 1) = 0 then none
    else some (path.take x)
  else some (if x ≠ 0 then [46] else [47])

/-- The enclosing directory of a path as the specification words it, on the bytes of the path:
the prefix that precedes the last `/`; `/` when the last `/` is the first byte; `.` when there
is no `/`. -/
def spec_dirname (path : List Nat) : List Nat :=
  match path.reverse.dropWhile (fun c => c ≠ 47) with
  | [] => [46]
  | _ :: pre => if pre = [] then [47] else pre.reverse

/-! ### Two blocks with the same 512 bytes -/

/-- Two memories hold the same bytes at the indices 0 to 511. -/
def SameBlock (x y : Mem) : Prop := ∀ i, i < 512 → x i = y i

/-- Two decoding steps do the same from every state that satisfies `P`, and a state they
reach satisfies `Q`. -/
def StepAlike (P Q : RdState → Prop) (f g : RdState → Rd) : Prop :=
  ∀ s, P s → f s = g s ∧ ∀ s2, f s = .ok s2 → Q s2

/-! ### The calls that do not return

`wmseed__create_file` ends the program with `exit(1)` when `fopen` fails, and so does
`wmseed__flush` when `fwrite` fails; a file name that is a null pointer and a file name without
a directory that `wmseed__dirname` can copy lead to an access through a null pointer. The
functions below are those of `wmseed.h` and of the frame decoder once more, with these ends:
a call yields `.ok` with what it returns and leaves, or `.error` with the way it ended the
program. The file system is a parameter (`Host`). -/

/-- How a call ends the program instead of returning: with `exit(1)`, or with undefined
behaviour (an access through a null pointer or outside an array). -/
inductive Halt where
  | exit1
  | undefined
  deriving DecidableEq, Repr

/-- What the writer takes from the operating system. `Disk` is the state of the file system.
`stat d path` is `none` when `stat` fails on the path and otherwise says whether the entry is
a directory (`S_ISDIR`); `mkdir d path` and `fopen d path` (with the mode `"wb"`) are `none`
when the call fails and otherwise the file system the call leaves; `fwrite d f` likewise, for
one record written to the file with the handle `f`. Paths are the bytes before the terminating
zero. `SIZE_MAX` is the value of `(size_t) -1`. -/
structure Host where
  Disk : Type
  SIZE_MAX : Nat
  stat : Disk → List Nat → Option Bool
  mkdir : Disk → List Nat → Option Disk
  fopen : Disk → List Nat → Option Disk
  fwrite : Disk → Nat → Option Disk

/-- Lines 180-188 and lines 192-199 of `wmseed__mkdir_p`: `stat(p, &sb)`, and `mkdir(p, 0755)`
when `stat` fails; `none` is the `return -1` after a failed `mkdir` or for an entry that is no
directory. -/
def wmseed__mkdir_one (H : Host) (d : H.Disk) (p : List Nat) : Option H.Disk :=
  match H.stat d p with
  | none => H.mkdir d p
  | some isdir => if isdir then some d else none

/-- Loop of lines 178-191 over the indices `i` that are still ahead: where `p[i]` is `/` (47)
the path before it is made a directory. The result is -1 with the file system at the
`return -1`, or 0 with the file system after the loop. -/
def wmseed__mkdir_p_loop (H : Host) (p : List Nat) : List Nat → H.Disk → Int × H.Disk
  | [], d => (0, d)
  | i :: rest, d =>
    if p.getD i 0 = 47 then
      match wmseed__mkdir_one H d (p.take i) with
      | none => (-1, d)
      | some d2 => wmseed__mkdir_p_loop H p rest d2
    else wmseed__mkdir_p_loop H p rest d

/-- The function `wmseed__mkdir_p` (lines 168-202): the return value and the file system it
leaves. `p` is the copy of the path after "Remove trailing slash", the loop runs over
`i = 1, ..., len - 1`, and the whole of `p` is made a directory last. For an empty path
`p[len - 1]` is read outside the array. -/
def wmseed__mkdir_p (H : Host) (d : H.Disk) (path : List Nat) : Except Halt (Int × H.Disk) :=
  if path = [] then .error .undefined
  else
    let len := path.length
    let p := if path.getD (len - 1) 0 = 47 then path.take (len - 1) else path
    let r := wmseed__mkdir_p_loop H p (List.range len).tail d
    if r.1 ≠ 0 then .ok r
    else
      match wmseed__mkdir_one H r.2 p with
      | none => .ok (-1, r.2)
      | some d2 => .ok (0, d2)

/-- The function `wmseed__flush` (lines 253-263) with its `exit(1)` after a failed `fwrite`;
`fwrite` on a null `FILE *` is undefined. -/
def wmseed__flush_run (E : Env) (H : Host) (w : WMSeed E) (fs : Files E) (d : H.Disk) :
    Except Halt (WMSeed E × Files E × H.Disk) :=
  if w.data_pending then
    match w.output with
    | none => .error .undefined
    | some f =>
      match H.fwrite d f with
      | none => .error .exit1
      | some d2 => .ok ({ w with data_pending := false }, fwrite E fs f w.record, d2)
  else .ok (w, fs, d)

/-- The function `wmseed__new_record` (lines 265-282) with the ends of `wmseed__flush`. -/
def wmseed__new_record_run (E : Env) (H : Host) (w : WMSeed E) (fs : Files E) (d : H.Disk)
    (t : Int) : Except Halt (WMSeed E × Files E × H.Disk) :=
  let r :=
    if w.data_pending then
      let w1 :=
        if E.tai_utc_diff w.record_time ≠ E.tai_utc_diff t then
          { w with record := { w.record with leapsec := true } }
        else w
      wmseed__flush_run E H w1 fs d
    else .ok (w, fs, d)
  match r with
  | .error e => .error e
  | .ok p =>
    let w := p.1
    let n := w.record_number + 1
    let date := (E.tai_date t).1
    .ok ({ w with
        record_number := n
        record_time := t
        data_pending := false
        record :=
          { miniseed_record_init E n with
            station := w.station
            location := w.location
            channel := w.channel
            network := w.network
            sample_rate := some w.sample_rate
            start := { date with usec := Int.tdiv date.usec 100 } } }, p.2)

/-- The function `wmseed__create_file` (lines 284-306): the new record, `fclose` on the file
that is open, the file name, its directory, `wmseed__mkdir_p` on the directory (the return
value is dropped), and `fopen`, with `exit(1)` when `fopen` fails. A template that yields a
null pointer as the file name makes `wmseed__dirname` read through it, and a file name for
which `wmseed__dirname` has no result makes it write through a null pointer. -/
def wmseed__create_file_run (E : Env) (H : Host) (w : WMSeed E) (fs : Files E) (d : H.Disk)
    (t : Int) : Except Halt (WMSeed E × Files E × H.Disk) :=
  match wmseed__new_record_run E H { w with record_number := 0 } fs d t with
  | .error e => .error e
  | .ok p =>
    let w := p.1
    let fs :=
      match w.output with
      | some f => fclose E p.2.1 f
      | none => p.2.1
    match wmseed__filename E w t with
    | none => .error .undefined
    | some filename =>
      match wmseed__dirname H.SIZE_MAX (c_bytes filename) with
      | none => .error .undefined
      | some dirname =>
        match wmseed__mkdir_p H p.2.2 dirname with
        | .error e => .error e
        | .ok m =>
          match H.fopen m.2 (c_bytes filename) with
          | none => .error .exit1
          | some d2 =>
            let q := fopen E fs (some filename)
            .ok ({ w with output := some q.2 }, q.1, d2)

/-- Loop of lines 353-356 with the ends of `wmseed__new_record`; the fuel is that of
`wmseed__push`. -/
def wmseed__push_run (E : Env) (H : Host) (tt : Int) :
    Nat → WMSeed E → Files E → H.Disk → Int → Except Halt (WMSeed E × Files E × H.Disk)
  | 0, w, fs, d, _ => .ok (w, fs, d)
  | fuel + 1, w, fs, d, sample =>
    match miniseed_record_push_sample E w.record sample with
    | some r => .ok ({ w with record := r }, fs, d)
    | none =>
      match wmseed__new_record_run E H w fs d tt with
      | .error e => .error e
      | .ok p => wmseed__push_run E H tt fuel p.1 p.2.1 p.2.2 sample

/-- Loop of lines 347-358 with the ends of `wmseed__create_file` and `wmseed__new_record`; the
fuel is that of `wmseed__drain`. -/
def wmseed__drain_run (E : Env) (H : Host) (last_t last_sn : Int) (a : E.D)
    (split sample_number : Int) :
    Nat → WMSeed E → Files E → H.Disk → Except Halt (WMSeed E × Files E × H.Disk)
  | 0, w, fs, d => .ok (w, fs, d)
  | fuel + 1, w, fs, d =>
    if w.sb.items.length ≠ 0 ∧ w.sb.sample_number ≤ sample_number then
      let c :=
        if w.sb.sample_number = split then
          wmseed__create_file_run E H w fs d
            (wmseed__interp E last_t last_sn a w.sb.sample_number)
        else .ok (w, fs, d)
      match c with
      | .error e => .error e
      | .ok p =>
        let w := p.1
        let r := samplebuffer_pop w.sb
        let w := { w with sb := r.2 }
        match wmseed__push_run E H (wmseed__interp E last_t last_sn a (w.sb.sample_number - 1))
            2 w p.2.1 p.2.2 r.1 with
        | .error e => .error e
        | .ok q =>
          wmseed__drain_run E H last_t last_sn a split sample_number fuel
            { q.1 with data_pending := true } q.2.1 q.2.2
    else .ok (w, fs, d)

/-- The function `wmseed_time` (lines 311-365) for a writer that is not null, with the ends of
`wmseed__create_file` and `wmseed__new_record`: the return value, the writer, the files and
the file system, or the way the call ended the program. -/
def wmseed_time_run (E : Env) (H : Host) (w : WMSeed E) (fs : Files E) (d : H.Disk)
    (t sample_number : Int) : Except Halt (Int × WMSeed E × Files E × H.Disk) :=
  if w.last_sn = -1 then
    if sample_number ≠ 0 then .ok (-1, w, fs, d)
    else
      match wmseed__create_file_run E H { w with last_t := t, last_sn := sample_number }
          fs d t with
      | .error e => .error e
      | .ok p => .ok (0, p)
  else if sample_number ≤ w.last_sn ∨ t ≤ w.last_t then .ok (-1, w, fs, d)
  else if sample_number - w.last_sn < 1008 * 20 then .ok (0, w, fs, d)
  else
    let a := E.div (E.ofInt (t - w.last_t)) (E.ofInt (sample_number - w.last_sn))
    let off := 1000000 * E.tai_utc_diff t
    let split :=
      if w.cut ≠ 0 ∧ wmseed__div (w.last_t - off) w.cut ≠ wmseed__div (t - off) w.cut then
        let split_time := wmseed__div (t - off) w.cut * w.cut + off
        w.last_sn + E.toInt (E.ceil (E.div (E.ofInt (split_time - w.last_t)) a))
      else -1
    match wmseed__drain_run E H w.last_t w.last_sn a split sample_number w.sb.items.length
        w fs d with
    | .error e => .error e
    | .ok p => .ok (0, { p.1 with last_t := t, last_sn := sample_number }, p.2)

/-- Loop of lines 226-232 over the writers with the ends of `wmseed_time`: the return values
of the calls (which `main` drops), the writers, the files and the file system. A call that
ends the program ends the loop. -/
def time_all_run (E : Env) (H : Host) (t sample_number : Int) :
    List (WMSeed E) → Files E → H.Disk →
      Except Halt (List Int × List (WMSeed E) × Files E × H.Disk)
  | [], fs, d => .ok ([], [], fs, d)
  | w :: ws, fs, d =>
    match wmseed_time_run E H w fs d t sample_number with
    | .error e => .error e
    | .ok r =>
      match time_all_run E H t sample_number ws r.2.2.1 r.2.2.2 with
      | .error e => .error e
      | .ok p => .ok (r.1 :: p.1, r.2.1 :: p.2.1, p.2.2)

/-- Lines 221-257, what `main` does with a complete group, with the ends of `wmseed_time`: the
parser, the file system, the return values of the calls `wmseed_time` and those of the calls
`wmseed_sample` (which do not touch the files). -/
def frame_done_run (E : Env) (H : Host) (ck : Clock E) (st : Decoder E) (d : H.Disk) :
    Except Halt (Decoder E × H.Disk × List Int × List Int) :=
  if st.frame 0 % 2 = 1 then
    if st.frame 0 = 1 then
      match time_all_run E H (anchor_time E ck (st.frame 1)) st.sample_number st.channels
          st.fs d with
      | .error e => .error e
      | .ok p => .ok ({ st with have_time := true, channels := p.2.1, fs := p.2.2.1 },
          p.2.2.2, p.1, [])
    else if st.frame 0 = 13 then .ok ({ st with done := true }, d, [], [])
    else .ok (st, d, [], [])
  else if st.have_time then
    .ok ({ st with
        channels := sample_all E st.frame 0 st.channels
        sample_number := st.sample_number + 1 }, d, [],
      sample_all_rets E st.frame 0 st.channels)
  else .ok (st, d, [], [])

/-- Lines 212-258, the body of the loop over the words of a block for the word `v`, with the
ends of `wmseed_time`. -/
def frame_word_run (E : Env) (H : Host) (ck : Clock E) (channel_count : Nat) (st : Decoder E)
    (d : H.Disk) (v : Int) : Except Halt (Decoder E × H.Disk × List Int × List Int) :=
  if st.done then .ok (st, d, [], [])
  else
    let st :=
      if st.remaining = 0 then
        { st with
          frame := frame_set st.frame 0 v
          remaining := if v % 2 = 1 then 3 else (channel_count : Int) - 1
          pos := 1 }
      else
        { st with
          frame := frame_set st.frame st.pos v
          pos := st.pos + 1
          remaining := st.remaining - 1 }
    if st.remaining = 0 then frame_done_run E H ck st d else .ok (st, d, [], [])

/-- The loop over the words `ld_i32_be(block + j)` of the data blocks, in their order, with
the ends of `wmseed_time`: the parser and the file system after the last word, or the way the
program ended before. -/
def frame_words_run (E : Env) (H : Host) (ck : Clock E) (channel_count : Nat) :
    List Int → Decoder E → H.Disk → Except Halt (Decoder E × H.Disk)
  | [], st, d => .ok (st, d)
  | v :: vs, st, d =>
    match frame_word_run E H ck channel_count st d v with
    | .error e => .error e
    | .ok r => frame_words_run E H ck channel_count vs r.1 r.2.1

/-! ### File systems for the examples -/

/-- A file system for the examples. Its state is the list of the directories that were made;
`.` and `/` exist from the start. A directory can be made, and a file opened for writing,
where the enclosing directory exists; a record can always be written. -/
def ex_host : Host :=
  { Disk := List (List Nat)
    SIZE_MAX := 2 ^ 64 - 1
    stat := fun d p => if p ∈ d ∨ p = [46] ∨ p = [47] then some true else none
    mkdir := fun d p =>
      if spec_dirname p ∈ d ∨ spec_dirname p = [46] ∨ spec_dirname p = [47] then some (p :: d)
      else none
    fopen := fun d p =>
      if spec_dirname p ∈ d ∨ spec_dirname p = [46] ∨ spec_dirname p = [47] then some d
      else none
    fwrite := fun d _ => some d }

/-- A file system that takes no change: only `.` and `/` exist, and `mkdir`, `fopen` and
`fwrite` fail. -/
def ex_host_readonly : Host :=
  { Disk := Unit
    SIZE_MAX := 2 ^ 64 - 1
    stat := fun _ p => if p = [46] ∨ p = [47] then some true else none
    mkdir := fun _ _ => none
    fopen := fun _ _ => none
    fwrite := fun _ _ => none }

/-- Writers of two channels as `main` makes them for the option `--output=%S.mseed`, a
template without a directory. -/
def ex_channels_flat : List (WMSeed ex_env) :=
  main_channels ex_env (miniseed_record_init ex_env 0) "%S.mseed" "ST007" "" "" 100 86400
    ["H", "X"]

/-! ### An arithmetic that rounds, for the examples -/

theorem peek_length (x : Mem) (o n : Nat) : (peek x o n).length = n := by
  simp [peek]

theorem peek_getD (x : Mem) (o n k : Nat) (hk : k < n) : (peek x o n).getD k 0 = x (o + k) := by
  simp [peek, List.getD_eq_getElem?_getD, hk]

theorem peek_eq_iff (x : Mem) (o n : Nat) (l : List Nat) :
    peek x o n = l ↔ l.length = n ∧ ∀ k < n, x (o + k) = l.getD k 0 := by
  constructor
  · rintro rfl
    refine ⟨peek_length x o n, fun k hk => (peek_getD x o n k hk).symm⟩
  · rintro ⟨hl, h⟩
    apply List.ext_getElem
    · simp [peek, hl]
    · intro k h1 h2
      have hk : k < n := by simpa [peek] using h1
      simp [peek, h k hk, List.getD_eq_getElem?_getD, h2]

theorem memcmp_eq_zero_iff (x : Mem) (o : Nat) (s : List Nat) (n : Nat) :
    memcmp x o s n = 0 ↔ ∀ k < n, x (o + k) = s.getD k 0 := by
  have key : peek x o n = (List.range n).map (fun k => s.getD k 0) ↔
      ∀ k < n, x (o + k) = s.getD k 0 := by
    rw [peek_eq_iff]
    constructor
    · intro h' k hk
      have := h'.2 k hk
      simpa [List.getD_eq_getElem?_getD, hk] using this
    · intro h
      refine ⟨by simp, fun k hk => ?_⟩
      simp [List.getD_eq_getElem?_getD, hk, h k hk]
  unfold memcmp
  split
  · rename_i h; simpa using key.1 h
  · rename_i h; simpa using fun h' => h (key.2 h')

theorem memcmp_zero_or_one (x : Mem) (o : Nat) (s : List Nat) (n : Nat) :
    memcmp x o s n = 0 ∨ memcmp x o s n = 1 := by
  unfold memcmp; split <;> simp

theorem memcmp4_iff (x : Mem) (o : Nat) (t : List Nat) :
    memcmp x o t 4 = 0 ↔ TagAt x o t := by
  rw [memcmp_eq_zero_iff]
  unfold TagAt
  constructor
  · intro h
    exact ⟨by simpa using h 0 (by omega), h 1 (by omega), h 2 (by omega), h 3 (by omega)⟩
  · rintro ⟨h0, h1, h2, h3⟩ k hk
    have : k = 0 ∨ k = 1 ∨ k = 2 ∨ k = 3 := by omega
    rcases this with rfl | rfl | rfl | rfl <;> simp_all

theorem strlen_go_le (x : Mem) (o fuel : Nat) : strlen_go x o fuel ≤ fuel := by
  induction fuel generalizing o with
  | zero => simp [strlen_go]
  | succ f ih =>
    simp only [strlen_go]
    split
    · omega
    · have := ih (o + 1); omega

theorem strlen_go_nonzero (x : Mem) (o fuel k : Nat) (hk : k < strlen_go x o fuel) :
    x (o + k) ≠ 0 := by
  induction fuel generalizing o k with
  | zero => simp [strlen_go] at hk
  | succ f ih =>
    simp only [strlen_go] at hk
    split at hk
    · omega
    · rename_i h0
      cases k with
      | zero => simpa using h0
      | succ k =>
        have := ih (o + 1) k (by omega)
        rwa [show o + 1 + k = o + (k + 1) by omega] at this

theorem strlen_go_zero (x : Mem) (o fuel : Nat) (h : strlen_go x o fuel < fuel) :
    x (o + strlen_go x o fuel) = 0 := by
  induction fuel generalizing o with
  | zero => omega
  | succ f ih =>
    simp only [strlen_go] at h ⊢
    split
    · simpa
    · rename_i h0
      rw [if_neg h0] at h
      have := ih (o + 1) (by omega)
      rwa [show o + 1 + strlen_go x (o + 1) f = o + (strlen_go x (o + 1) f + 1) by omega] at this

theorem strlen_go_eq (x : Mem) (o fuel n : Nat) (hn : n < fuel)
    (h1 : ∀ k < n, x (o + k) ≠ 0) (h2 : x (o + n) = 0) : strlen_go x o fuel = n := by
  induction fuel generalizing o n with
  | zero => omega
  | succ f ih =>
    simp only [strlen_go]
    cases n with
    | zero => simp at h2; simp [h2]
    | succ n =>
      have h0 : x o ≠ 0 := by simpa using h1 0 (by omega)
      rw [if_neg h0]
      have := ih (o + 1) n (by omega)
        (fun k hk => by have := h1 (k + 1) (by omega); rwa [show o + 1 + k = o + (k + 1) by omega])
        (by rwa [show o + 1 + n = o + (n + 1) by omega])
      omega

/-- Total correctness of the `strlen` model where the decoder uses it: on a block whose byte 511
is zero, from an offset inside the block, the scan ends at the first zero byte, inside the
block. -/
theorem strlen_spec (x : Mem) (o : Nat) (h511 : x 511 = 0) (ho : o < 512) :
    o + strlen x o < 512 ∧ x (o + strlen x o) = 0 ∧ ∀ k < strlen x o, x (o + k) ≠ 0 := by
  have hnz := strlen_go_nonzero x o 512
  have hle : o + strlen x o < 512 := by
    by_contra hc
    have : 511 - o < strlen_go x o 512 := by unfold strlen at hc; omega
    have := hnz (511 - o) this
    rw [show o + (511 - o) = 511 by omega] at this
    exact this h511
  refine ⟨hle, ?_, fun k hk => hnz k hk⟩
  apply strlen_go_zero
  unfold strlen at hle; omega

theorem strlen_eq (x : Mem) (o n : Nat) (hn : n < 512)
    (h1 : ∀ k < n, x (o + k) ≠ 0) (h2 : x (o + n) = 0) : strlen x o = n :=
  strlen_go_eq x o 512 n hn h1 h2

/-! ## Lemmas on the decoder steps -/

theorem bind_ok_iff {ε α β : Type} (a : Except ε α) (f : α → Except ε β) (r : β) :
    (a >>= f) = .ok r ↔ ∃ v, a = .ok v ∧ f v = .ok r := by
  cases a <;> simp [bind, Except.bind]

theorem ADV_O_ok_iff (a : Nat) (h : kum_6d6_header) (o : Nat) (s : RdState) :
    ADV_O a (h, o) = .ok s ↔ o + a < 512 ∧ s = (h, o + a) := by
  unfold ADV_O
  split
  · simp; omega
  · simp only [Except.ok.injEq]
    constructor
    · rintro rfl; exact ⟨by omega, rfl⟩
    · rintro ⟨_, rfl⟩; rfl

theorem rd_tag_ok_iff (x : Mem) (t : List Nat) (h : kum_6d6_header) (o : Nat) (s : RdState) :
    rd_tag x t (h, o) = .ok s ↔ TagAt x o t ∧ o + 4 < 512 ∧ s = (h, o + 4) := by
  unfold rd_tag
  rw [← memcmp4_iff]
  split
  · rename_i hne; simp; intro h0; exact absurd h0 hne
  · rename_i hne
    simp only [ne_eq, not_not] at hne
    simp [ADV_O_ok_iff, hne]

theorem zrun_go_zero (x : Mem) (o fuel k : Nat) (hk : k < zrun_go x o fuel) : x (o + k) = 0 := by
  induction fuel generalizing o k with
  | zero => simp [zrun_go] at hk
  | succ f ih =>
    simp only [zrun_go] at hk
    split at hk
    · omega
    · rename_i h0
      cases k with
      | zero => simpa using h0
      | succ k =>
        have := ih (o + 1) k (by omega)
        rwa [show o + 1 + k = o + (k + 1) by omega] at this

theorem zrun_go_le (x : Mem) (o fuel : Nat) : zrun_go x o fuel ≤ fuel := by
  induction fuel generalizing o with
  | zero => simp [zrun_go]
  | succ f ih =>
    simp only [zrun_go]
    split
    · omega
    · have := ih (o + 1); omega

theorem zrun_go_nonzero (x : Mem) (o fuel : Nat) (h : zrun_go x o fuel < fuel) :
    x (o + zrun_go x o fuel) ≠ 0 := by
  induction fuel generalizing o with
  | zero => omega
  | succ f ih =>
    simp only [zrun_go] at h ⊢
    split
    · simpa
    · rename_i h0
      rw [if_neg h0] at h
      have := ih (o + 1) (by omega)
      rwa [show o + 1 + zrun_go x (o + 1) f = o + (zrun_go x (o + 1) f + 1) by omega] at this

theorem zrun_go_eq (x : Mem) (o fuel n : Nat) (hn : n < fuel)
    (h1 : ∀ k < n, x (o + k) = 0) (h2 : x (o + n) ≠ 0) : zrun_go x o fuel = n := by
  induction fuel generalizing o n with
  | zero => omega
  | succ f ih =>
    simp only [zrun_go]
    cases n with
    | zero => simp at h2; simp [h2]
    | succ n =>
      have h0 : x o = 0 := by simpa using h1 0 (by omega)
      simp only [h0, ne_eq, not_true_eq_false, if_false]
      have := ih (o + 1) n (by omega)
        (fun k hk => by have := h1 (k + 1) (by omega); rwa [show o + 1 + k = o + (k + 1) by omega])
        (by rwa [show o + 1 + n = o + (n + 1) by omega])
      omega

theorem le_first_nonzero (x : Mem) (p : Nat) : p ≤ first_nonzero x p := by
  unfold first_nonzero; omega

/-- What `first_nonzero` is, when it lands inside the block: the bytes from `p` up to it are
zero and the byte there is not. -/
theorem first_nonzero_spec (x : Mem) (p : Nat) (h : first_nonzero x p < 512) :
    x (first_nonzero x p) ≠ 0 ∧ ∀ j, p ≤ j → j < first_nonzero x p → x j = 0 := by
  unfold first_nonzero at *
  refine ⟨zrun_go_nonzero x p 512 (by omega), fun j h1 h2 => ?_⟩
  have := zrun_go_zero x p 512 (j - p) (by omega)
  rwa [show p + (j - p) = j by omega] at this

theorem first_nonzero_eq (x : Mem) (p q : Nat) (hq : q < p + 512) (hpq : p ≤ q)
    (h1 : ∀ j, p ≤ j → j < q → x j = 0) (h2 : x q ≠ 0) : first_nonzero x p = q := by
  unfold first_nonzero
  have := zrun_go_eq x p 512 (q - p) (by omega)
    (fun k hk => h1 (p + k) (by omega) (by omega))
    (by rwa [show p + (q - p) = q by omega])
  omega

theorem SKIP0_go_ok_iff (x : Mem) (h : kum_6d6_header) (o fuel : Nat) (s : RdState)
    (ho : o < 512) (hf : 512 ≤ o + fuel) :
    SKIP0_go x h o fuel = .ok s ↔ o + zrun_go x o fuel < 512 ∧ s = (h, o + zrun_go x o fuel) := by
  induction fuel generalizing o with
  | zero => omega
  | succ f ih =>
    simp only [SKIP0_go, zrun_go]
    by_cases h0 : x o ≠ 0
    · rw [if_pos h0, if_pos h0]
      simp only [Except.ok.injEq, Nat.add_zero]
      constructor
      · rintro rfl; exact ⟨ho, rfl⟩
      · rintro ⟨_, rfl⟩; rfl
    · rw [if_neg h0, if_neg h0]
      by_cases h1 : o + 1 ≥ 512
      · rw [if_pos h1]
        constructor
        · intro h; cases h
        · rintro ⟨h2, _⟩; omega
      · rw [if_neg h1]
        rw [ih (o + 1) (by omega) (by omega)]
        rw [show o + 1 + zrun_go x (o + 1) f = o + (zrun_go x (o + 1) f + 1) by omega]

theorem SKIP0_ok_iff (x : Mem) (h : kum_6d6_header) (o : Nat) (s : RdState) (ho : o < 512) :
    SKIP0 x (h, o) = .ok s ↔ first_nonzero x o < 512 ∧ s = (h, first_nonzero x o) :=
  SKIP0_go_ok_iff x h o 512 s ho (by omega)

theorem rd_string_ok_iff (x : Mem) (size : Nat)
    (put : kum_6d6_header → List Nat → kum_6d6_header) (h : kum_6d6_header) (o : Nat)
    (s : RdState) :
    rd_string x size put true (h, o) = .ok s ↔
      strlen x o < size ∧ o + strlen x o + 1 < 512 ∧
        s = (put h (str_field x o size), o + (strlen x o + 1)) := by
  unfold rd_string
  simp only [ge_iff_le, if_true, str_field]
  split
  · constructor
    · intro h; cases h
    · rintro ⟨h1, _⟩; omega
  · rw [ADV_O_ok_iff]
    constructor
    · rintro ⟨h1, rfl⟩; exact ⟨by omega, by omega, rfl⟩
    · rintro ⟨_, h1, rfl⟩; exact ⟨by omega, rfl⟩

/-- A tagged string field followed by `SKIP0()`, as in lines 87-95. -/
theorem rd_field_ok_iff (x : Mem) (t : List Nat) (size : Nat)
    (put : kum_6d6_header → List Nat → kum_6d6_header) (h : kum_6d6_header) (o : Nat)
    (s : RdState) :
    (rd_tag x t (h, o) >>= fun s => rd_string x size put true s >>= fun s => SKIP0 x s) = .ok s ↔
      TagAt x o t ∧ strlen x (o + 4) < size ∧ next_tag x o < 512 ∧
        s = (put h (str_field x (o + 4) size), next_tag x o) := by
  simp only [bind_ok_iff, rd_tag_ok_iff, Prod.exists, rd_string_ok_iff, Prod.mk.injEq]
  unfold next_tag
  have hle := le_first_nonzero x (o + 4 + strlen x (o + 4) + 1)
  constructor
  · rintro ⟨h1, o1, ⟨ht, ho, rfl, rfl⟩, h2, o2, ⟨hs, ho2, rfl, rfl⟩, hk⟩
    rw [SKIP0_ok_iff _ _ _ _ (by omega)] at hk
    exact ⟨ht, hs, hk.1, hk.2⟩
  · rintro ⟨ht, hs, hn, rfl⟩
    refine ⟨h, o + 4, ⟨ht, by omega, rfl, rfl⟩, _, _, ⟨hs, by omega, rfl, rfl⟩, ?_⟩
    rw [SKIP0_ok_iff _ _ _ _ (by omega)]
    exact ⟨hn, rfl⟩

theorem ld_u8_be_eq (x : Mem) (o : Nat) : ld_u8_be x o = x o := by
  simp [ld_u8_be, ld_be]

theorem rd_version_ok_iff (x : Mem) (h : kum_6d6_header) (s : RdState) :
    rd_version x (h, 0) = .ok s ↔
      s = ({ h with version := if TagAt x 0 tag_6D6 then 2 else 1 }, off_v x) := by
  unfold rd_version off_v
  simp only [memcmp4_iff]
  split
  · rw [ADV_O_ok_iff]; simp
  · simp only [Except.ok.injEq]; exact eq_comm

theorem rd_time_ok_iff (x : Mem) (h : kum_6d6_header) (o : Nat) (s : RdState) :
    rd_time x (h, o) = .ok s ↔ TagAt x o tag_time ∧ o + 10 < 512 ∧
      s = ({ h with start_time := peek x (o + 4) 6 }, o + 10) := by
  unfold rd_time
  simp only [bind_ok_iff, rd_tag_ok_iff, ADV_O_ok_iff]
  constructor
  · rintro ⟨v, ⟨ht, _, rfl⟩, h2, rfl⟩; exact ⟨ht, by omega, rfl⟩
  · rintro ⟨ht, h2, rfl⟩; exact ⟨_, ⟨ht, by omega, rfl⟩, by omega, rfl⟩

theorem rd_sync_ok_iff (d : Decls) (x : Mem) (h : kum_6d6_header) (o : Nat) (s : RdState) :
    rd_sync d x (h, o) = .ok s ↔ o + 14 < 512 ∧
      s = ({ h with
              sync_type :=
                if TagAt x o tag_sync ∧ d.bcd_valid (peek x (o + 4) 6) = true then .SYNC
                else if TagAt x o tag_skew ∧ d.bcd_valid (peek x (o + 4) 6) = true then .SKEW
                else .NONE
              sync_time :=
                if (TagAt x o tag_sync ∧ d.bcd_valid (peek x (o + 4) 6) = true) ∨
                    (TagAt x o tag_skew ∧ d.bcd_valid (peek x (o + 4) 6) = true) then
                  peek x (o + 4) 6
                else List.replicate 6 0
              skew :=
                if (TagAt x o tag_sync ∧ d.bcd_valid (peek x (o + 4) 6) = true) ∨
                    (TagAt x o tag_skew ∧ d.bcd_valid (peek x (o + 4) 6) = true) then
                  ld_i32_be x (o + 10)
                else 0 }, o + 14) := by
  unfold rd_sync
  simp only [memcmp4_iff, ADV_O_ok_iff]
  by_cases hs : TagAt x o tag_sync <;> by_cases hk : TagAt x o tag_skew <;>
    by_cases hb : d.bcd_valid (peek x (o + 4) 6) = true <;> simp [hs, hk, hb]

theorem rd_addr_ok_iff (x : Mem) (h : kum_6d6_header) (o : Nat) (s : RdState) :
    rd_addr x (h, o) = .ok s ↔ TagAt x o tag_addr ∧ o + 8 < 512 ∧
      s = ({ h with address := ld_u32_be x (o + 4) }, o + 8) := by
  unfold rd_addr
  simp only [bind_ok_iff, rd_tag_ok_iff, ADV_O_ok_iff]
  constructor
  · rintro ⟨v, ⟨ht, _, rfl⟩, h2, rfl⟩; exact ⟨ht, by omega, rfl⟩
  · rintro ⟨ht, h2, rfl⟩; exact ⟨_, ⟨ht, by omega, rfl⟩, by omega, rfl⟩

theorem rd_rate_ok_iff (x : Mem) (h : kum_6d6_header) (o : Nat) (s : RdState) :
    rd_rate x (h, o) = .ok s ↔ TagAt x o tag_rate ∧ o + 6 < 512 ∧
      s = ({ h with sample_rate := ld_u16_be x (o + 4) }, o + 6) := by
  unfold rd_rate
  simp only [bind_ok_iff, rd_tag_ok_iff, ADV_O_ok_iff]
  constructor
  · rintro ⟨v, ⟨ht, _, rfl⟩, h2, rfl⟩; exact ⟨ht, by omega, rfl⟩
  · rintro ⟨ht, h2, rfl⟩; exact ⟨_, ⟨ht, by omega, rfl⟩, by omega, rfl⟩

theorem rd_writ_ok_iff (x : Mem) (h : kum_6d6_header) (o : Nat) (s : RdState) :
    rd_writ x (h, o) = .ok s ↔ TagAt x o tag_writ ∧ o + 12 < 512 ∧
      s = ({ h with written_samples := ld_u64_be x (o + 4) }, o + 12) := by
  unfold rd_writ
  simp only [bind_ok_iff, rd_tag_ok_iff, ADV_O_ok_iff]
  constructor
  · rintro ⟨v, ⟨ht, _, rfl⟩, h2, rfl⟩; exact ⟨ht, by omega, rfl⟩
  · rintro ⟨ht, h2, rfl⟩; exact ⟨_, ⟨ht, by omega, rfl⟩, by omega, rfl⟩

theorem rd_lost_ok_iff (x : Mem) (h : kum_6d6_header) (o : Nat) (s : RdState) :
    rd_lost x (h, o) = .ok s ↔ TagAt x o tag_lost ∧ o + 8 < 512 ∧
      s = ({ h with lost_samples := ld_u32_be x (o + 4) }, o + 8) := by
  unfold rd_lost
  simp only [bind_ok_iff, rd_tag_ok_iff, ADV_O_ok_iff]
  constructor
  · rintro ⟨v, ⟨ht, _, rfl⟩, h2, rfl⟩; exact ⟨ht, by omega, rfl⟩
  · rintro ⟨ht, h2, rfl⟩; exact ⟨_, ⟨ht, by omega, rfl⟩, by omega, rfl⟩

theorem rd_chan_ok_iff (d : Decls) (x : Mem) (h : kum_6d6_header) (o : Nat) (s : RdState) :
    rd_chan d x (h, o) = .ok s ↔ TagAt x o tag_chan ∧
      (1 ≤ x (o + 4) ∧ x (o + 4) ≤ d.KUM_6D6_MAX_CHANNEL_COUNT) ∧ o + 5 < 512 ∧
      s = ({ h with channel_count := x (o + 4) }, o + 5) := by
  unfold rd_chan
  simp only [bind_ok_iff, rd_tag_ok_iff, ld_u8_be_eq]
  constructor
  · rintro ⟨v, ⟨ht, _, rfl⟩, h2⟩
    dsimp only at h2
    split at h2
    · cases h2
    · rw [ADV_O_ok_iff] at h2
      exact ⟨ht, by omega, by omega, h2.2⟩
  · rintro ⟨ht, hc, h2, rfl⟩
    refine ⟨_, ⟨ht, by omega, rfl⟩, ?_⟩
    dsimp only
    rw [if_neg (by omega), ADV_O_ok_iff]
    exact ⟨by omega, rfl⟩

theorem rd_gain_ok_iff (d : Decls) (x : Mem) (h : kum_6d6_header) (o : Nat) (s : RdState) :
    rd_gain d x (h, o) = .ok s ↔ TagAt x o tag_gain ∧ o + 4 + h.channel_count < 512 ∧
      s = ({ h with gain := peek x (o + 4) h.channel_count ++
              List.replicate (d.KUM_6D6_MAX_CHANNEL_COUNT - h.channel_count) 0 },
            o + 4 + h.channel_count) := by
  unfold rd_gain
  simp only [bind_ok_iff, rd_tag_ok_iff, ADV_O_ok_iff]
  constructor
  · rintro ⟨v, ⟨ht, _, rfl⟩, h2, rfl⟩; exact ⟨ht, h2, rfl⟩
  · rintro ⟨ht, h2, rfl⟩; exact ⟨_, ⟨ht, by omega, rfl⟩, h2, rfl⟩

theorem rd_bitd_ok_iff (x : Mem) (h : kum_6d6_header) (o : Nat) (s : RdState) :
    rd_bitd x (h, o) = .ok s ↔ TagAt x o tag_bitd ∧ o + 5 < 512 ∧
      s = ({ h with bit_depth := ld_u8_be x (o + 4) }, o + 5) := by
  unfold rd_bitd
  simp only [bind_ok_iff, rd_tag_ok_iff, ADV_O_ok_iff]
  constructor
  · rintro ⟨v, ⟨ht, _, rfl⟩, h2, rfl⟩; exact ⟨ht, by omega, rfl⟩
  · rintro ⟨ht, h2, rfl⟩; exact ⟨_, ⟨ht, by omega, rfl⟩, by omega, rfl⟩

theorem rd_rcid_ok_iff (d : Decls) (x : Mem) (h : kum_6d6_header) (o : Nat) (s : RdState) :
    rd_rcid d x (h, o) = .ok s ↔
      TagAt x o tag_rcid ∧ strlen x (o + 4) < d.sizeof_recorder_id ∧ next_tag x o < 512 ∧
        s = ({ h with recorder_id := str_field x (o + 4) d.sizeof_recorder_id }, next_tag x o) :=
  rd_field_ok_iff x tag_rcid _ _ h o s

theorem rd_rtci_ok_iff (d : Decls) (x : Mem) (h : kum_6d6_header) (o : Nat) (s : RdState) :
    rd_rtci d x (h, o) = .ok s ↔
      TagAt x o tag_rtci ∧ strlen x (o + 4) < d.sizeof_rtc_id ∧ next_tag x o < 512 ∧
        s = ({ h with rtc_id := str_field x (o + 4) d.sizeof_rtc_id }, next_tag x o) :=
  rd_field_ok_iff x tag_rtci _ _ h o s

theorem rd_lati_ok_iff (d : Decls) (x : Mem) (h : kum_6d6_header) (o : Nat) (s : RdState) :
    rd_lati d x (h, o) = .ok s ↔
      TagAt x o tag_lati ∧ strlen x (o + 4) < d.sizeof_latitude ∧ next_tag x o < 512 ∧
        s = ({ h with latitude := str_field x (o + 4) d.sizeof_latitude }, next_tag x o) :=
  rd_field_ok_iff x tag_lati _ _ h o s

theorem rd_logi_ok_iff (d : Decls) (x : Mem) (h : kum_6d6_header) (o : Nat) (s : RdState) :
    rd_logi d x (h, o) = .ok s ↔
      TagAt x o tag_logi ∧ strlen x (o + 4) < d.sizeof_longitude ∧ next_tag x o < 512 ∧
        s = ({ h with longitude := str_field x (o + 4) d.sizeof_longitude }, next_tag x o) :=
  rd_field_ok_iff x tag_logi _ _ h o s

theorem name_at_succ (x : Mem) (base i : Nat) :
    name_at x base (i + 1) = name_at x (base + strlen x base + 1) i := by
  induction i with
  | zero => rfl
  | succ i ih => rw [name_at, ih]; rfl

theorem name_at_mono (x : Mem) (base i j : Nat) (h : i ≤ j) :
    name_at x base i + (j - i) ≤ name_at x base j := by
  induction j with
  | zero => have : i = 0 := by omega
            subst this; simp
  | succ j ih =>
    by_cases hij : i = j + 1
    · subst hij; simp
    · have := ih (by omega)
      simp only [name_at]
      omega

theorem rd_names_ok_iff (d : Decls) (x : Mem) (i k : Nat) (h : kum_6d6_header) (o : Nat)
    (s : RdState) (ho : o < 512) :
    rd_names d x i k (h, o) = .ok s ↔
      (∀ j < k, strlen x (name_at x o j) < d.sizeof_channel_name) ∧ name_at x o k < 512 ∧
        s = ({ h with channel_names := names_set d x o i k h.channel_names }, name_at x o k) := by
  induction k generalizing i h o with
  | zero =>
    simp only [rd_names, names_set, name_at, Except.ok.injEq]
    constructor
    · rintro rfl; exact ⟨fun j hj => by omega, ho, rfl⟩
    · rintro ⟨_, _, rfl⟩; rfl
  | succ k ih =>
    simp only [rd_names, bind_ok_iff, rd_string_ok_iff, names_set]
    constructor
    · rintro ⟨v, ⟨hs, ho1, rfl⟩, hr⟩
      rw [ih _ _ _ (by omega)] at hr
      obtain ⟨h1, h2, rfl⟩ := hr
      refine ⟨fun j hj => ?_, ?_, ?_⟩
      · cases j with
        | zero => exact hs
        | succ j => rw [name_at_succ]; exact h1 j (by omega)
      · rw [name_at_succ]; exact h2
      · rw [name_at_succ]; rfl
    · rintro ⟨h1, h2, rfl⟩
      have hm := name_at_mono x o 1 (k + 1) (by omega)
      have e1 : name_at x o 1 = o + strlen x o + 1 := rfl
      refine ⟨_, ⟨h1 0 (by omega), by omega, rfl⟩, ?_⟩
      rw [ih _ _ _ (by omega)]
      refine ⟨fun j hj => ?_, ?_, ?_⟩
      · have := h1 (j + 1) (by omega); rwa [name_at_succ] at this
      · rwa [name_at_succ] at h2
      · rw [name_at_succ]; rfl

theorem rd_alia_ok_iff (d : Decls) (x : Mem) (h : kum_6d6_header) (o : Nat) (s : RdState) :
    rd_alia d x (h, o) = .ok s ↔
      TagAt x o tag_alia ∧
      (∀ j < h.channel_count, strlen x (name_at x (o + 4) j) < d.sizeof_channel_name) ∧
      first_nonzero x (name_at x (o + 4) h.channel_count) < 512 ∧
      s = ({ h with channel_names := names_set d x (o + 4) 0 h.channel_count h.channel_names },
            first_nonzero x (name_at x (o + 4) h.channel_count)) := by
  unfold rd_alia
  simp only [bind_ok_iff, rd_tag_ok_iff]
  have hle := le_first_nonzero x (name_at x (o + 4) h.channel_count)
  constructor
  · rintro ⟨v, ⟨ht, ho, rfl⟩, w, hn, hk⟩
    rw [rd_names_ok_iff _ _ _ _ _ _ _ ho] at hn
    obtain ⟨h1, h2, rfl⟩ := hn
    rw [SKIP0_ok_iff _ _ _ _ h2] at hk
    exact ⟨ht, h1, hk.1, hk.2⟩
  · rintro ⟨ht, h1, h2, rfl⟩
    have hm := name_at_mono x (o + 4) 0 h.channel_count (by omega)
    simp only [name_at] at hm
    have ho : o + 4 < 512 := by omega
    have hlt : name_at x (o + 4) h.channel_count < 512 := by omega
    refine ⟨_, ⟨ht, ho, rfl⟩, _, (rd_names_ok_iff _ _ _ _ _ _ _ ho).2 ⟨h1, hlt, rfl⟩, ?_⟩
    rw [SKIP0_ok_iff _ _ _ _ hlt]
    exact ⟨h2, rfl⟩

theorem rd_cmnt_ok_iff (d : Decls) (x : Mem) (h : kum_6d6_header) (o : Nat) (s : RdState) :
    rd_cmnt d x (h, o) = .ok s ↔
      TagAt x o tag_cmnt ∧ o + 4 < 512 ∧ strlen x (o + 4) < d.sizeof_comment ∧
      s = ({ h with comment := str_field x (o + 4) d.sizeof_comment }, o + 4) := by
  unfold rd_cmnt
  simp only [bind_ok_iff, rd_tag_ok_iff]
  constructor
  · rintro ⟨v, ⟨ht, ho, rfl⟩, hr⟩
    unfold rd_string at hr
    simp only [ge_iff_le] at hr
    split at hr
    · cases hr
    · simp only [Bool.false_eq_true, if_false, Except.ok.injEq] at hr
      exact ⟨ht, ho, by omega, hr.symm⟩
  · rintro ⟨ht, ho, hs, rfl⟩
    refine ⟨_, ⟨ht, ho, rfl⟩, ?_⟩
    unfold rd_string
    simp only [ge_iff_le]
    rw [if_neg (by omega)]
    rfl

theorem cnt_def (x : Mem) : x (off_v x + 62) = cnt x := rfl
theorem at_rcid_def (x : Mem) : off_v x + 72 + cnt x = at_rcid x := rfl
theorem at_rtci_def (x : Mem) : next_tag x (at_rcid x) = at_rtci x := rfl
theorem at_lati_def (x : Mem) : next_tag x (at_rtci x) = at_lati x := rfl
theorem at_logi_def (x : Mem) : next_tag x (at_lati x) = at_logi x := rfl
theorem at_alia_def (x : Mem) : next_tag x (at_logi x) = at_alia x := rfl
theorem at_cmnt_def (x : Mem) :
    first_nonzero x (name_at x (at_alia x + 4) (cnt x)) = at_cmnt x := rfl

theorem off_v_le (x : Mem) : off_v x ≤ 4 := by
  unfold off_v; split <;> omega

theorem le_next_tag (x : Mem) (o : Nat) : o + 5 ≤ next_tag x o := by
  have := le_first_nonzero x (o + 4 + strlen x (o + 4) + 1)
  unfold next_tag; omega

theorem le_at_cmnt (x : Mem) : at_alia x + 4 + cnt x ≤ at_cmnt x := by
  have h1 := le_first_nonzero x (name_at x (at_alia x + 4) (cnt x))
  have h2 := name_at_mono x (at_alia x + 4) 0 (cnt x) (by omega)
  simp only [name_at] at h2
  unfold at_cmnt; omega

theorem rd_all_ok_iff (d : Decls) (x : Mem) (h0 : kum_6d6_header) (s : RdState)
    (h511 : x 511 = 0) :
    rd_all d x (h0, 0) = .ok s ↔ Grammar d x ∧ s = (decoded d h0 x, at_cmnt x + 4) := by
  unfold rd_all
  simp only [bind_ok_iff, Prod.exists, rd_version_ok_iff, rd_time_ok_iff, rd_sync_ok_iff,
    rd_addr_ok_iff, rd_rate_ok_iff, rd_writ_ok_iff, rd_lost_ok_iff, rd_chan_ok_iff,
    rd_gain_ok_iff, rd_bitd_ok_iff, rd_rcid_ok_iff, rd_rtci_ok_iff, rd_lati_ok_iff,
    rd_logi_ok_iff, rd_alia_ok_iff, rd_cmnt_ok_iff, Prod.mk.injEq, and_assoc,
    exists_and_left, exists_eq_left]
  have e1 : off_v x + 10 + 14 = off_v x + 24 := by omega
  have e2 : off_v x + 24 + 8 = off_v x + 32 := by omega
  have e3 : off_v x + 32 + 6 = off_v x + 38 := by omega
  have e4 : off_v x + 38 + 12 = off_v x + 50 := by omega
  have e5 : off_v x + 50 + 8 = off_v x + 58 := by omega
  have e6 : off_v x + 58 + 4 = off_v x + 62 := by omega
  have e7 : off_v x + 58 + 5 = off_v x + 63 := by omega
  have e8 : off_v x + 63 + 4 = off_v x + 67 := by omega
  have e9 : off_v x + 67 + cnt x + 5 = off_v x + 72 + cnt x := by omega
  have e10 : off_v x + 10 + 4 = off_v x + 14 := by omega
  have e11 : off_v x + 10 + 10 = off_v x + 20 := by omega
  have e12 : off_v x + 24 + 4 = off_v x + 28 := by omega
  have e13 : off_v x + 32 + 4 = off_v x + 36 := by omega
  have e14 : off_v x + 38 + 4 = off_v x + 42 := by omega
  have e15 : off_v x + 50 + 4 = off_v x + 54 := by omega
  have e16 : off_v x + 67 + cnt x + 4 = off_v x + 71 + cnt x := by omega
  simp only [e1, e2, e3, e4, e5, e6, e7, e8, cnt_def, e9, e10, e11, e12, e13, e14, e15, e16,
    at_rcid_def, at_rtci_def, at_lati_def, at_logi_def, at_alia_def, at_cmnt_def]
  have hv := off_v_le x
  constructor
  · rintro ⟨t1, -, -, t2, -, t3, -, t4, -, t5, -, t6, c1, c2, -, t7, -, t8, -, t9, s9, -, t10, s10,
      -, t11, s11, -, t12, s12, -, t13, s13, -, t14, b14, s14, rfl⟩
    exact ⟨⟨h511, t1, t2, t3, t4, t5, t6, ⟨c1, c2⟩, t7, t8, ⟨t9, s9⟩, ⟨t10, s10⟩, ⟨t11, s11⟩,
      ⟨t12, s12⟩, ⟨t13, s13⟩, ⟨t14, s14⟩, b14⟩, rfl⟩
  · rintro ⟨⟨-, t1, t2, t3, t4, t5, t6, ⟨c1, c2⟩, t7, t8, ⟨t9, s9⟩, ⟨t10, s10⟩, ⟨t11, s11⟩,
      ⟨t12, s12⟩, ⟨t13, s13⟩, ⟨t14, s14⟩, b14⟩, rfl⟩
    have m1 := le_next_tag x (at_rcid x)
    have m2 := le_next_tag x (at_rtci x)
    have m3 := le_next_tag x (at_lati x)
    have m4 := le_next_tag x (at_logi x)
    have m5 := le_at_cmnt x
    rw [at_rtci_def] at m1
    rw [at_lati_def] at m2
    rw [at_logi_def] at m3
    rw [at_alia_def] at m4
    have m0 : at_rcid x = off_v x + 72 + cnt x := rfl
    exact ⟨t1, by omega, by omega, t2, by omega, t3, by omega, t4, by omega, t5, by omega, t6,
      c1, c2, by omega, t7, by omega, t8, by omega, t9, s9, by omega, t10, s10, by omega, t11,
      s11, by omega, t12, s12, by omega, t13, s13, by omega, t14, b14, s14, rfl⟩

theorem read_ok_iff (d : Decls) (h0 : kum_6d6_header) (x : Mem) (h : kum_6d6_header) :
    kum_6d6_header_read d h0 x = (0, h) ↔ Grammar d x ∧ h = decoded d h0 x := by
  unfold kum_6d6_header_read
  by_cases h511 : x 511 = 0
  · rw [if_neg (by simpa using h511)]
    cases hr : rd_all d x (h0, 0) with
    | ok s =>
      rw [rd_all_ok_iff d x h0 s h511] at hr
      obtain ⟨hg, rfl⟩ := hr
      simp only [Prod.mk.injEq, true_and]
      exact ⟨fun e => ⟨hg, e.symm⟩, fun e => e.2.symm⟩
    | error e =>
      simp only [Prod.mk.injEq]
      constructor
      · rintro ⟨h1, _⟩; simp at h1
      · rintro ⟨hg, rfl⟩
        have := (rd_all_ok_iff d x h0 (decoded d h0 x, at_cmnt x + 4) h511).2 ⟨hg, rfl⟩
        rw [hr] at this; cases this
  · rw [if_pos (by simpa using h511)]
    simp only [Prod.mk.injEq]
    constructor
    · rintro ⟨h1, _⟩; simp at h1
    · rintro ⟨hg, _⟩; exact absurd hg.1 h511

/-- The decoder returns 0 or -1. -/
theorem read_ret (d : Decls) (h0 : kum_6d6_header) (x : Mem) :
    (kum_6d6_header_read d h0 x).1 = 0 ∨ (kum_6d6_header_read d h0 x).1 = -1 := by
  unfold kum_6d6_header_read
  split
  · right; rfl
  · split
    · left; rfl
    · right; rfl

theorem read_ret_zero_iff (d : Decls) (h0 : kum_6d6_header) (x : Mem) :
    (kum_6d6_header_read d h0 x).1 = 0 ↔ Grammar d x := by
  constructor
  · intro h
    have : kum_6d6_header_read d h0 x = (0, (kum_6d6_header_read d h0 x).2) := by
      rw [← h]
    exact ((read_ok_iff d h0 x _).1 this).1
  · intro hg
    rw [(read_ok_iff d h0 x _).2 ⟨hg, rfl⟩]

theorem read_of_grammar (d : Decls) (h0 : kum_6d6_header) (x : Mem) (hg : Grammar d x) :
    kum_6d6_header_read d h0 x = (0, decoded d h0 x) :=
  (read_ok_iff d h0 x _).2 ⟨hg, rfl⟩

/-! ## Lemmas on the encoder steps -/

theorem holds_nil (x : Mem) (o : Nat) : Holds x o [] := by
  intro k hk; simp at hk

theorem holds_append (x : Mem) (o : Nat) (a b : List Nat) :
    Holds x o (a ++ b) ↔ Holds x o a ∧ Holds x (o + a.length) b := by
  unfold Holds
  constructor
  · intro h
    constructor
    · intro k hk
      have := h k (by simp; omega)
      rw [this]
      simp [List.getD_eq_getElem?_getD, List.getElem?_append_left hk]
    · intro k hk
      have := h (a.length + k) (by simp; omega)
      rw [Nat.add_assoc, this]
      simp [List.getD_eq_getElem?_getD, List.getElem?_append_right]
  · rintro ⟨h1, h2⟩ k hk
    by_cases hka : k < a.length
    · rw [h1 k hka]
      simp [List.getD_eq_getElem?_getD, List.getElem?_append_left hka]
    · have := h2 (k - a.length) (by simp at hk; omega)
      rw [show o + a.length + (k - a.length) = o + k by omega] at this
      rw [this]
      simp [List.getD_eq_getElem?_getD, List.getElem?_append_right (Nat.le_of_not_lt hka)]

theorem holds_congr (x y : Mem) (o : Nat) (l : List Nat)
    (h : ∀ i, o ≤ i → i < o + l.length → y i = x i) :
    Holds x o l → Holds y o l := by
  intro hx k hk
  rw [h (o + k) (by omega) (by omega)]
  exact hx k hk

theorem pokes_holds (x : Mem) (p : Nat) (l : List Nat) : Holds (pokes x p l) p l := by
  intro k hk
  unfold pokes
  rw [if_pos ⟨by omega, by omega⟩]
  congr 1; omega

theorem pokes_out (x : Mem) (p : Nat) (l : List Nat) (i : Nat)
    (h : i < p ∨ p + l.length ≤ i) : pokes x p l i = x i := by
  unfold pokes
  rw [if_neg (by omega)]

theorem cstrlen_le (s : List Nat) : cstrlen s ≤ s.length := by
  unfold cstrlen
  induction s with
  | nil => simp
  | cons a r ih =>
    rw [List.takeWhile_cons]
    split
    · simpa using ih
    · simp

theorem src_nonzero (s : List Nat) (i : Nat) (h : i < cstrlen s) : src s i ≠ 0 := by
  induction s generalizing i with
  | nil => simp [cstrlen] at h
  | cons a r ih =>
    unfold cstrlen at h
    rw [List.takeWhile_cons] at h
    split at h
    · rename_i ha
      cases i with
      | zero => simpa [src] using ha
      | succ i =>
        have := ih i (by simpa [cstrlen] using h)
        simpa [src] using this
    · simp at h

theorem src_zero (s : List Nat) : src s (cstrlen s) = 0 := by
  induction s with
  | nil => simp [src]
  | cons a r ih =>
    unfold cstrlen
    rw [List.takeWhile_cons]
    split
    · simpa [src, cstrlen] using ih
    · rename_i ha
      simpa [src] using ha

theorem cstr_length (s : List Nat) : (cstr s).length = cstrlen s := rfl

theorem cstr_getD (s : List Nat) (i : Nat) (h : i < cstrlen s) : (cstr s).getD i 0 = src s i := by
  induction s generalizing i with
  | nil => simp [cstrlen] at h
  | cons a r ih =>
    unfold cstrlen at h
    unfold cstr
    rw [List.takeWhile_cons] at h ⊢
    split
    · rename_i ha
      rw [if_pos ha] at h
      cases i with
      | zero => simp [src]
      | succ i =>
        have := ih i (by simpa [cstrlen] using h)
        simpa [src, cstr] using this
    · rename_i ha
      rw [if_neg ha] at h
      simp at h

/-- The memory after a copy loop that met the terminator at index `L`: the bytes `i..L` of the
source stand at `p + i .. p + L`. -/
theorem copy_string_0_go_found (p : Nat) (s : Nat → Nat) (n L : Nat) (i fuel : Nat) (x : Mem)
    (hi : i ≤ L) (hf : L < i + fuel) (hnz : ∀ j, i ≤ j → j < L → s j ≠ 0) (hz : s L = 0) :
    copy_string_0_go p s n i fuel x =
      (fun k => if p + i ≤ k ∧ k ≤ p + L then s (k - p) else x k, L + 1) := by
  induction fuel generalizing i x with
  | zero => omega
  | succ f ih =>
    simp only [copy_string_0_go]
    by_cases hiL : i = L
    · subst hiL
      rw [if_pos hz]
      congr 1
      funext k
      unfold poke
      by_cases hk : k = p + i
      · subst hk; simp
      · rw [if_neg hk, if_neg (by omega)]
    · have h0 : s i ≠ 0 := hnz i (le_refl _) (by omega)
      rw [if_neg h0, ih (i + 1) _ (by omega) (by omega) (fun j h1 h2 => hnz j (by omega) h2)]
      congr 1
      funext k
      by_cases hk : k = p + i
      · subst hk
        rw [if_neg (by omega), if_pos (by omega)]
        simp [poke]
      · by_cases hk2 : p + (i + 1) ≤ k ∧ k ≤ p + L
        · rw [if_pos hk2, if_pos (by omega)]
        · rw [if_neg hk2, if_neg (by omega)]
          simp [poke, hk]

theorem copy_string_0_go_ret (p : Nat) (s : Nat → Nat) (n L : Nat) (i fuel : Nat) (x : Mem)
    (hi : i ≤ L) (hn : n = i + fuel) (hnz : ∀ j, i ≤ j → j < L → s j ≠ 0) (hz : s L = 0) :
    (copy_string_0_go p s n i fuel x).2 = min (L + 1) n := by
  induction fuel generalizing i x with
  | zero => simp only [copy_string_0_go]; omega
  | succ f ih =>
    simp only [copy_string_0_go]
    by_cases hiL : i = L
    · subst hiL
      rw [if_pos hz]; simp only; omega
    · have h0 : s i ≠ 0 := hnz i (le_refl _) (by omega)
      rw [if_neg h0]
      exact ih (i + 1) _ (by omega) (by omega) (fun j h1 h2 => hnz j (by omega) h2)

/-- The value `copy_string_0` returns: the length of the string with its terminator, cut to the
room `n`. -/
theorem copy_string_0_ret (x : Mem) (p : Nat) (s : List Nat) (n : Nat) :
    (copy_string_0 x p s n).2 = min (cstrlen s + 1) n := by
  unfold copy_string_0
  split
  · rename_i h; subst h; simp
  · exact copy_string_0_go_ret p (src s) n (cstrlen s) 0 n x (by omega) (by omega)
      (fun j _ h2 => src_nonzero s j h2) (src_zero s)

/-- The memory `copy_string_0` leaves when the string fits with its terminator. -/
theorem copy_string_0_mem (x : Mem) (p : Nat) (s : List Nat) (n : Nat) (h : cstrlen s < n) :
    (copy_string_0 x p s n).1 =
      fun k => if p ≤ k ∧ k ≤ p + cstrlen s then src s (k - p) else x k := by
  unfold copy_string_0
  rw [if_neg (by omega)]
  have := copy_string_0_go_found p (src s) n (cstrlen s) 0 n x (by omega) (by omega)
      (fun j _ h2 => src_nonzero s j h2) (src_zero s)
  simp only [Nat.add_zero] at this
  rw [this]

theorem copy_string_go_found (p : Nat) (s : Nat → Nat) (n L : Nat) (i fuel : Nat) (x : Mem)
    (hi : i ≤ L) (hf : L < i + fuel) (hnz : ∀ j, i ≤ j → j < L → s j ≠ 0) (hz : s L = 0) :
    copy_string_go p s n i fuel x =
      (fun k => if p + i ≤ k ∧ k ≤ p + L then s (k - p) else x k, L) := by
  induction fuel generalizing i x with
  | zero => omega
  | succ f ih =>
    simp only [copy_string_go]
    by_cases hiL : i = L
    · subst hiL
      rw [if_pos hz]
      congr 1
      funext k
      unfold poke
      by_cases hk : k = p + i
      · subst hk; simp
      · rw [if_neg hk, if_neg (by omega)]
    · have h0 : s i ≠ 0 := hnz i (le_refl _) (by omega)
      rw [if_neg h0, ih (i + 1) _ (by omega) (by omega) (fun j h1 h2 => hnz j (by omega) h2)]
      congr 1
      funext k
      by_cases hk : k = p + i
      · subst hk
        rw [if_neg (by omega), if_pos (by omega)]
        simp [poke]
      · by_cases hk2 : p + (i + 1) ≤ k ∧ k ≤ p + L
        · rw [if_pos hk2, if_pos (by omega)]
        · rw [if_neg hk2, if_neg (by omega)]
          simp [poke, hk]

/-- A copy of `copy_string` that has room for the string and its terminator. -/
theorem copy_string_fit (x : Mem) (p : Nat) (s : List Nat) (n : Nat) (h : cstrlen s < n) :
    copy_string x p s n =
      (fun k => if p ≤ k ∧ k ≤ p + cstrlen s then src s (k - p) else x k, cstrlen s) := by
  unfold copy_string
  rw [if_neg (by omega)]
  have := copy_string_go_found p (src s) n (cstrlen s) 0 n x (by omega) (by omega)
      (fun j _ h2 => src_nonzero s j h2) (src_zero s)
  simp only [Nat.add_zero] at this
  rw [this]

theorem Wr_trans (a b : List Nat) (w w1 w2 : WrState) (h1 : Wr a w w1) (h2 : Wr b w1 w2) :
    Wr (a ++ b) w w2 := by
  obtain ⟨p1, q1, r1, s1⟩ := h1
  obtain ⟨p2, q2, r2, s2⟩ := h2
  refine ⟨by rw [p2, p1, List.length_append]; omega, ?_, ?_, ?_⟩
  · rw [holds_append]
    constructor
    · exact holds_congr _ _ _ _ (fun i _ h => r2 i (by omega)) q1
    · rw [← p1]; exact q2
  · intro i hi; rw [r2 i (by omega), r1 i hi]
  · intro i hi; rw [s2 i hi, s1 i hi]

theorem Wr_nil (w : WrState) : Wr [] w w :=
  ⟨by simp, holds_nil _ _, fun _ _ => rfl, fun _ _ => rfl⟩

theorem wr_tag_Wr (t : List Nat) (w : WrState) (ht : IsTag t) (hw : w.2 + 5 ≤ 512) :
    Wr t w (wr_tag t w) := by
  unfold wr_tag
  rw [copy_string_fit _ _ _ _ (by rw [ht.2]; omega)]
  refine ⟨by simp [ht.1, ht.2], ?_, ?_, ?_⟩
  · intro k hk
    simp only
    rw [if_pos ⟨by omega, by rw [ht.2, ← ht.1]; omega⟩]
    simp [src]
  · intro i hi; simp only; rw [if_neg (by omega)]
  · intro i hi; simp only; rw [if_neg (by rw [ht.2]; omega)]

theorem cstr0_getD (s : List Nat) (k : Nat) (hk : k ≤ cstrlen s) :
    (cstr s ++ [0]).getD k 0 = src s k := by
  by_cases h : k < cstrlen s
  · rw [← cstr_getD s k h]
    simp [List.getD_eq_getElem?_getD, List.getElem?_append_left (by rw [cstr_length]; exact h)]
  · have : k = cstrlen s := by omega
    subst this
    rw [src_zero]
    simp [List.getD_eq_getElem?_getD, List.getElem?_append_right, cstr_length]

theorem wr_string_Wr (s : List Nat) (w : WrState) (hw : w.2 + cstrlen s + 1 ≤ 512) :
    Wr (cstr s ++ [0]) w (wr_string s w) := by
  unfold wr_string
  refine ⟨?_, ?_, ?_, ?_⟩
  · simp only [copy_string_0_ret, List.length_append, cstr_length, List.length_singleton]
    omega
  · intro k hk
    simp only [List.length_append, cstr_length, List.length_singleton] at hk
    simp only
    rw [copy_string_0_mem _ _ _ _ (by omega)]
    simp only
    rw [if_pos ⟨by omega, by omega⟩, cstr0_getD s k (by omega)]
    congr 1; omega
  · intro i hi
    simp only
    rw [copy_string_0_mem _ _ _ _ (by omega)]
    simp only
    rw [if_neg (by omega)]
  · intro i hi
    simp only
    rw [copy_string_0_mem _ _ _ _ (by omega)]
    simp only
    rw [if_neg (by omega)]

theorem range_map_getD (b : List Nat) (n : Nat) (h : n ≤ b.length) :
    ((List.range n).map fun i => b.getD i 0) = b.take n := by
  apply List.ext_getElem
  · simp; omega
  · intro k h1 h2
    have hk : k < n := by simpa using h1
    simp [List.getD_eq_getElem?_getD, List.getElem?_eq_getElem (show k < b.length by omega)]

theorem wr_store_Wr (l : List Nat) (w : WrState) (hw : w.2 + l.length ≤ 512) :
    Wr l w (wr_store l w) := by
  unfold wr_store
  refine ⟨rfl, pokes_holds _ _ _, fun i hi => pokes_out _ _ _ _ (Or.inl hi),
    fun i hi => pokes_out _ _ _ _ (Or.inr (by omega))⟩

theorem wr_bytes_Wr (b : List Nat) (blen : Nat) (w : WrState) (hb : blen ≤ b.length)
    (hw : w.2 + blen + 1 ≤ 512) : Wr (b.take blen) w (wr_bytes b blen w) := by
  unfold wr_bytes copy_bytes
  have hm : (512 - w.2 + 2 ^ 64 - 1) % 2 ^ 64 = 512 - w.2 - 1 := by
    have : 512 - w.2 + 2 ^ 64 - 1 = (512 - w.2 - 1) + 2 ^ 64 := by omega
    rw [this, Nat.add_mod_right, Nat.mod_eq_of_lt (by omega)]
  simp only [hm]
  rw [if_neg (by omega), range_map_getD b blen hb]
  have hl : (b.take blen).length = blen := by simp; omega
  refine ⟨by simp only [hl], pokes_holds _ _ _, fun i hi => pokes_out _ _ _ _ (Or.inl hi),
    fun i hi => pokes_out _ _ _ _ (Or.inr (by omega))⟩

theorem memset_holds (x : Mem) (p v n : Nat) : Holds (memset x p v n) p (List.replicate n v) := by
  intro k hk
  simp only [List.length_replicate] at hk
  unfold memset
  rw [if_pos ⟨by omega, by omega⟩]
  simp [List.getD_eq_getElem?_getD, List.getElem?_replicate, hk]

theorem st_i32_bytes_length (v : Int) : (st_i32_bytes v).length = 4 := by
  simp [st_i32_bytes, be_bytes]

theorem be_bytes_length (n v : Nat) : (be_bytes n v).length = n := by
  induction n with
  | zero => rfl
  | succ n ih => simp [be_bytes, ih]

theorem sync_slot_length (h : kum_6d6_header) (hs : h.sync_time.length = 6) :
    (sync_slot h).length = 14 := by
  unfold sync_slot
  split <;> simp [tag_sync, tag_skew, hs, st_i32_bytes_length]

theorem wr_sync_Wr (h : kum_6d6_header) (w : WrState) (hs : h.sync_time.length = 6)
    (hw : w.2 + 14 ≤ 512) : Wr (sync_slot h) w (wr_sync h w) := by
  have key : ∀ t : List Nat, t.length = 4 →
      Wr (t ++ h.sync_time ++ st_i32_bytes h.skew) w
        (pokes (pokes (pokes w.1 w.2 t) (w.2 + 4) ((List.range 6).map fun i =>
          h.sync_time.getD i 0)) (w.2 + 10) (st_i32_bytes h.skew), w.2 + 14) := by
    intro t ht
    have e : ((List.range 6).map fun i => h.sync_time.getD i 0) = h.sync_time := by
      rw [range_map_getD _ _ (by omega), ← hs, List.take_length]
    rw [e]
    have a1 := wr_store_Wr t w (by omega)
    have a2 := wr_store_Wr h.sync_time (wr_store t w) (by simp [wr_store]; omega)
    have a3 := wr_store_Wr (st_i32_bytes h.skew) (wr_store h.sync_time (wr_store t w))
      (by simp [wr_store, st_i32_bytes_length]; omega)
    have := Wr_trans _ _ _ _ _ (Wr_trans _ _ _ _ _ a1 a2) a3
    simpa [wr_store, ht, hs, st_i32_bytes_length, Nat.add_assoc] using this
  unfold wr_sync sync_slot
  split
  · rename_i hst; simp only [hst]; exact key tag_sync rfl
  · rename_i hst; simp only [hst]; exact key tag_skew rfl
  · rename_i hst
    simp only [hst]
    refine ⟨by simp, memset_holds _ _ _ _, ?_, ?_⟩
    · intro i hi; simp only [memset]; rw [if_neg (by omega)]
    · intro i hi; simp only [memset]; rw [if_neg (by omega)]

theorem names_bytes_length_le (l : List (List Nat)) (j : Nat) :
    (names_bytes (l.take j)).length ≤ (names_bytes l).length := by
  induction l generalizing j with
  | nil => simp
  | cons a r ih =>
    cases j with
    | zero => simp [names_bytes]
    | succ j =>
      have := ih j
      simp only [List.take_succ_cons, names_bytes, List.length_append]
      omega

theorem wr_names_Wr (h : kum_6d6_header) (i k : Nat) (w : WrState)
    (hk : i + k ≤ h.channel_names.length)
    (hw : w.2 + (names_bytes ((h.channel_names.drop i).take k)).length ≤ 512) :
    Wr (names_bytes ((h.channel_names.drop i).take k)) w (wr_names h i k w) := by
  induction k generalizing i w with
  | zero => simpa [wr_names, names_bytes] using Wr_nil w
  | succ k ih =>
    have hi : i < h.channel_names.length := by omega
    have hd : h.channel_names.drop i = h.channel_names[i] :: h.channel_names.drop (i + 1) :=
      List.drop_eq_getElem_cons hi
    have hg : h.channel_names.getD i [] = h.channel_names[i] := by
      simp [List.getD_eq_getElem?_getD, List.getElem?_eq_getElem hi]
    rw [hd] at hw ⊢
    simp only [List.take_succ_cons, names_bytes, List.length_append, cstr_length,
      List.length_singleton] at hw ⊢
    simp only [wr_names, hg]
    have a1 := wr_string_Wr h.channel_names[i] w (by omega)
    have a2 := ih (i + 1) (wr_string h.channel_names[i] w) (by omega) (by
      rw [a1.1]; simp only [List.length_append, cstr_length, List.length_singleton]; omega)
    exact Wr_trans _ _ _ _ _ a1 a2

theorem Wr_snoc (P l : List Nat) (x : Mem) (w1 w2 : WrState)
    (hfit : (P ++ l).length + 1 ≤ 512)
    (hP : P.length + 1 ≤ 512 → Wr P (x, 0) w1)
    (hl : w1.2 + l.length + 1 ≤ 512 → Wr l w1 w2) : Wr (P ++ l) (x, 0) w2 := by
  rw [List.length_append] at hfit
  have a := hP (by omega)
  have b := hl (by rw [a.1]; simp only; omega)
  exact Wr_trans _ _ _ _ _ a b

theorem isTag_time : IsTag tag_time := by decide
theorem isTag_addr : IsTag tag_addr := by decide
theorem isTag_rate : IsTag tag_rate := by decide
theorem isTag_writ : IsTag tag_writ := by decide
theorem isTag_lost : IsTag tag_lost := by decide
theorem isTag_chan : IsTag tag_chan := by decide
theorem isTag_gain : IsTag tag_gain := by decide
theorem isTag_bitd : IsTag tag_bitd := by decide
theorem isTag_rcid : IsTag tag_rcid := by decide
theorem isTag_rtci : IsTag tag_rtci := by decide
theorem isTag_lati : IsTag tag_lati := by decide
theorem isTag_logi : IsTag tag_logi := by decide
theorem isTag_alia : IsTag tag_alia := by decide
theorem isTag_cmnt : IsTag tag_cmnt := by decide

theorem wr_tag_step (t : List Nat) (w : WrState) (ht : IsTag t)
    (hw : w.2 + t.length + 1 ≤ 512) : Wr t w (wr_tag t w) :=
  wr_tag_Wr t w ht (by rw [ht.1] at hw; exact hw)

theorem wr_string_step (s : List Nat) (w : WrState)
    (hw : w.2 + (cstr s ++ [0]).length + 1 ≤ 512) : Wr (cstr s ++ [0]) w (wr_string s w) :=
  wr_string_Wr s w (by
    simp only [List.length_append, cstr_length, List.length_singleton] at hw; omega)

theorem wr_store_step (l : List Nat) (w : WrState) (hw : w.2 + l.length + 1 ≤ 512) :
    Wr l w (wr_store l w) :=
  wr_store_Wr l w (by omega)

/-- When the fields before the comment fit, `wr_fields` writes exactly `enc_head`. -/
theorem wr_fields_Wr (h : kum_6d6_header) (x : Mem) (ht : WrTyped h)
    (hfit : (enc_head h).length + 1 ≤ 512) :
    Wr (enc_head h) (x, 0) (wr_fields h (x, 0)) := by
  obtain ⟨h1, h2, h3, h4, h5, h6⟩ := ht
  have e1 : be_bytes 1 h.channel_count = [h.channel_count] := by
    simp [be_bytes, Nat.mod_eq_of_lt h5]
  have e2 : be_bytes 1 h.bit_depth = [h.bit_depth] := by
    simp [be_bytes, Nat.mod_eq_of_lt h6]
  have e3 : h.start_time = h.start_time.take 6 := by rw [← h1, List.take_length]
  have e4 : h.channel_names.take h.channel_count =
      (h.channel_names.drop 0).take h.channel_count := by simp
  unfold enc_head at hfit ⊢
  unfold wr_fields
  dsimp only
  rw [e1, e2]
  rw [e4] at hfit ⊢
  refine Wr_snoc _ _ _ _ _ hfit (fun hfit => ?_) (wr_tag_step _ _ isTag_cmnt)
  refine Wr_snoc _ _ _ _ _ hfit (fun hfit => ?_) (fun hw => wr_names_Wr _ _ _ _ (by omega) (by omega))
  refine Wr_snoc _ _ _ _ _ hfit (fun hfit => ?_) (wr_tag_step _ _ isTag_alia)
  refine Wr_snoc _ _ _ _ _ hfit (fun hfit => ?_) (wr_string_step _ _)
  refine Wr_snoc _ _ _ _ _ hfit (fun hfit => ?_) (wr_tag_step _ _ isTag_logi)
  refine Wr_snoc _ _ _ _ _ hfit (fun hfit => ?_) (wr_string_step _ _)
  refine Wr_snoc _ _ _ _ _ hfit (fun hfit => ?_) (wr_tag_step _ _ isTag_lati)
  refine Wr_snoc _ _ _ _ _ hfit (fun hfit => ?_) (wr_string_step _ _)
  refine Wr_snoc _ _ _ _ _ hfit (fun hfit => ?_) (wr_tag_step _ _ isTag_rtci)
  refine Wr_snoc _ _ _ _ _ hfit (fun hfit => ?_) (wr_string_step _ _)
  refine Wr_snoc _ _ _ _ _ hfit (fun hfit => ?_) (wr_tag_step _ _ isTag_rcid)
  refine Wr_snoc _ _ _ _ _ hfit (fun hfit => ?_) (wr_store_step _ _)
  refine Wr_snoc _ _ _ _ _ hfit (fun hfit => ?_) (wr_tag_step _ _ isTag_bitd)
  refine Wr_snoc _ _ _ _ _ hfit (fun hfit => ?_)
    (fun hw => wr_bytes_Wr _ _ _ h3 (by
      rw [List.length_take, Nat.min_eq_left h3] at hw; exact hw))
  refine Wr_snoc _ _ _ _ _ hfit (fun hfit => ?_) (wr_tag_step _ _ isTag_gain)
  refine Wr_snoc _ _ _ _ _ hfit (fun hfit => ?_) (wr_store_step _ _)
  refine Wr_snoc _ _ _ _ _ hfit (fun hfit => ?_) (wr_tag_step _ _ isTag_chan)
  refine Wr_snoc _ _ _ _ _ hfit (fun hfit => ?_)
    (fun hw => by simpa using wr_store_step (be_bytes 4 h.lost_samples) _ hw)
  refine Wr_snoc _ _ _ _ _ hfit (fun hfit => ?_) (wr_tag_step _ _ isTag_lost)
  refine Wr_snoc _ _ _ _ _ hfit (fun hfit => ?_)
    (fun hw => by simpa using wr_store_step (be_bytes 8 h.written_samples) _ hw)
  refine Wr_snoc _ _ _ _ _ hfit (fun hfit => ?_) (wr_tag_step _ _ isTag_writ)
  refine Wr_snoc _ _ _ _ _ hfit (fun hfit => ?_)
    (fun hw => by simpa using wr_store_step (be_bytes 2 h.sample_rate) _ hw)
  refine Wr_snoc _ _ _ _ _ hfit (fun hfit => ?_) (wr_tag_step _ _ isTag_rate)
  refine Wr_snoc _ _ _ _ _ hfit (fun hfit => ?_)
    (fun hw => by simpa using wr_store_step (be_bytes 4 h.address) _ hw)
  refine Wr_snoc _ _ _ _ _ hfit (fun hfit => ?_) (wr_tag_step _ _ isTag_addr)
  refine Wr_snoc _ _ _ _ _ hfit (fun hfit => ?_)
    (fun hw => wr_sync_Wr _ _ h2 (by rw [sync_slot_length h h2] at hw; omega))
  refine Wr_snoc _ _ _ (wr_tag tag_time (x, 0)) _ hfit (fun hfit => ?_) (fun hw => ?_)
  · have := wr_tag_step tag_time (x, 0) isTag_time (by simp [tag_time])
    exact this
  · have := wr_bytes_Wr h.start_time 6 (wr_tag tag_time (x, 0)) (by omega)
      (by rw [h1] at hw; exact hw)
    rw [← e3] at this
    exact this

/-! ## Reading what stands in a block -/

theorem holds_tagAt (x : Mem) (o : Nat) (t : List Nat) (ht : t.length = 4) (h : Holds x o t) :
    TagAt x o t :=
  ⟨by simpa using h 0 (by omega), h 1 (by omega), h 2 (by omega), h 3 (by omega)⟩

theorem holds_peek (x : Mem) (o : Nat) (l : List Nat) (h : Holds x o l) :
    peek x o l.length = l :=
  (peek_eq_iff x o l.length l).2 ⟨rfl, h⟩

theorem holds_take (x : Mem) (o : Nat) (l : List Nat) (n : Nat) (h : Holds x o l) :
    Holds x o (l.take n) := by
  have := (holds_append x o (l.take n) (l.drop n)).1 (by rw [List.take_append_drop]; exact h)
  exact this.1

theorem ld_be_congr (x y : Mem) (o p n : Nat) (h : ∀ k < n, x (o + k) = y (p + k)) :
    ld_be x o n = ld_be y p n := by
  induction n generalizing o p with
  | zero => rfl
  | succ n ih =>
    simp only [ld_be]
    rw [ih (o + 1) (p + 1) (fun k hk => by
      have := h (k + 1) (by omega)
      rwa [show o + 1 + k = o + (k + 1) by omega, show p + 1 + k = p + (k + 1) by omega])]
    have := h 0 (by omega)
    simp only [Nat.add_zero] at this
    rw [this]

theorem ld_be_be_bytes (n v : Nat) :
    ld_be (fun k => (be_bytes n v).getD k 0) 0 n = v % 256 ^ n := by
  induction n with
  | zero => simp [ld_be, Nat.mod_one]
  | succ n ih =>
    simp only [ld_be, be_bytes]
    have e := ld_be_congr (fun k => ((v / 256 ^ n) % 256 :: be_bytes n v).getD k 0)
      (fun k => (be_bytes n v).getD k 0) 1 0 n (by intro k hk; simp [Nat.add_comm 1 k])
    rw [Nat.zero_add, e, ih]
    simp only [List.getD_cons_zero]
    rw [pow_succ, Nat.mod_mul]
    ring

theorem holds_ld_be (x : Mem) (o n v : Nat) (h : Holds x o (be_bytes n v)) :
    ld_be x o n = v % 256 ^ n := by
  rw [← ld_be_be_bytes]
  apply ld_be_congr
  intro k hk
  rw [Nat.zero_add]
  exact h k (by rw [be_bytes_length]; exact hk)

theorem holds_nonzero_strlen (x : Mem) (o : Nat) (s : List Nat) (hs : cstrlen s < 512)
    (h : Holds x o (cstr s ++ [0])) : strlen x o = cstrlen s := by
  apply strlen_eq x o _ hs
  · intro k hk
    rw [h k (by simp [cstr_length]; omega), cstr0_getD s k (by omega)]
    exact src_nonzero s k hk
  · rw [h _ (by simp [cstr_length]), cstr0_getD s _ (le_refl _)]
    exact src_zero s

theorem first_nonzero_self (x : Mem) (p : Nat) (h : x p ≠ 0) : first_nonzero x p = p := by
  unfold first_nonzero
  simp [zrun_go, h]

theorem tagAt_nonzero (x : Mem) (o : Nat) (t : List Nat) (ht : IsTag t) (h : TagAt x o t) :
    x o ≠ 0 := by
  rw [h.1]
  have := src_nonzero t 0 (by rw [ht.2]; omega)
  simpa [src] using this

/-- A string field with what follows it: the decoder finds the length of the string, the value of
the field, and the next tag right behind the terminator. -/
theorem holds_field (x : Mem) (o : Nat) (s t : List Nat) (size : Nat)
    (hs : cstrlen s < 512) (ht : IsTag t)
    (h1 : Holds x (o + 4) (cstr s ++ [0])) (h2 : Holds x (o + 4 + (cstrlen s + 1)) t) :
    strlen x (o + 4) = cstrlen s ∧
    str_field x (o + 4) size = zpad size s ∧
    next_tag x o = o + 4 + (cstrlen s + 1) := by
  have e := holds_nonzero_strlen x (o + 4) s hs h1
  refine ⟨e, ?_, ?_⟩
  · unfold str_field zpad
    rw [e, ← cstr_length s, holds_peek x (o + 4) (cstr s)
      ((holds_append x (o + 4) (cstr s) [0]).1 h1).1]
  · unfold next_tag
    rw [e, Nat.add_assoc (o + 4)]
    exact first_nonzero_self _ _ (tagAt_nonzero _ _ _ ht (holds_tagAt _ _ _ ht.1 h2))

theorem mem_names_bytes_length (l : List (List Nat)) (s : List Nat) (hs : s ∈ l) :
    cstrlen s + 1 ≤ (names_bytes l).length := by
  induction l with
  | nil => simp at hs
  | cons a r ih =>
    simp only [names_bytes, List.length_append, cstr_length, List.length_cons, List.length_nil]
    rcases List.mem_cons.1 hs with rfl | hm
    · omega
    · have := ih hm; omega

theorem set_take_succ {α : Type} (l : List α) (i : Nat) (z : α) (hi : i < l.length) :
    (l.set i z).take (i + 1) = l.take i ++ [z] := by
  rw [List.set_eq_take_append_cons_drop, if_pos hi]
  have hlen : (l.take i).length = i := by simp; omega
  rw [List.take_append_eq_append_take, hlen]
  simp [List.take_of_length_le, hlen]

/-- The strings that stand one after the other from `o` on: where each starts, how long the
decoder finds it, and what the loop over the channel names stores. -/
theorem holds_names (d : Decls) (x : Mem) (ns : List (List Nat)) (o i : Nat)
    (l : List (List Nat)) (hs : ∀ s ∈ ns, cstrlen s < 512) (hl : i + ns.length ≤ l.length)
    (h : Holds x o (names_bytes ns)) :
    name_at x o ns.length = o + (names_bytes ns).length ∧
    (∀ j, (hj : j < ns.length) → strlen x (name_at x o j) = cstrlen ns[j]) ∧
    names_set d x o i ns.length l =
      l.take i ++ ns.map (zpad d.sizeof_channel_name) ++ l.drop (i + ns.length) := by
  induction ns generalizing o i l with
  | nil => simp [name_at, names_bytes, names_set]
  | cons a r ih =>
    simp only [names_bytes, List.append_assoc] at h
    rw [holds_append] at h
    have ha : Holds x o (cstr a ++ [0]) := by
      have := (holds_append x o (cstr a ++ [0]) (names_bytes r)).2
        ⟨by rw [holds_append]; exact ⟨h.1, by
            have := h.2; rw [holds_append] at this; exact this.1⟩,
          by have := h.2; rw [holds_append] at this
             simpa [Nat.add_assoc] using this.2⟩
      exact ((holds_append x o (cstr a ++ [0]) (names_bytes r)).1 this).1
    have hr : Holds x (o + cstrlen a + 1) (names_bytes r) := by
      have := h.2; rw [holds_append] at this
      simpa [Nat.add_assoc, cstr_length] using this.2
    have e := holds_nonzero_strlen x o a (hs a (by simp)) ha
    have hl' : (i + 1) + r.length ≤ (l.set i (str_field x o d.sizeof_channel_name)).length := by
      simp only [List.length_cons] at hl; simp; omega
    have := ih (o + cstrlen a + 1) (i + 1) (l.set i (str_field x o d.sizeof_channel_name))
      (fun s hs' => hs s (by simp [hs'])) hl' hr
    obtain ⟨q1, q2, q3⟩ := this
    refine ⟨?_, ?_, ?_⟩
    · simp only [List.length_cons, List.length_nil, name_at_succ, e, q1, names_bytes,
        List.length_append, cstr_length]
      omega
    · intro j hj
      cases j with
      | zero => simpa [name_at] using e
      | succ j =>
        rw [name_at_succ, e]
        simpa using q2 j (by simpa using hj)
    · simp only [List.length_cons, names_set, e, q3]
      have hi : i < l.length := by simp only [List.length_cons] at hl; omega
      have e2 : str_field x o d.sizeof_channel_name = zpad d.sizeof_channel_name a := by
        unfold str_field zpad
        rw [e, ← cstr_length a, holds_peek x o (cstr a) ((holds_append x o (cstr a) [0]).1 ha).1]
      rw [e2, set_take_succ l i _ hi, List.drop_set_of_lt _ l (by omega)]
      simp only [List.map_cons, List.append_assoc, List.singleton_append]
      rw [show i + 1 + r.length = i + (r.length + 1) by omega]

theorem holds_split (x : Mem) (o : Nat) (a R : List Nat) (n o' : Nat) (h : Holds x o (a ++ R))
    (hn : a.length = n) (ho : o' = o + n) : Holds x o a ∧ Holds x o' R := by
  subst hn ho
  exact (holds_append x o a R).1 h

theorem ld_i32_be_st (x : Mem) (o : Nat) (v : Int) (h : Holds x o (st_i32_bytes v)) :
    ld_i32_be x o = wrap32 v := by
  unfold ld_i32_be wrap32
  have hb : (v % 2 ^ 32).toNat < 256 ^ 4 := by
    have h1 : 0 ≤ v % 2 ^ 32 := Int.emod_nonneg _ (by norm_num)
    have h2 : v % 2 ^ 32 < 2 ^ 32 := Int.emod_lt_of_pos _ (by norm_num)
    omega
  rw [holds_ld_be x o 4 _ h, Nat.mod_eq_of_lt hb]

/-- The sync/skew slot of an encoding, as the decoder reads it at offset 10. -/
theorem sync_decoded (d : Decls) (x : Mem) (h : kum_6d6_header) (hs : h.sync_time.length = 6)
    (H : Holds x 10 (sync_slot h)) :
    ((if TagAt x 10 tag_sync ∧ d.bcd_valid (peek x 14 6) = true then SyncType.SYNC
      else if TagAt x 10 tag_skew ∧ d.bcd_valid (peek x 14 6) = true then SyncType.SKEW
      else SyncType.NONE) =
     if (h.sync_type = .SYNC ∨ h.sync_type = .SKEW) ∧ d.bcd_valid h.sync_time = true then
       h.sync_type else .NONE) ∧
    ((if (TagAt x 10 tag_sync ∧ d.bcd_valid (peek x 14 6) = true) ∨
        (TagAt x 10 tag_skew ∧ d.bcd_valid (peek x 14 6) = true) then peek x 14 6
      else List.replicate 6 0) =
     if (h.sync_type = .SYNC ∨ h.sync_type = .SKEW) ∧ d.bcd_valid h.sync_time = true then
       h.sync_time else List.replicate 6 0) ∧
    ((if (TagAt x 10 tag_sync ∧ d.bcd_valid (peek x 14 6) = true) ∨
        (TagAt x 10 tag_skew ∧ d.bcd_valid (peek x 14 6) = true) then ld_i32_be x 20
      else 0) =
     if (h.sync_type = .SYNC ∨ h.sync_type = .SKEW) ∧ d.bcd_valid h.sync_time = true then
       wrap32 h.skew else 0) := by
  have key : ∀ t : List Nat, t.length = 4 → Holds x 10 (t ++ h.sync_time ++ st_i32_bytes h.skew) →
      TagAt x 10 t ∧ peek x 14 6 = h.sync_time ∧ ld_i32_be x 20 = wrap32 h.skew := by
    intro t ht H
    rw [List.append_assoc] at H
    obtain ⟨H1, R⟩ := holds_split x 10 _ _ 4 14 H ht rfl
    obtain ⟨H2, H3⟩ := holds_split x 14 _ _ 6 20 R hs rfl
    exact ⟨holds_tagAt _ _ _ ht H1, by rw [← hs]; exact holds_peek _ _ _ H2,
      ld_i32_be_st _ _ _ H3⟩
  unfold sync_slot at H
  cases hst : h.sync_type with
  | SYNC =>
    rw [hst] at H
    obtain ⟨k1, k2, k3⟩ := key tag_sync rfl H
    have nk : ¬ TagAt x 10 tag_skew := by
      intro hc
      have a := k1.2.1; have b := hc.2.1
      rw [a] at b; simp [tag_sync, tag_skew] at b
    simp only [k1, k2, k3, nk, true_and, false_and, or_false, true_or, reduceCtorEq, if_false]
  | SKEW =>
    rw [hst] at H
    obtain ⟨k1, k2, k3⟩ := key tag_skew rfl H
    have nk : ¬ TagAt x 10 tag_sync := by
      intro hc
      have a := k1.2.1; have b := hc.2.1
      rw [a] at b; simp [tag_sync, tag_skew] at b
    simp only [k1, k2, k3, nk, true_and, false_and, false_or, or_true, reduceCtorEq, if_false]
  | NONE =>
    rw [hst] at H
    have h0 : x 10 = 0 := by simpa using H 0 (by simp)
    have n1 : ¬ TagAt x 10 tag_sync := by
      intro hc; have := hc.1; rw [h0] at this; simp [tag_sync] at this
    have n2 : ¬ TagAt x 10 tag_skew := by
      intro hc; have := hc.1; rw [h0] at this; simp [tag_skew] at this
    simp [n1, n2]

/-- What the decoder needs of the header it reads back: the array lengths, bytes for the
channel count and bit depth, and strings that end inside the block. -/
theorem encoding_pieces (h : kum_6d6_header) :
    encoding h =
      tag_time ++ (h.start_time ++ (sync_slot h ++ (tag_addr ++ (be_bytes 4 h.address ++
      (tag_rate ++ (be_bytes 2 h.sample_rate ++ (tag_writ ++ (be_bytes 8 h.written_samples ++
      (tag_lost ++ (be_bytes 4 h.lost_samples ++ (tag_chan ++ ([h.channel_count] ++
      (tag_gain ++ (h.gain.take h.channel_count ++ (tag_bitd ++ ([h.bit_depth] ++
      (tag_rcid ++ ((cstr h.recorder_id ++ [0]) ++ (tag_rtci ++ ((cstr h.rtc_id ++ [0]) ++
      (tag_lati ++ ((cstr h.latitude ++ [0]) ++ (tag_logi ++ ((cstr h.longitude ++ [0]) ++
      (tag_alia ++ (names_bytes (h.channel_names.take h.channel_count) ++
      (tag_cmnt ++ (cstr h.comment ++ [0])))))))))))))))))))))))))))) := by
  simp only [encoding, enc_head, List.append_assoc]

theorem encoding_length (h : kum_6d6_header) (ht : WrTyped h) :
    (encoding h).length = 100 + h.channel_count + cstrlen h.recorder_id + cstrlen h.rtc_id +
      cstrlen h.latitude + cstrlen h.longitude +
      (names_bytes (h.channel_names.take h.channel_count)).length + cstrlen h.comment + 1 := by
  obtain ⟨h1, h2, h3, h4, h5, h6⟩ := ht
  rw [encoding_pieces]
  simp only [List.length_append, sync_slot_length h h2, be_bytes_length, h1, cstr_length,
    List.length_take, Nat.min_eq_left h3, List.length_cons, List.length_nil, tag_time, tag_addr,
    tag_rate, tag_writ, tag_lost, tag_chan, tag_gain, tag_bitd, tag_rcid, tag_rtci, tag_lati,
    tag_logi, tag_alia, tag_cmnt]
  omega

theorem enc_head_length (h : kum_6d6_header) (ht : WrTyped h) :
    (enc_head h).length = 100 + h.channel_count + cstrlen h.recorder_id + cstrlen h.rtc_id +
      cstrlen h.latitude + cstrlen h.longitude +
      (names_bytes (h.channel_names.take h.channel_count)).length := by
  have := encoding_length h ht
  simp only [encoding, List.length_append, cstr_length, List.length_cons, List.length_nil] at this
  omega

theorem inBounds_wrTyped (d : Decls) (h : kum_6d6_header) (hb : InBounds d h) : WrTyped h := by
  obtain ⟨-, ⟨a1, -⟩, ⟨a2, -⟩, -, -, -, -, -, ⟨-, c2, c3⟩, ⟨g1, -, -⟩, bd, -, -, -, -,
    ⟨n1, -, -⟩, -⟩ := hb
  exact ⟨a1, a2, by omega, by omega, c3, bd⟩

theorem pos_cmnt_eq (h : kum_6d6_header) (ht : WrTyped h) :
    pos_cmnt h + 4 = (enc_head h).length := by
  rw [enc_head_length h ht]
  unfold pos_cmnt pos_alia pos_logi pos_lati pos_rtci
  omega

/-- Where the pieces of an encoding stand in a block that holds it. -/
theorem encoding_layout (h : kum_6d6_header) (ht : WrTyped h) (x : Mem)
    (H : Holds x 0 (encoding h)) :
    (Holds x 0 tag_time ∧ Holds x 4 h.start_time ∧ Holds x 10 (sync_slot h) ∧
     Holds x 24 tag_addr ∧ Holds x 28 (be_bytes 4 h.address) ∧
     Holds x 32 tag_rate ∧ Holds x 36 (be_bytes 2 h.sample_rate) ∧
     Holds x 38 tag_writ ∧ Holds x 42 (be_bytes 8 h.written_samples) ∧
     Holds x 50 tag_lost ∧ Holds x 54 (be_bytes 4 h.lost_samples) ∧
     Holds x 58 tag_chan ∧ Holds x 62 [h.channel_count] ∧
     Holds x 63 tag_gain ∧ Holds x 67 (h.gain.take h.channel_count) ∧
     Holds x (67 + h.channel_count) tag_bitd ∧ Holds x (71 + h.channel_count) [h.bit_depth]) ∧
    (Holds x (72 + h.channel_count) tag_rcid ∧
     Holds x (72 + h.channel_count + 4) (cstr h.recorder_id ++ [0]) ∧
     Holds x (pos_rtci h) tag_rtci ∧ Holds x (pos_rtci h + 4) (cstr h.rtc_id ++ [0]) ∧
     Holds x (pos_lati h) tag_lati ∧ Holds x (pos_lati h + 4) (cstr h.latitude ++ [0]) ∧
     Holds x (pos_logi h) tag_logi ∧ Holds x (pos_logi h + 4) (cstr h.longitude ++ [0]) ∧
     Holds x (pos_alia h) tag_alia ∧
     Holds x (pos_alia h + 4) (names_bytes (h.channel_names.take h.channel_count)) ∧
     Holds x (pos_cmnt h) tag_cmnt ∧ Holds x (pos_cmnt h + 4) (cstr h.comment ++ [0])) := by
  obtain ⟨a1, a2, g1, n1, c3, bd⟩ := ht
  rw [encoding_pieces] at H
  have hg : (h.gain.take h.channel_count).length = h.channel_count := by
    rw [List.length_take]; omega
  have hl : ∀ s : List Nat, (cstr s ++ [0]).length = cstrlen s + 1 := by
    intro s; simp [cstr_length]
  obtain ⟨T1, R⟩ := holds_split x 0 _ _ 4 4 H rfl rfl
  obtain ⟨F1, R⟩ := holds_split x 4 _ _ 6 10 R a1 rfl
  obtain ⟨F2, R⟩ := holds_split x 10 _ _ 14 24 R (sync_slot_length h a2) rfl
  obtain ⟨T2, R⟩ := holds_split x 24 _ _ 4 28 R rfl rfl
  obtain ⟨F3, R⟩ := holds_split x 28 _ _ 4 32 R (be_bytes_length _ _) rfl
  obtain ⟨T3, R⟩ := holds_split x 32 _ _ 4 36 R rfl rfl
  obtain ⟨F4, R⟩ := holds_split x 36 _ _ 2 38 R (be_bytes_length _ _) rfl
  obtain ⟨T4, R⟩ := holds_split x 38 _ _ 4 42 R rfl rfl
  obtain ⟨F5, R⟩ := holds_split x 42 _ _ 8 50 R (be_bytes_length _ _) rfl
  obtain ⟨T5, R⟩ := holds_split x 50 _ _ 4 54 R rfl rfl
  obtain ⟨F6, R⟩ := holds_split x 54 _ _ 4 58 R (be_bytes_length _ _) rfl
  obtain ⟨T6, R⟩ := holds_split x 58 _ _ 4 62 R rfl rfl
  obtain ⟨F7, R⟩ := holds_split x 62 _ _ 1 63 R rfl rfl
  obtain ⟨T7, R⟩ := holds_split x 63 _ _ 4 67 R rfl rfl
  obtain ⟨F8, R⟩ := holds_split x 67 _ _ h.channel_count (67 + h.channel_count) R hg rfl
  obtain ⟨T8, R⟩ := holds_split x _ _ _ 4 (71 + h.channel_count) R rfl (by omega)
  obtain ⟨F9, R⟩ := holds_split x _ _ _ 1 (72 + h.channel_count) R rfl (by omega)
  obtain ⟨T9, R⟩ := holds_split x _ _ _ 4 (72 + h.channel_count + 4) R rfl rfl
  obtain ⟨S1, R⟩ := holds_split x _ _ _ _ (pos_rtci h) R (hl _) rfl
  obtain ⟨T10, R⟩ := holds_split x _ _ _ 4 (pos_rtci h + 4) R rfl rfl
  obtain ⟨S2, R⟩ := holds_split x _ _ _ _ (pos_lati h) R (hl _) rfl
  obtain ⟨T11, R⟩ := holds_split x _ _ _ 4 (pos_lati h + 4) R rfl rfl
  obtain ⟨S3, R⟩ := holds_split x _ _ _ _ (pos_logi h) R (hl _) rfl
  obtain ⟨T12, R⟩ := holds_split x _ _ _ 4 (pos_logi h + 4) R rfl rfl
  obtain ⟨S4, R⟩ := holds_split x _ _ _ _ (pos_alia h) R (hl _) rfl
  obtain ⟨T13, R⟩ := holds_split x _ _ _ 4 (pos_alia h + 4) R rfl rfl
  obtain ⟨S5, R⟩ := holds_split x _ _ _ _ (pos_cmnt h) R rfl rfl
  obtain ⟨T14, S6⟩ := holds_split x _ _ _ 4 (pos_cmnt h + 4) R rfl rfl
  exact ⟨⟨T1, F1, F2, T2, F3, T3, F4, T4, F5, T5, F6, T6, F7, T7, F8, T8, F9⟩,
    ⟨T9, S1, T10, S2, T11, S3, T12, S4, T13, S5, T14, S6⟩⟩

/-- What the decoder finds in a block that holds the encoding of a header within its bounds:
no version marker, the channel count, and every tag where the grammar expects it. -/
theorem encoding_positions (d : Decls) (h : kum_6d6_header) (x : Mem)
    (hb : InBounds d h) (hE : (encoding h).length ≤ 512) (H : Holds x 0 (encoding h)) :
    ¬ TagAt x 0 tag_6D6 ∧ off_v x = 0 ∧ cnt x = h.channel_count ∧
    at_rcid x = 72 + h.channel_count ∧ at_rtci x = pos_rtci h ∧ at_lati x = pos_lati h ∧
    at_logi x = pos_logi h ∧ at_alia x = pos_alia h ∧ at_cmnt x = pos_cmnt h ∧
    strlen x (72 + h.channel_count + 4) = cstrlen h.recorder_id ∧
    strlen x (pos_rtci h + 4) = cstrlen h.rtc_id ∧
    strlen x (pos_lati h + 4) = cstrlen h.latitude ∧
    strlen x (pos_logi h + 4) = cstrlen h.longitude ∧
    strlen x (pos_cmnt h + 4) = cstrlen h.comment ∧
    (∀ j, (hj : j < (h.channel_names.take h.channel_count).length) →
      strlen x (name_at x (pos_alia h + 4) j) =
        cstrlen (h.channel_names.take h.channel_count)[j]) := by
  have ht := inBounds_wrTyped d h hb
  have hlen := encoding_length h ht
  obtain ⟨⟨T1, F1, F2, T2, F3, T3, F4, T4, F5, T5, F6, T6, F7, T7, F8, T8, F9⟩,
    ⟨T9, S1, T10, S2, T11, S3, T12, S4, T13, S5, T14, S6⟩⟩ := encoding_layout h ht x H
  obtain ⟨a1, a2, g1, n1, c3, bd⟩ := ht
  have hnl : (h.channel_names.take h.channel_count).length = h.channel_count := by
    rw [List.length_take]; omega
  have hx0 : x 0 = 0x74 := by simpa [tag_time] using T1 0 (by simp [tag_time])
  have hnm : ¬ TagAt x 0 tag_6D6 := by
    intro hc
    have := hc.1
    rw [hx0] at this
    simp [tag_6D6] at this
  have hv : off_v x = 0 := by unfold off_v; rw [if_neg hnm]
  have hc : cnt x = h.channel_count := by
    unfold cnt
    rw [hv]
    simpa using F7 0 (by simp)
  have A1 : at_rcid x = 72 + h.channel_count := by
    simp only [at_rcid, hv, hc, Nat.zero_add]
  have B1 := holds_field x (72 + h.channel_count) h.recorder_id tag_rtci d.sizeof_recorder_id
    (by omega) isTag_rtci S1 T10
  have A2 : at_rtci x = pos_rtci h := by unfold at_rtci; rw [A1]; exact B1.2.2
  have B2 := holds_field x (pos_rtci h) h.rtc_id tag_lati d.sizeof_rtc_id
    (by omega) isTag_lati S2 T11
  have A3 : at_lati x = pos_lati h := by unfold at_lati; rw [A2]; exact B2.2.2
  have B3 := holds_field x (pos_lati h) h.latitude tag_logi d.sizeof_latitude
    (by omega) isTag_logi S3 T12
  have A4 : at_logi x = pos_logi h := by unfold at_logi; rw [A3]; exact B3.2.2
  have B4 := holds_field x (pos_logi h) h.longitude tag_alia d.sizeof_longitude
    (by omega) isTag_alia S4 T13
  have A5 : at_alia x = pos_alia h := by unfold at_alia; rw [A4]; exact B4.2.2
  have hnb : ∀ s ∈ h.channel_names.take h.channel_count, cstrlen s < 512 := by
    intro s hs
    have := mem_names_bytes_length _ s hs
    omega
  have N := holds_names d x (h.channel_names.take h.channel_count) (pos_alia h + 4) 0
    (List.replicate h.channel_count []) hnb (by simp) S5
  obtain ⟨N1, N2, -⟩ := N
  have A6 : at_cmnt x = pos_cmnt h := by
    unfold at_cmnt
    rw [A5, hc, ← hnl, N1]
    exact first_nonzero_self _ _
      (tagAt_nonzero _ _ _ isTag_cmnt (holds_tagAt _ _ _ isTag_cmnt.1 T14))
  have B6 : strlen x (pos_cmnt h + 4) = cstrlen h.comment :=
    holds_nonzero_strlen x (pos_cmnt h + 4) h.comment (by omega) S6
  exact ⟨hnm, hv, hc, A1, A2, A3, A4, A5, A6, B1.1, B2.1, B3.1, B4.1, B6, N2⟩

/-- A block that holds the encoding of a header within its bounds, zero behind it, is in the
grammar. -/
theorem grammar_of_encoding (d : Decls) (h : kum_6d6_header) (x : Mem)
    (hb : InBounds d h) (hE : (encoding h).length ≤ 512) (H : Holds x 0 (encoding h))
    (Z : ∀ i, (encoding h).length ≤ i → i < 512 → x i = 0) : Grammar d x := by
  have ht := inBounds_wrTyped d h hb
  have hlen := encoding_length h ht
  have hpc := pos_cmnt_eq h ht
  have hpl := enc_head_length h ht
  obtain ⟨hnm, hv, hc, A1, A2, A3, A4, A5, A6, B1, B2, B3, B4, B6, N2⟩ :=
    encoding_positions d h x hb hE H
  obtain ⟨⟨T1, F1, F2, T2, F3, T3, F4, T4, F5, T5, F6, T6, F7, T7, F8, T8, F9⟩,
    ⟨T9, S1, T10, S2, T11, S3, T12, S4, T13, S5, T14, S6⟩⟩ := encoding_layout h ht x H
  obtain ⟨-, -, -, -, -, -, -, -, ⟨c1, c2, c3⟩, -, -, s1, s2, s3, s4, ⟨n1, n2, -⟩, s5⟩ := hb
  have h511 : x 511 = 0 := by
    by_cases hlast : pos_cmnt h + 4 + cstrlen h.comment = 511
    · have := S6 (cstrlen h.comment) (by simp [cstr_length])
      rw [hlast, cstr0_getD _ _ (le_refl _), src_zero] at this
      exact this
    · exact Z 511 (by omega) (by omega)
  unfold Grammar
  rw [hv, hc, A1, A2, A3, A4, A5, A6, B1, B2, B3, B4, B6]
  simp only [Nat.zero_add]
  refine ⟨h511, holds_tagAt _ _ _ rfl T1, holds_tagAt _ _ _ rfl T2, holds_tagAt _ _ _ rfl T3,
    holds_tagAt _ _ _ rfl T4, holds_tagAt _ _ _ rfl T5, holds_tagAt _ _ _ rfl T6, ⟨c1, c2⟩,
    holds_tagAt _ _ _ rfl T7, holds_tagAt _ _ _ rfl T8, ⟨holds_tagAt _ _ _ rfl T9, s1.2.2⟩,
    ⟨holds_tagAt _ _ _ rfl T10, s2.2.2⟩, ⟨holds_tagAt _ _ _ rfl T11, s3.2.2⟩,
    ⟨holds_tagAt _ _ _ rfl T12, s4.2.2⟩, ⟨holds_tagAt _ _ _ rfl T13, ?_⟩,
    ⟨holds_tagAt _ _ _ rfl T14, s5.2.2⟩, by omega⟩
  intro i hi
  have hi' : i < (h.channel_names.take h.channel_count).length := by
    rw [List.length_take]; omega
  rw [N2 i hi']
  exact (n2 _ (List.mem_of_mem_take (List.getElem_mem _))).2.2

/-- The decoder makes `reread` of a block that holds the encoding of a header within its
bounds. -/
theorem decoded_of_encoding (d : Decls) (h h0 : kum_6d6_header) (x : Mem)
    (hb : InBounds d h) (hE : (encoding h).length ≤ 512) (H : Holds x 0 (encoding h))
    (hn0 : h.channel_count ≤ h0.channel_names.length) :
    decoded d h0 x = reread d h0 h := by
  have ht := inBounds_wrTyped d h hb
  have hlen := encoding_length h ht
  obtain ⟨hnm, hv, hc, A1, A2, A3, A4, A5, A6, B1, B2, B3, B4, B6, N2⟩ :=
    encoding_positions d h x hb hE H
  obtain ⟨⟨T1, F1, F2, T2, F3, T3, F4, T4, F5, T5, F6, T6, F7, T7, F8, T8, F9⟩,
    ⟨T9, S1, T10, S2, T11, S3, T12, S4, T13, S5, T14, S6⟩⟩ := encoding_layout h ht x H
  obtain ⟨a1, a2, g1, n1, c3, bd⟩ := ht
  have hg : (h.gain.take h.channel_count).length = h.channel_count := by
    rw [List.length_take]; omega
  have hnl : (h.channel_names.take h.channel_count).length = h.channel_count := by
    rw [List.length_take]; omega
  have hnb : ∀ s ∈ h.channel_names.take h.channel_count, cstrlen s < 512 := by
    intro s hs
    have := mem_names_bytes_length _ s hs
    omega
  have SY := sync_decoded d x h a2 F2
  have e1 : peek x 4 6 = h.start_time := by rw [← a1]; exact holds_peek _ _ _ F1
  have e2 : peek x 67 h.channel_count = h.gain.take h.channel_count := by
    have := holds_peek _ _ _ F8; rwa [hg] at this
  have e3 : ld_u8_be x (71 + h.channel_count) = h.bit_depth := by
    rw [ld_u8_be_eq]; simpa using F9 0 (by simp)
  have e4 : ld_u32_be x 28 = h.address % 256 ^ 4 := holds_ld_be x 28 4 _ F3
  have e5 : ld_u16_be x 36 = h.sample_rate % 256 ^ 2 := holds_ld_be x 36 2 _ F4
  have e6 : ld_u64_be x 42 = h.written_samples % 256 ^ 8 := holds_ld_be x 42 8 _ F5
  have e7 : ld_u32_be x 54 = h.lost_samples % 256 ^ 4 := holds_ld_be x 54 4 _ F6
  have f1 := (holds_field x (72 + h.channel_count) h.recorder_id tag_rtci d.sizeof_recorder_id
    (by omega) isTag_rtci S1 T10).2.1
  have f2 := (holds_field x (pos_rtci h) h.rtc_id tag_lati d.sizeof_rtc_id
    (by omega) isTag_lati S2 T11).2.1
  have f3 := (holds_field x (pos_lati h) h.latitude tag_logi d.sizeof_latitude
    (by omega) isTag_logi S3 T12).2.1
  have f4 := (holds_field x (pos_logi h) h.longitude tag_alia d.sizeof_longitude
    (by omega) isTag_alia S4 T13).2.1
  have f5 : str_field x (pos_cmnt h + 4) d.sizeof_comment = zpad d.sizeof_comment h.comment := by
    unfold str_field zpad
    rw [B6, ← cstr_length h.comment,
      holds_peek x (pos_cmnt h + 4) (cstr h.comment) ((holds_append x _ _ [0]).1 S6).1]
  have N := (holds_names d x (h.channel_names.take h.channel_count) (pos_alia h + 4) 0
    h0.channel_names hnb (by rw [hnl]; omega) S5).2.2
  rw [hnl] at N
  simp only [List.take_zero, List.nil_append, Nat.zero_add] at N
  unfold decoded reread
  simp only [hv, Nat.zero_add, hc, A1, A2, A3, A4, A5, A6]
  rw [if_neg hnm, SY.1, SY.2.1, SY.2.2, e1, e2, e3, e4, e5, e6, e7, f1, f2, f3, f4, f5, N]

/-- Lines 226-232 from a cursor `P` inside the block: `-1` exactly when the comment with its
terminator does not fit behind `P`; otherwise the comment stands at `P`, zeros follow up to
the end of the block, and nothing else changes. -/
theorem wr_comment_spec (h : kum_6d6_header) (w : WrState) (P : Nat) (hw : w.2 = P) :
    ((wr_comment h w).1 = -1 ↔ 512 < P + (cstrlen h.comment + 1)) ∧
    ((wr_comment h w).1 = 0 ↔ P + (cstrlen h.comment + 1) ≤ 512) ∧
    (P + (cstrlen h.comment + 1) ≤ 512 →
      Holds (wr_comment h w).2 P (cstr h.comment ++ [0]) ∧
      (∀ i, P + (cstrlen h.comment + 1) ≤ i → i < 512 → (wr_comment h w).2 i = 0) ∧
      (∀ i, i < P → (wr_comment h w).2 i = w.1 i) ∧
      ∀ i, 512 ≤ i → (wr_comment h w).2 i = w.1 i) := by
  obtain ⟨x, p⟩ := w
  simp only at hw
  subst hw
  have hr := copy_string_0_ret x p h.comment (512 - p)
  unfold wr_comment
  simp only
  rw [hr]
  by_cases hc : p + (cstrlen h.comment + 1) ≤ 512
  · have hmin : min (cstrlen h.comment + 1) (512 - p) = cstrlen h.comment + 1 := by omega
    rw [hmin, if_neg (by omega)]
    have hm := copy_string_0_mem x p h.comment (512 - p) (by omega)
    rw [hm]
    refine ⟨by simp; omega, by simp; omega, fun _ => ⟨?_, ?_, ?_, ?_⟩⟩
    · intro k hk
      simp only [List.length_append, cstr_length, List.length_cons, List.length_nil] at hk
      rw [cstr0_getD _ _ (by omega)]
      simp only
      split
      · unfold memset; rw [if_neg (by omega)]; dsimp only
        rw [if_pos ⟨by omega, by omega⟩]; congr 1; omega
      · dsimp only; rw [if_pos ⟨by omega, by omega⟩]; congr 1; omega
    · intro i h1 h2
      simp only
      rw [if_pos (by omega)]
      unfold memset
      rw [if_pos ⟨by omega, by omega⟩]
    · intro i hi
      simp only
      split
      · unfold memset; rw [if_neg (by omega)]; dsimp only; rw [if_neg (by omega)]
      · dsimp only; rw [if_neg (by omega)]
    · intro i hi
      simp only
      split
      · unfold memset; rw [if_neg (by omega)]; dsimp only; rw [if_neg (by omega)]
      · dsimp only; rw [if_neg (by omega)]
  · have hmin : min (cstrlen h.comment + 1) (512 - p) = 512 - p := by omega
    rw [hmin, if_pos (by omega)]
    refine ⟨by simp; omega, by simp; omega, fun h' => absurd h' hc⟩

/-- The encoder on a header whose fields before the comment fit: it returns `-1` exactly when
the whole encoding does not fit, and otherwise leaves the encoding at the start of the block,
zeros up to the end of the block, and the memory behind the block untouched. -/
theorem write_spec (h : kum_6d6_header) (x : Mem) (ht : WrTyped h)
    (hfit : (enc_head h).length < 512) :
    ((kum_6d6_header_write h x).1 = -1 ↔ 512 < (encoding h).length) ∧
    ((kum_6d6_header_write h x).1 = 0 ↔ (encoding h).length ≤ 512) ∧
    ((encoding h).length ≤ 512 →
      Holds (kum_6d6_header_write h x).2 0 (encoding h) ∧
      (∀ i, (encoding h).length ≤ i → i < 512 → (kum_6d6_header_write h x).2 i = 0) ∧
      ∀ i, 512 ≤ i → (kum_6d6_header_write h x).2 i = x i) := by
  obtain ⟨w1, w2, w3, w4⟩ := wr_fields_Wr h x ht (by omega)
  simp only [Nat.zero_add] at w1
  have hl : (encoding h).length = (enc_head h).length + (cstrlen h.comment + 1) := by
    simp [encoding, cstr_length]
  unfold kum_6d6_header_write
  generalize wr_fields h (x, 0) = w at *
  obtain ⟨c1, c2, c3⟩ := wr_comment_spec h w (enc_head h).length w1
  rw [hl]
  refine ⟨c1, c2, fun hf => ?_⟩
  obtain ⟨d1, d2, d3, d4⟩ := c3 hf
  refine ⟨?_, d2, fun i hi => by rw [d4 i hi]; exact w4 i hi⟩
  unfold encoding
  rw [holds_append]
  refine ⟨fun k hk => ?_, by rw [Nat.zero_add]; exact d1⟩
  rw [d3 _ (by omega)]
  exact w2 k hk

/-! ## The header codec: the claims -/

theorem wrap32_id (v : Int) (h1 : -(2 : Int) ^ 31 ≤ v) (h2 : v < 2 ^ 31) : wrap32 v = v := by
  unfold wrap32
  have hm1 : 0 ≤ v % 2 ^ 32 := Int.emod_nonneg _ (by norm_num)
  have hm2 : v % 2 ^ 32 < 2 ^ 32 := Int.emod_lt_of_pos _ (by norm_num)
  have htn : ((v % 2 ^ 32).toNat : Int) = v % 2 ^ 32 := Int.toNat_of_nonneg hm1
  by_cases hv : 0 ≤ v
  · have e : v % 2 ^ 32 = v := Int.emod_eq_of_lt hv (by omega)
    rw [if_pos (by omega)]
    omega
  · have e : v % 2 ^ 32 = v + 2 ^ 32 := by
      have := Int.add_mul_emod_self (a := v) (b := 1) (c := 2 ^ 32)
      rw [one_mul] at this
      rw [← this]
      exact Int.emod_eq_of_lt (by omega) (by omega)
    rw [if_neg (by omega)]
    omega

theorem zpad_take_drop (l : List Nat) (n : Nat)
    (hz : ∀ b ∈ l.drop n, b = 0) :
    l.take n ++ List.replicate (l.length - n) 0 = l := by
  have : l.drop n = List.replicate (l.length - n) 0 := by
    rw [List.eq_replicate_iff]
    exact ⟨by simp, hz⟩
  rw [← this, List.take_append_drop]

/-- A header within its bounds, with canonical sync fields, zero-padded strings and version 1,
is what the decoder makes of its own encoding, when the header handed to the decoder agrees
with it on the unused channel names. -/
theorem reread_eq (d : Decls) (h h0 : kum_6d6_header) (hb : InBounds d h) (hv : h.version = 1)
    (hs : SyncCanonical d h) (hp : ZeroPadded h)
    (hn : h0.channel_names.drop h.channel_count = h.channel_names.drop h.channel_count) :
    reread d h0 h = h := by
  obtain ⟨-, -, -, -, b1, b2, b3, b4, ⟨c1, c2, c3⟩, ⟨g1, -, g3⟩, -, s1, s2, s3, s4,
    ⟨n1, n2, -⟩, s5⟩ := hb
  obtain ⟨p1, p2, p3, p4, p5, p6⟩ := hp
  have e1 : h.address % 256 ^ 4 = h.address := Nat.mod_eq_of_lt (by norm_num at b1 ⊢; omega)
  have e2 : h.sample_rate % 256 ^ 2 = h.sample_rate :=
    Nat.mod_eq_of_lt (by norm_num at b2 ⊢; omega)
  have e3 : h.written_samples % 256 ^ 8 = h.written_samples :=
    Nat.mod_eq_of_lt (by norm_num at b3 ⊢; omega)
  have e4 : h.lost_samples % 256 ^ 4 = h.lost_samples :=
    Nat.mod_eq_of_lt (by norm_num at b4 ⊢; omega)
  have e5 : h.gain.take h.channel_count ++
      List.replicate (d.KUM_6D6_MAX_CHANNEL_COUNT - h.channel_count) 0 = h.gain := by
    rw [← g1]; exact zpad_take_drop _ _ g3
  have e6 : (h.channel_names.take h.channel_count).map (zpad d.sizeof_channel_name) =
      h.channel_names.take h.channel_count := by
    conv_rhs => rw [← List.map_id (h.channel_names.take h.channel_count)]
    apply List.map_congr_left
    intro s hs'
    have hm := List.mem_of_mem_take hs'
    have := p5 s hm
    rw [(n2 s hm).1] at this
    exact this.symm
  have e7 : reread d h0 h = { h with
      sync_type := (reread d h0 h).sync_type
      sync_time := (reread d h0 h).sync_time
      skew := (reread d h0 h).skew } := by
    unfold reread
    simp only [e1, e2, e3, e4, e5, e6, hn, List.take_append_drop]
    rw [← s1.1, ← s2.1, ← s3.1, ← s4.1, ← s5.1, ← p1, ← p2, ← p3, ← p4, ← p6, ← hv]
  rw [e7]
  unfold reread
  simp only
  cases hst : h.sync_type with
  | NONE =>
    obtain ⟨q1, q2⟩ := hs.1 hst
    have : h = { h with sync_type := .NONE, sync_time := List.replicate 6 0, skew := 0 } := by
      rw [← hst, ← q1, ← q2]
    simp [hst]
    exact this.symm
  | SYNC =>
    obtain ⟨q1, q2, q3⟩ := hs.2 (by rw [hst]; simp)
    simp only [hst, q1, wrap32_id _ q2 q3, true_or, and_self, if_true]
    rw [← hst]
  | SKEW =>
    obtain ⟨q1, q2, q3⟩ := hs.2 (by rw [hst]; simp)
    simp only [hst, q1, wrap32_id _ q2 q3, or_true, and_self, if_true]
    rw [← hst]

/-- C2, amended. Encode followed by decode does not fail where the block has room: for every
header within its declared bounds whose fields before the comment, the `cmnt` tag included,
end before byte 512, if `kum_6d6_header_write` returns 0 then `kum_6d6_header_read` returns 0
on the block it wrote. -/
theorem write_then_read_succeeds (d : Decls) (h h0 : kum_6d6_header) (x : Mem)
    (hb : InBounds d h) (hfit : (enc_head h).length < 512)
    (hw : (kum_6d6_header_write h x).1 = 0) :
    (kum_6d6_header_read d h0 (kum_6d6_header_write h x).2).1 = 0 := by
  obtain ⟨-, w2, w3⟩ := write_spec h x (inBounds_wrTyped d h hb) hfit
  have hE := w2.1 hw
  obtain ⟨H, Z, -⟩ := w3 hE
  exact (read_ret_zero_iff d h0 _).2 (grammar_of_encoding d h _ hb hE H Z)

/-- Witness of C2, amended, on the example header. -/
theorem write_then_read_succeeds_witness :
    InBounds ex_decls ex_header ∧ (enc_head ex_header).length < 512 ∧
    (kum_6d6_header_write ex_header ex_mem).1 = 0 ∧
    (kum_6d6_header_read ex_decls ex_header (kum_6d6_header_write ex_header ex_mem).2).1 = 0 :=
  ⟨by decide, by decide, by decide,
    write_then_read_succeeds ex_decls ex_header ex_header ex_mem (by decide) (by decide)
      (by decide)⟩

/-- C1, amended. Round trip of the header codec: for every header within its declared bounds
that has version 1, canonical sync fields (no sync type: zero sync time and skew; a sync type:
a sync time that passes `bcd_valid` and a skew of 32 bits) and zero-padded strings, and whose
fields before the comment fit in the block, if `kum_6d6_header_write` returns 0 then
`kum_6d6_header_read`, filling a header that agrees with it on the unused channel names,
returns 0 and yields the header itself. -/
theorem header_round_trip (d : Decls) (h h0 : kum_6d6_header) (x : Mem)
    (hb : InBounds d h) (hv : h.version = 1) (hs : SyncCanonical d h) (hp : ZeroPadded h)
    (hl : h0.channel_names.length = d.KUM_6D6_MAX_CHANNEL_COUNT)
    (hn : h0.channel_names.drop h.channel_count = h.channel_names.drop h.channel_count)
    (hfit : (enc_head h).length < 512)
    (hw : (kum_6d6_header_write h x).1 = 0) :
    kum_6d6_header_read d h0 (kum_6d6_header_write h x).2 = (0, h) := by
  obtain ⟨-, w2, w3⟩ := write_spec h x (inBounds_wrTyped d h hb) hfit
  have hE := w2.1 hw
  obtain ⟨H, Z, -⟩ := w3 hE
  have hc : h.channel_count ≤ h0.channel_names.length := by
    rw [hl]; exact hb.2.2.2.2.2.2.2.2.1.2.1
  rw [read_of_grammar d h0 _ (grammar_of_encoding d h _ hb hE H Z),
    decoded_of_encoding d h h0 _ hb hE H hc, reread_eq d h h0 hb hv hs hp hn]

/-- Witness of the amended C1 on the example header. -/
theorem header_round_trip_witness :
    InBounds ex_decls ex_header ∧ SyncCanonical ex_decls ex_header ∧ ZeroPadded ex_header ∧
    (enc_head ex_header).length < 512 ∧ (kum_6d6_header_write ex_header ex_mem).1 = 0 ∧
    kum_6d6_header_read ex_decls ex_header (kum_6d6_header_write ex_header ex_mem).2 =
      (0, ex_header) :=
  ⟨by decide, by decide, by decide, by decide, by decide,
    header_round_trip ex_decls ex_header ex_header ex_mem (by decide) (by decide) (by decide)
      (by decide) (by decide) (by decide) (by decide) (by decide)⟩

/-- C1, counterexample. Headers within the declared bounds that the encoder accepts and the
decoder does not give back: a version-2 header comes back as version 1 (the encoder never
writes the marker); a skew without sync type comes back as 0; a skew beyond 32 bits comes back
truncated; a sync time that is not BCD comes back as no sync at all; a byte behind a string
terminator comes back as zero; and the unused channel names come back as they were in the
header handed to the decoder. -/
theorem header_round_trip_fails :
    (InBounds ex_decls ex_header_v2 ∧ (kum_6d6_header_write ex_header_v2 ex_mem).1 = 0 ∧
      (kum_6d6_header_read ex_decls ex_header_v2
        (kum_6d6_header_write ex_header_v2 ex_mem).2).1 = 0 ∧
      (kum_6d6_header_read ex_decls ex_header_v2
        (kum_6d6_header_write ex_header_v2 ex_mem).2).2.version = 1 ∧
      ex_header_v2.version = 2) ∧
    (InBounds ex_decls ex_header_none ∧ (kum_6d6_header_write ex_header_none ex_mem).1 = 0 ∧
      (kum_6d6_header_read ex_decls ex_header_none
        (kum_6d6_header_write ex_header_none ex_mem).2).2.skew = 0 ∧
      ex_header_none.skew = 5) ∧
    (InBounds ex_decls ex_header_wide ∧ (kum_6d6_header_write ex_header_wide ex_mem).1 = 0 ∧
      (kum_6d6_header_read ex_decls ex_header_wide
        (kum_6d6_header_write ex_header_wide ex_mem).2).2.skew = -2 ^ 31 ∧
      ex_header_wide.skew = 2 ^ 31) ∧
    (InBounds ex_decls ex_header_bcd ∧ (kum_6d6_header_write ex_header_bcd ex_mem).1 = 0 ∧
      (kum_6d6_header_read ex_decls ex_header_bcd
        (kum_6d6_header_write ex_header_bcd ex_mem).2).2.sync_type = .NONE ∧
      ex_header_bcd.sync_type = .SYNC) ∧
    (InBounds ex_decls ex_header_tail ∧ (kum_6d6_header_write ex_header_tail ex_mem).1 = 0 ∧
      (kum_6d6_header_read ex_decls ex_header_tail
        (kum_6d6_header_write ex_header_tail ex_mem).2).2.recorder_id =
          [0x41, 0x42, 0, 0, 0, 0, 0, 0] ∧
      ex_header_tail.recorder_id = [0x41, 0x42, 0, 0x43, 0, 0, 0, 0]) ∧
    (InBounds ex_decls ex_header ∧ (kum_6d6_header_write ex_header ex_mem).1 = 0 ∧
      (kum_6d6_header_read ex_decls ex_header_stale
        (kum_6d6_header_write ex_header ex_mem).2).2.channel_names =
          ex_header_stale.channel_names ∧
      ex_header_stale.channel_names ≠ ex_header.channel_names) := by
  refine ⟨?_, ?_, ?_, ?_, ?_, ?_⟩ <;> decide

/-- C4. Rejection of malformed headers: for every block, `kum_6d6_header_read` returns -1 if
byte 511 is not zero, if the channel-count byte behind the `chan` tag is 0 or above
`KUM_6D6_MAX_CHANNEL_COUNT`, or if one of the strings (recorder id, RTC id, latitude,
longitude, one of the first `channel_count` channel names, comment) has at least as many bytes
before its terminator as its header field has room. -/
theorem read_rejects_malformed (d : Decls) (h0 : kum_6d6_header) (x : Mem) :
    (x 511 ≠ 0 → (kum_6d6_header_read d h0 x).1 = -1) ∧
    (cnt x = 0 ∨ d.KUM_6D6_MAX_CHANNEL_COUNT < cnt x → (kum_6d6_header_read d h0 x).1 = -1) ∧
    (d.sizeof_recorder_id ≤ strlen x (at_rcid x + 4) → (kum_6d6_header_read d h0 x).1 = -1) ∧
    (d.sizeof_rtc_id ≤ strlen x (at_rtci x + 4) → (kum_6d6_header_read d h0 x).1 = -1) ∧
    (d.sizeof_latitude ≤ strlen x (at_lati x + 4) → (kum_6d6_header_read d h0 x).1 = -1) ∧
    (d.sizeof_longitude ≤ strlen x (at_logi x + 4) → (kum_6d6_header_read d h0 x).1 = -1) ∧
    (∀ i < cnt x, d.sizeof_channel_name ≤ strlen x (name_at x (at_alia x + 4) i) →
      (kum_6d6_header_read d h0 x).1 = -1) ∧
    (d.sizeof_comment ≤ strlen x (at_cmnt x + 4) → (kum_6d6_header_read d h0 x).1 = -1) := by
  have key : ¬ Grammar d x → (kum_6d6_header_read d h0 x).1 = -1 := by
    intro hg
    rcases read_ret d h0 x with h | h
    · exact absurd ((read_ret_zero_iff d h0 x).1 h) hg
    · exact h
  refine ⟨fun h => key fun g => h g.1, fun h => key fun g => ?_, fun h => key fun g => ?_,
    fun h => key fun g => ?_, fun h => key fun g => ?_, fun h => key fun g => ?_,
    fun i hi h => key fun g => ?_, fun h => key fun g => ?_⟩
  · have := g.2.2.2.2.2.2.2.1; omega
  · have := g.2.2.2.2.2.2.2.2.2.2.1.2; omega
  · have := g.2.2.2.2.2.2.2.2.2.2.2.1.2; omega
  · have := g.2.2.2.2.2.2.2.2.2.2.2.2.1.2; omega
  · have := g.2.2.2.2.2.2.2.2.2.2.2.2.2.1.2; omega
  · have := g.2.2.2.2.2.2.2.2.2.2.2.2.2.2.1.2 i hi; omega
  · have := g.2.2.2.2.2.2.2.2.2.2.2.2.2.2.2.1.2; omega

/-- C5. Strict tag grammar: for every block, `kum_6d6_header_read` returns -1 unless the tags
`time`, `addr`, `rate`, `writ`, `lost`, `chan`, `gain`, `bitd`, `rcid` stand at their fixed
offsets (shifted by 4 behind the version-2 marker) and the tags `rtci`, `lati`, `logi`,
`alia`, `cmnt` each at the first non-zero byte after the field before it; when it returns 0
the tags stand there, in this order, inside the block. -/
theorem read_tag_grammar (d : Decls) (h0 : kum_6d6_header) (x : Mem) :
    (¬ TagsInOrder x → (kum_6d6_header_read d h0 x).1 = -1) ∧
    ((kum_6d6_header_read d h0 x).1 = 0 →
      TagsInOrder x ∧
      FirstNonzeroFrom x (at_rcid x + 4 + strlen x (at_rcid x + 4) + 1) (at_rtci x) ∧
      FirstNonzeroFrom x (at_rtci x + 4 + strlen x (at_rtci x + 4) + 1) (at_lati x) ∧
      FirstNonzeroFrom x (at_lati x + 4 + strlen x (at_lati x + 4) + 1) (at_logi x) ∧
      FirstNonzeroFrom x (at_logi x + 4 + strlen x (at_logi x + 4) + 1) (at_alia x) ∧
      FirstNonzeroFrom x (name_at x (at_alia x + 4) (cnt x)) (at_cmnt x) ∧
      (off_v x + 72 + cnt x < at_rtci x ∧ at_rtci x < at_lati x ∧ at_lati x < at_logi x ∧
        at_logi x < at_alia x ∧ at_alia x < at_cmnt x ∧ at_cmnt x + 4 < 512)) := by
  have inv : Grammar d x → TagsInOrder x := by
    rintro ⟨-, t1, t2, t3, t4, t5, t6, -, t7, t8, ⟨t9, -⟩, ⟨t10, -⟩, ⟨t11, -⟩, ⟨t12, -⟩,
      ⟨t13, -⟩, ⟨t14, -⟩, -⟩
    exact ⟨t1, t2, t3, t4, t5, t6, t7, t8, t9, t10, t11, t12, t13, t14⟩
  constructor
  · intro hn
    rcases read_ret d h0 x with h | h
    · exact absurd (inv ((read_ret_zero_iff d h0 x).1 h)) hn
    · exact h
  · intro h
    have g := (read_ret_zero_iff d h0 x).1 h
    have hb := g.2.2.2.2.2.2.2.2.2.2.2.2.2.2.2.2
    have m1 := le_next_tag x (at_rcid x)
    have m2 := le_next_tag x (at_rtci x)
    have m3 := le_next_tag x (at_lati x)
    have m4 := le_next_tag x (at_logi x)
    have m5 := le_at_cmnt x
    rw [at_rtci_def] at m1
    rw [at_lati_def] at m2
    rw [at_logi_def] at m3
    rw [at_alia_def] at m4
    have m0 : at_rcid x = off_v x + 72 + cnt x := rfl
    have fn : ∀ p, first_nonzero x p < 512 → FirstNonzeroFrom x p (first_nonzero x p) :=
      fun p hp => ⟨le_first_nonzero x p, (first_nonzero_spec x p hp).1,
        (first_nonzero_spec x p hp).2⟩
    refine ⟨inv g, fn _ ?_, fn _ ?_, fn _ ?_, fn _ ?_, fn _ ?_, by omega⟩
    · show at_rtci x < 512; omega
    · show at_lati x < 512; omega
    · show at_logi x < 512; omega
    · show at_alia x < 512; omega
    · show at_cmnt x < 512; omega

/-- C6. The comment is never silently truncated: for every header within its declared bounds
whose fields before the comment fit in the block, `kum_6d6_header_write` returns -1 exactly
when the comment with its terminator needs more bytes than remain behind the `cmnt` tag, and
when it returns 0 the block holds the fields, the `cmnt` tag and then the complete comment
with its terminator. -/
theorem write_comment_not_truncated (d : Decls) (h : kum_6d6_header) (x : Mem)
    (hb : InBounds d h) (hfit : (enc_head h).length < 512) :
    ((kum_6d6_header_write h x).1 = -1 ↔
      512 - (enc_head h).length < cstrlen h.comment + 1) ∧
    ((kum_6d6_header_write h x).1 = 0 ∨ (kum_6d6_header_write h x).1 = -1) ∧
    ((kum_6d6_header_write h x).1 = 0 →
      Holds (kum_6d6_header_write h x).2 0 (enc_head h) ∧
      Holds (kum_6d6_header_write h x).2 ((enc_head h).length - 4) tag_cmnt ∧
      Holds (kum_6d6_header_write h x).2 (enc_head h).length (cstr h.comment ++ [0])) := by
  obtain ⟨w1, w2, w3⟩ := write_spec h x (inBounds_wrTyped d h hb) hfit
  have hl : (encoding h).length = (enc_head h).length + (cstrlen h.comment + 1) := by
    simp [encoding, cstr_length]
  refine ⟨by rw [w1, hl]; omega, ?_, fun hw => ?_⟩
  · by_cases hc : (encoding h).length ≤ 512
    · exact Or.inl (w2.2 hc)
    · exact Or.inr (w1.2 (by omega))
  · obtain ⟨H, -, -⟩ := w3 (w2.1 hw)
    unfold encoding at H
    rw [holds_append] at H
    refine ⟨H.1, ?_, by simpa using H.2⟩
    obtain ⟨Q, hQ⟩ : ∃ Q, enc_head h = Q ++ tag_cmnt := ⟨_, rfl⟩
    have H1 := H.1
    rw [hQ, holds_append] at H1
    have e : (Q ++ tag_cmnt).length - 4 = 0 + Q.length := by simp [tag_cmnt]
    rw [hQ, e]
    exact H1.2

/-- Witness of C6 on the example header. -/
theorem write_comment_not_truncated_witness :
    InBounds ex_decls ex_header ∧ (enc_head ex_header).length < 512 ∧
    ((kum_6d6_header_write ex_header ex_mem).1 = -1 ↔
      512 - (enc_head ex_header).length < cstrlen ex_header.comment + 1) :=
  ⟨by decide, by decide,
    (write_comment_not_truncated ex_decls ex_header ex_mem (by decide) (by decide)).1⟩

/-- C7. Zero fill: whenever `kum_6d6_header_write` returns 0, whatever the buffer held before,
the comment with its terminator stands at the cursor `pos` the fields left, every byte of the
block after the terminator is zero, and byte 511 is zero. For a header whose fields fit, that
cursor is the length of `enc_head`. -/
theorem write_zero_fill (h : kum_6d6_header) (x : Mem)
    (hw : (kum_6d6_header_write h x).1 = 0) :
    (wr_fields h (x, 0)).2 + (cstrlen h.comment + 1) ≤ 512 ∧
    Holds (kum_6d6_header_write h x).2 (wr_fields h (x, 0)).2 (cstr h.comment ++ [0]) ∧
    (kum_6d6_header_write h x).2 ((wr_fields h (x, 0)).2 + cstrlen h.comment) = 0 ∧
    (∀ i, (wr_fields h (x, 0)).2 + (cstrlen h.comment + 1) ≤ i → i < 512 →
      (kum_6d6_header_write h x).2 i = 0) ∧
    (kum_6d6_header_write h x).2 511 = 0 ∧
    (WrTyped h → (enc_head h).length < 512 →
      (wr_fields h (x, 0)).2 = (enc_head h).length) := by
  unfold kum_6d6_header_write at hw ⊢
  obtain ⟨-, c2, c3⟩ := wr_comment_spec h (wr_fields h (x, 0)) _ rfl
  have hle := c2.1 hw
  obtain ⟨d1, d2, -, -⟩ := c3 hle
  have ht : (wr_comment h (wr_fields h (x, 0))).2
      ((wr_fields h (x, 0)).2 + cstrlen h.comment) = 0 := by
    have := d1 (cstrlen h.comment) (by simp [cstr_length])
    rw [cstr0_getD _ _ (le_refl _), src_zero] at this
    exact this
  refine ⟨hle, d1, ht, d2, ?_, fun t f => ?_⟩
  · by_cases h5 : (wr_fields h (x, 0)).2 + cstrlen h.comment = 511
    · rw [← h5]; exact ht
    · exact d2 511 (by omega) (by omega)
  · have := (wr_fields_Wr h x t (by omega)).1
    simpa using this

/-- Witness of C7 on the example header. -/
theorem write_zero_fill_witness :
    (kum_6d6_header_write ex_header ex_mem).1 = 0 ∧
    (kum_6d6_header_write ex_header ex_mem).2 511 = 0 :=
  ⟨by decide, (write_zero_fill ex_header ex_mem (by decide)).2.2.2.2.1⟩

/-! ## The cursor of the encoder stays inside the block

`pos` never exceeds 512, so `512 - pos`, which C computes in `size_t`, does not wrap. -/

theorem copy_string_go_le (p : Nat) (s : Nat → Nat) (n i fuel : Nat) (x : Mem)
    (hn : i + fuel = n) (h1 : 1 ≤ n) : (copy_string_go p s n i fuel x).2 ≤ n - 1 := by
  induction fuel generalizing i x with
  | zero => simp [copy_string_go]
  | succ f ih =>
    simp only [copy_string_go]
    split
    · simp only; omega
    · exact ih (i + 1) _ (by omega)

theorem copy_string_le (x : Mem) (p : Nat) (s : List Nat) (n : Nat) :
    (copy_string x p s n).2 ≤ n - 1 := by
  unfold copy_string
  split
  · simp
  · exact copy_string_go_le p (src s) n 0 n x (by omega) (by omega)

theorem copy_string_0_le (x : Mem) (p : Nat) (s : List Nat) (n : Nat) :
    (copy_string_0 x p s n).2 ≤ n := by
  rw [copy_string_0_ret]
  exact Nat.min_le_right _ _

theorem wr_tag_pos_le (t : List Nat) (w : WrState) (hw : w.2 ≤ 512) :
    (wr_tag t w).2 ≤ 512 ∧ (w.2 ≤ 511 → (wr_tag t w).2 ≤ 511) := by
  unfold wr_tag
  have := copy_string_le w.1 w.2 t (512 - w.2)
  simp only
  omega

theorem wr_tag_pos (t : List Nat) (w : WrState) (ht : IsTag t) (a : Nat) (hw : w.2 ≤ a)
    (ha : a + 5 ≤ 512) : (wr_tag t w).2 ≤ a + 4 := by
  have := (wr_tag_Wr t w ht (by omega)).1
  rw [this, ht.1]
  omega

theorem wr_string_pos_le (s : List Nat) (w : WrState) (hw : w.2 ≤ 512) :
    (wr_string s w).2 ≤ 512 := by
  unfold wr_string
  have := copy_string_0_le w.1 w.2 s (512 - w.2)
  simp only
  omega

theorem wr_bytes_pos_le (b : List Nat) (blen : Nat) (w : WrState) (hw : w.2 ≤ 511) :
    (wr_bytes b blen w).2 ≤ 511 ∧ (wr_bytes b blen w).2 ≤ w.2 + blen := by
  unfold wr_bytes copy_bytes
  have hm : (512 - w.2 + 2 ^ 64 - 1) % 2 ^ 64 = 512 - w.2 - 1 := by
    have : 512 - w.2 + 2 ^ 64 - 1 = (512 - w.2 - 1) + 2 ^ 64 := by omega
    rw [this, Nat.add_mod_right, Nat.mod_eq_of_lt (by omega)]
  simp only [hm]
  split <;> omega

theorem wr_sync_pos (h : kum_6d6_header) (w : WrState) : (wr_sync h w).2 = w.2 + 14 := by
  unfold wr_sync
  split <;> rfl

theorem wr_names_pos_le (h : kum_6d6_header) (i k : Nat) (w : WrState) (hw : w.2 ≤ 512) :
    (wr_names h i k w).2 ≤ 512 := by
  induction k generalizing i w with
  | zero => exact hw
  | succ k ih => exact ih (i + 1) _ (wr_string_pos_le _ w hw)

/-- The cursor `pos` before the comment is at most 512, for every header. -/
theorem wr_fields_pos_le (h : kum_6d6_header) (x : Mem) : (wr_fields h (x, 0)).2 ≤ 512 := by
  simp only [wr_fields]
  have s1 := wr_tag_pos tag_time (x, 0) isTag_time 0 (le_refl _) (by omega)
  generalize wr_tag tag_time (x, 0) = w1 at s1 ⊢
  have s2 := (wr_bytes_pos_le h.start_time 6 w1 (by omega)).2
  generalize wr_bytes h.start_time 6 w1 = w2 at s2 ⊢
  have s3 := wr_sync_pos h w2
  generalize wr_sync h w2 = w3 at s3 ⊢
  have s4 := wr_tag_pos tag_addr w3 isTag_addr 24 (by omega) (by omega)
  generalize wr_tag tag_addr w3 = w4 at s4 ⊢
  have s5 : (wr_store (be_bytes 4 h.address) w4).2 ≤ 32 := by
    simp only [wr_store, be_bytes_length]; omega
  generalize wr_store (be_bytes 4 h.address) w4 = w5 at s5 ⊢
  have s6 := wr_tag_pos tag_rate w5 isTag_rate 32 s5 (by omega)
  generalize wr_tag tag_rate w5 = w6 at s6 ⊢
  have s7 : (wr_store (be_bytes 2 h.sample_rate) w6).2 ≤ 38 := by
    simp only [wr_store, be_bytes_length]; omega
  generalize wr_store (be_bytes 2 h.sample_rate) w6 = w7 at s7 ⊢
  have s8 := wr_tag_pos tag_writ w7 isTag_writ 38 s7 (by omega)
  generalize wr_tag tag_writ w7 = w8 at s8 ⊢
  have s9 : (wr_store (be_bytes 8 h.written_samples) w8).2 ≤ 50 := by
    simp only [wr_store, be_bytes_length]; omega
  generalize wr_store (be_bytes 8 h.written_samples) w8 = w9 at s9 ⊢
  have s10 := wr_tag_pos tag_lost w9 isTag_lost 50 s9 (by omega)
  generalize wr_tag tag_lost w9 = w10 at s10 ⊢
  have s11 : (wr_store (be_bytes 4 h.lost_samples) w10).2 ≤ 58 := by
    simp only [wr_store, be_bytes_length]; omega
  generalize wr_store (be_bytes 4 h.lost_samples) w10 = w11 at s11 ⊢
  have s12 := wr_tag_pos tag_chan w11 isTag_chan 58 s11 (by omega)
  generalize wr_tag tag_chan w11 = w12 at s12 ⊢
  have s13 : (wr_store (be_bytes 1 h.channel_count) w12).2 ≤ 63 := by
    simp only [wr_store, be_bytes_length]; omega
  generalize wr_store (be_bytes 1 h.channel_count) w12 = w13 at s13 ⊢
  have s14 := wr_tag_pos tag_gain w13 isTag_gain 63 s13 (by omega)
  generalize wr_tag tag_gain w13 = w14 at s14 ⊢
  have s15 := (wr_bytes_pos_le h.gain h.channel_count w14 (by omega)).1
  generalize wr_bytes h.gain h.channel_count w14 = w15 at s15 ⊢
  have s16 := (wr_tag_pos_le tag_bitd w15 (by omega)).2 s15
  generalize wr_tag tag_bitd w15 = w16 at s16 ⊢
  have s17 : (wr_store (be_bytes 1 h.bit_depth) w16).2 ≤ 512 := by
    simp only [wr_store, be_bytes_length]; omega
  generalize wr_store (be_bytes 1 h.bit_depth) w16 = w17 at s17 ⊢
  refine (wr_tag_pos_le _ _ (wr_names_pos_le h 0 _ _ (wr_tag_pos_le _ _
    (wr_string_pos_le _ _ (wr_tag_pos_le _ _ (wr_string_pos_le _ _ (wr_tag_pos_le _ _
    (wr_string_pos_le _ _ (wr_tag_pos_le _ _ (wr_string_pos_le _ _
    (wr_tag_pos_le _ _ s17).1)).1)).1)).1)).1)).1

theorem names_bytes_length_bound (size : Nat) (l : List (List Nat))
    (hl : ∀ s ∈ l, cstrlen s < size) : (names_bytes l).length ≤ l.length * size := by
  induction l with
  | nil => simp [names_bytes]
  | cons a r ih =>
    have h1 := hl a (List.mem_cons_self _ _)
    have h2 := ih fun s hs => hl s (List.mem_cons_of_mem _ hs)
    simp only [names_bytes, List.length_append, cstr_length, List.length_cons, List.length_nil,
      Nat.add_mul, Nat.one_mul]
    omega

/-- When the declared sizes leave room, the fields before the comment of every header within
its bounds end before byte 512: 96 bytes of tags and fixed fields, one gain per channel, the
four strings and the channel names. -/
theorem enc_head_fits (d : Decls) (h : kum_6d6_header) (hb : InBounds d h)
    (hd : 96 + d.KUM_6D6_MAX_CHANNEL_COUNT + d.sizeof_recorder_id + d.sizeof_rtc_id +
      d.sizeof_latitude + d.sizeof_longitude +
      d.KUM_6D6_MAX_CHANNEL_COUNT * d.sizeof_channel_name < 512) :
    (enc_head h).length < 512 := by
  rw [enc_head_length h (inBounds_wrTyped d h hb)]
  obtain ⟨-, -, -, -, -, -, -, -, ⟨-, c2, -⟩, -, -, r1, r2, r3, r4, ⟨n1, n2, -⟩, -⟩ := hb
  have hn := names_bytes_length_bound d.sizeof_channel_name
    (h.channel_names.take h.channel_count)
    (fun s hs => (n2 s (List.mem_of_mem_take hs)).2.2)
  have hlen : (h.channel_names.take h.channel_count).length = h.channel_count := by
    rw [List.length_take, n1]; omega
  rw [hlen] at hn
  have hm : h.channel_count * d.sizeof_channel_name ≤
      d.KUM_6D6_MAX_CHANNEL_COUNT * d.sizeof_channel_name := Nat.mul_le_mul_right _ c2
  have := r1.2.2
  have := r2.2.2
  have := r3.2.2
  have := r4.2.2
  omega

/-- Counterexample to C2: encode followed by decode fails for a header within its declared
bounds for which the encoder returns 0. Where the declared sizes leave no room the encoder
clips the `cmnt` tag at byte 512 and still returns 0: with a recorder id of 408 bytes
declared, the header `ex_header_large` is within its bounds, its fields before the comment
take 512 bytes, the encoder returns 0 and the decoder rejects the block with -1. -/
theorem write_clips_tag :
    InBounds ex_decls_large ex_header_large ∧ (enc_head ex_header_large).length = 512 ∧
    (kum_6d6_header_write ex_header_large ex_mem).1 = 0 ∧
    (kum_6d6_header_read ex_decls_large ex_header_large
      (kum_6d6_header_write ex_header_large ex_mem).2).1 = -1 := by
  set_option maxRecDepth 100000 in
  refine ⟨?_, ?_, ?_, ?_⟩ <;> decide

/-! ## The frame decoder: lemmas -/

theorem time_all_length (E : Env) (t n : Int) (ws : List (WMSeed E)) (fs : Files E) :
    (time_all E t n ws fs).1.length = ws.length := by
  induction ws generalizing fs with
  | nil => rfl
  | cons w ws ih => simp [time_all, ih]

theorem sample_all_length (E : Env) (frame : Nat → Int) (c : Nat) (ws : List (WMSeed E)) :
    (sample_all E frame c ws).length = ws.length := by
  induction ws generalizing c with
  | nil => rfl
  | cons w ws ih => simp [sample_all, ih]

theorem sample_all_getElem (E : Env) (frame : Nat → Int) (c : Nat) (ws : List (WMSeed E))
    (i : Nat) (hi : i < ws.length) (hj : i < (sample_all E frame c ws).length) :
    (sample_all E frame c ws)[i] = (wmseed_sample E ws[i] (frame (c + i))).2 := by
  induction ws generalizing c i with
  | nil => simp at hi
  | cons w ws ih =>
    cases i with
    | zero => simp [sample_all]
    | succ i =>
      simp only [sample_all, List.getElem_cons_succ]
      rw [ih (c + 1) i (by simpa using hi) (by simpa [sample_all] using hj)]
      rw [show c + 1 + i = c + (i + 1) by omega]

theorem sample_all_congr (E : Env) (f g : Nat → Int) (c : Nat) (ws : List (WMSeed E))
    (h : ∀ i, i < ws.length → f (c + i) = g (c + i)) :
    sample_all E f c ws = sample_all E g c ws := by
  induction ws generalizing c with
  | nil => rfl
  | cons w ws ih =>
    simp only [sample_all]
    have h0 := h 0 (by simp)
    simp only [Nat.add_zero] at h0
    rw [h0, ih (c + 1) (fun i hi => by
      have := h (i + 1) (by simpa using hi)
      rwa [show c + 1 + i = c + (i + 1) by omega])]

/-- Every writer gets the call `wmseed_time(w, t, n)`, one after the other, each on the files
the calls before it left. -/
theorem time_all_getElem (E : Env) (t n : Int) (ws : List (WMSeed E)) (fs : Files E)
    (i : Nat) (hi : i < ws.length) (hj : i < (time_all E t n ws fs).1.length) :
    ∃ fs', (time_all E t n ws fs).1[i] = (wmseed_time E ws[i] fs' t n).2.1 := by
  induction ws generalizing fs i with
  | nil => simp at hi
  | cons w ws ih =>
    cases i with
    | zero => exact ⟨fs, by simp [time_all]⟩
    | succ i =>
      obtain ⟨fs', h⟩ := ih (wmseed_time E w fs t n).2.2 i (by simpa using hi)
        (by simpa [time_all] using hj)
      exact ⟨fs', by simpa [time_all] using h⟩

theorem frame_fill_nil (frame : Nat → Int) (p : Nat) : frame_fill frame p [] = frame := by
  funext i; simp [frame_fill]

theorem frame_fill_cons (frame : Nat → Int) (p : Nat) (u : Int) (us : List Int) :
    frame_fill (frame_set frame p u) (p + 1) us = frame_fill frame p (u :: us) := by
  funext i
  simp only [frame_fill, frame_set, List.length_cons]
  by_cases h1 : p + 1 ≤ i ∧ i < p + 1 + us.length
  · rw [if_pos h1, if_pos (by omega)]
    obtain ⟨k, rfl⟩ : ∃ k, i = p + 1 + k := ⟨i - (p + 1), by omega⟩
    rw [show p + 1 + k - (p + 1) = k by omega, show p + 1 + k - p = k + 1 by omega]
    simp
  · rw [if_neg h1]
    by_cases h2 : i = p
    · subst h2; rw [if_pos rfl, if_pos (by omega)]; simp
    · rw [if_neg h2, if_neg (by omega)]

/-- The words that complete a group: when `m + 1` words are missing and `m + 1` words come,
they are stored behind the words already there and the group is dispatched. -/
theorem fill_group (E : Env) (ck : Clock E) (nc : Nat) (us : List Int) (st : Decoder E)
    (hd : st.done = false) (hr : st.remaining = us.length) (hu : us ≠ []) :
    us.foldl (frame_word E ck nc) st =
      frame_done E ck { st with
        frame := frame_fill st.frame st.pos us
        pos := st.pos + us.length
        remaining := 0 } := by
  induction us generalizing st with
  | nil => exact absurd rfl hu
  | cons u us ih =>
    have hr' : st.remaining = (us.length : Int) + 1 := by rw [hr]; simp
    have hr0 : st.remaining ≠ 0 := by omega
    simp only [List.foldl_cons]
    by_cases hus : us = []
    · subst hus
      simp only [List.foldl_nil, frame_word, hd, Bool.false_eq_true, if_false, hr0]
      have h1 : st.remaining - 1 = 0 := by rw [hr]; simp
      simp only [h1, if_true, List.length_singleton]
      rw [← frame_fill_cons, frame_fill_nil]
    · have hlen : 0 < us.length := List.length_pos.2 hus
      have h1 : st.remaining - 1 ≠ 0 := by omega
      have step : frame_word E ck nc st u =
          { st with frame := frame_set st.frame st.pos u, pos := st.pos + 1,
                    remaining := st.remaining - 1 } := by
        simp only [frame_word, hd, Bool.false_eq_true, if_false, hr0, h1]
      rw [step]
      rw [ih { st with frame := frame_set st.frame st.pos u, pos := st.pos + 1,
                       remaining := st.remaining - 1 } hd (by simp only; omega) hus]
      simp only [frame_fill_cons, List.length_cons]
      rw [show st.pos + 1 + us.length = st.pos + (us.length + 1) by omega]

/-- Words that do not complete the group: they are stored and nothing is dispatched. -/
theorem fill_partial (E : Env) (ck : Clock E) (nc : Nat) (us : List Int) (st : Decoder E)
    (hd : st.done = false) (hr : (us.length : Int) < st.remaining) :
    us.foldl (frame_word E ck nc) st =
      { st with
        frame := frame_fill st.frame st.pos us
        pos := st.pos + us.length
        remaining := st.remaining - us.length } := by
  induction us generalizing st with
  | nil => simp [frame_fill_nil]
  | cons u us ih =>
    simp only [List.length_cons, Nat.cast_add, Nat.cast_one] at hr
    have hr0 : st.remaining ≠ 0 := by omega
    have h1 : st.remaining - 1 ≠ 0 := by omega
    have step : frame_word E ck nc st u =
        { st with frame := frame_set st.frame st.pos u, pos := st.pos + 1,
                  remaining := st.remaining - 1 } := by
      simp only [frame_word, hd, Bool.false_eq_true, if_false, hr0, h1]
    simp only [List.foldl_cons]
    rw [step]
    rw [ih { st with frame := frame_set st.frame st.pos u, pos := st.pos + 1,
                     remaining := st.remaining - 1 } hd (by simp only; omega)]
    simp only [frame_fill_cons, List.length_cons, Nat.cast_add, Nat.cast_one]
    rw [show st.pos + 1 + us.length = st.pos + (us.length + 1) by omega,
      show st.remaining - 1 - (us.length : Int) = st.remaining - ((us.length : Int) + 1) by omega]

theorem foldl_done (E : Env) (ck : Clock E) (nc : Nat) (ws : List Int) (st : Decoder E)
    (hd : st.done = true) : ws.foldl (frame_word E ck nc) st = st := by
  induction ws with
  | nil => rfl
  | cons w ws ih => simp only [List.foldl_cons, frame_word, hd, if_true, ih]

/-- A complete group, from the state between two groups: its words are stored from `frame[0]`
on and the group is dispatched. -/
theorem open_group (E : Env) (ck : Clock E) (nc : Nat) (v : Int) (us : List Int)
    (st : Decoder E) (hd : st.done = false) (hr : st.remaining = 0)
    (hg : (v :: us).length = group_size nc v) :
    (v :: us).foldl (frame_word E ck nc) st =
      frame_done E ck { st with
        frame := frame_fill st.frame 0 (v :: us)
        pos := (v :: us).length
        remaining := 0 } := by
  have hrem : (if v % 2 = 1 then (3 : Int) else (nc : Int) - 1) = (us.length : Int) := by
    unfold group_size at hg
    simp only [List.length_cons] at hg
    split
    · rename_i h; rw [if_pos h] at hg; omega
    · rename_i h; rw [if_neg h] at hg; omega
  simp only [List.foldl_cons]
  by_cases hus : us = []
  · subst hus
    simp only [List.length_nil, Nat.cast_zero] at hrem
    simp only [List.foldl_nil, frame_word, hd, Bool.false_eq_true, if_false, hr, if_true, hrem,
      List.length_singleton]
    rw [← frame_fill_cons, frame_fill_nil]
  · have hlen : 0 < us.length := List.length_pos.2 hus
    have step : frame_word E ck nc st v =
        { st with frame := frame_set st.frame 0 v, pos := 1, remaining := (us.length : Int) } := by
      have hne : (us.length : Int) ≠ 0 := by omega
      simp only [frame_word, hd, Bool.false_eq_true, if_false, hr, if_true, hrem, hne]
    rw [step]
    rw [fill_group E ck nc us
      { st with frame := frame_set st.frame 0 v, pos := 1, remaining := (us.length : Int) }
      hd rfl hus]
    simp only [frame_fill_cons, List.length_cons]
    rw [show 1 + us.length = us.length + 1 by omega]

/-- The dispatch of the state machine on a stored group is the event of the group. -/
theorem frame_done_event (E : Env) (ck : Clock E) (nc : Nat) (g : List Int) (a b : Decoder E)
    (p : Nat) (f : Nat → Int) (hab : SameEvents E a b) (hd : a.done = false)
    (hnc : 1 ≤ nc) (hg : g.length = group_size nc (g.headD 0))
    (hch : a.channels.length = nc) :
    SameEvents E
      (frame_done E ck { a with frame := frame_fill f 0 g, pos := p, remaining := 0 })
      (group_event E ck b g) := by
  obtain ⟨ap, ar, aht, af, an, ac, afs, ad⟩ := a
  obtain ⟨bp, br, bht, bf, bn, bc, bfs, bd⟩ := b
  simp only [SameEvents] at hab
  obtain ⟨rfl, rfl, rfl, rfl, rfl⟩ := hab
  simp only at hd hch
  subst hd
  have hlen : 1 ≤ g.length := by
    rw [hg]; unfold group_size; split <;> omega
  have f0 : frame_fill f 0 g 0 = g.headD 0 := by
    unfold frame_fill
    rw [if_pos ⟨le_refl _, by omega⟩]
    cases g with
    | nil => simp at hlen
    | cons v us => simp
  unfold frame_done group_event SameEvents
  simp only [f0, Bool.false_eq_true, if_false]
  by_cases hodd : g.headD 0 % 2 = 1
  · have h4 : g.length = 4 := by rw [hg]; unfold group_size; rw [if_pos hodd]
    have f1 : frame_fill f 0 g 1 = g.getD 1 0 := by
      unfold frame_fill
      rw [if_pos ⟨by omega, by omega⟩]
    simp only [hodd, if_true, f1]
    by_cases h1 : g.headD 0 = 1
    · simp only [h1, if_true, and_self]
    · simp only [h1, if_false]
      by_cases h13 : g.headD 0 = 13
      · simp only [h13, if_true, and_self]
      · simp only [h13, if_false, and_self]
  · have hn : g.length = nc := by rw [hg]; unfold group_size; rw [if_neg hodd]
    simp only [hodd, if_false]
    cases aht with
    | true =>
      simp only [if_true, and_self, and_true, true_and]
      apply sample_all_congr
      intro i hi
      unfold frame_fill
      rw [if_pos ⟨by omega, by omega⟩]
      simp
    | false => simp only [Bool.false_eq_true, if_false, and_self]

theorem frame_done_keeps (E : Env) (ck : Clock E) (st : Decoder E) :
    (frame_done E ck st).remaining = st.remaining ∧
    (frame_done E ck st).channels.length = st.channels.length := by
  unfold frame_done
  split
  · split
    · exact ⟨rfl, time_all_length _ _ _ _ _⟩
    · split <;> exact ⟨rfl, rfl⟩
  · split
    · exact ⟨rfl, sample_all_length _ _ _ _⟩
    · exact ⟨rfl, rfl⟩

theorem group_event_done (E : Env) (ck : Clock E) (gs : List (List Int)) (st : Decoder E)
    (hd : st.done = true) : gs.foldl (group_event E ck) st = st := by
  induction gs with
  | nil => rfl
  | cons g gs ih => simp only [List.foldl_cons, group_event, hd, if_true, ih]

/-- The state machine over a word stream shows the events of the groups of the stream. -/
theorem words_groups (E : Env) (ck : Clock E) (nc : Nat) (hnc : 1 ≤ nc) (fuel : Nat)
    (ws : List Int) (hf : ws.length ≤ fuel) (a b : Decoder E) (hab : SameEvents E a b)
    (hr : a.remaining = 0) (hch : a.channels.length = nc) :
    SameEvents E (ws.foldl (frame_word E ck nc) a)
      ((groups_go nc fuel ws).foldl (group_event E ck) b) := by
  induction fuel generalizing ws a b with
  | zero =>
    have : ws = [] := List.length_eq_zero.1 (by omega)
    subst this
    simpa [groups_go] using hab
  | succ fuel ih =>
    by_cases hd : a.done = true
    · rw [foldl_done E ck nc ws a hd, group_event_done E ck _ b (by rw [← hab.2.2.2.2]; exact hd)]
      exact hab
    · have hd' : a.done = false := by simpa using hd
      cases ws with
      | nil => simpa [groups_go] using hab
      | cons v rest =>
        simp only [groups_go]
        have hpos : 1 ≤ group_size nc v := by unfold group_size; split <;> omega
        by_cases hn : group_size nc v ≤ (v :: rest).length
        · rw [if_pos hn]
          have hsplit : v :: rest =
              (v :: rest).take (group_size nc v) ++ (v :: rest).drop (group_size nc v) :=
            (List.take_append_drop _ _).symm
          obtain ⟨k, hk⟩ : ∃ k, group_size nc v = k + 1 := ⟨group_size nc v - 1, by omega⟩
          have htake : (v :: rest).take (group_size nc v) = v :: rest.take k := by
            rw [hk]; rfl
          have hlen : (v :: rest.take k).length = group_size nc v := by
            rw [← htake, List.length_take]; omega
          conv_lhs => rw [hsplit, List.foldl_append, htake]
          rw [List.foldl_cons (l := groups_go nc fuel _), htake]
          rw [open_group E ck nc v (rest.take k) a hd' hr hlen]
          have hev := frame_done_event E ck nc (v :: rest.take k) a b
            (v :: rest.take k).length a.frame hab hd' hnc (by simpa using hlen) hch
          have hk' := frame_done_keeps E ck
            { a with frame := frame_fill a.frame 0 (v :: rest.take k),
                     pos := (v :: rest.take k).length, remaining := 0 }
          apply ih _ _ _ _ hev hk'.1 (by rw [hk'.2]; exact hch)
          rw [List.length_drop]
          simp only [List.length_cons] at hf ⊢
          omega
        · rw [if_neg hn]
          simp only [List.foldl_nil]
          have hlt : ((rest.length : Int)) < (if v % 2 = 1 then (3 : Int) else (nc : Int) - 1) := by
            unfold group_size at hn
            simp only [List.length_cons] at hn
            split
            · rename_i h; rw [if_pos h] at hn; omega
            · rename_i h; rw [if_neg h] at hn; omega
          have hne : (if v % 2 = 1 then (3 : Int) else (nc : Int) - 1) ≠ 0 := by
            have : (0 : Int) ≤ rest.length := Int.natCast_nonneg _
            omega
          have step : frame_word E ck nc a v =
              { a with frame := frame_set a.frame 0 v, pos := 1,
                       remaining := if v % 2 = 1 then 3 else (nc : Int) - 1 } := by
            simp only [frame_word, hd', Bool.false_eq_true, if_false, hr, if_true, hne]
          simp only [List.foldl_cons]
          rw [step, fill_partial E ck nc rest
            { a with frame := frame_set a.frame 0 v, pos := 1,
                     remaining := if v % 2 = 1 then 3 else (nc : Int) - 1 }
            hd' (by simpa using hlt)]
          exact hab

theorem frame_blocks_stream (E : Env) (ck : Clock E) (nc : Nat) (st : Decoder E)
    (blocks : List Mem) :
    frame_blocks E ck nc st blocks = (stream_words blocks).foldl (frame_word E ck nc) st := by
  unfold frame_blocks stream_words
  induction blocks generalizing st with
  | nil => rfl
  | cons b bs ih =>
    simp only [List.foldl_cons, List.map_cons, List.flatten_cons, List.foldl_append]
    rw [ih]
    rfl

/-- The decoder over blocks shows the events of the groups of the concatenated words. -/
theorem frame_blocks_groups (E : Env) (ck : Clock E) (nc : Nat) (hnc : 1 ≤ nc)
    (st : Decoder E) (hr : st.remaining = 0) (hch : st.channels.length = nc)
    (blocks : List Mem) :
    SameEvents E (frame_blocks E ck nc st blocks)
      ((groups nc (stream_words blocks)).foldl (group_event E ck) st) := by
  rw [frame_blocks_stream]
  exact words_groups E ck nc hnc _ _ (le_refl _) st st ⟨rfl, rfl, rfl, rfl, rfl⟩ hr hch

/-- C9. Block boundaries do not affect framing: for every sequence of blocks and every
channel count of at least 1, the decoder of `main`, started between two groups, shows the same
events (Time flag, sample counter, writers, files, end of decoding) as are obtained by
cutting the concatenation of the big-endian words of all blocks into groups (a word with its
low bit set opens a group of 4 words, any other word a group of `channel_count` words) and
triggering the event of each group in turn. -/
theorem framing_ignores_block_boundaries (E : Env) (ck : Clock E) (channel_count : Nat)
    (hnc : 1 ≤ channel_count) (st : Decoder E) (hr : st.remaining = 0)
    (hch : st.channels.length = channel_count) (blocks : List Mem) :
    SameEvents E (frame_blocks E ck channel_count st blocks)
      ((groups channel_count (stream_words blocks)).foldl (group_event E ck) st) :=
  frame_blocks_groups E ck channel_count hnc st hr hch blocks

/-- Witness of C9: two blocks of two channels, decoded from the initial state. -/
theorem framing_ignores_block_boundaries_witness :
    (1 ≤ 2 ∧ (decoder_init ex_env ex_channels).remaining = 0 ∧
      (decoder_init ex_env ex_channels).channels.length = 2) ∧
    SameEvents ex_env
      (frame_blocks ex_env ex_clock 2 (decoder_init ex_env ex_channels)
        [scenario_block, scenario_block])
      ((groups 2 (stream_words [scenario_block, scenario_block])).foldl
        (group_event ex_env ex_clock) (decoder_init ex_env ex_channels)) :=
  ⟨⟨by decide, rfl, rfl⟩,
    framing_ignores_block_boundaries ex_env ex_clock 2 (by decide)
      (decoder_init ex_env ex_channels) rfl rfl [scenario_block, scenario_block]⟩

/-- C8. Sample groups: from the state between two groups, the words of a sample group (first
word with its low bit clear, `channel_count` words) leave the sample counter, the writers and
the files as they are when no Time group was seen before; when one was seen, writer `c` gets
`wmseed_sample` with word `c` of the group, for every channel `c`, the sample counter grows by
exactly one and no file changes. -/
theorem sample_group_handling (E : Env) (ck : Clock E) (channel_count : Nat)
    (hnc : 1 ≤ channel_count) (st : Decoder E) (hd : st.done = false) (hr : st.remaining = 0)
    (hch : st.channels.length = channel_count) (g : List Int)
    (hlen : g.length = channel_count) (heven : ¬ g.headD 0 % 2 = 1) :
    (st.have_time = false →
      (g.foldl (frame_word E ck channel_count) st).sample_number = st.sample_number ∧
      (g.foldl (frame_word E ck channel_count) st).channels = st.channels ∧
      (g.foldl (frame_word E ck channel_count) st).fs = st.fs ∧
      (g.foldl (frame_word E ck channel_count) st).have_time = false) ∧
    (st.have_time = true →
      (g.foldl (frame_word E ck channel_count) st).sample_number = st.sample_number + 1 ∧
      (g.foldl (frame_word E ck channel_count) st).channels.length = channel_count ∧
      (∀ c, (h1 : c < st.channels.length) →
        (h2 : c < (g.foldl (frame_word E ck channel_count) st).channels.length) →
        (g.foldl (frame_word E ck channel_count) st).channels[c] =
          (wmseed_sample E st.channels[c] (g.getD c 0)).2) ∧
      (g.foldl (frame_word E ck channel_count) st).fs = st.fs) ∧
    (g.foldl (frame_word E ck channel_count) st).remaining = 0 := by
  cases g with
  | nil => simp at hlen; omega
  | cons v us =>
    have hv : ¬ v % 2 = 1 := by simpa using heven
    have hg : (v :: us).length = group_size channel_count v := by
      unfold group_size; rw [if_neg hv]; exact hlen
    rw [open_group E ck channel_count v us st hd hr hg]
    have f0 : frame_fill st.frame 0 (v :: us) 0 = v := by simp [frame_fill]
    unfold frame_done
    simp only [f0, hv, if_false]
    refine ⟨fun ht => ?_, fun ht => ?_, ?_⟩
    · simp only [ht, Bool.false_eq_true, if_false, and_self]
    · simp only [ht, if_true, sample_all_length, true_and, and_true]
      refine ⟨hch, fun c h1 h2 => ?_⟩
      rw [sample_all_getElem E _ 0 st.channels c h1 (by rw [sample_all_length]; exact h1)]
      simp only [Nat.zero_add, frame_fill]
      rw [if_pos ⟨by omega, by rw [hlen, ← hch]; omega⟩]
      rfl
    · split <;> rfl

/-- Witness of C8: the sample group `[2, 3]` after a Time group, for two channels. -/
theorem sample_group_handling_witness :
    (1 ≤ 2 ∧ ex_decoder_timed.done = false ∧ ex_decoder_timed.remaining = 0 ∧
      ex_decoder_timed.channels.length = 2 ∧ ([2, 3] : List Int).length = 2 ∧
      ¬ ([2, 3] : List Int).headD 0 % 2 = 1 ∧ ex_decoder_timed.have_time = true) ∧
    ([2, 3].foldl (frame_word ex_env ex_clock 2) ex_decoder_timed).sample_number =
      ex_decoder_timed.sample_number + 1 :=
  ⟨⟨by decide, rfl, rfl, rfl, rfl, by decide, rfl⟩,
    ((sample_group_handling ex_env ex_clock 2 (by decide) ex_decoder_timed rfl rfl rfl [2, 3]
      rfl (by decide)).2.1 rfl).1⟩

/-- The anchored time without skew is the elapsed time behind the start time. -/
theorem anchor_time_plain (E : Env) (ck : Clock E) (e : Int) (h : ck.have_skew = false) :
    anchor_time E ck e = ck.start_time + 1000000 * e := by
  unfold anchor_time
  simp only [h, Bool.false_eq_true, if_false]
  ring

/-- The anchored time with skew, when every integer involved is held exactly by `double`. -/
theorem anchor_time_skew (E : Env) (ck : Clock E) (e : Int) (h : ck.have_skew = true)
    (h1 : Exact53 (ck.start_time + 1000000 * e)) (h2 : Exact53 ck.skew_start)
    (h3 : Exact53 (E.iround (E.mul (E.ofInt (ck.start_time + 1000000 * e - ck.sync_time))
      ck.skew)))
    (h4 : Exact53 (ck.skew_start +
      E.iround (E.mul (E.ofInt (ck.start_time + 1000000 * e - ck.sync_time)) ck.skew)))
    (h5 : Exact53 (ck.start_time + 1000000 * e + (ck.skew_start +
      E.iround (E.mul (E.ofInt (ck.start_time + 1000000 * e - ck.sync_time)) ck.skew)))) :
    anchor_time E ck e = ck.start_time + 1000000 * e + ck.skew_start +
      E.iround (E.mul (E.ofInt (ck.start_time + 1000000 * e - ck.sync_time)) ck.skew) := by
  unfold anchor_time
  simp only [h, if_true]
  have e1 : ck.start_time + e * 1000000 = ck.start_time + 1000000 * e := by ring
  rw [e1, E.round_eq, E.add_ofInt _ _ h2.1 h2.2 h3.1 h3.2 h4.1 h4.2,
    E.add_ofInt _ _ h1.1 h1.2 h4.1 h4.2 h5.1 h5.2, E.toInt_ofInt _ h5.1 h5.2]
  ring

/-- C10. Time-anchor dispatch and skew correction: the four words of a Time group (code 1,
first parameter `e`), from the state between two groups, hand `wmseed_time(t', n)` to every
writer, where `n` is the sample counter and `t'` the anchored time: with
`t = start_time + 1000000 * e`, `start_time` leap-aligned to the sync epoch `S` of the start
header, `t' = t` when the end header carries no skew, and
`t' = t + skew_start + round((t - S) * rate)` when it does and `double` holds the integers
involved exactly. -/
theorem time_anchor_dispatch (E : Env) (d : Decls) (h_start h_end : kum_6d6_header)
    (channel_count : Nat) (st : Decoder E) (e p2 p3 : Int)
    (hd : st.done = false) (hr : st.remaining = 0) :
    -- the dispatch
    (([1, e, p2, p3].foldl (frame_word E (main_clock E d h_start h_end).1 channel_count)
        st).channels,
      ([1, e, p2, p3].foldl (frame_word E (main_clock E d h_start h_end).1 channel_count)
        st).fs) =
      time_all E (anchor_time E (main_clock E d h_start h_end).1 e) st.sample_number
        st.channels st.fs ∧
    (∀ c, (h1 : c < st.channels.length) →
      (h2 : c < (time_all E (anchor_time E (main_clock E d h_start h_end).1 e)
        st.sample_number st.channels st.fs).1.length) → ∃ fs',
      (time_all E (anchor_time E (main_clock E d h_start h_end).1 e) st.sample_number
        st.channels st.fs).1[c] =
      (wmseed_time E st.channels[c] fs'
        (anchor_time E (main_clock E d h_start h_end).1 e) st.sample_number).2.1) ∧
    ([1, e, p2, p3].foldl (frame_word E (main_clock E d h_start h_end).1 channel_count)
        st).have_time = true ∧
    ([1, e, p2, p3].foldl (frame_word E (main_clock E d h_start h_end).1 channel_count)
        st).sample_number = st.sample_number ∧
    -- the clock
    (main_clock E d h_start h_end).1.sync_time = bcd_time E h_start.sync_time ∧
    (main_clock E d h_start h_end).1.start_time =
      bcd_time E h_start.start_time + 1000000 *
        (E.tai_utc_diff (bcd_time E h_start.start_time) -
          E.tai_utc_diff (bcd_time E h_start.sync_time)) ∧
    (main_clock E d h_start h_end).1.skew_start = h_start.skew ∧
    -- the anchored time
    (¬ (h_end.sync_type = .SKEW ∧ d.bcd_valid h_end.sync_time = true) →
      anchor_time E (main_clock E d h_start h_end).1 e =
        (main_clock E d h_start h_end).1.start_time + 1000000 * e) ∧
    (h_end.sync_type = .SKEW ∧ d.bcd_valid h_end.sync_time = true →
      Exact53 ((main_clock E d h_start h_end).1.start_time + 1000000 * e) →
      Exact53 h_start.skew →
      Exact53 (E.iround (E.mul (E.ofInt ((main_clock E d h_start h_end).1.start_time +
        1000000 * e - bcd_time E h_start.sync_time)) (main_clock E d h_start h_end).1.skew)) →
      Exact53 (h_start.skew +
        E.iround (E.mul (E.ofInt ((main_clock E d h_start h_end).1.start_time +
        1000000 * e - bcd_time E h_start.sync_time)) (main_clock E d h_start h_end).1.skew)) →
      Exact53 ((main_clock E d h_start h_end).1.start_time + 1000000 * e + (h_start.skew +
        E.iround (E.mul (E.ofInt ((main_clock E d h_start h_end).1.start_time +
        1000000 * e - bcd_time E h_start.sync_time)) (main_clock E d h_start h_end).1.skew))) →
      anchor_time E (main_clock E d h_start h_end).1 e =
        (main_clock E d h_start h_end).1.start_time + 1000000 * e + h_start.skew +
        E.iround (E.mul (E.ofInt ((main_clock E d h_start h_end).1.start_time +
        1000000 * e - bcd_time E h_start.sync_time)) (main_clock E d h_start h_end).1.skew)) := by
  have hs : (main_clock E d h_start h_end).1.sync_time = bcd_time E h_start.sync_time := by
    unfold main_clock; split <;> rfl
  have hst : (main_clock E d h_start h_end).1.start_time =
      bcd_time E h_start.start_time + 1000000 *
        (E.tai_utc_diff (bcd_time E h_start.start_time) -
          E.tai_utc_diff (bcd_time E h_start.sync_time)) := by
    unfold main_clock; split <;> rfl
  have hk : (main_clock E d h_start h_end).1.skew_start = h_start.skew := by
    unfold main_clock; split <;> rfl
  have hhs : (main_clock E d h_start h_end).1.have_skew = true ↔
      (h_end.sync_type = .SKEW ∧ d.bcd_valid h_end.sync_time = true) := by
    unfold main_clock; split <;> simp [*]
  generalize (main_clock E d h_start h_end).1 = ck at *
  have hg : ([1, e, p2, p3] : List Int).length = group_size channel_count 1 := by
    simp [group_size]
  rw [open_group E ck channel_count 1 [e, p2, p3] st hd hr hg]
  have f0 : frame_fill st.frame 0 [1, e, p2, p3] 0 = 1 := by simp [frame_fill]
  have f1 : frame_fill st.frame 0 [1, e, p2, p3] 1 = e := by simp [frame_fill]
  unfold frame_done
  simp only [f0, f1, show (1 : Int) % 2 = 1 by decide, if_true]
  refine ⟨trivial, fun c h1 h2 => time_all_getElem E _ _ _ _ c h1 h2, trivial, trivial, hs, hst, hk,
    fun hn => anchor_time_plain E ck e (by
      cases hb : ck.have_skew with
      | false => rfl
      | true => exact absurd (hhs.1 hb) hn),
    fun hy r1 r2 r3 r4 r5 => ?_⟩
  rw [← hs, ← hk] at *
  exact anchor_time_skew E ck e (hhs.2 hy) r1 r2 r3 r4 r5

/-- Witness of C10: a Time group with `e = 100000` from the initial state, with the example
headers, whose end header carries a skew of 1005 microseconds per day: the anchored time is
`t + skew_start + round((t - S) * rate)` with `skew_start = -5` and a rounded product of
1163. -/
theorem time_anchor_dispatch_witness :
    ((decoder_init ex_env ex_channels).done = false ∧
      (decoder_init ex_env ex_channels).remaining = 0) ∧
    ([1, 100000, 0, 0].foldl (frame_word ex_env (main_clock ex_env ex_decls ex_header
        ex_header_end).1 2) (decoder_init ex_env ex_channels)).have_time = true ∧
    (main_clock ex_env ex_decls ex_header ex_header_end).1.start_time = 1510715045000000 ∧
    anchor_time ex_env (main_clock ex_env ex_decls ex_header ex_header_end).1 100000 =
      1510715045000000 + 1000000 * 100000 + -5 + 1163 :=
  ⟨⟨rfl, rfl⟩,
    (time_anchor_dispatch ex_env ex_decls ex_header ex_header_end 2
      (decoder_init ex_env ex_channels) 100000 0 0 rfl rfl).2.2.1,
    by decide,
    ((time_anchor_dispatch ex_env ex_decls ex_header ex_header_end 2
      (decoder_init ex_env ex_channels) 100000 0 0 rfl rfl).2.2.2.2.2.2.2.2
        (by decide) (by decide) (by decide) (by decide) (by decide) (by decide)).trans
      (by decide)⟩

theorem scenario_groups :
    groups 2 (stream_words [scenario_block]) =
      [[1, 0, 0, 0], [2, 3], [4, 5], [6, 7], [8, 9], [10, 11], [12, 13], [14, 15], [16, 17],
        [18, 19], [20, 21], [13, 0, 0, 0]] ++ List.replicate 50 [0, 0] := by
  set_option maxRecDepth 100000 in decide

/-- The first anchor of a fresh writer: it returns 0, sets `last_sn = 0`, leaves the queue and
opens one file, to which it writes nothing. -/
theorem first_anchor_new (E : Env) (w : WMSeed E) (fs : Files E) (t : Int)
    (h1 : w.last_sn = -1) (h2 : w.data_pending = false) (h3 : w.output = none) :
    (wmseed_time E w fs t 0).1 = 0 ∧ (wmseed_time E w fs t 0).2.1.last_sn = 0 ∧
      (wmseed_time E w fs t 0).2.1.sb = w.sb ∧
      (wmseed_time E w fs t 0).2.1.output = some fs.length ∧
      ∃ nm, (wmseed_time E w fs t 0).2.2 =
        fs ++ [{ name := nm, records := [], closed := false }] := by
  simp only [wmseed_time, h1, if_true, ne_eq, not_true_eq_false, if_false,
    wmseed__create_file, wmseed__new_record, h2, Bool.false_eq_true, h3, fopen, true_and]
  exact ⟨_, rfl⟩

/-- A sample handed to an anchored writer is queued; nothing else changes. -/
theorem sample_anchored (E : Env) (w : WMSeed E) (v : Int) (h : 0 ≤ w.last_sn) :
    (wmseed_sample E w v).2 = { w with sb := samplebuffer_push w.sb v } := by
  unfold wmseed_sample
  rw [if_neg (by omega)]

/-- Handing a sample group to the writers changes no file handle. -/
theorem sample_all_output (E : Env) (frame : Nat → Int) (c : Nat) (ws : List (WMSeed E)) :
    (sample_all E frame c ws).map (fun w => w.output) = ws.map (fun w => w.output) := by
  induction ws generalizing c with
  | nil => rfl
  | cons w ws ih =>
    simp only [sample_all, List.map_cons, ih]
    congr 1
    unfold wmseed_sample
    split <;> rfl

/-- Sample groups after a Time group: each advances the sample counter by one; the files and
the file handles of the writers stay as they are. -/
theorem sample_groups_fold (E : Env) (ck : Clock E) (gs : List (List Int)) (st : Decoder E)
    (hg : ∀ g ∈ gs, g.headD 0 % 2 = 0) (hd : st.done = false) (ht : st.have_time = true) :
    (gs.foldl (group_event E ck) st).done = false ∧
      (gs.foldl (group_event E ck) st).have_time = true ∧
      (gs.foldl (group_event E ck) st).fs = st.fs ∧
      (gs.foldl (group_event E ck) st).channels.map (fun w => w.output) =
        st.channels.map (fun w => w.output) ∧
      (gs.foldl (group_event E ck) st).sample_number = st.sample_number + gs.length := by
  induction gs generalizing st with
  | nil => simp [hd, ht]
  | cons g gs ih =>
    have h0 : g.headD 0 % 2 = 0 := hg g (List.mem_cons_self _ _)
    have hstep : group_event E ck st g =
        { st with
          channels := sample_all E (fun c => g.getD c 0) 0 st.channels
          sample_number := st.sample_number + 1 } := by
      unfold group_event
      rw [if_neg (by simp [hd]), if_neg (by omega), if_pos ht]
    rw [List.foldl_cons, hstep]
    obtain ⟨a, b, c, d, e⟩ := ih
      { st with
        channels := sample_all E (fun c => g.getD c 0) 0 st.channels
        sample_number := st.sample_number + 1 }
      (fun g hg2 => hg g (List.mem_cons_of_mem _ hg2)) hd ht
    refine ⟨a, b, c, ?_, ?_⟩
    · rw [d]
      exact sample_all_output E _ 0 st.channels
    · rw [e]
      simp only [List.length_cons, Nat.cast_add, Nat.cast_one]
      omega

/-- The Time group of the scenario on two fresh writers: each opens its file. -/
theorem scenario_anchor (E : Env) (ck : Clock E) (w0 w1 : WMSeed E)
    (h0 : w0.last_sn = -1 ∧ w0.data_pending = false ∧ w0.output = none)
    (h1 : w1.last_sn = -1 ∧ w1.data_pending = false ∧ w1.output = none) :
    (group_event E ck (decoder_init E [w0, w1]) [1, 0, 0, 0]).done = false ∧
      (group_event E ck (decoder_init E [w0, w1]) [1, 0, 0, 0]).have_time = true ∧
      (group_event E ck (decoder_init E [w0, w1]) [1, 0, 0, 0]).sample_number = 0 ∧
      (group_event E ck (decoder_init E [w0, w1]) [1, 0, 0, 0]).channels.map
        (fun w => w.output) = [some 0, some 1] ∧
      ∃ nm0 nm1, (group_event E ck (decoder_init E [w0, w1]) [1, 0, 0, 0]).fs =
        [{ name := nm0, records := [], closed := false },
         { name := nm1, records := [], closed := false }] := by
  obtain ⟨a1, a2, a3, a4, nm0, a5⟩ :=
    first_anchor_new E w0 [] (anchor_time E ck 0) h0.1 h0.2.1 h0.2.2
  obtain ⟨b1, b2, b3, b4, nm1, b5⟩ :=
    first_anchor_new E w1 (wmseed_time E w0 [] (anchor_time E ck 0) 0).2.2
      (anchor_time E ck 0) h1.1 h1.2.1 h1.2.2
  have hev : group_event E ck (decoder_init E [w0, w1]) [1, 0, 0, 0] =
      { decoder_init E [w0, w1] with
        have_time := true
        channels := (time_all E (anchor_time E ck 0) 0 [w0, w1] []).1
        fs := (time_all E (anchor_time E ck 0) 0 [w0, w1] []).2 } := rfl
  rw [a5] at b4 b5
  simp only [List.nil_append, List.length_singleton, List.singleton_append] at b4 b5
  rw [hev]
  simp only [time_all, decoder_init, List.map_cons, List.map_nil, a4, b4, a5, b5,
    List.length_nil, List.nil_append, List.length_singleton, List.singleton_append,
    true_and]
  exact ⟨nm0, nm1, rfl⟩

/-- C3. The end-to-end scenario on the code: for two channels and the one data block holding a
Time group with `elapsed = 0`, ten sample groups and an End group, the frame decoder of `main`
counts the ten sample groups, and after `wmseed_destroy` on both writers there is exactly one
file per channel, opened and closed, to which no record was written: the ten samples of each
channel are not in the files. This holds for every clock, template and channel names. -/
theorem scenario_writes_no_record (E : Env) (ck : Clock E) (mem : MiniSeedRecord E)
    (template station location network : String) (sample_rate : Nat) (cut : Int)
    (n0 n1 : String) :
    (frame_blocks E ck 2
        (decoder_init E
          (main_channels E mem template station location network sample_rate cut [n0, n1]))
        [scenario_block]).sample_number = 10 ∧
      ∃ nm0 nm1,
        main_convert E ck mem template station location network sample_rate cut [n0, n1]
          [scenario_block] =
        [{ name := nm0, records := [], closed := true },
         { name := nm1, records := [], closed := true }] := by
  obtain ⟨-, e2, e3, e4, -⟩ :=
    frame_blocks_groups E ck 2 (by decide)
      (decoder_init E
        (main_channels E mem template station location network sample_rate cut [n0, n1]))
      rfl rfl [scenario_block]
  unfold main_convert
  simp only [List.length_cons, List.length_nil, Nat.zero_add, Nat.reduceAdd]
  rw [e2, e3, e4, scenario_groups]
  simp only [main_channels, List.cons_append, List.nil_append, List.foldl_cons]
  obtain ⟨a1, a2, a3, a4, nm0, nm1, a5⟩ :=
    scenario_anchor E ck
      (wmseed_new E mem template station location n0 network (E.ofInt sample_rate) cut)
      (wmseed_new E mem template station location n1 network (E.ofInt sample_rate) cut)
      ⟨rfl, rfl, rfl⟩ ⟨rfl, rfl, rfl⟩
  generalize group_event E ck (decoder_init E _) [1, 0, 0, 0] = st1 at a1 a2 a3 a4 a5 ⊢
  have hs := sample_groups_fold E ck
    [[2, 3], [4, 5], [6, 7], [8, 9], [10, 11], [12, 13], [14, 15], [16, 17], [18, 19],
      [20, 21]] st1 (by simp; omega) a1 a2
  simp only [List.foldl_cons, List.foldl_nil] at hs
  obtain ⟨b1, b2, b3, b4, b5⟩ := hs
  generalize group_event E ck (group_event E ck (group_event E ck (group_event E ck
    (group_event E ck (group_event E ck (group_event E ck (group_event E ck
    (group_event E ck (group_event E ck st1 [2, 3]) [4, 5]) [6, 7]) [8, 9]) [10, 11])
    [12, 13]) [14, 15]) [16, 17]) [18, 19]) [20, 21] = st2 at b1 b2 b3 b4 b5 ⊢
  have hend : group_event E ck st2 [13, 0, 0, 0] = { st2 with done := true } := by
    unfold group_event
    rw [if_neg (by simp [b1])]
    rfl
  rw [hend, group_event_done E ck _ _ rfl]
  dsimp only
  rw [b3, a5]
  rw [a4] at b4
  simp only [List.length_cons, List.length_nil] at b5
  refine ⟨by rw [b5, a3]; rfl, nm0, nm1, ?_⟩
  generalize st2.channels = cs at b4
  rcases cs with _ | ⟨u, _ | ⟨v, _ | ⟨x, xs⟩⟩⟩
  · simp at b4
  · simp at b4
  · simp only [List.map_cons, List.map_nil, List.cons.injEq, and_true] at b4
    simp only [destroy_all, wmseed_destroy, b4.1, b4.2, fclose]
    rfl
  · simp at b4

/-! ## The drift rate and the writer: single calls -/

/-- C11, amended. The drift rate of `main`: when the end header has sync type Skew and a sync
time that passes `bcd_valid`, the clock has a skew, the skew of the end header becomes
`skew_end + 1000000 * d` with `d` the leap offset at the skew epoch `T` less the leap offset
at the sync epoch `S`, and the rate is that corrected skew less the skew of the start header,
over `T - S`: the skew epoch enters the quotient as `bcd_time` yields it. -/
theorem drift_rate (E : Env) (d : Decls) (h_start h_end : kum_6d6_header)
    (hs : h_end.sync_type = .SKEW) (hv : d.bcd_valid h_end.sync_time = true) :
    (main_clock E d h_start h_end).1.have_skew = true ∧
    (main_clock E d h_start h_end).2 =
      h_end.skew + 1000000 * (E.tai_utc_diff (bcd_time E h_end.sync_time) -
        E.tai_utc_diff (bcd_time E h_start.sync_time)) ∧
    (main_clock E d h_start h_end).1.skew =
      E.div
        (E.ofInt (h_end.skew + 1000000 * (E.tai_utc_diff (bcd_time E h_end.sync_time) -
          E.tai_utc_diff (bcd_time E h_start.sync_time)) - h_start.skew))
        (E.ofInt (bcd_time E h_end.sync_time - bcd_time E h_start.sync_time)) := by
  unfold main_clock
  rw [if_pos ⟨hs, hv⟩]
  exact ⟨rfl, rfl, rfl⟩

/-- Witness of the amended C11: the example headers, a day apart, with a leap second between
the two sync epochs; the rate is 1001005 microseconds over 86400 seconds. -/
theorem drift_rate_witness :
    (ex_header_end.sync_type = .SKEW ∧ ex_decls.bcd_valid ex_header_end.sync_time = true) ∧
    (main_clock (ex_env_leap 1510720000000000) ex_decls ex_header ex_header_end).1.skew =
      (⟨1001005, 86400000000⟩ : Frac) :=
  ⟨⟨rfl, by decide⟩,
    ((drift_rate (ex_env_leap 1510720000000000) ex_decls ex_header ex_header_end rfl
      (by decide)).2.2).trans rfl⟩

/-- C11, counterexample. With a leap second between the sync epoch and the skew epoch, the
rate `main` computes is not the rate with the corrected skew epoch in the quotient: the
example headers yield 1001005 over 86400000000, the corrected epoch would yield 1001005 over
86401000000, and the two fractions are different numbers. -/
theorem drift_rate_epoch_uncorrected :
    ex_header_end.sync_type = .SKEW ∧ ex_decls.bcd_valid ex_header_end.sync_time = true ∧
    (main_clock (ex_env_leap 1510720000000000) ex_decls ex_header ex_header_end).1.skew =
      (⟨1001005, 86400000000⟩ : Frac) ∧
    spec_rate (ex_env_leap 1510720000000000) ex_header ex_header_end =
      (⟨1001005, 86401000000⟩ : Frac) ∧
    ((main_clock (ex_env_leap 1510720000000000) ex_decls ex_header ex_header_end).1.skew :
        Frac).num *
      (spec_rate (ex_env_leap 1510720000000000) ex_header ex_header_end : Frac).den ≠
    (spec_rate (ex_env_leap 1510720000000000) ex_header ex_header_end : Frac).num *
      ((main_clock (ex_env_leap 1510720000000000) ex_decls ex_header ex_header_end).1.skew :
        Frac).den :=
  ⟨rfl, by decide, rfl, rfl, by decide⟩

theorem map_records_modify_closed (E : Env) (fs : Files E) (f : Nat) :
    (fclose E fs f).map (fun o => o.records) = fs.map (fun o => o.records) := by
  unfold fclose
  induction fs generalizing f with
  | nil => simp
  | cons o os ih =>
    cases f with
    | zero => simp
    | succ f => simpa using ih f

/-- C12. What `wmseed_destroy` does on the code: it returns 0 and leaves the records of every
file as they are, whatever the writer holds; with an open file it is `fclose` on that file
and nothing else. A record that is pending (`data_pending` set) is not written: the example
writer after its first anchor, the samples 5, 6, 7 and the applied anchor
`(300000000, 20160)` holds the three samples in its pending record and has file 0 open, and
after `wmseed_destroy` file 0 is closed and holds no sample. -/
theorem destroy_writes_nothing :
    (∀ (E : Env) (w : WMSeed E) (fs : Files E),
      (wmseed_destroy E w fs).1 = 0 ∧
      (wmseed_destroy E w fs).2.map (fun o => o.records) = fs.map (fun o => o.records) ∧
      (∀ f, w.output = some f → (wmseed_destroy E w fs).2 = fclose E fs f)) ∧
    ((wmseed_calls ex_env ex_anchored
        [.sample 5, .sample 6, .sample 7, .time 300000000 20160]).1.data_pending = true ∧
      (wmseed_calls ex_env ex_anchored
        [.sample 5, .sample 6, .sample 7, .time 300000000 20160]).1.record.samples =
          [5, 6, 7] ∧
      (wmseed_calls ex_env ex_anchored
        [.sample 5, .sample 6, .sample 7, .time 300000000 20160]).1.output = some 0 ∧
      (wmseed_destroy ex_env
        (wmseed_calls ex_env ex_anchored
          [.sample 5, .sample 6, .sample 7, .time 300000000 20160]).1
        (wmseed_calls ex_env ex_anchored
          [.sample 5, .sample 6, .sample 7, .time 300000000 20160]).2).2.map
        (fun o => (o.records.length, o.closed)) = [(0, true)]) := by
  refine ⟨fun E w fs => ⟨rfl, ?_, fun f hf => ?_⟩, by decide, by decide, by decide, by decide⟩
  · unfold wmseed_destroy
    cases w.output with
    | none => rfl
    | some f => exact map_records_modify_closed E fs f
  · unfold wmseed_destroy
    rw [hf]

/-- C15. The function `wmseed_sample`: on a writer that is not anchored (`last_sn < 0`, as
`wmseed_new` leaves it) it returns -1 and changes nothing; on an anchored writer it returns 0,
the queue becomes `samplebuffer_push` of the queue and the sample, which is the queue with the
sample at its tail, and nothing else changes. -/
theorem sample_queues (E : Env) (w : WMSeed E) (v : Int) :
    (w.last_sn < 0 → wmseed_sample E w v = (-1, w)) ∧
    (0 ≤ w.last_sn →
      wmseed_sample E w v = (0, { w with sb := samplebuffer_push w.sb v }) ∧
      (wmseed_sample E w v).2.sb.items = w.sb.items ++ [v] ∧
      (wmseed_sample E w v).2.sb.sample_number = w.sb.sample_number) ∧
    (∀ (mem : MiniSeedRecord E) (template station location channel network : String)
      (sample_rate : E.D) (cut : Int),
      (wmseed_new E mem template station location channel network sample_rate cut).last_sn
        < 0) := by
  refine ⟨fun h => ?_, fun h => ?_, fun _ _ _ _ _ _ _ _ => by
    show (-1 : Int) < 0
    decide⟩
  · unfold wmseed_sample
    rw [if_pos h]
  · have e : wmseed_sample E w v = (0, { w with sb := samplebuffer_push w.sb v }) := by
      unfold wmseed_sample
      rw [if_neg (by omega)]
    rw [e]
    exact ⟨rfl, rfl, rfl⟩

theorem wmseed_time_limited (E : Env) (w : WMSeed E) (fs : Files E) (t n : Int)
    (ha : 0 ≤ w.last_sn) (hn : w.last_sn < n) (ht : w.last_t < t)
    (hr : n - w.last_sn < 20160) :
    wmseed_time E w fs t n = (0, w, fs) := by
  unfold wmseed_time
  rw [if_neg (by omega), if_neg (by omega), if_pos (by omega)]

/-- C16. Rate limiting: on an anchored writer, an anchor `(t, n)` beyond the baseline
(`n > last_sn`, `t > last_t`) with `n - last_sn < 20160` returns 0 and leaves the writer and
the files as they are. -/
theorem rate_limited_noop (E : Env) (w : WMSeed E) (fs : Files E) (t n : Int)
    (ha : 0 ≤ w.last_sn) (hn : w.last_sn < n) (ht : w.last_t < t)
    (hr : n - w.last_sn < 20160) :
    wmseed_time E w fs t n = (0, w, fs) :=
  wmseed_time_limited E w fs t n ha hn ht hr

/-- C13, amended. Anchor monotonicity: on an anchored writer, `wmseed_time(t, n)` returns -1
and leaves the writer and the files as they are whenever `n` does not exceed `last_sn` or `t`
does not exceed `last_t`, the baseline. A call that returns 0 sets the baseline to `(t, n)`
when it is applied (`n - last_sn >= 20160`) and leaves it when it is rate limited. -/
theorem anchor_monotone (E : Env) (w : WMSeed E) (fs : Files E) (t n : Int)
    (ha : 0 ≤ w.last_sn) :
    (n ≤ w.last_sn ∨ t ≤ w.last_t → wmseed_time E w fs t n = (-1, w, fs)) ∧
    (w.last_sn < n → w.last_t < t →
      (wmseed_time E w fs t n).1 = 0 ∧
      (n - w.last_sn < 20160 →
        (wmseed_time E w fs t n).2.1.last_sn = w.last_sn ∧
        (wmseed_time E w fs t n).2.1.last_t = w.last_t) ∧
      (20160 ≤ n - w.last_sn →
        (wmseed_time E w fs t n).2.1.last_sn = n ∧
        (wmseed_time E w fs t n).2.1.last_t = t)) := by
  refine ⟨fun h => ?_, fun hn ht => ?_⟩
  · unfold wmseed_time
    rw [if_neg (by omega), if_pos h]
  · by_cases hr : n - w.last_sn < 20160
    · rw [wmseed_time_limited E w fs t n ha hn ht hr]
      exact ⟨rfl, fun _ => ⟨rfl, rfl⟩, fun h => by omega⟩
    · unfold wmseed_time
      rw [if_neg (by omega), if_neg (by omega), if_neg (by omega)]
      exact ⟨rfl, fun h => absurd h hr, fun _ => ⟨rfl, rfl⟩⟩

/-- Witness of C16: a second anchor 100 samples after the first one. -/
theorem rate_limited_noop_witness :
    (0 ≤ ex_anchored.1.last_sn ∧ ex_anchored.1.last_sn < 100 ∧
      ex_anchored.1.last_t < 2000000 ∧ 100 - ex_anchored.1.last_sn < 20160) ∧
    wmseed_time ex_env ex_anchored.1 ex_anchored.2 2000000 100 =
      (0, ex_anchored.1, ex_anchored.2) :=
  ⟨⟨by decide, by decide, by decide, by decide⟩,
    rate_limited_noop ex_env ex_anchored.1 ex_anchored.2 2000000 100 (by decide) (by decide)
      (by decide) (by decide)⟩

/-- Witness of the amended C13: an anchor at the instant of the baseline is rejected. -/
theorem anchor_monotone_witness :
    0 ≤ ex_anchored.1.last_sn ∧ (1000000 : Int) ≤ ex_anchored.1.last_t ∧
    wmseed_time ex_env ex_anchored.1 ex_anchored.2 1000000 100 =
      (-1, ex_anchored.1, ex_anchored.2) :=
  ⟨by decide, by decide,
    (anchor_monotone ex_env ex_anchored.1 ex_anchored.2 1000000 100 (by decide)).1
      (Or.inr (by decide))⟩

/-- C13, counterexample. After the first anchor `(1000000, 0)` the anchor `(2000000, 100)` is
accepted (it returns 0, rate limited); the next anchor `(1500000, 50)` exceeds neither its
time nor its sample number and is accepted as well: the calls are compared with the baseline,
which the rate-limited call has not moved. -/
theorem anchor_after_rate_limited :
    0 ≤ ex_anchored.1.last_sn ∧
    (wmseed_time ex_env ex_anchored.1 ex_anchored.2 2000000 100).1 = 0 ∧
    (wmseed_time ex_env
      (wmseed_time ex_env ex_anchored.1 ex_anchored.2 2000000 100).2.1
      (wmseed_time ex_env ex_anchored.1 ex_anchored.2 2000000 100).2.2 1500000 50).1 = 0 ∧
    (50 : Int) ≤ 100 ∧ (1500000 : Int) ≤ 2000000 := by
  refine ⟨?_, ?_, ?_, ?_, ?_⟩ <;> decide

/-- Witness of C15: the example writer as `wmseed_new` makes it refuses the sample 5; after
its first anchor it takes the sample 5 into its empty queue. -/
theorem sample_queues_witness :
    ((ex_writer ex_env 86400).last_sn < 0 ∧
      wmseed_sample ex_env (ex_writer ex_env 86400) 5 = (-1, ex_writer ex_env 86400)) ∧
    (0 ≤ ex_anchored.1.last_sn ∧ (wmseed_sample ex_env ex_anchored.1 5).1 = 0 ∧
      (wmseed_sample ex_env ex_anchored.1 5).2.sb.items = [5]) :=
  ⟨⟨by decide, (sample_queues ex_env (ex_writer ex_env 86400) 5).1 (by decide)⟩,
    by decide,
    congrArg Prod.fst ((sample_queues ex_env ex_anchored.1 5).2.1 (by decide)).1,
    ((sample_queues ex_env ex_anchored.1 5).2.1 (by decide)).2.1.trans (by decide)⟩

/-- The name `wmseed__filename` builds depends on the writer only through its template and
its four codes. -/
theorem filename_go_congr (E : Env) (w1 w2 : WMSeed E) (d : Date) (yday : Int)
    (h1 : w1.station = w2.station) (h2 : w1.location = w2.location)
    (h3 : w1.channel = w2.channel) (h4 : w1.network = w2.network) :
    ∀ (k : Nat) (l : List Char) (s : Option String), l.length ≤ k →
      wmseed__filename_go E w1 d yday l s = wmseed__filename_go E w2 d yday l s := by
  intro k
  induction k with
  | zero =>
    intro l s hl
    cases l with
    | nil => simp [wmseed__filename_go]
    | cons c r => simp at hl
  | succ k ih =>
    intro l s hl
    cases l with
    | nil => simp [wmseed__filename_go]
    | cons c r =>
      by_cases hc : c = '%'
      · subst hc
        cases r with
        | nil => simp [wmseed__filename_go]
        | cons c2 r2 =>
          have hr : r2.length ≤ k := by simp at hl; omega
          simp only [wmseed__filename_go, h1, h2, h3, h4, ih r2 _ hr]
      · have hr : r.length ≤ k := by simp at hl; omega
        rw [wmseed__filename_go, wmseed__filename_go, ih r _ hr]
        · intro c2 r2 h _; exact hc h
        · intro h _; exact hc h
        · intro c2 r2 h _; exact hc h
        · intro h _; exact hc h

theorem filename_congr (E : Env) (w1 w2 : WMSeed E) (t : Int)
    (h0 : w1.template = w2.template)
    (h1 : w1.station = w2.station) (h2 : w1.location = w2.location)
    (h3 : w1.channel = w2.channel) (h4 : w1.network = w2.network) :
    wmseed__filename E w1 t = wmseed__filename E w2 t := by
  unfold wmseed__filename
  rw [h0]
  exact filename_go_congr E w1 w2 _ _ h1 h2 h3 h4 _ _ _ (le_refl _)

/-- The first anchor with sample number 0 on a fresh writer: the result in full. -/
theorem wmseed_time_first (E : Env) (w : WMSeed E) (fs : Files E) (t : Int)
    (h1 : w.last_sn = -1) (h2 : w.data_pending = false) (h3 : w.output = none) :
    wmseed_time E w fs t 0 =
      (0,
        { w with
          last_t := t
          last_sn := 0
          record_number := 1
          record_time := t
          data_pending := false
          output := some fs.length
          record :=
            { miniseed_record_init E 1 with
              station := w.station
              location := w.location
              channel := w.channel
              network := w.network
              sample_rate := some w.sample_rate
              start := { (E.tai_date t).1 with usec := Int.tdiv (E.tai_date t).1.usec 100 } } },
        fs ++ [{ name := wmseed__filename E w t, records := [], closed := false }]) := by
  have hf : wmseed__filename E
      (wmseed__new_record E { w with last_t := t, last_sn := 0, record_number := 0 } fs t).1
      t = wmseed__filename E w t :=
    filename_congr E _ w t (by simp [wmseed__new_record, h2])
      (by simp [wmseed__new_record, h2]) (by simp [wmseed__new_record, h2])
      (by simp [wmseed__new_record, h2]) (by simp [wmseed__new_record, h2])
  simp only [wmseed_time, h1, if_true, ne_eq, not_true_eq_false, if_false,
    wmseed__create_file, fopen, hf]
  simp only [wmseed__new_record, h2, Bool.false_eq_true, if_false, h3, zero_add]

/-- The macro `wmseed__div` is the floor of the quotient when the divisor is positive. -/
theorem wmseed__div_floor (a b : Int) (hb : 0 < b) :
    wmseed__div a b = a / b ∧ wmseed__div a b = Int.fdiv a b := by
  have key : wmseed__div a b = a / b := by
    have h1 := Int.tmod_add_tdiv a b
    have h2 := Int.tmod_lt_of_pos a hb
    have h3 : -b < Int.tmod a b := by
      by_cases ha : 0 ≤ a
      · have := Int.tmod_nonneg b ha
        omega
      · have hc : 0 ≤ -a := by omega
        have m1 := Int.tmod_add_tdiv (-a) b
        have m2 := Int.tmod_lt_of_pos (-a) hb
        have m3 := Int.tmod_nonneg b hc
        rw [Int.neg_tdiv] at m1
        have e : b * -(a.tdiv b) = -(b * a.tdiv b) := by ring
        rw [e] at m1
        omega
    unfold wmseed__div
    by_cases hm : Int.tmod a b < 0
    · rw [if_pos hm]
      have e : b * (a.tdiv b - 1) = b * a.tdiv b - b := by ring
      exact ((Int.ediv_emod_unique (r := Int.tmod a b + b) hb).2
        ⟨by rw [e]; omega, by omega, by omega⟩).1.symm
    · rw [if_neg hm]
      exact ((Int.ediv_emod_unique (r := Int.tmod a b) hb).2
        ⟨by simp only [Int.sub_zero]; omega, by omega, by omega⟩).1.symm
  exact ⟨key, by rw [key, Int.fdiv_eq_ediv a (le_of_lt hb)]⟩

/-- An applied anchor: the drain of lines 347-358 with the slope and the split of lines
335-345, then the new baseline. -/
theorem wmseed_time_applied (E : Env) (w : WMSeed E) (fs : Files E) (t n : Int)
    (ha : 0 ≤ w.last_sn) (ht : w.last_t < t) (hr : 20160 ≤ n - w.last_sn) :
    wmseed_time E w fs t n =
      (0,
        { (wmseed__drain E w.last_t w.last_sn (wmseed__slope E w t n) (wmseed__split E w t n)
            n w.sb.items.length w fs).1 with last_t := t, last_sn := n },
        (wmseed__drain E w.last_t w.last_sn (wmseed__slope E w t n) (wmseed__split E w t n)
            n w.sb.items.length w fs).2) := by
  unfold wmseed_time
  rw [if_neg (by omega), if_neg (by omega), if_neg (by omega)]
  have e : (if w.cut ≠ 0 ∧
        wmseed__div (w.last_t - 1000000 * E.tai_utc_diff t) w.cut ≠
          wmseed__div (t - 1000000 * E.tai_utc_diff t) w.cut then
        w.last_sn + E.toInt (E.ceil (E.div
          (E.ofInt (wmseed__div (t - 1000000 * E.tai_utc_diff t) w.cut * w.cut +
            1000000 * E.tai_utc_diff t - w.last_t))
          (E.div (E.ofInt (t - w.last_t)) (E.ofInt (n - w.last_sn)))))
      else -1) = wmseed__split E w t n := by
    unfold wmseed__split wmseed__split_time wmseed__slope
    by_cases h : cut_detected E w t
    · rw [if_pos h]
      exact if_pos h
    · rw [if_neg h]
      exact if_neg h
  simp only [e, wmseed__slope]

/-- C19, amended. Cut detection: for a positive cut period, `wmseed_time` finds a cut exactly
when the floor of `(last_t - off) / cut` differs from the floor of `(t - off) / cut`, where
`off = 1000000 * tai_utc_diff(t)` is the leap offset of the new anchor for both instants;
without a cut the split index is -1, and an applied anchor drains with that split index. -/
theorem cut_detection (E : Env) (w : WMSeed E) (fs : Files E) (t n : Int)
    (hc : 0 < w.cut) :
    (cut_detected E w t ↔
      Int.fdiv (w.last_t - 1000000 * E.tai_utc_diff t) w.cut ≠
        Int.fdiv (t - 1000000 * E.tai_utc_diff t) w.cut) ∧
    (¬ cut_detected E w t → wmseed__split E w t n = -1) ∧
    (0 ≤ w.last_sn → w.last_t < t → 20160 ≤ n - w.last_sn →
      (wmseed_time E w fs t n).2 =
        ({ (wmseed__drain E w.last_t w.last_sn (wmseed__slope E w t n)
            (wmseed__split E w t n) n w.sb.items.length w fs).1 with
            last_t := t, last_sn := n },
          (wmseed__drain E w.last_t w.last_sn (wmseed__slope E w t n)
            (wmseed__split E w t n) n w.sb.items.length w fs).2)) := by
  refine ⟨?_, fun h => ?_, fun ha ht hr => ?_⟩
  · unfold cut_detected
    rw [(wmseed__div_floor _ _ hc).2, (wmseed__div_floor _ _ hc).2]
    constructor
    · exact fun h => h.2
    · exact fun h => ⟨by omega, h⟩
  · unfold wmseed__split
    rw [if_neg h]
  · rw [wmseed_time_applied E w fs t n ha ht hr]

/-- Witness of the amended C19: the example writer, anchored at the instant 1000000 with a cut
period of one day, and an anchor on the next day: a cut is found. -/
theorem cut_detection_witness :
    0 < ex_anchored.1.cut ∧ cut_detected ex_env ex_anchored.1 90000000000 ∧
    (cut_detected ex_env ex_anchored.1 90000000000 ↔
      Int.fdiv (ex_anchored.1.last_t - 1000000 * ex_env.tai_utc_diff 90000000000)
          ex_anchored.1.cut ≠
        Int.fdiv (90000000000 - 1000000 * ex_env.tai_utc_diff 90000000000)
          ex_anchored.1.cut) :=
  ⟨by decide, by decide,
    (cut_detection ex_env ex_anchored.1 ex_anchored.2 90000000000 20160 (by decide)).1⟩

/-- C19, counterexample. First, a leap second at the instant 10500000 and a cut period of 10
seconds: the baseline 10200000 has the bucket 1 with its own leap offset 0 and the anchor
10800000 the bucket 0 with its own leap offset 1, so the buckets differ, but `wmseed_time`
takes the offset of the anchor for both and finds no cut (the split index is -1). Second, a
cut period of -1 second: the floors of `1000001 / cut` and `2000000 / cut` are both -2, but
the macro `wmseed__div` yields -1 and -2 and a cut is found. -/
theorem cut_detection_own_offset :
    (spec_bucket (ex_env_leap 10500000)
        (wmseed_time (ex_env_leap 10500000) (ex_writer (ex_env_leap 10500000) 10) []
          10200000 0).2.1.cut
        (wmseed_time (ex_env_leap 10500000) (ex_writer (ex_env_leap 10500000) 10) []
          10200000 0).2.1.last_t ≠
      spec_bucket (ex_env_leap 10500000)
        (wmseed_time (ex_env_leap 10500000) (ex_writer (ex_env_leap 10500000) 10) []
          10200000 0).2.1.cut 10800000 ∧
      ¬ cut_detected (ex_env_leap 10500000)
        (wmseed_time (ex_env_leap 10500000) (ex_writer (ex_env_leap 10500000) 10) []
          10200000 0).2.1 10800000 ∧
      wmseed__split (ex_env_leap 10500000)
        (wmseed_time (ex_env_leap 10500000) (ex_writer (ex_env_leap 10500000) 10) []
          10200000 0).2.1 10800000 20160 = -1) ∧
    (spec_bucket ex_env
        (wmseed_time ex_env (ex_writer ex_env (-1)) [] 1000001 0).2.1.cut
        (wmseed_time ex_env (ex_writer ex_env (-1)) [] 1000001 0).2.1.last_t =
      spec_bucket ex_env
        (wmseed_time ex_env (ex_writer ex_env (-1)) [] 1000001 0).2.1.cut 2000000 ∧
      cut_detected ex_env (wmseed_time ex_env (ex_writer ex_env (-1)) [] 1000001 0).2.1
        2000000) := by
  refine ⟨⟨?_, ?_, ?_⟩, ?_, ?_⟩ <;> decide

/-! ## The writer: files and the record stream -/

theorem file_samples_congr (E : Env) (fs1 fs2 : Files E) (g : Nat) (h : fs2[g]? = fs1[g]?) :
    file_samples E fs2 g = file_samples E fs1 g := by
  unfold file_samples
  rw [h]

theorem Appended_refl (E : Env) (fs : Files E) (f : Nat) : Appended E fs fs f [] :=
  ⟨rfl, fun _ _ => rfl, by simp⟩

theorem Appended_trans (E : Env) (fs1 fs2 fs3 : Files E) (f : Nat) (xs ys : List Int)
    (h1 : Appended E fs1 fs2 f xs) (h2 : Appended E fs2 fs3 f ys) :
    Appended E fs1 fs3 f (xs ++ ys) :=
  ⟨h2.1.trans h1.1, fun g hg => (h2.2.1 g hg).trans (h1.2.1 g hg), by
    rw [h2.2.2, h1.2.2, List.append_assoc]⟩

theorem fwrite_Appended (E : Env) (fs : Files E) (f : Nat) (r : MiniSeedRecord E)
    (hf : f < fs.length) : Appended E fs (fwrite E fs f r) f r.samples := by
  unfold fwrite
  refine ⟨by simp, fun g hg => ?_, ?_⟩
  · rw [List.getElem?_modify_ne]
    exact fun h => hg h.symm
  · unfold file_samples
    rw [List.getElem?_modify_eq, List.getElem?_eq_getElem hf]
    simp

theorem fclose_Appended (E : Env) (fs : Files E) (f : Nat) :
    Appended E fs (fclose E fs f) f [] := by
  unfold fclose
  refine ⟨by simp, fun g hg => ?_, ?_⟩
  · rw [List.getElem?_modify_ne]
    exact fun h => hg h.symm
  · unfold file_samples
    rw [List.getElem?_modify_eq]
    cases fs[f]? with
    | none => simp
    | some o => simp

theorem file_samples_fopen (E : Env) (fs : Files E) (name : Option String) :
    (fopen E fs name).2 = fs.length ∧ (fopen E fs name).1.length = fs.length + 1 ∧
    (∀ g, g < fs.length → (fopen E fs name).1[g]? = fs[g]?) ∧
    file_samples E (fopen E fs name).1 fs.length = [] := by
  unfold fopen
  refine ⟨rfl, by simp, fun g hg => ?_, ?_⟩
  · simp only
    rw [List.getElem?_append_left hg]
  · unfold file_samples
    simp

/-- The samples of files other than the current one do not change when records are appended
to the current one. -/
theorem past_samples_Appended (E : Env) (fs1 fs2 : Files E) (f : Nat) (xs : List Int)
    (past : List Nat) (h : Appended E fs1 fs2 f xs) (hp : ∀ g ∈ past, g < f) :
    (past.map (file_samples E fs2)).flatten = (past.map (file_samples E fs1)).flatten := by
  congr 1
  apply List.map_congr_left
  intro g hg
  exact file_samples_congr E fs1 fs2 g (h.2.1 g (by have := hp g hg; omega))

theorem new_record_files (E : Env) (w : WMSeed E) (fs : Files E) (t : Int) (f : Nat)
    (ho : w.output = some f) (hf : f < fs.length) :
    Appended E fs (wmseed__new_record E w fs t).2 f (pending_samples E w) := by
  unfold wmseed__new_record pending_samples
  cases hp : w.data_pending with
  | false =>
    simp only [Bool.false_eq_true, if_false]
    exact Appended_refl E fs f
  | true =>
    simp only [if_true]
    by_cases hl : E.tai_utc_diff w.record_time ≠ E.tai_utc_diff t
    · simp only [hl, if_true, wmseed__flush, hp, ho, not_false_eq_true, ne_eq]
      exact fwrite_Appended E fs f _ hf
    · simp only [hl, if_false, wmseed__flush, hp, ho, if_true]
      exact fwrite_Appended E fs f _ hf

theorem new_record_writer (E : Env) (w : WMSeed E) (fs : Files E) (t : Int) :
    (wmseed__new_record E w fs t).1.sb = w.sb ∧
    (wmseed__new_record E w fs t).1.output = w.output ∧
    (wmseed__new_record E w fs t).1.data_pending = false ∧
    (wmseed__new_record E w fs t).1.record.samples = [] ∧
    SameBase E w (wmseed__new_record E w fs t).1 := by
  unfold wmseed__new_record SameBase
  cases hp : w.data_pending with
  | false => simp [miniseed_record_init]
  | true =>
    by_cases hl : E.tai_utc_diff w.record_time ≠ E.tai_utc_diff t
    · simp [hl, wmseed__flush, hp, miniseed_record_init]
    · simp [hl, wmseed__flush, hp, miniseed_record_init]

theorem create_file_spec (E : Env) (w : WMSeed E) (fs : Files E) (t : Int) (f : Nat)
    (ho : w.output = some f) (hf : f < fs.length) :
    (wmseed__create_file E w fs t).2.length = fs.length + 1 ∧
    (wmseed__create_file E w fs t).1.output = some fs.length ∧
    (∀ g, g < fs.length → g ≠ f → (wmseed__create_file E w fs t).2[g]? = fs[g]?) ∧
    file_samples E (wmseed__create_file E w fs t).2 f =
      file_samples E fs f ++ pending_samples E w ∧
    file_samples E (wmseed__create_file E w fs t).2 fs.length = [] ∧
    (wmseed__create_file E w fs t).1.sb = w.sb ∧
    (wmseed__create_file E w fs t).1.data_pending = false ∧
    (wmseed__create_file E w fs t).1.record.samples = [] ∧
    SameBase E w (wmseed__create_file E w fs t).1 := by
  have a1 := new_record_files E { w with record_number := 0 } fs t f ho hf
  obtain ⟨b1, b2, b3, b4, b5⟩ := new_record_writer E { w with record_number := 0 } fs t
  have b2' : (wmseed__new_record E { w with record_number := 0 } fs t).1.output = some f :=
    b2.trans ho
  have a2 := Appended_trans E _ _ _ f _ _ a1
    (fclose_Appended E (wmseed__new_record E { w with record_number := 0 } fs t).2 f)
  rw [List.append_nil] at a2
  have hp : pending_samples E { w with record_number := 0 } = pending_samples E w := rfl
  rw [hp] at a2
  unfold wmseed__create_file
  simp only [b2']
  generalize wmseed__new_record E { w with record_number := 0 } fs t = p at *
  obtain ⟨o1, o2, o3, o4⟩ := file_samples_fopen E (fclose E p.2 f)
    (wmseed__filename E p.1 t)
  rw [a2.1] at o2 o3 o4
  refine ⟨o2, by rw [o1, a2.1], fun g hg hne => ?_, ?_, o4, b1, b3, b4, b5⟩
  · rw [o3 g hg]
    exact a2.2.1 g hne
  · rw [file_samples_congr E _ _ f (o3 f hf)]
    exact a2.2.2

theorem push_spec (E : Env) (tt : Int) (w : WMSeed E) (fs : Files E) (v : Int) (f : Nat)
    (ho : w.output = some f) (hf : f < fs.length)
    (hi : w.data_pending = false → w.record.samples = []) :
    (wmseed__push E tt 2 w fs v).2.length = fs.length ∧
    (∀ g, g ≠ f → (wmseed__push E tt 2 w fs v).2[g]? = fs[g]?) ∧
    file_samples E (wmseed__push E tt 2 w fs v).2 f ++
        (wmseed__push E tt 2 w fs v).1.record.samples =
      file_samples E fs f ++ pending_samples E w ++ [v] ∧
    (wmseed__push E tt 2 w fs v).1.sb = w.sb ∧
    (wmseed__push E tt 2 w fs v).1.output = w.output ∧
    SameBase E w (wmseed__push E tt 2 w fs v).1 := by
  have hpend : pending_samples E w = w.record.samples := by
    unfold pending_samples
    cases hp : w.data_pending with
    | false => simp [hi hp]
    | true => simp
  cases hacc : E.accepts w.record.samples v with
  | true =>
    have e : wmseed__push E tt 2 w fs v =
        ({ w with record := { w.record with samples := w.record.samples ++ [v] } }, fs) := by
      unfold wmseed__push
      simp only [miniseed_record_push_sample, hacc, if_true]
    rw [e]
    refine ⟨rfl, fun _ _ => rfl, ?_, rfl, rfl, rfl, rfl, rfl, rfl, rfl, rfl, rfl, rfl, rfl⟩
    show file_samples E fs f ++ (w.record.samples ++ [v]) = _
    rw [hpend, List.append_assoc]
  | false =>
    have a1 := new_record_files E w fs tt f ho hf
    obtain ⟨b1, b2, b3, b4, b5⟩ := new_record_writer E w fs tt
    have e : wmseed__push E tt 2 w fs v =
        ({ (wmseed__new_record E w fs tt).1 with
            record := { (wmseed__new_record E w fs tt).1.record with samples := [v] } },
          (wmseed__new_record E w fs tt).2) := by
      unfold wmseed__push
      simp only [miniseed_record_push_sample, hacc, Bool.false_eq_true, if_false]
      unfold wmseed__push
      simp only [miniseed_record_push_sample, b4, E.accepts_nil, if_true, List.nil_append]
    rw [e]
    generalize wmseed__new_record E w fs tt = p at *
    refine ⟨a1.1, a1.2.1, ?_, b1, b2, b5⟩
    show file_samples E p.2 f ++ [v] = _
    rw [a1.2.2]

theorem pending_of_flag (E : Env) (w : WMSeed E) (h : w.data_pending = true) :
    pending_samples E w = w.record.samples := by
  unfold pending_samples
  rw [if_pos h]

/-- One turn of the drain loop on a head that does not have the split index: the head goes
from the queue into the record stream, no file is opened. -/
theorem drain_step_plain (E : Env) (last_t last_sn : Int) (a : E.D) (split : Int)
    (w : WMSeed E) (fs : Files E) (past : List Nat) (f : Nat) (v : Int) (rest : List Int)
    (hu : InUse E past w fs f) (hq : w.sb.items = v :: rest)
    (hs : w.sb.sample_number ≠ split) :
    (wmseed__drain_step E last_t last_sn a split w fs).1.sb =
      { items := rest, sample_number := w.sb.sample_number + 1 } ∧
    (wmseed__drain_step E last_t last_sn a split w fs).1.data_pending = true ∧
    SameBase E w (wmseed__drain_step E last_t last_sn a split w fs).1 ∧
    (wmseed__drain_step E last_t last_sn a split w fs).2.length = fs.length ∧
    (wmseed__drain_step E last_t last_sn a split w fs).1.output = some f ∧
    (∀ g, g ≠ f → (wmseed__drain_step E last_t last_sn a split w fs).2[g]? = fs[g]?) ∧
    file_samples E (wmseed__drain_step E last_t last_sn a split w fs).2 f ++
        pending_samples E (wmseed__drain_step E last_t last_sn a split w fs).1 =
      file_samples E fs f ++ pending_samples E w ++ [v] := by
  obtain ⟨u1, u2, u3, u4, u5⟩ := hu
  obtain ⟨sb2, hsb2⟩ : ∃ sb2 : Samplebuffer,
      sb2 = { items := rest, sample_number := w.sb.sample_number + 1 } := ⟨_, rfl⟩
  have e : wmseed__drain_step E last_t last_sn a split w fs =
      ({ (wmseed__push E (wmseed__interp E last_t last_sn a (sb2.sample_number - 1)) 2
            { w with sb := sb2 } fs v).1 with data_pending := true },
        (wmseed__push E (wmseed__interp E last_t last_sn a (sb2.sample_number - 1)) 2
            { w with sb := sb2 } fs v).2) := by
    unfold wmseed__drain_step
    simp only [hs, if_false, samplebuffer_pop, hq, List.headD_cons, List.tail_cons, hsb2]
  rw [e]
  obtain ⟨p1, p2, p3, p4, p5, p6⟩ := push_spec E
    (wmseed__interp E last_t last_sn a (sb2.sample_number - 1))
    { w with sb := sb2 } fs v f u2 u3 u5
  generalize wmseed__push E (wmseed__interp E last_t last_sn a (sb2.sample_number - 1)) 2
    { w with sb := sb2 } fs v = q at *
  refine ⟨by rw [← hsb2]; exact p4, rfl, p6, p1, p5.trans u2, p2, ?_⟩
  rw [pending_of_flag E _ rfl]
  exact p3

/-- One turn of the drain loop on the head with the split index: the pending record is
written to the current file, the file is closed, a new file is opened, and the head goes into
the record of the new file. -/
theorem drain_step_cut (E : Env) (last_t last_sn : Int) (a : E.D) (split : Int)
    (w : WMSeed E) (fs : Files E) (past : List Nat) (f : Nat) (v : Int) (rest : List Int)
    (hu : InUse E past w fs f) (hq : w.sb.items = v :: rest)
    (hs : w.sb.sample_number = split) :
    (wmseed__drain_step E last_t last_sn a split w fs).1.sb =
      { items := rest, sample_number := w.sb.sample_number + 1 } ∧
    (wmseed__drain_step E last_t last_sn a split w fs).1.data_pending = true ∧
    SameBase E w (wmseed__drain_step E last_t last_sn a split w fs).1 ∧
    (wmseed__drain_step E last_t last_sn a split w fs).2.length = fs.length + 1 ∧
    (wmseed__drain_step E last_t last_sn a split w fs).1.output = some fs.length ∧
    (∀ g, g < fs.length → g ≠ f →
      (wmseed__drain_step E last_t last_sn a split w fs).2[g]? = fs[g]?) ∧
    file_samples E (wmseed__drain_step E last_t last_sn a split w fs).2 f =
      file_samples E fs f ++ pending_samples E w ∧
    file_samples E (wmseed__drain_step E last_t last_sn a split w fs).2 fs.length ++
        pending_samples E (wmseed__drain_step E last_t last_sn a split w fs).1 = [v] := by
  obtain ⟨u1, u2, u3, u4, u5⟩ := hu
  obtain ⟨c1, c2, c3, c4, c5, c6, c7, c8, c9⟩ := create_file_spec E w fs
    (wmseed__interp E last_t last_sn a w.sb.sample_number) f u2 u3
  generalize hc : wmseed__create_file E w fs
    (wmseed__interp E last_t last_sn a w.sb.sample_number) = c at *
  obtain ⟨sb2, hsb2⟩ : ∃ sb2 : Samplebuffer,
      sb2 = { items := rest, sample_number := w.sb.sample_number + 1 } := ⟨_, rfl⟩
  have e : wmseed__drain_step E last_t last_sn a split w fs =
      ({ (wmseed__push E (wmseed__interp E last_t last_sn a (sb2.sample_number - 1)) 2
            { c.1 with sb := sb2 } c.2 v).1 with data_pending := true },
        (wmseed__push E (wmseed__interp E last_t last_sn a (sb2.sample_number - 1)) 2
            { c.1 with sb := sb2 } c.2 v).2) := by
    unfold wmseed__drain_step
    simp only [hs, if_true, samplebuffer_pop]
    rw [← hs, hc]
    simp only [c6, hq, List.headD_cons, List.tail_cons, hsb2]
  rw [e]
  obtain ⟨p1, p2, p3, p4, p5, p6⟩ := push_spec E
    (wmseed__interp E last_t last_sn a (sb2.sample_number - 1))
    { c.1 with sb := sb2 } c.2 v fs.length c2 (by omega) (fun _ => c8)
  have hb : SameBase E w { c.1 with sb := sb2 } := c9
  have hpe : pending_samples E { c.1 with sb := sb2 } = [] := by
    unfold pending_samples
    simp [c7]
  generalize wmseed__push E (wmseed__interp E last_t last_sn a (sb2.sample_number - 1)) 2
    { c.1 with sb := sb2 } c.2 v = q at *
  refine ⟨by rw [← hsb2]; exact p4, rfl, ?_, by rw [p1, c1], p5.trans c2,
    fun g hg hne => ?_, ?_, ?_⟩
  · obtain ⟨x1, x2, x3, x4, x5, x6, x7, x8, x9⟩ := hb
    obtain ⟨y1, y2, y3, y4, y5, y6, y7, y8, y9⟩ := p6
    exact ⟨y1.trans x1, y2.trans x2, y3.trans x3, y4.trans x4, y5.trans x5, y6.trans x6,
      y7.trans x7, y8.trans x8, y9.trans x9⟩
  · show q.2[g]? = fs[g]?
    rw [p2 g (by omega)]
    exact c3 g hg hne
  · show file_samples E q.2 f = _
    rw [file_samples_congr E _ _ f (p2 f (by omega))]
    exact c4
  · rw [pending_of_flag E _ rfl]
    show file_samples E q.2 fs.length ++ q.1.record.samples = [v]
    rw [p3, c5, hpe]
    rfl

theorem drain_succ (E : Env) (last_t last_sn : Int) (a : E.D) (split n : Int) (fuel : Nat)
    (w : WMSeed E) (fs : Files E) :
    wmseed__drain E last_t last_sn a split n (fuel + 1) w fs =
      if w.sb.items.length ≠ 0 ∧ w.sb.sample_number ≤ n then
        wmseed__drain E last_t last_sn a split n fuel
          (wmseed__drain_step E last_t last_sn a split w fs).1
          (wmseed__drain_step E last_t last_sn a split w fs).2
      else (w, fs) := rfl

theorem drain_count_zero (sb : Samplebuffer) (n : Int)
    (h : ¬ (sb.items.length ≠ 0 ∧ sb.sample_number ≤ n)) : drain_count sb n = 0 := by
  unfold drain_count
  by_cases h1 : sb.items.length = 0
  · rw [h1]; simp
  · have : n < sb.sample_number := by
      by_contra hc
      exact h ⟨h1, by omega⟩
    have : (n + 1 - sb.sample_number).toNat = 0 := by omega
    rw [this]; simp

theorem drain_count_cons (v : Int) (rest : List Int) (h n : Int) (hn : h ≤ n) :
    drain_count { items := v :: rest, sample_number := h } n =
      drain_count { items := rest, sample_number := h + 1 } n + 1 := by
  unfold drain_count
  simp only [List.length_cons]
  have : (n + 1 - h).toNat = (n + 1 - (h + 1)).toNat + 1 := by omega
  rw [this]
  omega

theorem sameBase_trans (E : Env) (w1 w2 w3 : WMSeed E) (h1 : SameBase E w1 w2)
    (h2 : SameBase E w2 w3) : SameBase E w1 w3 := by
  obtain ⟨x1, x2, x3, x4, x5, x6, x7, x8, x9⟩ := h1
  obtain ⟨y1, y2, y3, y4, y5, y6, y7, y8, y9⟩ := h2
  exact ⟨y1.trans x1, y2.trans x2, y3.trans x3, y4.trans x4, y5.trans x5, y6.trans x6,
    y7.trans x7, y8.trans x8, y9.trans x9⟩

theorem sameBase_refl (E : Env) (w : WMSeed E) : SameBase E w w :=
  ⟨rfl, rfl, rfl, rfl, rfl, rfl, rfl, rfl, rfl⟩

/-- A loop that does not turn leaves everything as it is. -/
theorem drainedTo_none (E : Env) (split n : Int) (past : List Nat) (w : WMSeed E)
    (fs : Files E) (f : Nat) (hu : InUse E past w fs f) (hm : drain_count w.sb n = 0) :
    DrainedTo E split n past w fs f (w, fs) := by
  unfold DrainedTo
  rw [hm]
  refine ⟨by simp, sameBase_refl E w, fun _ => rfl, fun h => absurd h (by omega),
    fun _ _ _ => rfl, fun h => absurd h (by omega), fun _ => ⟨rfl, hu, by simp⟩⟩

theorem take_succ_toNat (v : Int) (rest : List Int) (k : Int) (hk : 1 ≤ k) :
    (v :: rest).take k.toNat = v :: rest.take (k - 1).toNat := by
  have : k.toNat = (k - 1).toNat + 1 := by omega
  rw [this, List.take_succ_cons]

/-- The drain loop, turn by turn: see `DrainedTo`. -/
theorem drain_spec (E : Env) (last_t last_sn : Int) (a : E.D) (split n : Int) :
    ∀ (fuel : Nat) (w : WMSeed E) (fs : Files E) (past : List Nat) (f : Nat),
      w.sb.items.length ≤ fuel → InUse E past w fs f →
      DrainedTo E split n past w fs f
        (wmseed__drain E last_t last_sn a split n fuel w fs) := by
  intro fuel
  induction fuel with
  | zero =>
    intro w fs past f hl hu
    have hm : drain_count w.sb n = 0 := by
      unfold drain_count
      have : w.sb.items.length = 0 := by omega
      rw [this]; simp
    exact drainedTo_none E split n past w fs f hu hm
  | succ fuel ih =>
    intro w fs past f hl hu
    rw [drain_succ]
    by_cases hc : w.sb.items.length ≠ 0 ∧ w.sb.sample_number ≤ n
    · rw [if_pos hc]
      obtain ⟨v, rest, hq⟩ : ∃ v rest, w.sb.items = v :: rest := by
        cases hi : w.sb.items with
        | nil => rw [hi] at hc; simp at hc
        | cons v rest => exact ⟨v, rest, rfl⟩
      have hlen : rest.length ≤ fuel := by rw [hq] at hl; simp at hl; omega
      have hm : drain_count w.sb n =
          drain_count { items := rest, sample_number := w.sb.sample_number + 1 } n + 1 := by
        have := drain_count_cons v rest w.sb.sample_number n hc.2
        rw [← this]
        unfold drain_count
        simp only [hq]
      obtain ⟨u1, u2, u3, u4, u5⟩ := hu
      by_cases hs : w.sb.sample_number = split
      · obtain ⟨s1, s2, s3, s4, s5, s6, s7, s8⟩ := drain_step_cut E last_t last_sn a split w
          fs past f v rest ⟨u1, u2, u3, u4, u5⟩ hq hs
        generalize wmseed__drain_step E last_t last_sn a split w fs = s at *
        have hu1 : InUse E (past ++ [f]) s.1 s.2 fs.length := by
          refine ⟨by rw [s3.2.2.2.2.2.2.2.2]; exact u1, s5, by omega, fun g hg => ?_,
            fun h => by rw [s2] at h; exact absurd h (by decide)⟩
          rcases List.mem_append.1 hg with h | h
          · have := u4 g h; omega
          · simp at h; omega
        have hi := ih s.1 s.2 (past ++ [f]) fs.length (by rw [s1]; exact hlen) hu1
        generalize wmseed__drain E last_t last_sn a split n fuel s.1 s.2 = r at *
        unfold DrainedTo at hi ⊢
        rw [s1] at hi
        simp only at hi
        generalize drain_count { items := rest, sample_number := w.sb.sample_number + 1 } n =
          m' at *
        obtain ⟨i1, i2, i3, i4, i5, -, i7⟩ := hi
        obtain ⟨j1, j2, j3⟩ := i7 (by omega)
        rw [hm, hq]
        refine ⟨?_, sameBase_trans E _ _ _ s3 i2, fun h => absurd h (by omega), fun _ => ?_,
          fun g hg hne => ?_, fun _ => ⟨by omega, ?_, ?_, ?_⟩, fun h => absurd ⟨by omega,
            by omega⟩ h⟩
        · rw [i1]
          simp only [List.drop_succ_cons, Nat.cast_add, Nat.cast_one]
          congr 1
          omega
        · by_cases hz : m' = 0
          · rw [i3 hz]; exact s2
          · exact i4 (by omega)
        · rw [i5 g (by omega) (by omega)]
          exact s6 g hg hne
        · exact j2
        · rw [file_samples_congr E _ _ f (i5 f (by omega) (by omega)), s7]
          have : (split - w.sb.sample_number).toNat = 0 := by omega
          rw [this]
          simp
        · have : (split - w.sb.sample_number).toNat = 0 := by omega
          rw [this, j3, s8]
          simp
      · obtain ⟨s1, s2, s3, s4, s5, s6, s7⟩ := drain_step_plain E last_t last_sn a split w
          fs past f v rest ⟨u1, u2, u3, u4, u5⟩ hq hs
        generalize wmseed__drain_step E last_t last_sn a split w fs = s at *
        have hu1 : InUse E past s.1 s.2 f :=
          ⟨by rw [s3.2.2.2.2.2.2.2.2]; exact u1, s5, by omega, u4,
            fun h => by rw [s2] at h; exact absurd h (by decide)⟩
        have hi := ih s.1 s.2 past f (by rw [s1]; exact hlen) hu1
        generalize wmseed__drain E last_t last_sn a split n fuel s.1 s.2 = r at *
        unfold DrainedTo at hi ⊢
        rw [s1] at hi
        simp only at hi
        generalize drain_count { items := rest, sample_number := w.sb.sample_number + 1 } n =
          m' at *
        obtain ⟨i1, i2, i3, i4, i5, i6, i7⟩ := hi
        rw [hm, hq]
        refine ⟨?_, sameBase_trans E _ _ _ s3 i2, fun h => absurd h (by omega), fun _ => ?_,
          fun g hg hne => ?_, fun hcut => ?_, fun hno => ?_⟩
        · rw [i1]
          simp only [List.drop_succ_cons, Nat.cast_add, Nat.cast_one]
          congr 1
          omega
        · by_cases hz : m' = 0
          · rw [i3 hz]; exact s2
          · exact i4 (by omega)
        · rw [i5 g (by omega) hne]
          exact s6 g hne
        · obtain ⟨j1, j2, j3, j4⟩ := i6 ⟨by omega, by omega⟩
          rw [s4] at j1 j2 j4
          refine ⟨j1, j2, ?_, ?_⟩
          · rw [j3, s7, take_succ_toNat v rest _ (by omega)]
            simp only [List.append_assoc, List.singleton_append]
            congr 3
            congr 1
            omega
          · rw [j4, List.take_succ_cons]
            have : (split - w.sb.sample_number).toNat =
                (split - (w.sb.sample_number + 1)).toNat + 1 := by omega
            rw [this, List.drop_succ_cons]
        · obtain ⟨j1, j2, j3⟩ := i7 (fun h => hno ⟨by omega, by omega⟩)
          refine ⟨j1.trans s4, j2, ?_⟩
          rw [j3, s7, List.take_succ_cons]
          simp
    · rw [if_neg hc]
      exact drainedTo_none E split n past w fs f hu (drain_count_zero _ _ hc)

theorem record_stream_eq (E : Env) (past : List Nat) (w : WMSeed E) (fs : Files E) (f : Nat)
    (ho : w.output = some f) :
    record_stream E past w fs =
      (past.map (file_samples E fs)).flatten ++ file_samples E fs f ++ pending_samples E w := by
  unfold record_stream current_samples
  rw [ho]

theorem past_samples_congr (E : Env) (fs1 fs2 : Files E) (past : List Nat)
    (h : ∀ g ∈ past, fs2[g]? = fs1[g]?) :
    (past.map (file_samples E fs2)).flatten = (past.map (file_samples E fs1)).flatten := by
  congr 1
  apply List.map_congr_left
  intro g hg
  exact file_samples_congr E fs1 fs2 g (h g hg)

/-- The record stream after a drain is the record stream before it with the drained samples
appended, in the order of the queue. -/
theorem drainedTo_stream (E : Env) (split n : Int) (past : List Nat) (w : WMSeed E)
    (fs : Files E) (f : Nat) (r : WMSeed E × Files E) (hu : InUse E past w fs f)
    (hd : DrainedTo E split n past w fs f r) :
    ∃ past2 f2, InUse E past2 r.1 r.2 f2 ∧
      (past2 = past ∧ f2 = f ∧ r.2.length = fs.length ∨
        past2 = past ++ [f] ∧ f2 = fs.length ∧ r.2.length = fs.length + 1) ∧
      record_stream E past2 r.1 r.2 =
        record_stream E past w fs ++ w.sb.items.take (drain_count w.sb n) := by
  obtain ⟨u1, u2, u3, u4, u5⟩ := hu
  obtain ⟨d1, d2, d3, d4, d5, d6, d7⟩ := hd
  have hpast : (past.map (file_samples E r.2)).flatten =
      (past.map (file_samples E fs)).flatten :=
    past_samples_congr E fs r.2 past fun g hg => d5 g (by have := u4 g hg; omega)
      (by have := u4 g hg; omega)
  by_cases hc : w.sb.sample_number ≤ split ∧
      split < w.sb.sample_number + drain_count w.sb n
  · obtain ⟨c1, c2, c3, c4⟩ := d6 hc
    refine ⟨past ++ [f], fs.length, c2, Or.inr ⟨rfl, rfl, c1⟩, ?_⟩
    rw [record_stream_eq E _ _ _ _ c2.2.1, record_stream_eq E _ _ _ _ u2]
    simp only [List.map_append, List.map_cons, List.map_nil, List.flatten_append,
      List.flatten_cons, List.flatten_nil, List.append_nil, List.append_assoc]
    rw [hpast, c3]
    simp only [List.append_assoc]
    rw [c4]
    congr 3
    have hk : (split - w.sb.sample_number).toNat ≤ drain_count w.sb n := by omega
    conv_rhs => rw [← List.take_append_drop (split - w.sb.sample_number).toNat
      (List.take (drain_count w.sb n) w.sb.items)]
    rw [List.take_take, Nat.min_eq_left hk]
  · obtain ⟨c1, c2, c3⟩ := d7 hc
    refine ⟨past, f, c2, Or.inl ⟨rfl, rfl, c1⟩, ?_⟩
    rw [record_stream_eq E _ _ _ _ c2.2.1, record_stream_eq E _ _ _ _ u2, hpast]
    simp only [List.append_assoc]
    rw [c3]
    simp only [List.append_assoc]

theorem inUse_baseline (E : Env) (past : List Nat) (w : WMSeed E) (fs : Files E) (f : Nat)
    (t n : Int) (hn : 0 ≤ n) (hu : InUse E past w fs f) :
    InUse E past { w with last_t := t, last_sn := n } fs f :=
  ⟨hn, hu.2.1, hu.2.2.1, hu.2.2.2.1, hu.2.2.2.2⟩

/-- An applied anchor on a writer in use: the result of the drain with the new baseline. -/
theorem applied_anchor_spec (E : Env) (w : WMSeed E) (fs : Files E) (past : List Nat)
    (f : Nat) (t n : Int) (hu : InUse E past w fs f) (ht : w.last_t < t)
    (hr : 20160 ≤ n - w.last_sn) :
    ∃ r, DrainedTo E (wmseed__split E w t n) n past w fs f r ∧
      wmseed_time E w fs t n = (0, { r.1 with last_t := t, last_sn := n }, r.2) :=
  ⟨_, drain_spec E w.last_t w.last_sn (wmseed__slope E w t n) (wmseed__split E w t n) n
      w.sb.items.length w fs past f (le_refl _) hu,
    wmseed_time_applied E w fs t n hu.1 ht hr⟩

theorem drain_count_iff (sb : Samplebuffer) (n : Int) (i : Nat) (hi : i < sb.items.length) :
    i < drain_count sb n ↔ sb.sample_number + i ≤ n := by
  unfold drain_count
  omega

/-- The first anchor puts a fresh writer in use, with an empty record stream. -/
theorem first_anchor_inUse (E : Env) (w : WMSeed E) (fs : Files E) (t : Int)
    (h1 : w.last_sn = -1) (h2 : w.data_pending = false) (h3 : w.output = none) :
    InUse E [] (wmseed_time E w fs t 0).2.1 (wmseed_time E w fs t 0).2.2 fs.length ∧
    (wmseed_time E w fs t 0).2.1.sb = w.sb ∧
    (wmseed_time E w fs t 0).2.2.length = fs.length + 1 ∧
    (∀ g, g < fs.length → (wmseed_time E w fs t 0).2.2[g]? = fs[g]?) ∧
    record_stream E [] (wmseed_time E w fs t 0).2.1 (wmseed_time E w fs t 0).2.2 = [] ∧
    (wmseed_time E w fs t 0).2.1.last_t = t ∧ (wmseed_time E w fs t 0).2.1.last_sn = 0 ∧
    (wmseed_time E w fs t 0).2.1.cut = w.cut := by
  rw [wmseed_time_first E w fs t h1 h2 h3]
  have k7 : file_samples E
      (fs ++ [{ name := wmseed__filename E w t, records := [], closed := false }])
      fs.length = [] := by
    unfold file_samples; simp
  refine ⟨⟨le_refl _, rfl, by simp, fun g hg => by simp at hg, fun _ => rfl⟩, rfl, by simp,
    fun g hg => ?_, ?_, rfl, rfl, rfl⟩
  · exact List.getElem?_append_left hg
  · rw [record_stream_eq E _ _ _ fs.length rfl, k7]
    simp [pending_samples]

theorem sample_inUse (E : Env) (past : List Nat) (w : WMSeed E) (fs : Files E) (f : Nat)
    (v : Int) (hu : InUse E past w fs f) :
    (wmseed_sample E w v).1 = 0 ∧
    (wmseed_sample E w v).2.sb =
      { items := w.sb.items ++ [v], sample_number := w.sb.sample_number } ∧
    InUse E past (wmseed_sample E w v).2 fs f ∧
    record_stream E past (wmseed_sample E w v).2 fs = record_stream E past w fs ∧
    SameBase E w (wmseed_sample E w v).2 := by
  have e : wmseed_sample E w v = (0, { w with sb := samplebuffer_push w.sb v }) := by
    unfold wmseed_sample
    rw [if_neg (by have := hu.1; omega)]
  rw [e]
  exact ⟨rfl, rfl, hu, rfl, sameBase_refl E w⟩

theorem not_applied_unchanged (E : Env) (w : WMSeed E) (fs : Files E) (t n : Int)
    (ha : 0 ≤ w.last_sn) (h : n - w.last_sn < 20160 ∨ t ≤ w.last_t) :
    (wmseed_time E w fs t n).2 = (w, fs) := by
  by_cases h1 : n ≤ w.last_sn ∨ t ≤ w.last_t
  · unfold wmseed_time
    rw [if_neg (by omega), if_pos h1]
  · rw [wmseed_time_limited E w fs t n ha (by omega) (by omega) (by omega)]

/-- C20. Drain invariant, for a writer in use (anchored, with its file open). An applied
anchor `(t, n)` returns 0, takes from the head of the queue exactly the samples with a
sequence number of at most `n`, leaves the others queued, and appends the samples it took, in
the order of the queue and each once, to the record stream (the records written to the files
of the writer and the pending record). An anchor that is not applied changes nothing,
`wmseed_sample` puts the sample at the tail of the queue and leaves the record stream, and
`wmseed_destroy` leaves the samples of every file. -/
theorem drain_invariant (E : Env) (w : WMSeed E) (fs : Files E) (past : List Nat) (f : Nat)
    (hu : InUse E past w fs f) :
    (∀ t n, w.last_t < t → 20160 ≤ n - w.last_sn →
      (wmseed_time E w fs t n).1 = 0 ∧
      (wmseed_time E w fs t n).2.1.sb =
        { items := w.sb.items.drop (drain_count w.sb n),
          sample_number := w.sb.sample_number + drain_count w.sb n } ∧
      (∀ i, i < w.sb.items.length →
        (i < drain_count w.sb n ↔ w.sb.sample_number + i ≤ n)) ∧
      ∃ past2 f2,
        InUse E past2 (wmseed_time E w fs t n).2.1 (wmseed_time E w fs t n).2.2 f2 ∧
        record_stream E past2 (wmseed_time E w fs t n).2.1 (wmseed_time E w fs t n).2.2 =
          record_stream E past w fs ++ w.sb.items.take (drain_count w.sb n)) ∧
    (∀ t n, n - w.last_sn < 20160 ∨ t ≤ w.last_t → (wmseed_time E w fs t n).2 = (w, fs)) ∧
    (∀ v, (wmseed_sample E w v).2.sb.items = w.sb.items ++ [v] ∧
      InUse E past (wmseed_sample E w v).2 fs f ∧
      record_stream E past (wmseed_sample E w v).2 fs = record_stream E past w fs) ∧
    (∀ g, file_samples E (wmseed_destroy E w fs).2 g = file_samples E fs g) := by
  refine ⟨fun t n ht hr => ?_, fun t n h => not_applied_unchanged E w fs t n hu.1 h,
    fun v => ?_, fun g => ?_⟩
  · obtain ⟨r, hd, he⟩ := applied_anchor_spec E w fs past f t n hu ht hr
    obtain ⟨past2, f2, k1, -, k3⟩ := drainedTo_stream E _ n past w fs f r hu hd
    rw [he]
    refine ⟨rfl, hd.1, fun i hi => drain_count_iff w.sb n i hi, past2, f2,
      inUse_baseline E past2 r.1 r.2 f2 t n (by have := hu.1; omega) k1, ?_⟩
    exact k3
  · obtain ⟨-, s2, s3, s4, -⟩ := sample_inUse E past w fs f v hu
    exact ⟨by rw [s2], s3, s4⟩
  · unfold wmseed_destroy
    rw [hu.2.1]
    by_cases hg : g = f
    · subst hg
      have := (fclose_Appended E fs g).2.2
      rw [List.append_nil] at this
      exact this
    · exact file_samples_congr E _ _ g ((fclose_Appended E fs f).2.1 g hg)

/-- Witness of C20: the example writer after its first anchor and the samples 5, 6, 7 is in
use; the anchor `(300000000, 20160)` is applied and takes the three samples off the queue. -/
theorem drain_invariant_witness :
    InUse ex_env [] ex_queued.1 ex_queued.2 0 ∧
    (ex_queued.1.last_t < 300000000 ∧ 20160 ≤ 20160 - ex_queued.1.last_sn) ∧
    (wmseed_time ex_env ex_queued.1 ex_queued.2 300000000 20160).2.1.sb =
      { items := [], sample_number := 3 } :=
  ⟨by decide, ⟨by decide, by decide⟩,
    ((drain_invariant ex_env ex_queued.1 ex_queued.2 [] 0 (by decide)).1 300000000 20160
      (by decide) (by decide)).2.1.trans (by decide)⟩

/-- Over any sequence of calls on a writer in use, the record stream followed by the queue
grows by the samples handed to `wmseed_sample`, in order: a sample is in the record stream
only after it was in the queue, and none is lost or doubled by a call. -/
theorem calls_conserve (E : Env) (cs : List Call) :
    ∀ (s : WMSeed E × Files E) (past : List Nat) (f : Nat), InUse E past s.1 s.2 f →
      ∃ past2 f2,
        InUse E past2 (wmseed_calls E s cs).1 (wmseed_calls E s cs).2 f2 ∧
        record_stream E past2 (wmseed_calls E s cs).1 (wmseed_calls E s cs).2 ++
            (wmseed_calls E s cs).1.sb.items =
          record_stream E past s.1 s.2 ++ s.1.sb.items ++ sampled cs := by
  induction cs with
  | nil =>
    intro s past f hu
    exact ⟨past, f, hu, by simp [wmseed_calls, sampled]⟩
  | cons c cs ih =>
    intro s past f hu
    cases c with
    | sample v =>
      obtain ⟨-, s2, s3, s4, -⟩ := sample_inUse E past s.1 s.2 f v hu
      obtain ⟨past2, f2, k1, k2⟩ := ih ((wmseed_sample E s.1 v).2, s.2) past f s3
      refine ⟨past2, f2, k1, ?_⟩
      show record_stream E past2 (wmseed_calls E ((wmseed_sample E s.1 v).2, s.2) cs).1
        (wmseed_calls E ((wmseed_sample E s.1 v).2, s.2) cs).2 ++
        (wmseed_calls E ((wmseed_sample E s.1 v).2, s.2) cs).1.sb.items = _
      rw [k2]
      simp only [s4, s2, sampled, List.append_assoc, List.singleton_append]
    | time t n =>
      by_cases h : n - s.1.last_sn < 20160 ∨ t ≤ s.1.last_t
      · have e := not_applied_unchanged E s.1 s.2 t n hu.1 h
        obtain ⟨past2, f2, k1, k2⟩ := ih s past f hu
        refine ⟨past2, f2, ?_, ?_⟩
        · show InUse E past2 (wmseed_calls E (wmseed_time E s.1 s.2 t n).2 cs).1
            (wmseed_calls E (wmseed_time E s.1 s.2 t n).2 cs).2 f2
          rw [e]; exact k1
        · show record_stream E past2 (wmseed_calls E (wmseed_time E s.1 s.2 t n).2 cs).1
            (wmseed_calls E (wmseed_time E s.1 s.2 t n).2 cs).2 ++
            (wmseed_calls E (wmseed_time E s.1 s.2 t n).2 cs).1.sb.items = _
          rw [e]; exact k2
      · obtain ⟨r, hd, he⟩ := applied_anchor_spec E s.1 s.2 past f t n hu (by omega) (by omega)
        obtain ⟨past1, f1, j1, -, j3⟩ := drainedTo_stream E _ n past s.1 s.2 f r hu hd
        have j1' := inUse_baseline E past1 r.1 r.2 f1 t n (by have := hu.1; omega) j1
        obtain ⟨past2, f2, k1, k2⟩ := ih ({ r.1 with last_t := t, last_sn := n }, r.2)
          past1 f1 j1'
        have e : (wmseed_time E s.1 s.2 t n).2 = ({ r.1 with last_t := t, last_sn := n }, r.2) := by
          rw [he]
        refine ⟨past2, f2, ?_, ?_⟩
        · show InUse E past2 (wmseed_calls E (wmseed_time E s.1 s.2 t n).2 cs).1
            (wmseed_calls E (wmseed_time E s.1 s.2 t n).2 cs).2 f2
          rw [e]; exact k1
        · show record_stream E past2 (wmseed_calls E (wmseed_time E s.1 s.2 t n).2 cs).1
            (wmseed_calls E (wmseed_time E s.1 s.2 t n).2 cs).2 ++
            (wmseed_calls E (wmseed_time E s.1 s.2 t n).2 cs).1.sb.items = _
          rw [e, k2]
          have hs : record_stream E past1 { r.1 with last_t := t, last_sn := n } r.2 =
              record_stream E past1 r.1 r.2 := rfl
          rw [hs, j3]
          show _ ++ r.1.sb.items ++ sampled cs = _
          rw [hd.1]
          simp only [sampled, List.append_assoc, List.take_append_drop]

/-- Samples handed one after the other to a writer in use go to the tail of the queue. -/
theorem calls_samples (E : Env) (xs : List Int) :
    ∀ (s : WMSeed E × Files E), 0 ≤ s.1.last_sn →
      wmseed_calls E s (xs.map Call.sample) =
        ({ s.1 with sb := { items := s.1.sb.items ++ xs,
                            sample_number := s.1.sb.sample_number } }, s.2) := by
  induction xs with
  | nil => intro s _; simp [wmseed_calls]
  | cons x xs ih =>
    intro s hs
    have e : wmseed_sample E s.1 x = (0, { s.1 with sb := samplebuffer_push s.1.sb x }) := by
      unfold wmseed_sample
      rw [if_neg (by omega)]
    show wmseed_calls E ((wmseed_sample E s.1 x).2, s.2) (xs.map Call.sample) = _
    rw [e]
    exact (ih ({ s.1 with sb := samplebuffer_push s.1.sb x }, s.2) hs).trans
      (by simp [samplebuffer_push])

theorem split_congr (E : Env) (w1 w2 : WMSeed E) (t n : Int) (hc : w2.cut = w1.cut)
    (ht : w2.last_t = w1.last_t) (hs : w2.last_sn = w1.last_sn) :
    wmseed__split E w2 t n = wmseed__split E w1 t n ∧
    (cut_detected E w2 t ↔ cut_detected E w1 t) := by
  have hd : cut_detected E w2 t ↔ cut_detected E w1 t := by
    unfold cut_detected
    rw [hc, ht]
  refine ⟨?_, hd⟩
  unfold wmseed__split
  by_cases h : cut_detected E w1 t
  · rw [if_pos h, if_pos (hd.2 h)]
    unfold wmseed__split_time wmseed__slope
    rw [hc, ht, hs]
  · rw [if_neg h, if_neg (fun h2 => h (hd.1 h2))]

/-- An applied anchor whose split index is not among the drained samples opens no file: the
current file and the pending record get the drained samples. -/
theorem applied_no_cut (E : Env) (w : WMSeed E) (fs : Files E) (past : List Nat) (f : Nat)
    (t n : Int) (hu : InUse E past w fs f) (ht : w.last_t < t) (hr : 20160 ≤ n - w.last_sn)
    (hc : ¬ (w.sb.sample_number ≤ wmseed__split E w t n ∧
      wmseed__split E w t n < w.sb.sample_number + drain_count w.sb n)) :
    (wmseed_time E w fs t n).2.2.length = fs.length ∧
    InUse E past (wmseed_time E w fs t n).2.1 (wmseed_time E w fs t n).2.2 f ∧
    file_samples E (wmseed_time E w fs t n).2.2 f ++
        pending_samples E (wmseed_time E w fs t n).2.1 =
      file_samples E fs f ++ pending_samples E w ++ w.sb.items.take (drain_count w.sb n) ∧
    (wmseed_time E w fs t n).2.1.sb =
      { items := w.sb.items.drop (drain_count w.sb n),
        sample_number := w.sb.sample_number + drain_count w.sb n } ∧
    (wmseed_time E w fs t n).2.1.cut = w.cut ∧
    (wmseed_time E w fs t n).2.1.last_t = t ∧ (wmseed_time E w fs t n).2.1.last_sn = n := by
  obtain ⟨r, hd, he⟩ := applied_anchor_spec E w fs past f t n hu ht hr
  obtain ⟨d1, d2, -, -, -, -, d7⟩ := hd
  obtain ⟨c1, c2, c3⟩ := d7 hc
  rw [he]
  exact ⟨c1, inUse_baseline E past r.1 r.2 f t n (by have := hu.1; omega) c2, c3, d1, d2.1,
    rfl, rfl⟩

/-- An applied anchor whose split index is among the drained samples opens exactly one file:
the file that was current gets the pending record and the samples before the split index and
is left, and the new file and the pending record get the samples from the split index on. -/
theorem applied_cut (E : Env) (w : WMSeed E) (fs : Files E) (past : List Nat) (f : Nat)
    (t n : Int) (hu : InUse E past w fs f) (ht : w.last_t < t) (hr : 20160 ≤ n - w.last_sn)
    (hc : w.sb.sample_number ≤ wmseed__split E w t n ∧
      wmseed__split E w t n < w.sb.sample_number + drain_count w.sb n) :
    (wmseed_time E w fs t n).2.2.length = fs.length + 1 ∧
    InUse E (past ++ [f]) (wmseed_time E w fs t n).2.1 (wmseed_time E w fs t n).2.2
      fs.length ∧
    file_samples E (wmseed_time E w fs t n).2.2 f =
      file_samples E fs f ++ pending_samples E w ++
        w.sb.items.take (wmseed__split E w t n - w.sb.sample_number).toNat ∧
    file_samples E (wmseed_time E w fs t n).2.2 fs.length ++
        pending_samples E (wmseed_time E w fs t n).2.1 =
      (w.sb.items.take (drain_count w.sb n)).drop
        (wmseed__split E w t n - w.sb.sample_number).toNat := by
  obtain ⟨r, hd, he⟩ := applied_anchor_spec E w fs past f t n hu ht hr
  obtain ⟨-, -, -, -, -, d6, -⟩ := hd
  obtain ⟨c1, c2, c3, c4⟩ := d6 hc
  rw [he]
  exact ⟨c1, inUse_baseline E _ r.1 r.2 _ t n (by have := hu.1; omega) c2, c3, c4⟩

theorem wmseed_calls_append (E : Env) (s : WMSeed E × Files E) (a b : List Call) :
    wmseed_calls E s (a ++ b) = wmseed_calls E (wmseed_calls E s a) b := by
  unfold wmseed_calls
  rw [List.foldl_append]

theorem wmseed_calls_time (E : Env) (s : WMSeed E × Files E) (t n : Int) :
    wmseed_calls E s [.time t n] = (wmseed_time E s.1 s.2 t n).2 := rfl

theorem drain_count_all (xs : List Int) (h n : Int) (hn : h + xs.length ≤ n + 1) :
    drain_count { items := xs, sample_number := h } n = xs.length := by
  unfold drain_count
  simp only
  omega

/-- The calls of `ex_midnight_calls` for any samples: see `midnight_anchor_opens_no_file`. -/
theorem midnight_run (xs ys : List Int) (hx : xs.length = 20200) (hy : ys.length = 20200) :
    (wmseed_calls ex_env (ex_writer ex_env 86400, [])
      ([.time 86198000000 0] ++ xs.map Call.sample ++ [.time 86400000000 20200] ++
        ys.map Call.sample ++ [.time 86602000000 40400])).2.length = 1 ∧
    file_samples ex_env (wmseed_calls ex_env (ex_writer ex_env 86400, [])
      ([.time 86198000000 0] ++ xs.map Call.sample ++ [.time 86400000000 20200] ++
        ys.map Call.sample ++ [.time 86602000000 40400])).2 0 ++
      pending_samples ex_env (wmseed_calls ex_env (ex_writer ex_env 86400, [])
        ([.time 86198000000 0] ++ xs.map Call.sample ++ [.time 86400000000 20200] ++
          ys.map Call.sample ++ [.time 86602000000 40400])).1 = xs ++ ys := by
  have hsp1 : wmseed__split ex_env
      (wmseed_time ex_env (ex_writer ex_env 86400) [] 86198000000 0).2.1
      86400000000 20200 = 20200 := by decide
  have hsp2 : wmseed__split ex_env
      { ex_writer ex_env 86400 with last_t := 86400000000, last_sn := 20200 }
      86602000000 40400 = -1 := by decide
  obtain ⟨a1, a2, a3, -, a5, a6, a7, a8⟩ :=
    first_anchor_inUse ex_env (ex_writer ex_env 86400) [] 86198000000 rfl rfl rfl
  simp only [wmseed_calls_append, wmseed_calls_time]
  generalize (wmseed_time ex_env (ex_writer ex_env 86400) [] 86198000000 0).2 = s1 at *
  simp only [List.length_nil] at a1 a3
  have a9 : file_samples ex_env s1.2 0 ++ pending_samples ex_env s1.1 = [] := by
    rw [record_stream_eq ex_env _ _ _ 0 a1.2.1] at a5
    simpa using a5
  -- the first 20200 samples
  rw [calls_samples ex_env _ s1 a1.1]
  obtain ⟨w2, hw2⟩ : ∃ w2 : WMSeed ex_env, w2 = { s1.1 with
      sb := { items := s1.1.sb.items ++ xs,
              sample_number := s1.1.sb.sample_number } } := ⟨_, rfl⟩
  rw [← hw2]
  have b1 : InUse ex_env [] w2 s1.2 0 := by rw [hw2]; exact a1
  have b2 : w2.sb = { items := xs, sample_number := 0 } := by
    rw [hw2, a2]; rfl
  have b3 : w2.last_t = 86198000000 ∧ w2.last_sn = 0 ∧
      w2.cut = (ex_writer ex_env 86400).cut := by
    rw [hw2]; exact ⟨a6, a7, a8⟩
  have b4 : wmseed__split ex_env w2 86400000000 20200 = 20200 := by
    rw [(split_congr ex_env s1.1 w2 _ _ (by rw [hw2]) (by rw [hw2]) (by rw [hw2])).1]
    exact hsp1
  have b5 : drain_count w2.sb 20200 = 20200 := by
    rw [b2, drain_count_all _ _ _ (by rw [hx]; decide), hx]
  have b6 : pending_samples ex_env w2 = pending_samples ex_env s1.1 := by rw [hw2]; rfl
  obtain ⟨c1, c2, c3, c4, c5, c6, c7⟩ := applied_no_cut ex_env w2 s1.2 [] 0 86400000000 20200
    b1 (by rw [b3.1]; decide) (by rw [b3.2.1]; decide) (by rw [b4, b5, b2]; simp)
  rw [b5, b2, b6] at c3
  rw [b5, b2] at c4
  simp only [← hx, List.take_length, List.drop_length] at c3 c4
  rw [a9, List.nil_append] at c3
  rw [hx] at c4
  generalize (wmseed_time ex_env w2 s1.2 86400000000 20200).2 = s3 at *
  -- the next 20200 samples
  rw [calls_samples ex_env _ s3 c2.1]
  obtain ⟨w4, hw4⟩ : ∃ w4 : WMSeed ex_env, w4 = { s3.1 with
      sb := { items := s3.1.sb.items ++ ys,
              sample_number := s3.1.sb.sample_number } } := ⟨_, rfl⟩
  rw [← hw4]
  have d1 : InUse ex_env [] w4 s3.2 0 := by rw [hw4]; exact c2
  have d2 : w4.sb = { items := ys, sample_number := 20200 } := by
    rw [hw4, c4]; simp
  have d3 : w4.last_t = 86400000000 ∧ w4.last_sn = 20200 ∧
      w4.cut = (ex_writer ex_env 86400).cut := by
    rw [hw4]; exact ⟨c6, c7, by rw [← b3.2.2]; exact c5⟩
  have d4 : wmseed__split ex_env w4 86602000000 40400 = -1 := by
    rw [(split_congr ex_env
      { ex_writer ex_env 86400 with last_t := 86400000000, last_sn := 20200 } w4 _ _
      d3.2.2 d3.1 d3.2.1).1]
    exact hsp2
  have d5 : drain_count w4.sb 40400 = 20200 := by
    rw [d2, drain_count_all _ _ _ (by rw [hy]; decide), hy]
  have d6 : pending_samples ex_env w4 = pending_samples ex_env s3.1 := by rw [hw4]; rfl
  obtain ⟨e1, e2, e3, -⟩ := applied_no_cut ex_env w4 s3.2 [] 0 86602000000 40400
    d1 (by rw [d3.1]; decide) (by rw [d3.2.1]; decide) (by rw [d4, d5, d2]; simp)
  rw [d5, d2, d6, c3] at e3
  simp only [← hy, List.take_length] at e3
  exact ⟨e1.trans c1 |>.trans a3, e3⟩

/-- C17. The end of a day on the code, for the calls of `main` on one channel at 100 samples
per second with a cut period of one day: first anchor 202 seconds before midnight, 20200
samples, an anchor at midnight sharp with sample number 20200, 20200 samples, an anchor 202
seconds later. At the second anchor a cut is found, the boundary is the instant of the anchor
and the split index is its sample number 20200, the number of a sample that is not queued
yet; no file is opened, then or later: after all calls there is one file, and it and the
pending record hold all 40400 samples, those after midnight included. -/
theorem midnight_anchor_opens_no_file :
    (cut_detected ex_env (wmseed_time ex_env (ex_writer ex_env 86400) [] 86198000000 0).2.1
        86400000000 ∧
      wmseed__split_time ex_env
        (wmseed_time ex_env (ex_writer ex_env 86400) [] 86198000000 0).2.1 86400000000 =
          86400000000 ∧
      wmseed__split ex_env (wmseed_time ex_env (ex_writer ex_env 86400) [] 86198000000 0).2.1
        86400000000 20200 = 20200) ∧
    (wmseed_calls ex_env (ex_writer ex_env 86400, []) ex_midnight_calls).2.length = 1 ∧
    file_samples ex_env (wmseed_calls ex_env (ex_writer ex_env 86400, []) ex_midnight_calls).2
        0 ++
      pending_samples ex_env
        (wmseed_calls ex_env (ex_writer ex_env 86400, []) ex_midnight_calls).1 =
      List.replicate 20200 7 ++ List.replicate 20200 9 :=
  ⟨⟨by decide, by decide, by decide⟩,
    midnight_run (List.replicate 20200 7) (List.replicate 20200 9)
      (List.length_replicate _ _) (List.length_replicate _ _)⟩

/-- C27. The macro `wmseed__div(a, b)`, `(a) / (b) - ((a) % (b) < 0)` with the truncating
division and remainder of C, is the floor of the quotient for every positive `b`: it equals
the floor of `a / b` in the rationals, so the bucket start `wmseed__div(x, q) * q` of a
positive period `q` satisfies `wmseed__div(x, q) * q <= x < wmseed__div(x, q) * q + q`, also
for negative `x`. For a 64-bit `a` the quotient of C and the value of the macro stay in the
64-bit range, so nothing wraps in the macro. -/
theorem wmseed__div_is_floor (a b : Int) (hb : 0 < b) :
    wmseed__div a b = ⌊(a : ℚ) / (b : ℚ)⌋ ∧
    (wmseed__div a b * b ≤ a ∧ a < wmseed__div a b * b + b) ∧
    (-(2 : Int) ^ 63 ≤ a → a < 2 ^ 63 →
      (-(2 : Int) ^ 63 ≤ Int.tdiv a b ∧ Int.tdiv a b < 2 ^ 63) ∧
      (-(2 : Int) ^ 63 ≤ wmseed__div a b ∧ wmseed__div a b < 2 ^ 63)) := by
  have key := (wmseed__div_floor a b hb).1
  have h1 : a / b * b ≤ a := Int.ediv_mul_le a (by omega)
  have h2 : a < a / b * b + b := by
    have := Int.lt_ediv_add_one_mul_self a hb
    have e : (a / b + 1) * b = a / b * b + b := by ring
    omega
  have hf : ⌊(a : ℚ) / (b : ℚ)⌋ = a / b := by
    obtain ⟨k, rfl⟩ := Int.eq_ofNat_of_zero_le (le_of_lt hb)
    exact Rat.floor_intCast_div_natCast a k
  refine ⟨by rw [key, hf], by rw [key]; exact ⟨h1, h2⟩, fun ha1 ha2 => ?_⟩
  have hd : wmseed__div a b = Int.tdiv a b - (if Int.tmod a b < 0 then 1 else 0) := rfl
  rw [key] at hd
  generalize a / b = q at *
  have q1 : q < 2 ^ 63 := by
    by_contra hc
    have : (2 : Int) ^ 63 * b ≤ q * b := Int.mul_le_mul_of_nonneg_right (by omega) (by omega)
    have : (2 : Int) ^ 63 * 1 ≤ (2 : Int) ^ 63 * b :=
      Int.mul_le_mul_of_nonneg_left (by omega) (by norm_num)
    omega
  have q2 : -(2 : Int) ^ 63 ≤ q := by
    by_contra hc
    have e : q * b + b = (q + 1) * b := by ring
    have : (q + 1) * b ≤ -(2 : Int) ^ 63 * b :=
      Int.mul_le_mul_of_nonneg_right (by omega) (by omega)
    have : -(2 : Int) ^ 63 * b ≤ -(2 : Int) ^ 63 * 1 :=
      Int.mul_le_mul_of_nonpos_left (by norm_num) (by omega)
    omega
  rw [key]
  refine ⟨?_, q2, q1⟩
  by_cases hm : Int.tmod a b < 0
  · rw [if_pos hm] at hd
    have hneg : a < 0 := by
      by_contra hc
      have := Int.tmod_nonneg b (by omega : 0 ≤ a)
      omega
    have : q < 0 := by
      by_contra hc
      have : 0 * b ≤ q * b := Int.mul_le_mul_of_nonneg_right (by omega) (by omega)
      omega
    omega
  · rw [if_neg hm] at hd
    omega

/-- Witness of C27: `wmseed__div(-7, 2)` is -4, the floor of -3.5, where the quotient of C is
-3. -/
theorem wmseed__div_is_floor_witness :
    (0 : Int) < 2 ∧ wmseed__div (-7) 2 = -4 ∧ Int.tdiv (-7) 2 = -3 ∧
    (wmseed__div (-7) 2 * 2 ≤ -7 ∧ -7 < wmseed__div (-7) 2 * 2 + 2) :=
  ⟨by decide, by decide, by decide, (wmseed__div_is_floor (-7) 2 (by decide)).2.1⟩

/-! ## Control groups other than Time -/

/-- C23. Control-code dispatch, from the state between two groups, for a group whose first
word `c` is odd. The three words after `c` are stored without any dispatch (fewer than three
leave the group open). With `c = 13` the fourth word ends the decoding: the sample counter,
the Time flag, the writers and the files are as before, and whatever words follow leave the
whole state as it is. With any other odd `c` but 1 (3, 5, 7, 9, 11, 15 or any other odd
value, negative ones included) the group takes exactly its four words: after them the parser
is between two groups again, not ended, and the sample counter, the Time flag, the writers
and the files are as before. -/
theorem control_dispatch (E : Env) (ck : Clock E) (channel_count : Nat) (st : Decoder E)
    (hd : st.done = false) (hr : st.remaining = 0) (c : Int) (hodd : c % 2 = 1) :
    (∀ us : List Int, us.length < 3 →
      ((c :: us).foldl (frame_word E ck channel_count) st).remaining = 3 - us.length ∧
      ((c :: us).foldl (frame_word E ck channel_count) st).done = false ∧
      ((c :: us).foldl (frame_word E ck channel_count) st).sample_number = st.sample_number ∧
      ((c :: us).foldl (frame_word E ck channel_count) st).have_time = st.have_time ∧
      ((c :: us).foldl (frame_word E ck channel_count) st).channels = st.channels ∧
      ((c :: us).foldl (frame_word E ck channel_count) st).fs = st.fs) ∧
    (c = 13 → ∀ us : List Int, us.length = 3 →
      ((c :: us).foldl (frame_word E ck channel_count) st).done = true ∧
      ((c :: us).foldl (frame_word E ck channel_count) st).sample_number = st.sample_number ∧
      ((c :: us).foldl (frame_word E ck channel_count) st).have_time = st.have_time ∧
      ((c :: us).foldl (frame_word E ck channel_count) st).channels = st.channels ∧
      ((c :: us).foldl (frame_word E ck channel_count) st).fs = st.fs ∧
      ∀ ws : List Int,
        ((c :: us) ++ ws).foldl (frame_word E ck channel_count) st =
          (c :: us).foldl (frame_word E ck channel_count) st) ∧
    (c ≠ 1 → c ≠ 13 → ∀ us : List Int, us.length = 3 →
      ((c :: us).foldl (frame_word E ck channel_count) st).remaining = 0 ∧
      ((c :: us).foldl (frame_word E ck channel_count) st).done = false ∧
      ((c :: us).foldl (frame_word E ck channel_count) st).sample_number = st.sample_number ∧
      ((c :: us).foldl (frame_word E ck channel_count) st).have_time = st.have_time ∧
      ((c :: us).foldl (frame_word E ck channel_count) st).channels = st.channels ∧
      ((c :: us).foldl (frame_word E ck channel_count) st).fs = st.fs) := by
  have first : frame_word E ck channel_count st c =
      { st with frame := frame_set st.frame 0 c, pos := 1, remaining := 3 } := by
    simp only [frame_word, hd, Bool.false_eq_true, if_false, hr, if_true, hodd]
    rw [if_neg (by decide)]
  have whole : ∀ us : List Int, us.length = 3 →
      (c :: us).foldl (frame_word E ck channel_count) st =
        frame_done E ck { st with
          frame := frame_fill st.frame 0 (c :: us)
          pos := (c :: us).length
          remaining := 0 } := by
    intro us hus
    exact open_group E ck channel_count c us st hd hr
      (by unfold group_size; rw [if_pos hodd]; simp [hus])
  refine ⟨fun us hus => ?_, fun h13 us hus => ?_, fun h1 h13 us hus => ?_⟩
  · simp only [List.foldl_cons]
    rw [first, fill_partial E ck channel_count us
      { st with frame := frame_set st.frame 0 c, pos := 1, remaining := 3 } hd
      (by simp only; omega)]
    exact ⟨rfl, hd, rfl, rfl, rfl, rfl⟩
  · have e := whole us hus
    have f0 : frame_fill st.frame 0 (c :: us) 0 = 13 := by simp [frame_fill, h13]
    unfold frame_done at e
    simp only [f0] at e
    rw [if_pos (by decide), if_neg (by decide), if_pos trivial] at e
    refine ⟨by rw [e], by rw [e], by rw [e], by rw [e], by rw [e], fun ws => ?_⟩
    rw [List.foldl_append]
    exact foldl_done E ck channel_count ws _ (by rw [e])
  · have e := whole us hus
    have f0 : frame_fill st.frame 0 (c :: us) 0 = c := by simp [frame_fill]
    unfold frame_done at e
    simp only [f0] at e
    rw [if_pos hodd, if_neg h1, if_neg h13] at e
    rw [e]
    exact ⟨rfl, hd, rfl, rfl, rfl, rfl⟩

/-- Witness of C23: after a Time group, the End group `[13, 0, 0, 0]` ends the decoding and
the sample group `[2, 3]` behind it changes nothing; the groups `[7, 1, 2, 3]` (lost frames)
and `[-3, 1, 2, 3]` (not a known code) leave the sample counter and the writers as they are,
and the sample group behind `[7, 1, 2, 3]` is counted. -/
theorem control_dispatch_witness :
    (ex_decoder_timed.done = false ∧ ex_decoder_timed.remaining = 0 ∧ (13 : Int) % 2 = 1 ∧
      (7 : Int) % 2 = 1 ∧ (-3 : Int) % 2 = 1) ∧
    (([13, 0, 0, 0] ++ [2, 3]).foldl (frame_word ex_env ex_clock 2) ex_decoder_timed =
        [13, 0, 0, 0].foldl (frame_word ex_env ex_clock 2) ex_decoder_timed ∧
      ([13, 0, 0, 0].foldl (frame_word ex_env ex_clock 2) ex_decoder_timed).done = true) ∧
    (([7, 1, 2, 3].foldl (frame_word ex_env ex_clock 2) ex_decoder_timed).sample_number =
        ex_decoder_timed.sample_number ∧
      ([7, 1, 2, 3].foldl (frame_word ex_env ex_clock 2) ex_decoder_timed).channels =
        ex_decoder_timed.channels) ∧
    ([-3, 1, 2, 3].foldl (frame_word ex_env ex_clock 2) ex_decoder_timed).channels =
      ex_decoder_timed.channels ∧
    ([7, 1, 2, 3, 2, 3].foldl (frame_word ex_env ex_clock 2) ex_decoder_timed).sample_number =
      ex_decoder_timed.sample_number + 1 :=
  ⟨⟨rfl, rfl, by decide, by decide, by decide⟩,
    ⟨((control_dispatch ex_env ex_clock 2 ex_decoder_timed rfl rfl 13 (by decide)).2.1 rfl
        [0, 0, 0] rfl).2.2.2.2.2 [2, 3],
      ((control_dispatch ex_env ex_clock 2 ex_decoder_timed rfl rfl 13 (by decide)).2.1 rfl
        [0, 0, 0] rfl).1⟩,
    ⟨((control_dispatch ex_env ex_clock 2 ex_decoder_timed rfl rfl 7 (by decide)).2.2
        (by decide) (by decide) [1, 2, 3] rfl).2.2.1,
      ((control_dispatch ex_env ex_clock 2 ex_decoder_timed rfl rfl 7 (by decide)).2.2
        (by decide) (by decide) [1, 2, 3] rfl).2.2.2.2.1⟩,
    ((control_dispatch ex_env ex_clock 2 ex_decoder_timed rfl rfl (-3) (by decide)).2.2
      (by decide) (by decide) [1, 2, 3] rfl).2.2.2.2.1,
    rfl⟩

/-! ## The writers under the frame decoder -/

theorem create_file_last_sn (E : Env) (w : WMSeed E) (fs : Files E) (t : Int) :
    (wmseed__create_file E w fs t).1.last_sn = w.last_sn := by
  have h := (new_record_writer E { w with record_number := 0 } fs t).2.2.2.2
  unfold SameBase at h
  unfold wmseed__create_file
  exact h.2.2.2.2.2.2.2.2

/-- What `wmseed_time` makes of `last_sn`: a writer that has no anchor yet takes the anchor
with sample number 0 and is anchored at 0; an anchored writer stays anchored. -/
theorem wmseed_time_anchors (E : Env) (w : WMSeed E) (fs : Files E) (t n : Int) :
    (w.last_sn = -1 →
      (wmseed_time E w fs t 0).1 = 0 ∧ (wmseed_time E w fs t 0).2.1.last_sn = 0) ∧
    (0 ≤ w.last_sn → 0 ≤ (wmseed_time E w fs t n).2.1.last_sn) := by
  refine ⟨fun h => ?_, fun h => ?_⟩
  · unfold wmseed_time
    rw [if_pos h, if_neg (by simp)]
    exact ⟨rfl, create_file_last_sn E _ fs t⟩
  · unfold wmseed_time
    rw [if_neg (by omega)]
    by_cases h1 : n ≤ w.last_sn ∨ t ≤ w.last_t
    · rw [if_pos h1]; exact h
    · rw [if_neg h1]
      by_cases h2 : n - w.last_sn < 1008 * 20
      · rw [if_pos h2]; exact h
      · rw [if_neg h2]
        show 0 ≤ n
        omega

theorem time_all_mem (E : Env) (t n : Int) (ws : List (WMSeed E)) (fs : Files E)
    (w2 : WMSeed E) (h : w2 ∈ (time_all E t n ws fs).1) :
    ∃ w ∈ ws, ∃ fs2, w2 = (wmseed_time E w fs2 t n).2.1 := by
  induction ws generalizing fs with
  | nil => simp [time_all] at h
  | cons w ws ih =>
    simp only [time_all, List.mem_cons] at h
    rcases h with h | h
    · exact ⟨w, List.mem_cons_self _ _, fs, h⟩
    · obtain ⟨u, hu, fs2, e⟩ := ih _ h
      exact ⟨u, List.mem_cons_of_mem _ hu, fs2, e⟩

theorem sample_all_mem (E : Env) (frame : Nat → Int) (c : Nat) (ws : List (WMSeed E))
    (w2 : WMSeed E) (h : w2 ∈ sample_all E frame c ws) :
    ∃ w ∈ ws, ∃ v, w2 = (wmseed_sample E w v).2 := by
  induction ws generalizing c with
  | nil => simp [sample_all] at h
  | cons w ws ih =>
    simp only [sample_all, List.mem_cons] at h
    rcases h with h | h
    · exact ⟨w, List.mem_cons_self _ _, _, h⟩
    · obtain ⟨u, hu, v, e⟩ := ih _ h
      exact ⟨u, List.mem_cons_of_mem _ hu, v, e⟩

/-- Before the first Time group the sample counter is 0 and the writers are those the decoder
started with, none of which has an anchor; after it every writer is anchored. A dispatched
group keeps this. -/
theorem frame_done_anchored (E : Env) (ck : Clock E) (c0 : List (WMSeed E))
    (hc : ∀ w ∈ c0, w.last_sn = -1) (st : Decoder E)
    (h0 : st.have_time = false → st.sample_number = 0 ∧ st.channels = c0)
    (h1 : st.have_time = true → ∀ w ∈ st.channels, 0 ≤ w.last_sn) :
    ((frame_done E ck st).have_time = false →
      (frame_done E ck st).sample_number = 0 ∧ (frame_done E ck st).channels = c0) ∧
    ((frame_done E ck st).have_time = true →
      ∀ w ∈ (frame_done E ck st).channels, 0 ≤ w.last_sn) := by
  unfold frame_done
  by_cases hodd : st.frame 0 % 2 = 1
  · rw [if_pos hodd]
    by_cases ht : st.frame 0 = 1
    · rw [if_pos ht]
      refine ⟨fun h => by simp at h, fun _ w2 hw2 => ?_⟩
      obtain ⟨w, hw, fs2, e⟩ := time_all_mem E _ _ _ _ w2 hw2
      rw [e]
      cases hb : st.have_time with
      | false =>
        obtain ⟨a, b⟩ := h0 hb
        rw [a, ((wmseed_time_anchors E w fs2 _ 0).1 (hc w (by rw [← b]; exact hw))).2]
      | true => exact (wmseed_time_anchors E w fs2 _ _).2 (h1 hb w hw)
    · rw [if_neg ht]
      by_cases he : st.frame 0 = 13
      · rw [if_pos he]
        exact ⟨h0, h1⟩
      · rw [if_neg he]
        exact ⟨h0, h1⟩
  · rw [if_neg hodd]
    cases hb : st.have_time with
    | false =>
      simp only [Bool.false_eq_true, if_false]
      exact ⟨fun _ => h0 hb, fun h => by rw [hb] at h; simp at h⟩
    | true =>
      simp only [if_true]
      refine ⟨fun h => by simp at h, fun _ w2 hw2 => ?_⟩
      obtain ⟨w, hw, v, e⟩ := sample_all_mem E _ _ _ w2 hw2
      rw [e, sample_anchored E w v (h1 hb w hw)]
      exact h1 hb w hw

theorem frame_word_anchored (E : Env) (ck : Clock E) (nc : Nat) (c0 : List (WMSeed E))
    (hc : ∀ w ∈ c0, w.last_sn = -1) (st : Decoder E) (v : Int)
    (h0 : st.have_time = false → st.sample_number = 0 ∧ st.channels = c0)
    (h1 : st.have_time = true → ∀ w ∈ st.channels, 0 ≤ w.last_sn) :
    ((frame_word E ck nc st v).have_time = false →
      (frame_word E ck nc st v).sample_number = 0 ∧ (frame_word E ck nc st v).channels = c0) ∧
    ((frame_word E ck nc st v).have_time = true →
      ∀ w ∈ (frame_word E ck nc st v).channels, 0 ≤ w.last_sn) := by
  have key : ∀ S : Decoder E, S.have_time = st.have_time →
      S.sample_number = st.sample_number → S.channels = st.channels →
      (((if S.remaining = 0 then frame_done E ck S else S).have_time = false →
        (if S.remaining = 0 then frame_done E ck S else S).sample_number = 0 ∧
        (if S.remaining = 0 then frame_done E ck S else S).channels = c0) ∧
      ((if S.remaining = 0 then frame_done E ck S else S).have_time = true →
        ∀ w ∈ (if S.remaining = 0 then frame_done E ck S else S).channels,
          0 ≤ w.last_sn)) := by
    intro S e1 e2 e3
    by_cases hS : S.remaining = 0
    · rw [if_pos hS]
      exact frame_done_anchored E ck c0 hc S (by rw [e1, e2, e3]; exact h0)
        (by rw [e1, e3]; exact h1)
    · rw [if_neg hS, e1, e2, e3]
      exact ⟨h0, h1⟩
  unfold frame_word
  by_cases hd : st.done = true
  · rw [if_pos hd]
    exact ⟨h0, h1⟩
  · rw [if_neg hd]
    refine key _ ?_ ?_ ?_ <;> split <;> rfl

theorem frame_words_anchored (E : Env) (ck : Clock E) (nc : Nat) (c0 : List (WMSeed E))
    (hc : ∀ w ∈ c0, w.last_sn = -1) (ws : List Int) (st : Decoder E)
    (h0 : st.have_time = false → st.sample_number = 0 ∧ st.channels = c0)
    (h1 : st.have_time = true → ∀ w ∈ st.channels, 0 ≤ w.last_sn) :
    ((ws.foldl (frame_word E ck nc) st).have_time = false →
      (ws.foldl (frame_word E ck nc) st).sample_number = 0 ∧
      (ws.foldl (frame_word E ck nc) st).channels = c0) ∧
    ((ws.foldl (frame_word E ck nc) st).have_time = true →
      ∀ w ∈ (ws.foldl (frame_word E ck nc) st).channels, 0 ≤ w.last_sn) := by
  induction ws generalizing st with
  | nil => exact ⟨h0, h1⟩
  | cons v ws ih =>
    rw [List.foldl_cons]
    obtain ⟨a, b⟩ := frame_word_anchored E ck nc c0 hc st v h0 h1
    exact ih (frame_word E ck nc st v) a b

theorem time_all_rets_first (E : Env) (t : Int) (ws : List (WMSeed E)) (fs : Files E)
    (h : ∀ w ∈ ws, w.last_sn = -1) : ∀ r ∈ time_all_rets E t 0 ws fs, r = 0 := by
  induction ws generalizing fs with
  | nil => simp [time_all_rets]
  | cons w ws ih =>
    intro r hr
    simp only [time_all_rets, List.mem_cons] at hr
    rcases hr with hr | hr
    · rw [hr]
      exact ((wmseed_time_anchors E w fs t 0).1 (h w (List.mem_cons_self _ _))).1
    · exact ih _ (fun u hu => h u (List.mem_cons_of_mem _ hu)) r hr

theorem sample_all_rets_anchored (E : Env) (frame : Nat → Int) (c : Nat)
    (ws : List (WMSeed E)) (h : ∀ w ∈ ws, 0 ≤ w.last_sn) :
    ∀ r ∈ sample_all_rets E frame c ws, r = 0 := by
  induction ws generalizing c with
  | nil => simp [sample_all_rets]
  | cons w ws ih =>
    intro r hr
    simp only [sample_all_rets, List.mem_cons] at hr
    rcases hr with hr | hr
    · rw [hr]
      unfold wmseed_sample
      rw [if_neg (by have := h w (List.mem_cons_self _ _); omega)]
    · exact ih _ (fun u hu => h u (List.mem_cons_of_mem _ hu)) r hr

theorem main_channels_new (E : Env) (mem : MiniSeedRecord E) (template station location
    network : String) (sample_rate : Nat) (cut : Int) (names : List String) :
    ∀ w ∈ main_channels E mem template station location network sample_rate cut names,
      w.last_sn = -1 := by
  induction names with
  | nil => simp [main_channels]
  | cons n ns ih =>
    intro w hw
    simp only [main_channels, List.mem_cons] at hw
    rcases hw with hw | hw
    · rw [hw]; rfl
    · exact ih w hw

/-- The calls the frame decoder makes when every call returns, for the writers of `main` and
every word stream: in the state after any words `ws`, while no Time group was seen the sample
counter is 0 and the writers are as `wmseed_new` made them, and once one was seen every writer
is anchored. For any next word `v`, the calls `wmseed_sample` all return 0, and as long as no
Time group was seen the calls `wmseed_time` all return 0. -/
theorem frame_word_rets_zero (E : Env) (ck : Clock E) (mem : MiniSeedRecord E)
    (template station location network : String) (sample_rate : Nat) (cut : Int)
    (names : List String) (ws : List Int) (v : Int) :
    ((ws.foldl (frame_word E ck names.length) (decoder_init E
        (main_channels E mem template station location network sample_rate cut
          names))).have_time = false →
      (ws.foldl (frame_word E ck names.length) (decoder_init E
        (main_channels E mem template station location network sample_rate cut
          names))).sample_number = 0 ∧
      (ws.foldl (frame_word E ck names.length) (decoder_init E
        (main_channels E mem template station location network sample_rate cut
          names))).channels =
        main_channels E mem template station location network sample_rate cut names ∧
      ∀ r ∈ (frame_word_rets E ck names.length
        (ws.foldl (frame_word E ck names.length) (decoder_init E
          (main_channels E mem template station location network sample_rate cut names)))
        v).1, r = 0) ∧
    ((ws.foldl (frame_word E ck names.length) (decoder_init E
        (main_channels E mem template station location network sample_rate cut
          names))).have_time = true →
      ∀ w ∈ (ws.foldl (frame_word E ck names.length) (decoder_init E
        (main_channels E mem template station location network sample_rate cut
          names))).channels, 0 ≤ w.last_sn) ∧
    (∀ r ∈ (frame_word_rets E ck names.length
      (ws.foldl (frame_word E ck names.length) (decoder_init E
        (main_channels E mem template station location network sample_rate cut names)))
      v).2, r = 0) := by
  have hc := main_channels_new E mem template station location network sample_rate cut names
  obtain ⟨a, b⟩ := frame_words_anchored E ck names.length _ hc ws
    (decoder_init E
      (main_channels E mem template station location network sample_rate cut names))
    (fun _ => ⟨rfl, rfl⟩) (fun h => by simp [decoder_init] at h)
  generalize ws.foldl (frame_word E ck names.length) (decoder_init E
    (main_channels E mem template station location network sample_rate cut names)) = st at *
  have key : ∀ S : Decoder E, S.have_time = st.have_time →
      S.sample_number = st.sample_number → S.channels = st.channels →
      (st.have_time = false → ∀ r ∈ (frame_done_rets E ck S).1, r = 0) ∧
      (∀ r ∈ (frame_done_rets E ck S).2, r = 0) := by
    intro S e1 e2 e3
    unfold frame_done_rets
    by_cases hodd : S.frame 0 % 2 = 1
    · rw [if_pos hodd]
      by_cases ht : S.frame 0 = 1
      · rw [if_pos ht]
        refine ⟨fun hf => ?_, by simp⟩
        rw [e2, e3, (a hf).1, (a hf).2]
        exact time_all_rets_first E _ _ _ hc
      · rw [if_neg ht]
        exact ⟨fun _ => by simp, by simp⟩
    · rw [if_neg hodd]
      cases hb : S.have_time with
      | false => simp
      | true =>
        simp only [if_true]
        refine ⟨fun _ => by simp, ?_⟩
        rw [e3]
        exact sample_all_rets_anchored E _ _ _ (b (by rw [← e1]; exact hb))
  have key2 : ∀ S : Decoder E, S.have_time = st.have_time →
      S.sample_number = st.sample_number → S.channels = st.channels →
      (st.have_time = false →
        ∀ r ∈ (if S.remaining = 0 then frame_done_rets E ck S else ([], [])).1, r = 0) ∧
      (∀ r ∈ (if S.remaining = 0 then frame_done_rets E ck S else ([], [])).2, r = 0) := by
    intro S e1 e2 e3
    by_cases hS : S.remaining = 0
    · rw [if_pos hS]
      exact key S e1 e2 e3
    · rw [if_neg hS]
      exact ⟨fun _ => by simp, by simp⟩
  have key3 : (st.have_time = false →
        ∀ r ∈ (frame_word_rets E ck names.length st v).1, r = 0) ∧
      (∀ r ∈ (frame_word_rets E ck names.length st v).2, r = 0) := by
    unfold frame_word_rets
    by_cases hd : st.done = true
    · rw [if_pos hd]
      exact ⟨fun _ => by simp, by simp⟩
    · rw [if_neg hd]
      refine key2 _ ?_ ?_ ?_ <;> split <;> rfl
  exact ⟨fun h => ⟨(a h).1, (a h).2, key3.1 h⟩, b, key3.2⟩

/-! ## The directory of a file name -/

theorem dirname_scan_none (p : List Nat) (l x : Nat) (h : 47 ∉ p) :
    wmseed__dirname_scan p l x = x := by
  induction p generalizing l x with
  | nil => rfl
  | cons c rest ih =>
    have hc : c ≠ 47 := fun e => h (by rw [e]; exact List.mem_cons_self _ _)
    simp only [wmseed__dirname_scan, hc, if_false]
    exact ih (l + 1) x (fun hm => h (List.mem_cons_of_mem _ hm))

theorem dirname_scan_last (pre post : List Nat) (l x : Nat) (h : 47 ∉ post) :
    wmseed__dirname_scan (pre ++ 47 :: post) l x = l + pre.length := by
  induction pre generalizing l x with
  | nil =>
    simp only [List.nil_append, wmseed__dirname_scan, if_true, List.length_nil, Nat.add_zero]
    exact dirname_scan_none post (l + 1) l h
  | cons c rest ih =>
    show wmseed__dirname_scan (rest ++ 47 :: post) (l + 1) (if c = 47 then l else x) =
      l + (rest.length + 1)
    rw [ih]
    omega

theorem dropWhile_to_slash (l r : List Nat) (h : 47 ∉ l) :
    (l ++ 47 :: r).dropWhile (fun c => c ≠ 47) = 47 :: r := by
  induction l with
  | nil => simp [List.dropWhile]
  | cons c rest ih =>
    have hc : c ≠ 47 := fun e => h (by rw [e]; exact List.mem_cons_self _ _)
    simp only [List.cons_append, List.dropWhile, hc, ne_eq, not_false_eq_true, decide_True]
    exact ih (fun hm => h (List.mem_cons_of_mem _ hm))

theorem dropWhile_no_slash (l : List Nat) (h : 47 ∉ l) :
    l.dropWhile (fun c => c ≠ 47) = [] := by
  induction l with
  | nil => rfl
  | cons c rest ih =>
    have hc : c ≠ 47 := fun e => h (by rw [e]; exact List.mem_cons_self _ _)
    simp only [List.dropWhile, hc, ne_eq, not_false_eq_true, decide_True]
    exact ih (fun hm => h (List.mem_cons_of_mem _ hm))

/-- C28. What `wmseed__dirname` does on the code, on the bytes of the path (47 is `/`, 46 is
`.`), with `SIZE_MAX` the value of `(size_t) -1`. For a path whose last `/` has the index `i`:
with `i >= 2` it returns the bytes before that `/`, and with `i = 0` it returns `/`, as the
directory of the path is worded; with `i = 1` it returns `.` and not the one byte before the
`/`. For a path without any `/`, `x` keeps the value `(size_t) -1`, the branch `x > 1` is
taken, the size `x + 1` is 0, and the copy goes through a null pointer: no `.` is returned. On
examples: `ST007.mseed` has no result and `a/b.mseed` yields `.`, where the directories are
`.` and `a`; the index counts bytes, so the two bytes of `é` before a `/` are returned. -/
theorem dirname_short_paths :
    (∀ (SIZE_MAX : Nat) (pre post : List Nat), 47 ∉ post → pre.length < SIZE_MAX →
      (2 ≤ pre.length →
        wmseed__dirname SIZE_MAX (pre ++ 47 :: post) = some pre ∧
        spec_dirname (pre ++ 47 :: post) = pre) ∧
      (pre.length = 0 →
        wmseed__dirname SIZE_MAX (pre ++ 47 :: post) = some [47] ∧
        spec_dirname (pre ++ 47 :: post) = [47]) ∧
      (pre.length = 1 →
        wmseed__dirname SIZE_MAX (pre ++ 47 :: post) = some [46] ∧
        spec_dirname (pre ++ 47 :: post) = pre)) ∧
    (∀ (SIZE_MAX : Nat) (p : List Nat), 47 ∉ p → 1 < SIZE_MAX →
      wmseed__dirname SIZE_MAX p = none ∧ spec_dirname p = [46]) ∧
    (wmseed__dirname (2 ^ 64 - 1) (c_bytes "ST007.mseed") = none ∧
      spec_dirname (c_bytes "ST007.mseed") = c_bytes "." ∧
      wmseed__dirname (2 ^ 64 - 1) (c_bytes "a/b.mseed") = some (c_bytes ".") ∧
      spec_dirname (c_bytes "a/b.mseed") = c_bytes "a" ∧
      wmseed__dirname (2 ^ 64 - 1) (c_bytes "out/ST007/1970-01-01-H.mseed") =
        some (c_bytes "out/ST007") ∧
      spec_dirname (c_bytes "out/ST007/1970-01-01-H.mseed") = c_bytes "out/ST007" ∧
      wmseed__dirname (2 ^ 64 - 1) (c_bytes "/x.mseed") = some (c_bytes "/") ∧
      spec_dirname (c_bytes "/x.mseed") = c_bytes "/" ∧
      wmseed__dirname (2 ^ 64 - 1) (c_bytes "é/b.mseed") = some (c_bytes "é") ∧
      spec_dirname (c_bytes "é/b.mseed") = c_bytes "é") := by
  have hspec : ∀ pre post : List Nat, 47 ∉ post →
      spec_dirname (pre ++ 47 :: post) = if pre = [] then [47] else pre := by
    intro pre post h
    unfold spec_dirname
    have e : (pre ++ 47 :: post).reverse = post.reverse ++ 47 :: pre.reverse := by simp
    rw [e, dropWhile_to_slash _ _ (by simpa using h)]
    simp
  have hcode : ∀ (SIZE_MAX : Nat) (pre post : List Nat), 47 ∉ post →
      pre.length < SIZE_MAX →
      wmseed__dirname SIZE_MAX (pre ++ 47 :: post) =
        if pre.length > 1 then some pre
        else some (if pre.length ≠ 0 then [46] else [47]) := by
    intro M pre post h hl
    unfold wmseed__dirname
    have e : wmseed__dirname_scan (pre ++ 47 :: post) 0 M = pre.length := by
      rw [dirname_scan_last pre post 0 M h]
      omega
    simp only [e]
    by_cases h1 : pre.length > 1
    · rw [if_pos h1, if_pos h1, if_neg (by rw [Nat.mod_eq_of_lt (by omega)]; omega)]
      congr 1
      simp
    · rw [if_neg h1, if_neg h1]
  refine ⟨fun M pre post h hl => ⟨fun h2 => ?_, fun h0 => ?_, fun h1 => ?_⟩,
    fun M p h hM => ?_, ?_⟩
  · rw [hcode M pre post h hl, hspec pre post h, if_pos (by omega),
      if_neg (by intro e; rw [e] at h2; simp at h2)]
    exact ⟨rfl, rfl⟩
  · rw [hcode M pre post h hl, hspec pre post h, if_neg (by omega),
      if_neg (by omega), if_pos (List.length_eq_zero.1 h0)]
    exact ⟨rfl, rfl⟩
  · rw [hcode M pre post h hl, hspec pre post h, if_neg (by omega),
      if_pos (by omega), if_neg (by intro e; rw [e] at h1; simp at h1)]
    exact ⟨rfl, rfl⟩
  · constructor
    · unfold wmseed__dirname
      have e : wmseed__dirname_scan p 0 M = M := dirname_scan_none p 0 M h
      simp only [e]
      rw [if_pos hM, if_pos (Nat.mod_self _)]
    · unfold spec_dirname
      rw [dropWhile_no_slash _ (by simpa using h)]
  · refine ⟨by decide, by decide, by decide, by decide, by decide, by decide, by decide,
      by decide, by decide, by decide⟩

/-! ## The sync slot of the header -/

theorem tag_skew_not_sync (x : Mem) (o : Nat) (h : TagAt x o tag_skew) :
    ¬ TagAt x o tag_sync := by
  intro h2
  have a := h.2.1
  have b := h2.2.1
  rw [a] at b
  revert b
  decide

/-- C25. The 14-byte sync slot, decoded at any offset `o` with `o + 14 < 512`: the step always
succeeds and leaves the offset at `o + 14`. When the four bytes at `o` are `sync` and the six
bytes behind them pass `bcd_valid`, the type is Sync, the sync time is those six bytes and
the skew is the big-endian signed 32-bit word at `o + 10`; the same with `skew` and the type
Skew; in every other case the type is None, the sync time is six zero bytes and the skew is
0. In `kum_6d6_header_read` the slot stands at offset `off_v + 10`, which is 10 or 14, so
the condition on `o` holds there, and the `addr` tag is tested at the offset the slot
leaves, `off_v + 24`. -/
theorem sync_slot_decode (d : Decls) (x : Mem) (h : kum_6d6_header) (o : Nat)
    (ho : o + 14 < 512) :
    (TagAt x o tag_sync ∧ d.bcd_valid (peek x (o + 4) 6) = true →
      rd_sync d x (h, o) =
        .ok ({ h with sync_type := .SYNC, sync_time := peek x (o + 4) 6,
                      skew := ld_i32_be x (o + 10) }, o + 14)) ∧
    (TagAt x o tag_skew ∧ d.bcd_valid (peek x (o + 4) 6) = true →
      rd_sync d x (h, o) =
        .ok ({ h with sync_type := .SKEW, sync_time := peek x (o + 4) 6,
                      skew := ld_i32_be x (o + 10) }, o + 14)) ∧
    (¬ (TagAt x o tag_sync ∧ d.bcd_valid (peek x (o + 4) 6) = true) →
      ¬ (TagAt x o tag_skew ∧ d.bcd_valid (peek x (o + 4) 6) = true) →
      rd_sync d x (h, o) =
        .ok ({ h with sync_type := .NONE, sync_time := List.replicate 6 0, skew := 0 },
          o + 14)) ∧
    (∃ s, rd_sync d x (h, o) = .ok s ∧ s.2 = o + 14 ∧
      ∀ s2, rd_addr x s = .ok s2 → TagAt x (o + 14) tag_addr) ∧
    (∀ s0 s1, rd_version x (h, 0) = .ok s0 → rd_time x s0 = .ok s1 →
      s1.2 = off_v x + 10 ∧ s1.2 + 14 < 512 ∧
      ∃ s2, rd_sync d x s1 = .ok s2 ∧ s2.2 = off_v x + 24) := by
  refine ⟨fun hs => ?_, fun hk => ?_, fun hs hk => ?_, ?_, fun s0 s1 h0 h1 => ?_⟩
  · rw [rd_sync_ok_iff]
    refine ⟨ho, ?_⟩
    rw [if_pos hs, if_pos (Or.inl hs), if_pos (Or.inl hs)]
  · have hs : ¬ (TagAt x o tag_sync ∧ d.bcd_valid (peek x (o + 4) 6) = true) :=
      fun hs => tag_skew_not_sync x o hk.1 hs.1
    rw [rd_sync_ok_iff]
    refine ⟨ho, ?_⟩
    rw [if_neg hs, if_pos hk, if_pos (Or.inr hk), if_pos (Or.inr hk)]
  · rw [rd_sync_ok_iff]
    refine ⟨ho, ?_⟩
    rw [if_neg hs, if_neg hk, if_neg (by tauto), if_neg (by tauto)]
  · refine ⟨_, (rd_sync_ok_iff d x h o _).2 ⟨ho, rfl⟩, rfl, fun s2 h2 => ?_⟩
    exact ((rd_addr_ok_iff x _ _ s2).1 h2).1
  · rw [rd_version_ok_iff] at h0
    subst h0
    rw [rd_time_ok_iff] at h1
    obtain ⟨-, hb, rfl⟩ := h1
    have hv := off_v_le x
    exact ⟨rfl, by simp only; omega, _, (rd_sync_ok_iff d x _ _ _).2 ⟨by omega, rfl⟩, rfl⟩

/-- Witness of C25 on the block that encodes the example header, whose slot at offset 10 holds
`sync`, a valid time and the skew -5. -/
theorem sync_slot_decode_witness :
    (10 + 14 < 512 ∧ TagAt (kum_6d6_header_write ex_header ex_mem).2 10 tag_sync ∧
      ex_decls.bcd_valid (peek (kum_6d6_header_write ex_header ex_mem).2 (10 + 4) 6) = true ∧
      ld_i32_be (kum_6d6_header_write ex_header ex_mem).2 (10 + 10) = -5) ∧
    rd_sync ex_decls (kum_6d6_header_write ex_header ex_mem).2 (ex_header_none, 10) =
      .ok ({ ex_header_none with
              sync_type := .SYNC
              sync_time := peek (kum_6d6_header_write ex_header ex_mem).2 (10 + 4) 6
              skew := ld_i32_be (kum_6d6_header_write ex_header ex_mem).2 (10 + 10) },
        10 + 14) :=
  ⟨⟨by decide, by decide, by decide, by decide⟩,
    (sync_slot_decode ex_decls (kum_6d6_header_write ex_header ex_mem).2 ex_header_none 10
      (by decide)).1 ⟨by decide, by decide⟩⟩

/-! ## The decoder reads the 512 bytes of the block only -/

theorem stepAlike_bind (P Q R : RdState → Prop) (f g F G : RdState → Rd)
    (h1 : StepAlike P Q f g) (h2 : StepAlike Q R F G) :
    StepAlike P R (fun s => f s >>= F) (fun s => g s >>= G) := by
  intro s hs
  obtain ⟨e, q⟩ := h1 s hs
  simp only
  rw [← e]
  cases hf : f s with
  | error h => exact ⟨rfl, fun s2 h2 => by cases h2⟩
  | ok s1 =>
    obtain ⟨e2, r⟩ := h2 s1 (q s1 hf)
    exact ⟨e2, r⟩

theorem peek_sameBlock (x y : Mem) (h : SameBlock x y) (o n : Nat) (hn : o + n ≤ 512) :
    peek x o n = peek y o n := by
  unfold peek
  apply List.map_congr_left
  intro k hk
  rw [List.mem_range] at hk
  exact h (o + k) (by omega)

theorem ld_be_sameBlock (x y : Mem) (h : SameBlock x y) (o n : Nat) (hn : o + n ≤ 512) :
    ld_be x o n = ld_be y o n :=
  ld_be_congr x y o o n (fun k hk => h (o + k) (by omega))

theorem tagAt_sameBlock (x y : Mem) (h : SameBlock x y) (h511 : x 511 = 0) (o : Nat)
    (ho : o < 512) (t : List Nat)
    (ht : t.getD 0 0 ≠ 0 ∧ t.getD 1 0 ≠ 0 ∧ t.getD 2 0 ≠ 0) :
    TagAt x o t ↔ TagAt y o t := by
  have h511y : y 511 = 0 := by rw [← h 511 (by omega)]; exact h511
  by_cases hin : o + 3 < 512
  · unfold TagAt
    rw [h o (by omega), h (o + 1) (by omega), h (o + 2) (by omega), h (o + 3) (by omega)]
  · have hc : o = 509 ∨ o = 510 ∨ o = 511 := by omega
    constructor
    · rintro ⟨a, b, c, -⟩
      exfalso
      rcases hc with rfl | rfl | rfl
      · rw [h511] at c; exact ht.2.2 c.symm
      · rw [h511] at b; exact ht.2.1 b.symm
      · rw [h511] at a; exact ht.1 a.symm
    · rintro ⟨a, b, c, -⟩
      exfalso
      rcases hc with rfl | rfl | rfl
      · rw [h511y] at c; exact ht.2.2 c.symm
      · rw [h511y] at b; exact ht.2.1 b.symm
      · rw [h511y] at a; exact ht.1 a.symm

theorem memcmp_sameBlock (x y : Mem) (h : SameBlock x y) (h511 : x 511 = 0) (o : Nat)
    (ho : o < 512) (t : List Nat)
    (ht : t.getD 0 0 ≠ 0 ∧ t.getD 1 0 ≠ 0 ∧ t.getD 2 0 ≠ 0) :
    memcmp x o t 4 = memcmp y o t 4 := by
  have e := tagAt_sameBlock x y h h511 o ho t ht
  rw [← memcmp4_iff, ← memcmp4_iff] at e
  rcases memcmp_zero_or_one x o t 4 with a | a <;>
    rcases memcmp_zero_or_one y o t 4 with b | b
  · rw [a, b]
  · rw [e.1 a] at b; cases b
  · rw [e.2 b] at a; cases a
  · rw [a, b]

theorem strlen_sameBlock (x y : Mem) (h : SameBlock x y) (h511 : x 511 = 0) (o : Nat)
    (ho : o < 512) : strlen x o = strlen y o := by
  obtain ⟨a, b, c⟩ := strlen_spec x o h511 ho
  refine (strlen_eq y o (strlen x o) (by omega) (fun k hk => ?_) ?_).symm
  · rw [← h (o + k) (by omega)]; exact c k hk
  · rw [← h _ a]; exact b

theorem SKIP0_go_sameBlock (x y : Mem) (h : SameBlock x y) (hd : kum_6d6_header)
    (o fuel : Nat) (ho : o < 512) : SKIP0_go x hd o fuel = SKIP0_go y hd o fuel := by
  induction fuel generalizing o with
  | zero => rfl
  | succ f ih =>
    simp only [SKIP0_go]
    rw [h o ho]
    by_cases h0 : y o ≠ 0
    · rw [if_pos h0, if_pos h0]
    · rw [if_neg h0, if_neg h0]
      by_cases h1 : o + 1 ≥ 512
      · rw [if_pos h1, if_pos h1]
      · rw [if_neg h1, if_neg h1]
        exact ih (o + 1) (by omega)

theorem SKIP0_go_bound (x : Mem) (hd : kum_6d6_header) (o fuel : Nat) (ho : o < 512)
    (s : RdState) (hs : SKIP0_go x hd o fuel = .ok s) : s.2 < 512 := by
  induction fuel generalizing o with
  | zero => simp [SKIP0_go] at hs
  | succ f ih =>
    simp only [SKIP0_go] at hs
    by_cases h0 : x o ≠ 0
    · rw [if_pos h0] at hs
      cases hs
      exact ho
    · rw [if_neg h0] at hs
      by_cases h1 : o + 1 ≥ 512
      · rw [if_pos h1] at hs; cases hs
      · rw [if_neg h1] at hs
        exact ih (o + 1) (by omega) hs

theorem ADV_O_bound (a : Nat) (s s2 : RdState) (h : ADV_O a s = .ok s2) :
    s2.2 = s.2 + a ∧ s2.2 < 512 ∧ s2.1 = s.1 := by
  unfold ADV_O at h
  split at h
  · cases h
  · cases h
    exact ⟨rfl, by simp only; omega, rfl⟩

theorem rd_tag_bound (x : Mem) (t : List Nat) (s s2 : RdState) (h : rd_tag x t s = .ok s2) :
    s2.2 = s.2 + 4 ∧ s2.2 < 512 ∧ s2.1 = s.1 := by
  unfold rd_tag at h
  split at h
  · cases h
  · exact ADV_O_bound 4 s s2 h

theorem rd_tag_sameBlock (x y : Mem) (h : SameBlock x y) (h511 : x 511 = 0) (t : List Nat)
    (ht : t.getD 0 0 ≠ 0 ∧ t.getD 1 0 ≠ 0 ∧ t.getD 2 0 ≠ 0) (s : RdState)
    (hs : s.2 < 512) : rd_tag x t s = rd_tag y t s := by
  unfold rd_tag
  rw [memcmp_sameBlock x y h h511 s.2 hs t ht]

/-- A tag followed by a field of `a` bytes, read with `ux` and `uy`, from an offset of at
most `b`: alike when the field lies inside the block. -/
theorem tagged_field_alike (x y : Mem) (h : SameBlock x y) (h511 : x 511 = 0) (t : List Nat)
    (ht : t.getD 0 0 ≠ 0 ∧ t.getD 1 0 ≠ 0 ∧ t.getD 2 0 ≠ 0) (a b : Nat)
    (hb : b + 4 + a ≤ 512) (P : RdState → Prop) (hP : ∀ s, P s → s.2 ≤ b)
    (ux uy : RdState → kum_6d6_header)
    (hu : ∀ s, s.2 ≤ b + 4 → ux s = uy s) :
    StepAlike P (fun s => s.2 ≤ b + 4 + a)
      (fun s => rd_tag x t s >>= fun s => ADV_O a (ux s, s.2))
      (fun s => rd_tag y t s >>= fun s => ADV_O a (uy s, s.2)) := by
  refine stepAlike_bind P (fun s => s.2 ≤ b + 4) _ _ _ _ _ ?_ ?_
  · intro s hs
    have := hP s hs
    refine ⟨rd_tag_sameBlock x y h h511 t ht s (by omega), fun s2 h2 => ?_⟩
    have := (rd_tag_bound x t s s2 h2).1
    simp only
    omega
  · intro s hs
    simp only
    rw [hu s hs]
    refine ⟨rfl, fun s2 h2 => ?_⟩
    have := (ADV_O_bound a _ s2 h2).1
    simp only at this
    omega

theorem rd_version_alike (x y : Mem) (h : SameBlock x y) :
    StepAlike (fun s => s.2 = 0) (fun s => s.2 ≤ 4) (rd_version x) (rd_version y) := by
  intro s hs
  have e : memcmp x s.2 tag_6D6 4 = memcmp y s.2 tag_6D6 4 := by
    unfold memcmp
    rw [peek_sameBlock x y h s.2 4 (by omega)]
  unfold rd_version
  rw [e]
  refine ⟨rfl, fun s2 h2 => ?_⟩
  split at h2
  · have := (ADV_O_bound 4 _ s2 h2).1
    simp only at this
    omega
  · cases h2
    simp only
    omega

theorem rd_time_alike (x y : Mem) (h : SameBlock x y) (h511 : x 511 = 0) :
    StepAlike (fun s => s.2 ≤ 4) (fun s => s.2 ≤ 14) (rd_time x) (rd_time y) :=
  tagged_field_alike x y h h511 tag_time (by decide) 6 4 (by omega) _ (fun _ hs => hs)
    (fun s => { s.1 with start_time := peek x s.2 6 })
    (fun s => { s.1 with start_time := peek y s.2 6 })
    (fun s hs => by simp only; rw [peek_sameBlock x y h s.2 6 (by omega)])

theorem rd_sync_alike (d : Decls) (x y : Mem) (h : SameBlock x y) :
    StepAlike (fun s => s.2 ≤ 14) (fun s => s.2 ≤ 28) (rd_sync d x) (rd_sync d y) := by
  intro s hs
  have e1 : memcmp x s.2 tag_sync 4 = memcmp y s.2 tag_sync 4 := by
    unfold memcmp
    rw [peek_sameBlock x y h s.2 4 (by omega)]
  have e2 : memcmp x s.2 tag_skew 4 = memcmp y s.2 tag_skew 4 := by
    unfold memcmp
    rw [peek_sameBlock x y h s.2 4 (by omega)]
  have e3 := peek_sameBlock x y h (s.2 + 4) 6 (by omega)
  have e4 : ld_i32_be x (s.2 + 10) = ld_i32_be y (s.2 + 10) := by
    unfold ld_i32_be
    rw [ld_be_sameBlock x y h (s.2 + 10) 4 (by omega)]
  unfold rd_sync
  simp only [e1, e2, e3, e4]
  refine ⟨trivial, fun s2 h2 => ?_⟩
  have := (ADV_O_bound 14 _ s2 h2).1
  simp only at this
  omega

theorem rd_addr_alike (x y : Mem) (h : SameBlock x y) (h511 : x 511 = 0) :
    StepAlike (fun s => s.2 ≤ 28) (fun s => s.2 ≤ 36) (rd_addr x) (rd_addr y) :=
  tagged_field_alike x y h h511 tag_addr (by decide) 4 28 (by omega) _ (fun _ hs => hs)
    (fun s => { s.1 with address := ld_u32_be x s.2 })
    (fun s => { s.1 with address := ld_u32_be y s.2 })
    (fun s hs => by
      simp only [ld_u32_be]; rw [ld_be_sameBlock x y h s.2 4 (by omega)])

theorem rd_rate_alike (x y : Mem) (h : SameBlock x y) (h511 : x 511 = 0) :
    StepAlike (fun s => s.2 ≤ 36) (fun s => s.2 ≤ 42) (rd_rate x) (rd_rate y) :=
  tagged_field_alike x y h h511 tag_rate (by decide) 2 36 (by omega) _ (fun _ hs => hs)
    (fun s => { s.1 with sample_rate := ld_u16_be x s.2 })
    (fun s => { s.1 with sample_rate := ld_u16_be y s.2 })
    (fun s hs => by
      simp only [ld_u16_be]; rw [ld_be_sameBlock x y h s.2 2 (by omega)])

theorem rd_writ_alike (x y : Mem) (h : SameBlock x y) (h511 : x 511 = 0) :
    StepAlike (fun s => s.2 ≤ 42) (fun s => s.2 ≤ 54) (rd_writ x) (rd_writ y) :=
  tagged_field_alike x y h h511 tag_writ (by decide) 8 42 (by omega) _ (fun _ hs => hs)
    (fun s => { s.1 with written_samples := ld_u64_be x s.2 })
    (fun s => { s.1 with written_samples := ld_u64_be y s.2 })
    (fun s hs => by
      simp only [ld_u64_be]; rw [ld_be_sameBlock x y h s.2 8 (by omega)])

theorem rd_lost_alike (x y : Mem) (h : SameBlock x y) (h511 : x 511 = 0) :
    StepAlike (fun s => s.2 ≤ 54) (fun s => s.2 ≤ 62) (rd_lost x) (rd_lost y) :=
  tagged_field_alike x y h h511 tag_lost (by decide) 4 54 (by omega) _ (fun _ hs => hs)
    (fun s => { s.1 with lost_samples := ld_u32_be x s.2 })
    (fun s => { s.1 with lost_samples := ld_u32_be y s.2 })
    (fun s hs => by
      simp only [ld_u32_be]; rw [ld_be_sameBlock x y h s.2 4 (by omega)])

theorem rd_chan_alike (d : Decls) (x y : Mem) (h : SameBlock x y) (h511 : x 511 = 0)
    (hb : ∀ i, i < 512 → x i < 256) :
    StepAlike (fun s => s.2 ≤ 62) (fun s => s.2 ≤ 67 ∧ s.1.channel_count < 256)
      (rd_chan d x) (rd_chan d y) := by
  refine stepAlike_bind _ (fun s => s.2 ≤ 66) _ _ _ _ _ ?_ ?_
  · intro s hs
    refine ⟨rd_tag_sameBlock x y h h511 tag_chan (by decide) s (by omega), fun s2 h2 => ?_⟩
    have := (rd_tag_bound x tag_chan s s2 h2).1
    simp only
    omega
  · intro s hs
    have e : ld_u8_be x s.2 = ld_u8_be y s.2 := by
      unfold ld_u8_be
      rw [ld_be_sameBlock x y h s.2 1 (by omega)]
    simp only [e]
    refine ⟨trivial, fun s2 h2 => ?_⟩
    split at h2
    · cases h2
    · obtain ⟨a1, -, a3⟩ := ADV_O_bound 1 _ s2 h2
      simp only at a1 a3
      refine ⟨by omega, ?_⟩
      rw [a3, ← e, ld_u8_be_eq]
      exact hb s.2 (by omega)

theorem rd_gain_alike (d : Decls) (x y : Mem) (h : SameBlock x y) (h511 : x 511 = 0) :
    StepAlike (fun s => s.2 ≤ 67 ∧ s.1.channel_count < 256) (fun s => s.2 ≤ 326)
      (rd_gain d x) (rd_gain d y) := by
  refine stepAlike_bind _ (fun s => s.2 ≤ 71 ∧ s.1.channel_count < 256) _ _ _ _ _ ?_ ?_
  · intro s hs
    refine ⟨rd_tag_sameBlock x y h h511 tag_gain (by decide) s (by omega), fun s2 h2 => ?_⟩
    obtain ⟨a1, -, a3⟩ := rd_tag_bound x tag_gain s s2 h2
    show s2.2 ≤ 71 ∧ s2.1.channel_count < 256
    rw [a3]
    exact ⟨by omega, hs.2⟩
  · intro s hs
    simp only
    rw [peek_sameBlock x y h s.2 s.1.channel_count (by omega)]
    refine ⟨rfl, fun s2 h2 => ?_⟩
    have := (ADV_O_bound _ _ s2 h2).1
    simp only at this
    omega

theorem rd_bitd_alike (x y : Mem) (h : SameBlock x y) (h511 : x 511 = 0) :
    StepAlike (fun s => s.2 ≤ 326) (fun s => s.2 < 512) (rd_bitd x) (rd_bitd y) := by
  have k := tagged_field_alike x y h h511 tag_bitd (by decide) 1 326 (by omega) _
    (fun _ hs => hs)
    (fun s => { s.1 with bit_depth := ld_u8_be x s.2 })
    (fun s => { s.1 with bit_depth := ld_u8_be y s.2 })
    (fun s hs => by
      simp only [ld_u8_be]; rw [ld_be_sameBlock x y h s.2 1 (by omega)])
  intro s hs
  obtain ⟨a, b⟩ := k s hs
  exact ⟨a, fun s2 h2 => by have := b s2 h2; simp only at this; omega⟩

theorem rd_string_alike (x y : Mem) (h : SameBlock x y) (h511 : x 511 = 0) (size : Nat)
    (put : kum_6d6_header → List Nat → kum_6d6_header) (adv : Bool) :
    StepAlike (fun s => s.2 < 512) (fun s => s.2 < 512)
      (rd_string x size put adv) (rd_string y size put adv) := by
  intro s hs
  obtain ⟨a, -, -⟩ := strlen_spec x s.2 h511 hs
  have e1 := strlen_sameBlock x y h h511 s.2 hs
  have e2 := peek_sameBlock x y h s.2 (strlen x s.2) (by omega)
  unfold rd_string
  simp only [← e1, ← e2]
  refine ⟨trivial, fun s2 h2 => ?_⟩
  split at h2
  · cases h2
  · split at h2
    · exact (ADV_O_bound _ _ s2 h2).2.1
    · cases h2
      exact hs

theorem SKIP0_alike (x y : Mem) (h : SameBlock x y) :
    StepAlike (fun s => s.2 < 512) (fun s => s.2 < 512) (SKIP0 x) (SKIP0 y) := by
  intro s hs
  exact ⟨SKIP0_go_sameBlock x y h s.1 s.2 512 hs,
    fun s2 h2 => SKIP0_go_bound x s.1 s.2 512 hs s2 h2⟩

theorem rd_tag_alike (x y : Mem) (h : SameBlock x y) (h511 : x 511 = 0) (t : List Nat)
    (ht : t.getD 0 0 ≠ 0 ∧ t.getD 1 0 ≠ 0 ∧ t.getD 2 0 ≠ 0) :
    StepAlike (fun s => s.2 < 512) (fun s => s.2 < 512) (rd_tag x t) (rd_tag y t) := by
  intro s hs
  exact ⟨rd_tag_sameBlock x y h h511 t ht s hs, fun s2 h2 => (rd_tag_bound x t s s2 h2).2.1⟩

/-- A tagged string field followed by `SKIP0()`. -/
theorem rd_field_alike (x y : Mem) (h : SameBlock x y) (h511 : x 511 = 0) (t : List Nat)
    (ht : t.getD 0 0 ≠ 0 ∧ t.getD 1 0 ≠ 0 ∧ t.getD 2 0 ≠ 0) (size : Nat)
    (put : kum_6d6_header → List Nat → kum_6d6_header) :
    StepAlike (fun s => s.2 < 512) (fun s => s.2 < 512)
      (fun s => rd_tag x t s >>= fun s => rd_string x size put true s >>= fun s => SKIP0 x s)
      (fun s => rd_tag y t s >>= fun s =>
        rd_string y size put true s >>= fun s => SKIP0 y s) :=
  stepAlike_bind _ _ _ _ _ _ _ (rd_tag_alike x y h h511 t ht)
    (stepAlike_bind _ _ _ _ _ _ _ (rd_string_alike x y h h511 size put true)
      (SKIP0_alike x y h))

theorem rd_names_alike (d : Decls) (x y : Mem) (h : SameBlock x y) (h511 : x 511 = 0)
    (i k : Nat) :
    StepAlike (fun s => s.2 < 512) (fun s => s.2 < 512) (rd_names d x i k)
      (rd_names d y i k) := by
  induction k generalizing i with
  | zero =>
    intro s hs
    exact ⟨rfl, fun s2 h2 => by cases h2; exact hs⟩
  | succ k ih =>
    exact stepAlike_bind _ _ _ _ _ _ _
      (rd_string_alike x y h h511 d.sizeof_channel_name
        (fun h f => { h with channel_names := h.channel_names.set i f }) true)
      (ih (i + 1))

theorem rd_alia_alike (d : Decls) (x y : Mem) (h : SameBlock x y) (h511 : x 511 = 0) :
    StepAlike (fun s => s.2 < 512) (fun s => s.2 < 512) (rd_alia d x) (rd_alia d y) := by
  refine stepAlike_bind _ _ _ _ _ _ _ (rd_tag_alike x y h h511 tag_alia (by decide)) ?_
  intro s hs
  obtain ⟨a, b⟩ := rd_names_alike d x y h h511 0 s.1.channel_count s hs
  simp only
  rw [← a]
  cases hn : rd_names d x 0 s.1.channel_count s with
  | error e => exact ⟨rfl, fun s2 h2 => by cases h2⟩
  | ok s1 => exact SKIP0_alike x y h s1 (b s1 hn)

theorem rd_cmnt_alike (d : Decls) (x y : Mem) (h : SameBlock x y) (h511 : x 511 = 0) :
    StepAlike (fun s => s.2 < 512) (fun s => s.2 < 512) (rd_cmnt d x) (rd_cmnt d y) :=
  stepAlike_bind _ _ _ _ _ _ _ (rd_tag_alike x y h h511 tag_cmnt (by decide))
    (rd_string_alike x y h h511 d.sizeof_comment _ false)

theorem rd_all_alike (d : Decls) (x y : Mem) (h : SameBlock x y) (h511 : x 511 = 0)
    (hb : ∀ i, i < 512 → x i < 256) :
    StepAlike (fun s => s.2 = 0) (fun s => s.2 < 512) (rd_all d x) (rd_all d y) :=
  stepAlike_bind _ _ _ _ _ _ _ (rd_version_alike x y h) <|
  stepAlike_bind _ _ _ _ _ _ _ (rd_time_alike x y h h511) <|
  stepAlike_bind _ _ _ _ _ _ _ (rd_sync_alike d x y h) <|
  stepAlike_bind _ _ _ _ _ _ _ (rd_addr_alike x y h h511) <|
  stepAlike_bind _ _ _ _ _ _ _ (rd_rate_alike x y h h511) <|
  stepAlike_bind _ _ _ _ _ _ _ (rd_writ_alike x y h h511) <|
  stepAlike_bind _ _ _ _ _ _ _ (rd_lost_alike x y h h511) <|
  stepAlike_bind _ _ _ _ _ _ _ (rd_chan_alike d x y h h511 hb) <|
  stepAlike_bind _ _ _ _ _ _ _ (rd_gain_alike d x y h h511) <|
  stepAlike_bind _ _ _ _ _ _ _ (rd_bitd_alike x y h h511) <|
  stepAlike_bind _ _ _ _ _ _ _
    (rd_field_alike x y h h511 tag_rcid (by decide) d.sizeof_recorder_id _) <|
  stepAlike_bind _ _ _ _ _ _ _
    (rd_field_alike x y h h511 tag_rtci (by decide) d.sizeof_rtc_id _) <|
  stepAlike_bind _ _ _ _ _ _ _
    (rd_field_alike x y h h511 tag_lati (by decide) d.sizeof_latitude _) <|
  stepAlike_bind _ _ _ _ _ _ _
    (rd_field_alike x y h h511 tag_logi (by decide) d.sizeof_longitude _) <|
  stepAlike_bind _ _ _ _ _ _ _ (rd_alia_alike d x y h h511) (rd_cmnt_alike d x y h h511)

/-- C24. No overrun in decode: two memories that hold the same bytes at the indices 0 to 511
(values below 256) give the same result of `kum_6d6_header_read`, the return value and the
header as the call leaves it, whatever they hold from index 512 on. When the call returns 0,
what it read lies inside the block: the tags stand in increasing order, the last of them,
`cmnt`, ends before index 512, and the comment behind it ends with its zero byte at an index
of at most 511; so a block in which a tag, a field or a string would pass index 511 is
answered with -1. -/
theorem read_within_block (d : Decls) (h0 : kum_6d6_header) (x y : Mem)
    (hxy : SameBlock x y) (hb : ∀ i, i < 512 → x i < 256) :
    kum_6d6_header_read d h0 x = kum_6d6_header_read d h0 y ∧
    ((kum_6d6_header_read d h0 x).1 = 0 ∨ (kum_6d6_header_read d h0 x).1 = -1) ∧
    ((kum_6d6_header_read d h0 x).1 = 0 →
      (off_v x + 72 + cnt x < at_rtci x ∧ at_rtci x < at_lati x ∧ at_lati x < at_logi x ∧
        at_logi x < at_alia x ∧ at_alia x < at_cmnt x ∧ at_cmnt x + 4 < 512) ∧
      at_cmnt x + 4 + strlen x (at_cmnt x + 4) < 512 ∧
      x (at_cmnt x + 4 + strlen x (at_cmnt x + 4)) = 0) := by
  refine ⟨?_, read_ret d h0 x, fun hr => ?_⟩
  · unfold kum_6d6_header_read
    rw [← hxy 511 (by omega)]
    by_cases h511 : x 511 = 0
    · rw [if_neg (by simpa using h511), if_neg (by simpa using h511)]
      rw [(rd_all_alike d x y hxy h511 hb (h0, 0) rfl).1]
    · rw [if_pos h511, if_pos h511]
  · have g := (read_ret_zero_iff d h0 x).1 hr
    have hc := g.2.2.2.2.2.2.2.2.2.2.2.2.2.2.2.2
    have m1 := le_next_tag x (at_rcid x)
    have m2 := le_next_tag x (at_rtci x)
    have m3 := le_next_tag x (at_lati x)
    have m4 := le_next_tag x (at_logi x)
    have m5 := le_at_cmnt x
    rw [at_rtci_def] at m1
    rw [at_lati_def] at m2
    rw [at_logi_def] at m3
    rw [at_alia_def] at m4
    have m0 : at_rcid x = off_v x + 72 + cnt x := rfl
    obtain ⟨s1, s2, -⟩ := strlen_spec x (at_cmnt x + 4) g.1 hc
    exact ⟨by omega, s1, s2⟩

/-- Witness of C24: the block that encodes the example header, and the same memory with the
byte at index 600 changed: the decoder returns 0 and the example header on both. -/
theorem read_within_block_witness :
    (SameBlock (kum_6d6_header_write ex_header ex_mem).2
        (poke (kum_6d6_header_write ex_header ex_mem).2 600 7) ∧
      (∀ i, i < 512 → (kum_6d6_header_write ex_header ex_mem).2 i < 256) ∧
      (kum_6d6_header_write ex_header ex_mem).2 600 ≠
        poke (kum_6d6_header_write ex_header ex_mem).2 600 7 600 ∧
      kum_6d6_header_read ex_decls ex_header (kum_6d6_header_write ex_header ex_mem).2 =
        (0, ex_header)) ∧
    kum_6d6_header_read ex_decls ex_header (kum_6d6_header_write ex_header ex_mem).2 =
      kum_6d6_header_read ex_decls ex_header
        (poke (kum_6d6_header_write ex_header ex_mem).2 600 7) :=
  ⟨⟨fun i hi => by unfold poke; rw [if_neg (by omega)],
      by set_option maxRecDepth 100000 in decide, by decide,
      by set_option maxRecDepth 100000 in decide⟩,
    (read_within_block ex_decls ex_header (kum_6d6_header_write ex_header ex_mem).2
      (poke (kum_6d6_header_write ex_header ex_mem).2 600 7)
      (fun i hi => by unfold poke; rw [if_neg (by omega)])
      (by set_option maxRecDepth 100000 in decide)).1⟩

/-! ## The records an anchor starts -/

/-- The record `wmseed__new_record` leaves in the writer: empty, with the next record number,
started at `t`. -/
theorem new_record_start (E : Env) (w : WMSeed E) (fs : Files E) (t : Int) :
    (wmseed__new_record E w fs t).1.record_time = t ∧
    (wmseed__new_record E w fs t).1.record_number = w.record_number + 1 ∧
    (wmseed__new_record E w fs t).1.record.seq = w.record_number + 1 ∧
    (wmseed__new_record E w fs t).1.record.start =
      { (E.tai_date t).1 with usec := Int.tdiv (E.tai_date t).1.usec 100 } ∧
    (wmseed__new_record E w fs t).1.record.samples = [] ∧
    (wmseed__new_record E w fs t).1.record.leapsec = false := by
  unfold wmseed__new_record
  cases hp : w.data_pending with
  | false => simp [miniseed_record_init]
  | true =>
    by_cases hl : E.tai_utc_diff w.record_time ≠ E.tai_utc_diff t
    · simp [hl, wmseed__flush, hp, miniseed_record_init]
    · simp [hl, wmseed__flush, hp, miniseed_record_init]

/-- The record `wmseed__create_file` leaves in the writer: empty, with the record number 1,
started at `t`. -/
theorem create_file_start (E : Env) (w : WMSeed E) (fs : Files E) (t : Int) :
    (wmseed__create_file E w fs t).1.record_time = t ∧
    (wmseed__create_file E w fs t).1.record_number = 1 ∧
    (wmseed__create_file E w fs t).1.record.seq = 1 ∧
    (wmseed__create_file E w fs t).1.record.start =
      { (E.tai_date t).1 with usec := Int.tdiv (E.tai_date t).1.usec 100 } ∧
    (wmseed__create_file E w fs t).1.record.samples = [] ∧
    (wmseed__create_file E w fs t).1.record.leapsec = false ∧
    (wmseed__create_file E w fs t).1.sb = w.sb := by
  obtain ⟨a1, a2, a3, a4, a5, a6⟩ := new_record_start E { w with record_number := 0 } fs t
  have a7 := (new_record_writer E { w with record_number := 0 } fs t).1
  unfold wmseed__create_file
  exact ⟨a1, by rw [a2]; rfl, by rw [a3]; rfl, a4, a5, a6, a7⟩

/-- A record that takes the sample: the sample is stored behind the others and nothing else
changes. -/
theorem push_accept (E : Env) (tt : Int) (w : WMSeed E) (fs : Files E) (v : Int)
    (h : E.accepts w.record.samples v = true) :
    wmseed__push E tt 2 w fs v =
      ({ w with record := { w.record with samples := w.record.samples ++ [v] } }, fs) := by
  unfold wmseed__push
  simp only [miniseed_record_push_sample, h, if_true]

/-- A record that is full: `wmseed__new_record` starts a record at `tt`, which takes the
sample as its first one. -/
theorem push_reject (E : Env) (tt : Int) (w : WMSeed E) (fs : Files E) (v : Int)
    (h : E.accepts w.record.samples v = false) :
    wmseed__push E tt 2 w fs v =
      ({ (wmseed__new_record E w fs tt).1 with
          record := { (wmseed__new_record E w fs tt).1.record with samples := [v] } },
        (wmseed__new_record E w fs tt).2) := by
  have b4 := (new_record_writer E w fs tt).2.2.2.1
  unfold wmseed__push
  simp only [miniseed_record_push_sample, h, Bool.false_eq_true, if_false]
  unfold wmseed__push
  simp only [miniseed_record_push_sample, b4, E.accepts_nil, if_true, List.nil_append]

/-- One turn of the drain loop, written out: the file is made when the head has the split
index, the head leaves the queue and is pushed with the interpolated time of its own
index. -/
theorem drain_step_eq (E : Env) (last_t last_sn : Int) (a : E.D) (split : Int)
    (w : WMSeed E) (fs : Files E) (v : Int) (rest : List Int) (hq : w.sb.items = v :: rest) :
    (w.sb.sample_number ≠ split →
      wmseed__drain_step E last_t last_sn a split w fs =
        ({ (wmseed__push E (wmseed__interp E last_t last_sn a w.sb.sample_number) 2
              { w with sb := { items := rest, sample_number := w.sb.sample_number + 1 } }
              fs v).1 with data_pending := true },
          (wmseed__push E (wmseed__interp E last_t last_sn a w.sb.sample_number) 2
              { w with sb := { items := rest, sample_number := w.sb.sample_number + 1 } }
              fs v).2)) ∧
    (w.sb.sample_number = split →
      wmseed__drain_step E last_t last_sn a split w fs =
        ({ (wmseed__push E (wmseed__interp E last_t last_sn a w.sb.sample_number) 2
              { (wmseed__create_file E w fs
                  (wmseed__interp E last_t last_sn a w.sb.sample_number)).1 with
                sb := { items := rest, sample_number := w.sb.sample_number + 1 } }
              (wmseed__create_file E w fs
                (wmseed__interp E last_t last_sn a w.sb.sample_number)).2 v).1 with
            data_pending := true },
          (wmseed__push E (wmseed__interp E last_t last_sn a w.sb.sample_number) 2
              { (wmseed__create_file E w fs
                  (wmseed__interp E last_t last_sn a w.sb.sample_number)).1 with
                sb := { items := rest, sample_number := w.sb.sample_number + 1 } }
              (wmseed__create_file E w fs
                (wmseed__interp E last_t last_sn a w.sb.sample_number)).2 v).2)) := by
  have ek : w.sb.sample_number + 1 - 1 = w.sb.sample_number := by omega
  constructor
  · intro hs
    unfold wmseed__drain_step
    simp only [hs, if_false, samplebuffer_pop, hq, List.headD_cons, List.tail_cons, ek]
  · intro hs
    have c := (create_file_start E w fs
      (wmseed__interp E last_t last_sn a w.sb.sample_number)).2.2.2.2.2.2
    unfold wmseed__drain_step
    simp only [hs, if_true, samplebuffer_pop]
    rw [← hs]
    simp only [c, hq, List.headD_cons, List.tail_cons, ek]

/-- C21. Record start times, for one turn of the drain loop of `wmseed_time` on a writer in
use whose queue has the head `v` with the index `k = sb->sample_number`; `I` is the
interpolated time `last_t + round((k - last_sn) * a)` of that sample. When `k` is the split
index, the pending record goes to the old file, a new file is opened and its record 1 starts
at `I` with `v` as its first sample. When the record in progress is full, it goes to the
file and the next record starts at `I` with `v` as its first sample. Otherwise `v` is stored
behind the samples of the record in progress, whose start stays. In every case the head
leaves the queue, and the samples of the files and of the record in progress are those
before the turn followed by `v`. The start handed to the record is the calendar date of `I`
with the sub-second field `usec / 100`. The loop is this turn repeated while the head has an
index of at most the sample number of the anchor. -/
theorem record_start_times (E : Env) (last_t last_sn : Int) (a : E.D) (split : Int)
    (w : WMSeed E) (fs : Files E) (past : List Nat) (f : Nat) (v : Int) (rest : List Int)
    (hu : InUse E past w fs f) (hq : w.sb.items = v :: rest) :
    (w.sb.sample_number = split →
      (wmseed__drain_step E last_t last_sn a split w fs).1.record_time =
        wmseed__interp E last_t last_sn a w.sb.sample_number ∧
      (wmseed__drain_step E last_t last_sn a split w fs).1.record.start =
        { (E.tai_date (wmseed__interp E last_t last_sn a w.sb.sample_number)).1 with
          usec := Int.tdiv
            (E.tai_date (wmseed__interp E last_t last_sn a w.sb.sample_number)).1.usec 100 } ∧
      (wmseed__drain_step E last_t last_sn a split w fs).1.record.samples = [v] ∧
      (wmseed__drain_step E last_t last_sn a split w fs).1.record_number = 1 ∧
      (wmseed__drain_step E last_t last_sn a split w fs).1.output = some fs.length ∧
      file_samples E (wmseed__drain_step E last_t last_sn a split w fs).2 f =
        file_samples E fs f ++ pending_samples E w ∧
      file_samples E (wmseed__drain_step E last_t last_sn a split w fs).2 fs.length = []) ∧
    (w.sb.sample_number ≠ split → E.accepts w.record.samples v = false →
      (wmseed__drain_step E last_t last_sn a split w fs).1.record_time =
        wmseed__interp E last_t last_sn a w.sb.sample_number ∧
      (wmseed__drain_step E last_t last_sn a split w fs).1.record.start =
        { (E.tai_date (wmseed__interp E last_t last_sn a w.sb.sample_number)).1 with
          usec := Int.tdiv
            (E.tai_date (wmseed__interp E last_t last_sn a w.sb.sample_number)).1.usec 100 } ∧
      (wmseed__drain_step E last_t last_sn a split w fs).1.record.samples = [v] ∧
      (wmseed__drain_step E last_t last_sn a split w fs).1.record_number =
        w.record_number + 1 ∧
      (wmseed__drain_step E last_t last_sn a split w fs).1.output = some f ∧
      file_samples E (wmseed__drain_step E last_t last_sn a split w fs).2 f =
        file_samples E fs f ++ pending_samples E w) ∧
    (w.sb.sample_number ≠ split → E.accepts w.record.samples v = true →
      (wmseed__drain_step E last_t last_sn a split w fs).1.record_time = w.record_time ∧
      (wmseed__drain_step E last_t last_sn a split w fs).1.record.start = w.record.start ∧
      (wmseed__drain_step E last_t last_sn a split w fs).1.record.samples =
        w.record.samples ++ [v] ∧
      (wmseed__drain_step E last_t last_sn a split w fs).1.record_number = w.record_number ∧
      (wmseed__drain_step E last_t last_sn a split w fs).1.output = some f ∧
      (wmseed__drain_step E last_t last_sn a split w fs).2 = fs) ∧
    ((wmseed__drain_step E last_t last_sn a split w fs).1.sb =
        { items := rest, sample_number := w.sb.sample_number + 1 } ∧
      (wmseed__drain_step E last_t last_sn a split w fs).1.data_pending = true) ∧
    (∀ (n : Int) (fuel : Nat),
      wmseed__drain E last_t last_sn a split n (fuel + 1) w fs =
        if w.sb.sample_number ≤ n then
          wmseed__drain E last_t last_sn a split n fuel
            (wmseed__drain_step E last_t last_sn a split w fs).1
            (wmseed__drain_step E last_t last_sn a split w fs).2
        else (w, fs)) := by
  obtain ⟨e1, e2⟩ := drain_step_eq E last_t last_sn a split w fs v rest hq
  refine ⟨fun hs => ?_, fun hs hf => ?_, fun hs ht => ?_, ?_, fun n fuel => ?_⟩
  · obtain ⟨c1, c2, c3, c4, c5, c6, c7⟩ := create_file_start E w fs
      (wmseed__interp E last_t last_sn a w.sb.sample_number)
    obtain ⟨-, -, -, -, d5, -, d7, d8⟩ := drain_step_cut E last_t last_sn a split w fs past f
      v rest hu hq hs
    have d9 := (create_file_spec E w fs (wmseed__interp E last_t last_sn a w.sb.sample_number)
      f hu.2.1 hu.2.2.1).2.2.2.2.1
    have ep := push_accept E (wmseed__interp E last_t last_sn a w.sb.sample_number)
      { (wmseed__create_file E w fs
          (wmseed__interp E last_t last_sn a w.sb.sample_number)).1 with
        sb := { items := rest, sample_number := w.sb.sample_number + 1 } }
      (wmseed__create_file E w fs (wmseed__interp E last_t last_sn a w.sb.sample_number)).2 v
      (by show E.accepts (wmseed__create_file E w fs _).1.record.samples v = true
          rw [c5]; exact E.accepts_nil v)
    have e := e2 hs
    rw [ep] at e
    refine ⟨by rw [e]; exact c1, by rw [e]; exact c4, ?_, by rw [e]; exact c2, d5, d7, ?_⟩
    · rw [e]
      show (wmseed__create_file E w fs _).1.record.samples ++ [v] = [v]
      rw [c5]; rfl
    · rw [e]
      exact d9
  · obtain ⟨n1, n2, n3, n4, n5, n6⟩ := new_record_start E
      { w with sb := { items := rest, sample_number := w.sb.sample_number + 1 } } fs
      (wmseed__interp E last_t last_sn a w.sb.sample_number)
    obtain ⟨-, -, -, -, d5, -, d7⟩ := drain_step_plain E last_t last_sn a split w fs past f
      v rest hu hq hs
    have ep := push_reject E (wmseed__interp E last_t last_sn a w.sb.sample_number)
      { w with sb := { items := rest, sample_number := w.sb.sample_number + 1 } } fs v hf
    have e := e1 hs
    rw [ep] at e
    have hpend : pending_samples E (wmseed__drain_step E last_t last_sn a split w fs).1 =
        [v] := by
      rw [e]; rfl
    rw [hpend] at d7
    refine ⟨by rw [e]; exact n1, by rw [e]; exact n4, by rw [e], by rw [e]; exact n2, d5, ?_⟩
    exact List.append_cancel_right d7
  · have ep := push_accept E (wmseed__interp E last_t last_sn a w.sb.sample_number)
      { w with sb := { items := rest, sample_number := w.sb.sample_number + 1 } } fs v ht
    have e := e1 hs
    rw [ep] at e
    rw [e]
    exact ⟨rfl, rfl, rfl, rfl, hu.2.1, rfl⟩
  · by_cases hs : w.sb.sample_number = split
    · obtain ⟨d1, d2, -⟩ := drain_step_cut E last_t last_sn a split w fs past f v rest hu hq hs
      exact ⟨d1, d2⟩
    · obtain ⟨d1, d2, -⟩ := drain_step_plain E last_t last_sn a split w fs past f v rest hu hq
        hs
      exact ⟨d1, d2⟩
  · rw [drain_succ]
    have hne : w.sb.items.length ≠ 0 := by rw [hq]; simp
    by_cases hn : w.sb.sample_number ≤ n
    · rw [if_pos ⟨hne, hn⟩, if_pos hn]
    · rw [if_neg (fun h => hn h.2), if_neg hn]

/-- Witness of C21: the example writer after its first anchor at 1000000 and the samples 5
to 9, with records of four samples. One turn on the head 5, with the slope of 10000
microseconds a sample, stores it in record 1, whose start stays. The anchor
`(202600000, 20160)` fills record 1 with the samples 0 to 3 and writes it when sample 4
comes; record 2 starts at 1040000, the time of sample 4, and holds the sample 9. -/
theorem record_start_times_witness :
    (InUse ex_env [] (wmseed_calls ex_env ex_anchored
        [.sample 5, .sample 6, .sample 7, .sample 8, .sample 9]).1 ex_anchored.2 0 ∧
      (wmseed_calls ex_env ex_anchored
        [.sample 5, .sample 6, .sample 7, .sample 8, .sample 9]).1.sb.items =
        5 :: [6, 7, 8, 9]) ∧
    (wmseed__drain_step ex_env 1000000 0 ⟨10000, 1⟩ (-1)
      (wmseed_calls ex_env ex_anchored
        [.sample 5, .sample 6, .sample 7, .sample 8, .sample 9]).1
      ex_anchored.2).1.record.samples = [5] ∧
    ((wmseed_calls ex_env ex_anchored
        [.sample 5, .sample 6, .sample 7, .sample 8, .sample 9,
          .time 202600000 20160]).2.map
        (fun o => o.records.map (fun r => (r.seq, r.start.sec, r.start.usec, r.samples))) =
        [[(1, 1, 0, [5, 6, 7, 8])]] ∧
      (wmseed_calls ex_env ex_anchored
        [.sample 5, .sample 6, .sample 7, .sample 8, .sample 9,
          .time 202600000 20160]).1.record_time = 1040000 ∧
      wmseed__interp ex_env 1000000 0 (wmseed__slope ex_env ex_anchored.1 202600000 20160)
        4 = 1040000 ∧
      (wmseed_calls ex_env ex_anchored
        [.sample 5, .sample 6, .sample 7, .sample 8, .sample 9,
          .time 202600000 20160]).1.record.samples = [9] ∧
      (wmseed_calls ex_env ex_anchored
        [.sample 5, .sample 6, .sample 7, .sample 8, .sample 9,
          .time 202600000 20160]).1.record_number = 2) :=
  ⟨⟨by decide, rfl⟩,
    ((record_start_times ex_env 1000000 0 ⟨10000, 1⟩ (-1)
      (wmseed_calls ex_env ex_anchored
        [.sample 5, .sample 6, .sample 7, .sample 8, .sample 9]).1 ex_anchored.2 [] 0 5
      [6, 7, 8, 9] (by decide) rfl).2.2.1 (by decide) (by decide)).2.2.1.trans (by decide),
    by decide, by decide, by decide, by decide, by decide⟩

/-! ## The leap-second flag of a record -/

/-- C22, amended. The leap-second flag: `wmseed__new_record(w, t)` on a writer with a pending
record, an open file `f` and the flag of the record clear writes to `f` the record with the
flag set if and only if the leap offset at the start time of the record, `record_time`,
differs from the leap offset at `t`, the start time of the record that follows; the record it
leaves in the writer has the flag clear. `wmseed__create_file(w, t)` writes the same record,
closes `f` and opens the next file. Storing a sample leaves the flag, and without a pending
record nothing is written. -/
theorem leap_flag (E : Env) (w : WMSeed E) (fs : Files E) (t : Int) (f : Nat)
    (hp : w.data_pending = true) (ho : w.output = some f) (hl : w.record.leapsec = false) :
    (wmseed__new_record E w fs t).2 =
      fwrite E fs f { w.record with
        leapsec := decide (E.tai_utc_diff w.record_time ≠ E.tai_utc_diff t) } ∧
    (wmseed__new_record E w fs t).1.record.leapsec = false ∧
    (wmseed__create_file E w fs t).2 =
      fclose E (fwrite E fs f { w.record with
        leapsec := decide (E.tai_utc_diff w.record_time ≠ E.tai_utc_diff t) }) f ++
        [{ name := wmseed__filename E w t, records := [], closed := false }] ∧
    (wmseed__create_file E w fs t).1.record.leapsec = false ∧
    (∀ (v : Int) (r : MiniSeedRecord E),
      miniseed_record_push_sample E w.record v = some r → r.leapsec = w.record.leapsec) ∧
    (∀ w2 : WMSeed E, w2.data_pending = false →
      (wmseed__new_record E w2 fs t).2 = fs) := by
  have key : ∀ w1 : WMSeed E, w1.data_pending = true → w1.output = some f →
      w1.record.leapsec = false →
      (wmseed__new_record E w1 fs t).2 =
        fwrite E fs f { w1.record with
          leapsec := decide (E.tai_utc_diff w1.record_time ≠ E.tai_utc_diff t) } := by
    intro w1 h1 h2 h3
    unfold wmseed__new_record
    by_cases hd : E.tai_utc_diff w1.record_time ≠ E.tai_utc_diff t
    · simp only [h1, if_true, hd, ne_eq, not_false_eq_true, wmseed__flush, h2, decide_True]
    · have e : { w1.record with leapsec := false } = w1.record := by
        rw [← h3]
      simp only [h1, if_true, hd, if_false, wmseed__flush, h2, decide_False, e]
  refine ⟨key w hp ho hl, (new_record_start E w fs t).2.2.2.2.2, ?_,
    (create_file_start E w fs t).2.2.2.2.2.1, fun v r hr => ?_, fun w2 h2 => ?_⟩
  · have k := key { w with record_number := 0 } hp ho hl
    have o2 : (wmseed__new_record E { w with record_number := 0 } fs t).1.output = some f :=
      (new_record_writer E { w with record_number := 0 } fs t).2.1.trans ho
    obtain ⟨x1, x2, x3, x4, x5, x6, -⟩ :=
      (new_record_writer E { w with record_number := 0 } fs t).2.2.2.2
    have hf : wmseed__filename E
        (wmseed__new_record E { w with record_number := 0 } fs t).1 t =
        wmseed__filename E w t :=
      filename_congr E _ w t x2 x3 x4 x5 x6
    unfold wmseed__create_file
    simp only [o2, fopen, hf]
    rw [k]
  · unfold miniseed_record_push_sample at hr
    split at hr
    · cases hr
      rfl
    · cases hr
  · unfold wmseed__new_record
    simp only [h2, Bool.false_eq_true, if_false]

/-- Witness of the amended C22: with a leap second at the instant 1035000, the example writer
after its first anchor at 1000000, the sample 5 and the anchor `(202600000, 20160)` holds the
sample in its pending record, which started at 1000000; a new record at 1040000 writes it
with the flag set. -/
theorem leap_flag_witness :
    ((wmseed_calls (ex_env_leap 1035000)
        (wmseed_time (ex_env_leap 1035000) (ex_writer (ex_env_leap 1035000) 86400) []
          1000000 0).2 [.sample 5, .time 202600000 20160]).1.data_pending = true ∧
      (wmseed_calls (ex_env_leap 1035000)
        (wmseed_time (ex_env_leap 1035000) (ex_writer (ex_env_leap 1035000) 86400) []
          1000000 0).2 [.sample 5, .time 202600000 20160]).1.output = some 0 ∧
      (wmseed_calls (ex_env_leap 1035000)
        (wmseed_time (ex_env_leap 1035000) (ex_writer (ex_env_leap 1035000) 86400) []
          1000000 0).2 [.sample 5, .time 202600000 20160]).1.record.leapsec = false ∧
      (wmseed_calls (ex_env_leap 1035000)
        (wmseed_time (ex_env_leap 1035000) (ex_writer (ex_env_leap 1035000) 86400) []
          1000000 0).2 [.sample 5, .time 202600000 20160]).1.record_time = 1000000) ∧
    (wmseed__new_record (ex_env_leap 1035000)
      (wmseed_calls (ex_env_leap 1035000)
        (wmseed_time (ex_env_leap 1035000) (ex_writer (ex_env_leap 1035000) 86400) []
          1000000 0).2 [.sample 5, .time 202600000 20160]).1
      (wmseed_calls (ex_env_leap 1035000)
        (wmseed_time (ex_env_leap 1035000) (ex_writer (ex_env_leap 1035000) 86400) []
          1000000 0).2 [.sample 5, .time 202600000 20160]).2 1040000).2.map
      (fun o => o.records.map (fun r => (r.samples, r.leapsec))) = [[([5], true)]] :=
  ⟨⟨by decide, by decide, by decide, by decide⟩,
    (congrArg (fun fs : Files (ex_env_leap 1035000) =>
        fs.map (fun o => o.records.map (fun r => (r.samples, r.leapsec))))
      (leap_flag (ex_env_leap 1035000)
        (wmseed_calls (ex_env_leap 1035000)
          (wmseed_time (ex_env_leap 1035000) (ex_writer (ex_env_leap 1035000) 86400) []
            1000000 0).2 [.sample 5, .time 202600000 20160]).1
        (wmseed_calls (ex_env_leap 1035000)
          (wmseed_time (ex_env_leap 1035000) (ex_writer (ex_env_leap 1035000) 86400) []
            1000000 0).2 [.sample 5, .time 202600000 20160]).2 1040000 0
        (by decide) (by decide) (by decide)).1).trans (by decide)⟩

/-- C22 as stated fails on the code: with a leap second at the instant 1035000, records of
four samples and 10000 microseconds a sample, the first record starts at 1000000 and holds
the samples 0 to 3, the last of them at 1030000; the leap offset is 0 at both instants, so no
leap second lies between the start of the record and its last sample. The record is written
when sample 4 comes, at 1040000, where the leap offset is 1, and it is written with the flag
set. -/
theorem leap_flag_between_records :
    ((wmseed_time (ex_env_leap 1035000) (ex_writer (ex_env_leap 1035000) 86400) []
        1000000 0).2.1.record_time = 1000000 ∧
      wmseed__interp (ex_env_leap 1035000) 1000000 0
        (wmseed__slope (ex_env_leap 1035000)
          (wmseed_time (ex_env_leap 1035000) (ex_writer (ex_env_leap 1035000) 86400) []
            1000000 0).2.1 202600000 20160) 3 = 1030000 ∧
      wmseed__interp (ex_env_leap 1035000) 1000000 0
        (wmseed__slope (ex_env_leap 1035000)
          (wmseed_time (ex_env_leap 1035000) (ex_writer (ex_env_leap 1035000) 86400) []
            1000000 0).2.1 202600000 20160) 4 = 1040000) ∧
    ((ex_env_leap 1035000).tai_utc_diff 1000000 = (ex_env_leap 1035000).tai_utc_diff 1030000 ∧
      (ex_env_leap 1035000).tai_utc_diff 1000000 ≠
        (ex_env_leap 1035000).tai_utc_diff 1040000) ∧
    (wmseed_calls (ex_env_leap 1035000)
      (wmseed_time (ex_env_leap 1035000) (ex_writer (ex_env_leap 1035000) 86400) []
        1000000 0).2
      [.sample 5, .sample 6, .sample 7, .sample 8, .sample 9,
        .time 202600000 20160]).2.map
      (fun o => o.records.map (fun r => (r.seq, r.samples, r.leapsec))) =
      [[(1, [5, 6, 7, 8], true)]] := by
  refine ⟨⟨?_, ?_, ?_⟩, ⟨?_, ?_⟩, ?_⟩ <;> decide

/-! ## The calls that do not return: what a call leaves when it returns -/

theorem flush_run_ok (E : Env) (H : Host) (w : WMSeed E) (fs : Files E) (d : H.Disk)
    (r : WMSeed E × Files E × H.Disk) (h : wmseed__flush_run E H w fs d = .ok r) :
    (r.1, r.2.1) = wmseed__flush E w fs := by
  unfold wmseed__flush_run at h
  unfold wmseed__flush
  cases hp : w.data_pending with
  | false =>
    simp only [hp, Bool.false_eq_true, if_false] at h ⊢
    cases h
    rfl
  | true =>
    simp only [hp, if_true] at h ⊢
    cases ho : w.output with
    | none =>
      rw [ho] at h
      cases h
    | some f =>
      rw [ho] at h
      simp only at h
      cases hw : H.fwrite d f with
      | none =>
        rw [hw] at h
        cases h
      | some d2 =>
        rw [hw] at h
        cases h
        rfl

theorem new_record_run_ok (E : Env) (H : Host) (w : WMSeed E) (fs : Files E) (d : H.Disk)
    (t : Int) (r : WMSeed E × Files E × H.Disk)
    (h : wmseed__new_record_run E H w fs d t = .ok r) :
    (r.1, r.2.1) = wmseed__new_record E w fs t := by
  unfold wmseed__new_record_run at h
  unfold wmseed__new_record
  by_cases hp : w.data_pending = true
  · rw [if_pos hp] at h ⊢
    simp only at h ⊢
    generalize (if E.tai_utc_diff w.record_time ≠ E.tai_utc_diff t then
      { w with record := { w.record with leapsec := true } } else w) = w1 at h ⊢
    cases hf : wmseed__flush_run E H w1 fs d with
    | error e =>
      rw [hf] at h
      cases h
    | ok p =>
      rw [hf] at h
      have := flush_run_ok E H w1 fs d p hf
      rw [← this]
      cases h
      rfl
  · rw [if_neg hp] at h ⊢
    cases h
    rfl

/-- With nothing pending `wmseed__new_record` writes nothing and returns. -/
theorem new_record_run_idle (E : Env) (H : Host) (w : WMSeed E) (fs : Files E) (d : H.Disk)
    (t : Int) (h : w.data_pending = false) :
    wmseed__new_record_run E H w fs d t =
      .ok ((wmseed__new_record E w fs t).1, (wmseed__new_record E w fs t).2, d) := by
  unfold wmseed__new_record_run wmseed__new_record
  simp only [h, Bool.false_eq_true, if_false]

/-- When `wmseed__create_file` returns, it leaves the writer and the files of the function
`wmseed__create_file` of the files alone, and the file name and its directory exist. -/
theorem create_file_run_ok (E : Env) (H : Host) (w : WMSeed E) (fs : Files E) (d : H.Disk)
    (t : Int) (r : WMSeed E × Files E × H.Disk)
    (h : wmseed__create_file_run E H w fs d t = .ok r) :
    (r.1, r.2.1) = wmseed__create_file E w fs t := by
  unfold wmseed__create_file_run at h
  unfold wmseed__create_file
  cases hn : wmseed__new_record_run E H { w with record_number := 0 } fs d t with
  | error e =>
    rw [hn] at h
    cases h
  | ok p =>
    rw [hn] at h
    have e := new_record_run_ok E H _ fs d t p hn
    rw [← e]
    simp only at h ⊢
    cases hf : wmseed__filename E p.1 t with
    | none =>
      rw [hf] at h
      cases h
    | some filename =>
      rw [hf] at h
      simp only at h
      cases hd : wmseed__dirname H.SIZE_MAX (c_bytes filename) with
      | none =>
        rw [hd] at h
        cases h
      | some dirname =>
        rw [hd] at h
        simp only at h
        cases hm : wmseed__mkdir_p H p.2.2 dirname with
        | error e =>
          rw [hm] at h
          cases h
        | ok m =>
          rw [hm] at h
          simp only at h
          cases ho : H.fopen m.2 (c_bytes filename) with
          | none =>
            rw [ho] at h
            cases h
          | some d2 =>
            rw [ho] at h
            cases h
            rfl

theorem push_run_ok (E : Env) (H : Host) (tt : Int) (fuel : Nat) (w : WMSeed E)
    (fs : Files E) (d : H.Disk) (sample : Int) (r : WMSeed E × Files E × H.Disk)
    (h : wmseed__push_run E H tt fuel w fs d sample = .ok r) :
    (r.1, r.2.1) = wmseed__push E tt fuel w fs sample := by
  induction fuel generalizing w fs d with
  | zero =>
    unfold wmseed__push_run at h
    cases h
    rfl
  | succ fuel ih =>
    unfold wmseed__push_run at h
    unfold wmseed__push
    cases hp : miniseed_record_push_sample E w.record sample with
    | some rec =>
      rw [hp] at h
      cases h
      rfl
    | none =>
      rw [hp] at h
      simp only at h ⊢
      cases hn : wmseed__new_record_run E H w fs d tt with
      | error e =>
        rw [hn] at h
        cases h
      | ok p =>
        rw [hn] at h
        have e := new_record_run_ok E H w fs d tt p hn
        rw [← e]
        exact ih p.1 p.2.1 p.2.2 h

theorem drain_run_ok (E : Env) (H : Host) (last_t last_sn : Int) (a : E.D)
    (split sample_number : Int) (fuel : Nat) (w : WMSeed E) (fs : Files E) (d : H.Disk)
    (r : WMSeed E × Files E × H.Disk)
    (h : wmseed__drain_run E H last_t last_sn a split sample_number fuel w fs d = .ok r) :
    (r.1, r.2.1) = wmseed__drain E last_t last_sn a split sample_number fuel w fs := by
  induction fuel generalizing w fs d with
  | zero =>
    unfold wmseed__drain_run at h
    cases h
    rfl
  | succ fuel ih =>
    unfold wmseed__drain_run at h
    unfold wmseed__drain
    by_cases hc : w.sb.items.length ≠ 0 ∧ w.sb.sample_number ≤ sample_number
    · rw [if_pos hc] at h ⊢
      simp only at h ⊢
      have key : ∀ (c : Except Halt (WMSeed E × Files E × H.Disk)) (c2 : WMSeed E × Files E),
          (∀ p, c = .ok p → (p.1, p.2.1) = c2) →
          (match c with
            | Except.error e => (Except.error e : Except Halt (WMSeed E × Files E × H.Disk))
            | Except.ok p =>
              match wmseed__push_run E H
                  (wmseed__interp E last_t last_sn a
                    ((samplebuffer_pop p.1.sb).2.sample_number - 1))
                  2 { p.1 with sb := (samplebuffer_pop p.1.sb).2 } p.2.1 p.2.2
                  (samplebuffer_pop p.1.sb).1 with
              | Except.error e => Except.error e
              | Except.ok q =>
                wmseed__drain_run E H last_t last_sn a split sample_number fuel
                  { q.1 with data_pending := true } q.2.1 q.2.2) = .ok r →
          (r.1, r.2.1) =
            wmseed__drain E last_t last_sn a split sample_number fuel
              { (wmseed__push E
                  (wmseed__interp E last_t last_sn a
                    ((samplebuffer_pop c2.1.sb).2.sample_number - 1))
                  2 { c2.1 with sb := (samplebuffer_pop c2.1.sb).2 } c2.2
                  (samplebuffer_pop c2.1.sb).1).1 with data_pending := true }
              (wmseed__push E
                  (wmseed__interp E last_t last_sn a
                    ((samplebuffer_pop c2.1.sb).2.sample_number - 1))
                  2 { c2.1 with sb := (samplebuffer_pop c2.1.sb).2 } c2.2
                  (samplebuffer_pop c2.1.sb).1).2 := by
        intro c c2 hcc hr
        cases c with
        | error e => cases hr
        | ok p =>
          simp only at hr
          have e1 := hcc p rfl
          rw [← e1]
          simp only
          cases hq : wmseed__push_run E H
              (wmseed__interp E last_t last_sn a
                ((samplebuffer_pop p.1.sb).2.sample_number - 1))
              2 { p.1 with sb := (samplebuffer_pop p.1.sb).2 } p.2.1 p.2.2
              (samplebuffer_pop p.1.sb).1 with
          | error e =>
            rw [hq] at hr
            cases hr
          | ok q =>
            rw [hq] at hr
            simp only at hr
            have e2 := push_run_ok E H _ 2 _ _ _ _ q hq
            rw [← e2]
            exact ih _ _ _ hr
      refine key _ _ ?_ h
      intro p hp
      by_cases hs : w.sb.sample_number = split
      · rw [if_pos hs] at hp ⊢
        exact create_file_run_ok E H w fs d _ p hp
      · rw [if_neg hs] at hp ⊢
        cases hp
        rfl
    · rw [if_neg hc] at h ⊢
      cases h
      rfl

/-- When `wmseed_time` returns, it returns and leaves what the function `wmseed_time` of the
files alone says. -/
theorem wmseed_time_run_ok (E : Env) (H : Host) (w : WMSeed E) (fs : Files E) (d : H.Disk)
    (t n : Int) (r : Int × WMSeed E × Files E × H.Disk)
    (h : wmseed_time_run E H w fs d t n = .ok r) :
    (r.1, r.2.1, r.2.2.1) = wmseed_time E w fs t n := by
  unfold wmseed_time_run at h
  unfold wmseed_time
  by_cases h1 : w.last_sn = -1
  · rw [if_pos h1] at h ⊢
    by_cases h2 : n ≠ 0
    · rw [if_pos h2] at h ⊢
      cases h
      rfl
    · rw [if_neg h2] at h ⊢
      cases hc : wmseed__create_file_run E H { w with last_t := t, last_sn := n } fs d t with
      | error e =>
        rw [hc] at h
        cases h
      | ok p =>
        rw [hc] at h
        have e := create_file_run_ok E H _ fs d t p hc
        rw [← e]
        cases h
        rfl
  · rw [if_neg h1] at h ⊢
    by_cases h2 : n ≤ w.last_sn ∨ t ≤ w.last_t
    · rw [if_pos h2] at h ⊢
      cases h
      rfl
    · rw [if_neg h2] at h ⊢
      by_cases h3 : n - w.last_sn < 1008 * 20
      · rw [if_pos h3] at h ⊢
        cases h
        rfl
      · rw [if_neg h3] at h ⊢
        simp only at h ⊢
        generalize hsp : (if w.cut ≠ 0 ∧
            wmseed__div (w.last_t - 1000000 * E.tai_utc_diff t) w.cut ≠
              wmseed__div (t - 1000000 * E.tai_utc_diff t) w.cut then
            w.last_sn + E.toInt (E.ceil (E.div
              (E.ofInt (wmseed__div (t - 1000000 * E.tai_utc_diff t) w.cut * w.cut +
                1000000 * E.tai_utc_diff t - w.last_t))
              (E.div (E.ofInt (t - w.last_t)) (E.ofInt (n - w.last_sn)))))
          else -1) = split at h ⊢
        cases hd : wmseed__drain_run E H w.last_t w.last_sn
            (E.div (E.ofInt (t - w.last_t)) (E.ofInt (n - w.last_sn))) split n
            w.sb.items.length w fs d with
        | error e =>
          rw [hd] at h
          cases h
        | ok p =>
          rw [hd] at h
          have e := drain_run_ok E H _ _ _ _ _ _ _ _ _ p hd
          rw [← e]
          cases h
          rfl

theorem time_all_run_ok (E : Env) (H : Host) (t n : Int) (ws : List (WMSeed E))
    (fs : Files E) (d : H.Disk) (r : List Int × List (WMSeed E) × Files E × H.Disk)
    (h : time_all_run E H t n ws fs d = .ok r) :
    r.1 = time_all_rets E t n ws fs ∧ (r.2.1, r.2.2.1) = time_all E t n ws fs := by
  induction ws generalizing fs d r with
  | nil =>
    unfold time_all_run at h
    cases h
    exact ⟨rfl, rfl⟩
  | cons w ws ih =>
    unfold time_all_run at h
    unfold time_all_rets time_all
    cases hw : wmseed_time_run E H w fs d t n with
    | error e =>
      rw [hw] at h
      cases h
    | ok q =>
      rw [hw] at h
      simp only at h
      have e := wmseed_time_run_ok E H w fs d t n q hw
      rw [← e]
      simp only
      cases hr : time_all_run E H t n ws q.2.2.1 q.2.2.2 with
      | error e =>
        rw [hr] at h
        cases h
      | ok p =>
        rw [hr] at h
        obtain ⟨i1, i2⟩ := ih _ _ p hr
        rw [← i1, ← i2]
        cases h
        exact ⟨rfl, rfl⟩

theorem frame_done_run_ok (E : Env) (H : Host) (ck : Clock E) (st : Decoder E) (d : H.Disk)
    (r : Decoder E × H.Disk × List Int × List Int)
    (h : frame_done_run E H ck st d = .ok r) :
    r.1 = frame_done E ck st ∧ r.2.2 = frame_done_rets E ck st := by
  unfold frame_done_run at h
  unfold frame_done frame_done_rets
  by_cases h1 : st.frame 0 % 2 = 1
  · rw [if_pos h1] at h ⊢
    rw [if_pos h1]
    by_cases h2 : st.frame 0 = 1
    · rw [if_pos h2] at h ⊢
      rw [if_pos h2]
      cases ht : time_all_run E H (anchor_time E ck (st.frame 1)) st.sample_number
          st.channels st.fs d with
      | error e =>
        rw [ht] at h
        cases h
      | ok p =>
        rw [ht] at h
        obtain ⟨i1, i2⟩ := time_all_run_ok E H _ _ _ _ _ p ht
        rw [← i1, ← i2]
        cases h
        exact ⟨rfl, rfl⟩
    · rw [if_neg h2] at h ⊢
      rw [if_neg h2]
      by_cases h3 : st.frame 0 = 13
      · rw [if_pos h3] at h ⊢
        cases h
        exact ⟨rfl, rfl⟩
      · rw [if_neg h3] at h ⊢
        cases h
        exact ⟨rfl, rfl⟩
  · rw [if_neg h1] at h ⊢
    rw [if_neg h1]
    cases hb : st.have_time with
    | false =>
      simp only [hb, Bool.false_eq_true, if_false] at h ⊢
      cases h
      exact ⟨rfl, rfl⟩
    | true =>
      simp only [hb, if_true] at h ⊢
      cases h
      exact ⟨rfl, rfl⟩

/-- When the decoder gets through a word, it leaves the parser, the writers and the files of
`frame_word`, and its calls have returned the values of `frame_word_rets`. -/
theorem frame_word_run_ok (E : Env) (H : Host) (ck : Clock E) (nc : Nat) (st : Decoder E)
    (d : H.Disk) (v : Int) (r : Decoder E × H.Disk × List Int × List Int)
    (h : frame_word_run E H ck nc st d v = .ok r) :
    r.1 = frame_word E ck nc st v ∧ r.2.2 = frame_word_rets E ck nc st v := by
  unfold frame_word_run at h
  unfold frame_word frame_word_rets
  by_cases hd : st.done = true
  · rw [if_pos hd] at h ⊢
    rw [if_pos hd]
    cases h
    exact ⟨rfl, rfl⟩
  · rw [if_neg hd] at h ⊢
    rw [if_neg hd]
    generalize (if st.remaining = 0 then
        { st with
          frame := frame_set st.frame 0 v
          remaining := if v % 2 = 1 then 3 else (nc : Int) - 1
          pos := 1 }
      else
        { st with
          frame := frame_set st.frame st.pos v
          pos := st.pos + 1
          remaining := st.remaining - 1 }) = S at h ⊢
    dsimp only at h ⊢
    by_cases hr : S.remaining = 0
    · rw [if_pos hr] at h ⊢
      rw [if_pos hr]
      exact frame_done_run_ok E H ck S d r h
    · rw [if_neg hr] at h ⊢
      rw [if_neg hr]
      cases h
      exact ⟨rfl, rfl⟩

theorem frame_words_run_ok (E : Env) (H : Host) (ck : Clock E) (nc : Nat) (ws : List Int)
    (st : Decoder E) (d : H.Disk) (r : Decoder E × H.Disk)
    (h : frame_words_run E H ck nc ws st d = .ok r) :
    r.1 = ws.foldl (frame_word E ck nc) st := by
  induction ws generalizing st d with
  | nil =>
    unfold frame_words_run at h
    cases h
    rfl
  | cons v vs ih =>
    unfold frame_words_run at h
    cases hw : frame_word_run E H ck nc st d v with
    | error e =>
      rw [hw] at h
      cases h
    | ok q =>
      rw [hw] at h
      have e := (frame_word_run_ok E H ck nc st d v q hw).1
      rw [List.foldl_cons, ← e]
      exact ih _ _ h

/-! ## The first anchor with the calls that do not return -/

/-- A path with a `/` is split at its last `/`. -/
theorem split_at_last_slash (p : List Nat) (h : 47 ∈ p) :
    ∃ pre post, p = pre ++ 47 :: post ∧ 47 ∉ post := by
  induction p with
  | nil => simp at h
  | cons c rest ih =>
    by_cases hr : 47 ∈ rest
    · obtain ⟨pre, post, e, hp⟩ := ih hr
      exact ⟨c :: pre, post, by rw [e]; rfl, hp⟩
    · have hc : c = 47 := by
        rcases List.mem_cons.1 h with e | e
        · exact e.symm
        · exact absurd e hr
      exact ⟨[], rest, by rw [hc]; rfl, hr⟩

/-- What `wmseed__dirname` returns for a path whose last `/` is behind `pre`. -/
theorem dirname_at_last_slash (SIZE_MAX : Nat) (pre post : List Nat) (h : 47 ∉ post)
    (hl : pre.length < SIZE_MAX) :
    wmseed__dirname SIZE_MAX (pre ++ 47 :: post) =
      if pre.length > 1 then some pre
      else some (if pre.length ≠ 0 then [46] else [47]) := by
  unfold wmseed__dirname
  have e : wmseed__dirname_scan (pre ++ 47 :: post) 0 SIZE_MAX = pre.length := by
    rw [dirname_scan_last pre post 0 SIZE_MAX h]
    omega
  simp only [e]
  by_cases h1 : pre.length > 1
  · rw [if_pos h1, if_pos h1, if_neg (by rw [Nat.mod_eq_of_lt (by omega)]; omega)]
    congr 1
    simp
  · rw [if_neg h1, if_neg h1]

/-- For a path with a `/` that is not longer than `SIZE_MAX`, `wmseed__dirname` returns a
directory, and the directory is not the empty string. -/
theorem dirname_of_slash (SIZE_MAX : Nat) (p : List Nat) (h : 47 ∈ p)
    (hl : p.length ≤ SIZE_MAX) :
    ∃ dir, wmseed__dirname SIZE_MAX p = some dir ∧ dir ≠ [] := by
  obtain ⟨pre, post, e, hp⟩ := split_at_last_slash p h
  subst e
  have hlen : pre.length < SIZE_MAX := by
    simp only [List.length_append, List.length_cons] at hl
    omega
  rw [dirname_at_last_slash SIZE_MAX pre post hp hlen]
  by_cases h1 : pre.length > 1
  · rw [if_pos h1]
    refine ⟨pre, rfl, ?_⟩
    intro e
    rw [e] at h1
    simp at h1
  · rw [if_neg h1]
    by_cases h0 : pre.length ≠ 0
    · rw [if_pos h0]
      exact ⟨[46], rfl, by simp⟩
    · rw [if_neg h0]
      exact ⟨[47], rfl, by simp⟩

/-- On a path that is not empty `wmseed__mkdir_p` returns. -/
theorem mkdir_p_returns (H : Host) (d : H.Disk) (path : List Nat) (h : path ≠ []) :
    ∃ m, wmseed__mkdir_p H d path = .ok m := by
  unfold wmseed__mkdir_p
  rw [if_neg h]
  simp only
  generalize (if path.getD (path.length - 1) 0 = 47 then path.take (path.length - 1)
    else path) = p
  generalize wmseed__mkdir_p_loop H p (List.range path.length).tail d = r
  by_cases hr : r.1 ≠ 0
  · rw [if_pos hr]
    exact ⟨_, rfl⟩
  · rw [if_neg hr]
    cases wmseed__mkdir_one H r.2 p with
    | none => exact ⟨_, rfl⟩
    | some d2 => exact ⟨_, rfl⟩

/-- The first anchor with the sample number 0 on a fresh writer: the result in full, with the
ways the call can end the program. -/
theorem wmseed_time_run_first (E : Env) (H : Host) (w : WMSeed E) (fs : Files E)
    (d : H.Disk) (t : Int)
    (h1 : w.last_sn = -1) (h2 : w.data_pending = false) (h3 : w.output = none) :
    wmseed_time_run E H w fs d t 0 =
      match wmseed__filename E w t with
      | none => .error .undefined
      | some name =>
        match wmseed__dirname H.SIZE_MAX (c_bytes name) with
        | none => .error .undefined
        | some dir =>
          match wmseed__mkdir_p H d dir with
          | .error e => .error e
          | .ok m =>
            match H.fopen m.2 (c_bytes name) with
            | none => .error .exit1
            | some d2 =>
              .ok (0,
                { w with
                  last_t := t
                  last_sn := 0
                  record_number := 1
                  record_time := t
                  data_pending := false
                  output := some fs.length
                  record :=
                    { miniseed_record_init E 1 with
                      station := w.station
                      location := w.location
                      channel := w.channel
                      network := w.network
                      sample_rate := some w.sample_rate
                      start :=
                        { (E.tai_date t).1 with
                          usec := Int.tdiv (E.tai_date t).1.usec 100 } } },
                fs ++ [{ name := some name, records := [], closed := false }], d2) := by
  have hf : wmseed__filename E
      (wmseed__new_record E { w with last_t := t, last_sn := 0, record_number := 0 } fs t).1
      t = wmseed__filename E w t :=
    filename_congr E _ w t (by simp [wmseed__new_record, h2])
      (by simp [wmseed__new_record, h2]) (by simp [wmseed__new_record, h2])
      (by simp [wmseed__new_record, h2]) (by simp [wmseed__new_record, h2])
  unfold wmseed_time_run
  rw [if_pos h1, if_neg (by simp)]
  unfold wmseed__create_file_run
  rw [new_record_run_idle]
  swap
  · exact h2
  simp only [hf]
  cases hn : wmseed__filename E w t with
  | none => rfl
  | some name =>
    simp only
    cases hd : wmseed__dirname H.SIZE_MAX (c_bytes name) with
    | none => rfl
    | some dir =>
      simp only
      cases hm : wmseed__mkdir_p H d dir with
      | error e => rfl
      | ok m =>
        simp only
        cases ho : H.fopen m.2 (c_bytes name) with
        | none => rfl
        | some d2 =>
          simp only [wmseed__new_record, h2, Bool.false_eq_true, if_false, h3, zero_add,
            fopen]

theorem main_channels_fresh (E : Env) (mem : MiniSeedRecord E) (template station location
    network : String) (sample_rate : Nat) (cut : Int) (names : List String) :
    ∀ w ∈ main_channels E mem template station location network sample_rate cut names,
      w.last_sn = -1 ∧ w.data_pending = false ∧ w.output = none := by
  induction names with
  | nil => simp [main_channels]
  | cons n ns ih =>
    intro w hw
    simp only [main_channels, List.mem_cons] at hw
    rcases hw with hw | hw
    · rw [hw]
      exact ⟨rfl, rfl, rfl⟩
    · exact ih w hw

/-- The first anchor with the sample number 0 on a fresh writer whose file name holds a `/`:
the call ends the program only with `exit(1)`, and it returns where `fopen` does not fail. -/
theorem wmseed_time_run_first_ends (E : Env) (H : Host) (w : WMSeed E) (fs : Files E)
    (d : H.Disk) (t : Int)
    (h1 : w.last_sn = -1) (h2 : w.data_pending = false) (h3 : w.output = none)
    (hn : ∃ name, wmseed__filename E w t = some name ∧ 47 ∈ c_bytes name ∧
      (c_bytes name).length ≤ H.SIZE_MAX) :
    (∀ e, wmseed_time_run E H w fs d t 0 = .error e → e = .exit1) ∧
    ((∀ x p, H.fopen x p ≠ none) → ∃ r, wmseed_time_run E H w fs d t 0 = .ok r) := by
  obtain ⟨name, hname, hs, hl⟩ := hn
  obtain ⟨dir, hd, hne⟩ := dirname_of_slash H.SIZE_MAX (c_bytes name) hs hl
  obtain ⟨m, hm⟩ := mkdir_p_returns H d dir hne
  rw [wmseed_time_run_first E H w fs d t h1 h2 h3, hname]
  simp only [hd, hm]
  cases ho : H.fopen m.2 (c_bytes name) with
  | none =>
    refine ⟨fun e he => ?_, fun hf => absurd ho (hf _ _)⟩
    cases he
    rfl
  | some d2 =>
    refine ⟨fun e he => ?_, fun _ => ⟨_, rfl⟩⟩
    cases he

/-- The calls `wmseed_time` of a Time group with the sample number 0 on fresh writers whose
file names hold a `/`: the loop ends the program only with `exit(1)`, and it returns where
`fopen` does not fail. -/
theorem time_all_run_first_ends (E : Env) (H : Host) (t : Int) (ws : List (WMSeed E))
    (fs : Files E) (d : H.Disk)
    (hw : ∀ w ∈ ws, w.last_sn = -1 ∧ w.data_pending = false ∧ w.output = none)
    (hn : ∀ w ∈ ws, ∃ name, wmseed__filename E w t = some name ∧ 47 ∈ c_bytes name ∧
      (c_bytes name).length ≤ H.SIZE_MAX) :
    (∀ e, time_all_run E H t 0 ws fs d = .error e → e = .exit1) ∧
    ((∀ x p, H.fopen x p ≠ none) → ∃ r, time_all_run E H t 0 ws fs d = .ok r) := by
  induction ws generalizing fs d with
  | nil => exact ⟨fun e he => (by cases he), fun _ => ⟨_, rfl⟩⟩
  | cons w ws ih =>
    obtain ⟨f1, f2, f3⟩ := hw w (List.mem_cons_self _ _)
    obtain ⟨a, b⟩ := wmseed_time_run_first_ends E H w fs d t f1 f2 f3
      (hn w (List.mem_cons_self _ _))
    have hw2 := fun u hu => hw u (List.mem_cons_of_mem _ hu)
    have hn2 := fun u hu => hn u (List.mem_cons_of_mem _ hu)
    unfold time_all_run
    cases hr : wmseed_time_run E H w fs d t 0 with
    | error e =>
      refine ⟨fun e2 he => ?_, fun hf => ?_⟩
      · cases he
        exact a e hr
      · obtain ⟨r, hr2⟩ := b hf
        rw [hr] at hr2
        cases hr2
    | ok r =>
      simp only
      obtain ⟨a2, b2⟩ := ih r.2.2.1 r.2.2.2 hw2 hn2
      cases hp : time_all_run E H t 0 ws r.2.2.1 r.2.2.2 with
      | error e =>
        refine ⟨fun e2 he => ?_, fun hf => ?_⟩
        · cases he
          exact a2 e hp
        · obtain ⟨p, hp2⟩ := b2 hf
          rw [hp] at hp2
          cases hp2
      | ok p => exact ⟨fun e he => (by cases he), fun _ => ⟨_, rfl⟩⟩

/-- A word handled before any Time group was seen, on fresh writers whose file names at the
time of the group the word completes hold a `/`: the decoder ends the program only with
`exit(1)`, and it gets through the word where `fopen` does not fail. -/
theorem frame_word_run_first_ends (E : Env) (H : Host) (ck : Clock E) (nc : Nat)
    (st : Decoder E) (d : H.Disk) (v : Int)
    (h0 : st.have_time = false) (hs : st.sample_number = 0)
    (hw : ∀ w ∈ st.channels, w.last_sn = -1 ∧ w.data_pending = false ∧ w.output = none)
    (hn : ∀ w ∈ st.channels, ∃ name,
      wmseed__filename E w (anchor_time E ck (frame_set st.frame st.pos v 1)) = some name ∧
      47 ∈ c_bytes name ∧ (c_bytes name).length ≤ H.SIZE_MAX) :
    (∀ e, frame_word_run E H ck nc st d v = .error e → e = .exit1) ∧
    ((∀ x p, H.fopen x p ≠ none) → ∃ r, frame_word_run E H ck nc st d v = .ok r) := by
  have trivial_ok : ∀ r : Decoder E × H.Disk × List Int × List Int,
      (∀ e, (Except.ok r : Except Halt _) = .error e → e = .exit1) ∧
      ((∀ x p, H.fopen x p ≠ none) → ∃ r2, (Except.ok r : Except Halt _) = .ok r2) :=
    fun r => ⟨fun e he => (by cases he), fun _ => ⟨_, rfl⟩⟩
  have key : ∀ S : Decoder E, S.have_time = false → S.sample_number = 0 →
      S.channels = st.channels →
      (S.frame 0 = 1 → S.frame 1 = frame_set st.frame st.pos v 1) →
      (∀ e, frame_done_run E H ck S d = .error e → e = .exit1) ∧
      ((∀ x p, H.fopen x p ≠ none) → ∃ r, frame_done_run E H ck S d = .ok r) := by
    intro S e1 e2 e3 e4
    unfold frame_done_run
    by_cases hodd : S.frame 0 % 2 = 1
    · rw [if_pos hodd]
      by_cases ht : S.frame 0 = 1
      · rw [if_pos ht, e2, e3, e4 ht]
        obtain ⟨a, b⟩ := time_all_run_first_ends E H
          (anchor_time E ck (frame_set st.frame st.pos v 1)) st.channels S.fs d hw hn
        cases hp : time_all_run E H (anchor_time E ck (frame_set st.frame st.pos v 1)) 0
            st.channels S.fs d with
        | error e =>
          refine ⟨fun e2 he => ?_, fun hf => ?_⟩
          · cases he
            exact a e hp
          · obtain ⟨p, hp2⟩ := b hf
            rw [hp] at hp2
            cases hp2
        | ok p => exact trivial_ok _
      · rw [if_neg ht]
        by_cases h13 : S.frame 0 = 13
        · rw [if_pos h13]
          exact trivial_ok _
        · rw [if_neg h13]
          exact trivial_ok _
    · rw [if_neg hodd]
      simp only [e1, Bool.false_eq_true, if_false]
      exact trivial_ok _
  unfold frame_word_run
  by_cases hd : st.done = true
  · rw [if_pos hd]
    exact trivial_ok _
  · rw [if_neg hd]
    by_cases hr : st.remaining = 0
    · simp only [hr, if_true]
      by_cases hv : v % 2 = 1
      · simp only [hv, if_true]
        rw [if_neg (by decide)]
        exact trivial_ok _
      · simp only [hv, if_false]
        by_cases hnc : (nc : Int) - 1 = 0
        · rw [if_pos hnc]
          refine key _ h0 hs rfl (fun h => ?_)
          exfalso
          have h' : frame_set st.frame 0 v 0 = 1 := h
          simp only [frame_set, if_true] at h'
          rw [h'] at hv
          exact hv (by decide)
        · rw [if_neg hnc]
          exact trivial_ok _
    · simp only [hr, if_false]
      by_cases hz : st.remaining - 1 = 0
      · rw [if_pos hz]
        exact key _ h0 hs rfl (fun _ => rfl)
      · rw [if_neg hz]
        exact trivial_ok _

/-- C26, amended. The writers under the frame decoder of `main`, for every word stream and
every file system: in a state the decoder reaches after any words `ws`, while no Time group
was seen the sample counter is 0 and the writers are as `wmseed_new` made them, and once one
was seen every writer is anchored (`last_sn >= 0`). For any next word `v` the decoder gets
through, the calls `wmseed_sample` it makes all return 0, and as long as no Time group was
seen the calls `wmseed_time` it makes (those of the first Time group, with the sample number
0) all return 0. A call of the first Time group can end the program instead: when the file
names at the time of the group hold a `/`, only with `exit(1)`, and not at all where `fopen`
does not fail. -/
theorem decoder_calls_succeed (E : Env) (H : Host) (ck : Clock E) (mem : MiniSeedRecord E)
    (template station location network : String) (sample_rate : Nat) (cut : Int)
    (names : List String) (ws : List Int) (v : Int) (d0 d : H.Disk) (st : Decoder E)
    (hrun : frame_words_run E H ck names.length ws
      (decoder_init E
        (main_channels E mem template station location network sample_rate cut names)) d0 =
      .ok (st, d)) :
    (st.have_time = false →
      st.sample_number = 0 ∧
      st.channels =
        main_channels E mem template station location network sample_rate cut names ∧
      (∀ r, frame_word_run E H ck names.length st d v = .ok r → ∀ x ∈ r.2.2.1, x = 0) ∧
      ((∀ w ∈ main_channels E mem template station location network sample_rate cut names,
          ∃ name,
            wmseed__filename E w (anchor_time E ck (frame_set st.frame st.pos v 1)) =
              some name ∧
            47 ∈ c_bytes name ∧ (c_bytes name).length ≤ H.SIZE_MAX) →
        (∀ e, frame_word_run E H ck names.length st d v = .error e → e = .exit1) ∧
        ((∀ x p, H.fopen x p ≠ none) →
          ∃ r, frame_word_run E H ck names.length st d v = .ok r))) ∧
    (st.have_time = true → ∀ w ∈ st.channels, 0 ≤ w.last_sn) ∧
    (∀ r, frame_word_run E H ck names.length st d v = .ok r → ∀ x ∈ r.2.2.2, x = 0) := by
  have e0 : st = ws.foldl (frame_word E ck names.length) (decoder_init E
      (main_channels E mem template station location network sample_rate cut names)) :=
    frame_words_run_ok E H ck names.length ws _ d0 (st, d) hrun
  obtain ⟨z1, z2, z3⟩ := frame_word_rets_zero E ck mem template station location network
    sample_rate cut names ws v
  rw [← e0] at z1 z2 z3
  have hfresh := main_channels_fresh E mem template station location network sample_rate cut
    names
  refine ⟨fun h => ⟨(z1 h).1, (z1 h).2.1, fun r hr x hx => ?_, fun hn => ?_⟩, z2,
    fun r hr x hx => ?_⟩
  · have e := (frame_word_run_ok E H ck names.length st d v r hr).2
    rw [e] at hx
    exact (z1 h).2.2 x hx
  · refine frame_word_run_first_ends E H ck names.length st d v h (z1 h).1 ?_ ?_
    · rw [(z1 h).2.1]
      exact hfresh
    · rw [(z1 h).2.1]
      exact hn
  · have e := (frame_word_run_ok E H ck names.length st d v r hr).2
    rw [e] at hx
    exact z3 x hx

/-- Witness of C26, amended: the two writers of the examples under the decoder, on the file
system of the examples. After the words `[1, 0, 0]` no Time group is complete; the word 0
completes the first Time group, whose two calls `wmseed_time` make the directories, open the
files and return 0; the file names hold a `/`, so the group could end the program only with
`exit(1)`. After `[1, 0, 0, 0, 2]` the word 3 completes a sample group, whose two calls
`wmseed_sample` return 0. -/
theorem decoder_calls_succeed_witness :
    frame_words_run ex_env ex_host ex_clock ["H", "X"].length [1, 0, 0]
        (decoder_init ex_env
          (main_channels ex_env (miniseed_record_init ex_env 0) "out/%S/%y-%m-%d-%C.mseed"
            "ST007" "" "" 100 86400 ["H", "X"])) ([] : List (List Nat)) =
      .ok ([1, 0, 0].foldl (frame_word ex_env ex_clock 2) (decoder_init ex_env ex_channels),
        ([] : List (List Nat))) ∧
    (∀ r, frame_word_run ex_env ex_host ex_clock ["H", "X"].length
        ([1, 0, 0].foldl (frame_word ex_env ex_clock 2) (decoder_init ex_env ex_channels))
        ([] : List (List Nat)) 0 = .ok r → ∀ x ∈ r.2.2.1, x = 0) ∧
    (frame_word_run ex_env ex_host ex_clock 2
        ([1, 0, 0].foldl (frame_word ex_env ex_clock 2) (decoder_init ex_env ex_channels))
        ([] : List (List Nat)) 0).map (fun r => (r.2.1, r.2.2)) =
      .ok ([c_bytes "out/ST007", c_bytes "out"], [0, 0], []) ∧
    (∀ e, frame_word_run ex_env ex_host ex_clock ["H", "X"].length
        ([1, 0, 0].foldl (frame_word ex_env ex_clock 2) (decoder_init ex_env ex_channels))
        ([] : List (List Nat)) 0 = .error e → e = .exit1) ∧
    frame_words_run ex_env ex_host ex_clock ["H", "X"].length [1, 0, 0, 0, 2]
        (decoder_init ex_env
          (main_channels ex_env (miniseed_record_init ex_env 0) "out/%S/%y-%m-%d-%C.mseed"
            "ST007" "" "" 100 86400 ["H", "X"])) ([] : List (List Nat)) =
      .ok ([1, 0, 0, 0, 2].foldl (frame_word ex_env ex_clock 2)
          (decoder_init ex_env ex_channels),
        [c_bytes "out/ST007", c_bytes "out"]) ∧
    (∀ r, frame_word_run ex_env ex_host ex_clock ["H", "X"].length
        ([1, 0, 0, 0, 2].foldl (frame_word ex_env ex_clock 2)
          (decoder_init ex_env ex_channels))
        [c_bytes "out/ST007", c_bytes "out"] 3 = .ok r → ∀ x ∈ r.2.2.2, x = 0) ∧
    (frame_word_run ex_env ex_host ex_clock 2
        ([1, 0, 0, 0, 2].foldl (frame_word ex_env ex_clock 2)
          (decoder_init ex_env ex_channels))
        [c_bytes "out/ST007", c_bytes "out"] 3).map (fun r => (r.2.1, r.2.2)) =
      .ok ([c_bytes "out/ST007", c_bytes "out"], [], [0, 0]) :=
  ⟨by rfl,
    ((decoder_calls_succeed ex_env ex_host ex_clock (miniseed_record_init ex_env 0)
      "out/%S/%y-%m-%d-%C.mseed" "ST007" "" "" 100 86400 ["H", "X"] [1, 0, 0] 0
      ([] : List (List Nat)) ([] : List (List Nat)) _ (by rfl)).1 (by rfl)).2.2.1,
    by rfl,
    ((((decoder_calls_succeed ex_env ex_host ex_clock (miniseed_record_init ex_env 0)
      "out/%S/%y-%m-%d-%C.mseed" "ST007" "" "" 100 86400 ["H", "X"] [1, 0, 0] 0
      ([] : List (List Nat)) ([] : List (List Nat)) _ (by rfl)).1 (by rfl)).2.2.2
      (fun w hw => by
        simp only [main_channels, List.mem_cons, List.mem_singleton, List.not_mem_nil,
          or_false] at hw
        rcases hw with h | h
        · rw [h]
          exact ⟨"out/ST007/1970-01-01-H.mseed", by rfl, by decide, by decide⟩
        · rw [h]
          exact ⟨"out/ST007/1970-01-01-X.mseed", by rfl, by decide, by decide⟩)).1),
    by rfl,
    (decoder_calls_succeed ex_env ex_host ex_clock (miniseed_record_init ex_env 0)
      "out/%S/%y-%m-%d-%C.mseed" "ST007" "" "" 100 86400 ["H", "X"] [1, 0, 0, 0, 2] 3
      ([] : List (List Nat)) [c_bytes "out/ST007", c_bytes "out"] _ (by rfl)).2.2,
    by rfl⟩

/-- Counterexample to C26: a first Time group that is not accepted by every writer. On a file
system that takes no change the first call `wmseed_time` of the group ends the program with
`exit(1)`. With the template `%S.mseed` it ends in `wmseed__dirname`, which has no directory
to copy for `ST007.mseed`, also where the file could be opened. In both runs the program ends
with the word that completes the group; the three words before it are handled. -/
theorem decoder_halts :
    frame_words_run ex_env ex_host_readonly ex_clock 2 [1, 0, 0, 0]
      (decoder_init ex_env ex_channels) () = .error .exit1 ∧
    frame_words_run ex_env ex_host ex_clock 2 [1, 0, 0, 0]
      (decoder_init ex_env ex_channels_flat) ([] : List (List Nat)) = .error .undefined ∧
    (frame_words_run ex_env ex_host_readonly ex_clock 2 [1, 0, 0]
      (decoder_init ex_env ex_channels) ()).map (fun r => r.1.have_time) = .ok false ∧
    (frame_words_run ex_env ex_host ex_clock 2 [1, 0, 0]
      (decoder_init ex_env ex_channels_flat) ([] : List (List Nat))).map
        (fun r => r.1.have_time) = .ok false :=
  ⟨by rfl, by rfl, by rfl, by rfl⟩

end SixD6
